import Mathlib

/-!
# HomeSpan attribute database: a shallow embedding

The definitions below follow `src/src/HomeSpan.cpp` and `src/src/HomeSpan.h`.

Conventions of the embedding

* `vector<T *>` members become lists; an object is identified by its position
  (vectors only ever grow by `push_back`, so a position is a stable pointer).
  A pointer to a characteristic is a `CharRef`; the `service` back-pointer of a
  characteristic is the service it was pushed into, that is the first two
  coordinates of its `CharRef`.
* `int` fields hold their mathematical value as an `Int`; conversions between
  `int` and `uint32_t` are explicit (`toU32`, `toI32`).
* `union UVal` is its 8 raw bytes, read little-endian as a natural number below
  `2 ^ 64` (the target is a little-endian ESP32); each member reads or
  writes its own leading bytes.
* Members that a constructor leaves unset hold whatever the allocator returned;
  the constructors take that content as the argument `junk`.
* The log text (`configLog`, `Serial.print`, `LOG1`) is not modelled.
* A user-defined `update()` override is represented by its Boolean result, given
  the service and the database the call observes.
-/

namespace HomeSpan

/-! ## Machine integers -/

/-- Conversion of an `int` to `uint32_t`. -/
def toU32 (x : Int) : Nat := (x % 4294967296).toNat

/-- Conversion of an integer to `int` (32 bits, two's complement, wrapping). -/
def toI32 (x : Int) : Int := (x + 2147483648) % 4294967296 - 2147483648

/-! ## Constants of HomeSpan.h -/

def GET_AID : Nat := 1
def GET_META : Nat := 2
def GET_PERMS : Nat := 4
def GET_TYPE : Nat := 8
def GET_EV : Nat := 16
def GET_DESC : Nat := 32
def GET_NV : Nat := 64
def GET_ALL : Nat := 255

def PR : Nat := 1
def PW : Nat := 2
def EV : Nat := 4
def AA : Nat := 8
def TW : Nat := 16
def HD : Nat := 32
def WR : Nat := 64
def NV : Nat := 128

/-- The C test `perms & bit` for a single-bit mask `bit`. -/
def hasBit (perms bit : Nat) : Bool := (perms / bit) % 2 == 1

/-- The enumeration `SpanCharacteristic::FORMAT` (HAP Table 6-5). -/
inductive FORMAT where
  | BOOL | UINT8 | UINT16 | UINT32 | UINT64 | INT | FLOAT | STRING
deriving DecidableEq, Repr

/-- Modelled from the spec: the enumeration `StatusCode` of HAPConstants.h, which is
not among the sources; the members are the ones HomeSpan.cpp names. -/
inductive StatusCode where
  | OK | Unable | ReadOnly | WriteOnly | NotifyNotAllowed | UnknownResource
  | InvalidValue | TBD
deriving DecidableEq, Repr

/-- Modelled from the spec: the structure `HapCharType` of HAPConstants.h, which is
not among the sources; HomeSpan.cpp reads its members `id` and `name`. -/
structure HapCharType where
  id : String
  name : String
deriving DecidableEq, Repr

/-! ## The union `UVal` -/

/-! A `union UVal` is held as a natural number: its 8 bytes, little-endian. -/

namespace UVal

/-- Read of the member `BOOL` (first byte, nonzero is true). -/
def getBOOL (v : Nat) : Bool := v % 256 != 0
/-- Read of the member `UINT8`. -/
def getUINT8 (v : Nat) : Nat := v % 256
/-- Read of the member `UINT16`. -/
def getUINT16 (v : Nat) : Nat := v % 65536
/-- Read of the member `UINT32`. -/
def getUINT32 (v : Nat) : Nat := v % 4294967296
/-- Read of the member `UINT64`. -/
def getUINT64 (v : Nat) : Nat := v % 18446744073709551616
/-- Read of the member `INT`. -/
def getINT (v : Nat) : Int := toI32 (v % 4294967296 : Nat)
/-- Read of the member `FLOAT`, as the bit pattern of the double. -/
def getFLOAT (v : Nat) : Nat := v % 18446744073709551616
/-- Read of the member `STRING`, a 32-bit address. -/
def getSTRING (v : Nat) : Nat := v % 4294967296

/-- Store of `n` bytes holding `x` at the start of the union; the other bytes stay. -/
def store (n : Nat) (v : Nat) (x : Nat) : Nat :=
  (v % 18446744073709551616) / 256 ^ n * 256 ^ n + x % 256 ^ n

def setBOOL (v : Nat) (b : Bool) : Nat := store 1 v (if b then 1 else 0)
def setUINT8 (v : Nat) (x : Nat) : Nat := store 1 v x
def setUINT16 (v : Nat) (x : Nat) : Nat := store 2 v x
def setUINT32 (v : Nat) (x : Nat) : Nat := store 4 v x
def setUINT64 (v : Nat) (x : Nat) : Nat := store 8 v x
def setINT (v : Nat) (x : Int) : Nat := store 4 v (toU32 x)
def setFLOAT (v : Nat) (bits : Nat) : Nat := store 8 v bits
def setSTRING (v : Nat) (addr : Nat) : Nat := store 4 v addr

end UVal

/-! ## The data model of HomeSpan.h -/

structure SpanRange where
  min : Int
  max : Int
  step : Int
deriving DecidableEq, Repr

structure SpanCharacteristic where
  iid : Int
  type : String
  hapName : String
  value : Nat
  perms : Nat
  format : FORMAT
  desc : Option String
  range : Option SpanRange
  ev : List Bool
  aid : Int
  isUpdated : Bool
  updateTime : Nat
  newValue : Nat
deriving DecidableEq, Repr

structure SpanService where
  iid : Int
  type : String
  hapName : String
  hidden : Bool
  primary : Bool
  Characteristics : List SpanCharacteristic
  req : List HapCharType
  opt : List HapCharType
deriving DecidableEq, Repr

structure SpanAccessory where
  aid : Int
  iidCount : Int
  Services : List SpanService
deriving DecidableEq, Repr

/-- A pointer to a service: accessory position, service position. -/
structure SvcRef where
  a : Nat
  s : Nat
deriving DecidableEq, Repr

/-- A pointer to a characteristic: accessory, service and characteristic position. -/
structure CharRef where
  a : Nat
  s : Nat
  c : Nat
deriving DecidableEq, Repr

/-- The member `service` of the characteristic that `r` points to. -/
def CharRef.service (r : CharRef) : SvcRef := ⟨r.a, r.s⟩

structure SpanBuf where
  aid : Int
  iid : Int
  val : Option String
  ev : Option String
  status : StatusCode
  characteristic : Option CharRef
deriving DecidableEq, Repr

structure SpanButton where
  pin : Int
  singleTime : Nat
  longTime : Nat
  doubleTime : Nat
  service : SvcRef
deriving DecidableEq, Repr

structure Span where
  snapTime : Nat
  nFatalErrors : Nat
  isBridge : Bool
  maxConnections : Nat
  Accessories : List SpanAccessory
  Notifications : List SpanBuf
  PushButtons : List SpanButton
  TimedWrites : List (Nat × Nat)
deriving DecidableEq, Repr

/-- The global `homeSpan` before any declaration, with the member initialisers of
`struct Span`; `maxConnections` and the unset `snapTime` are arguments. -/
def Span.init (maxConnections snapTime : Nat) : Span :=
  { snapTime := snapTime, nFatalErrors := 0, isBridge := true,
    maxConnections := maxConnections, Accessories := [], Notifications := [],
    PushButtons := [], TimedWrites := [] }

/-- The statement `homeSpan.nFatalErrors++`. -/
def Span.fatal (s : Span) : Span := { s with nFatalErrors := s.nFatalErrors + 1 }

/-- The statement `if(b) homeSpan.nFatalErrors++`. -/
def Span.fatalIf (s : Span) (b : Bool) : Span := if b then s.fatal else s

/-- Assignment of the member `Accessories`. -/
def Span.withAccessories (s : Span) (accs : List SpanAccessory) : Span :=
  { s with Accessories := accs }

/-! ## Access by position -/

/-- Replace the last element of a list by its image under `f`. -/
def modifyBack {α : Type} (f : α → α) (l : List α) : List α :=
  match l.getLast? with
  | none => l
  | some x => l.dropLast ++ [f x]

/-- Replace the element at position `i` by its image under `f`. -/
def modifyAt {α : Type} (f : α → α) : List α → Nat → List α
  | [], _ => []
  | x :: xs, 0 => f x :: xs
  | x :: xs, i + 1 => x :: modifyAt f xs i

def Span.getService (s : Span) (r : SvcRef) : Option SpanService :=
  match s.Accessories[r.a]? with
  | none => none
  | some acc => acc.Services[r.s]?

def Span.getChar (s : Span) (r : CharRef) : Option SpanCharacteristic :=
  match s.getService r.service with
  | none => none
  | some sv => sv.Characteristics[r.c]?

def Span.modifyService (s : Span) (r : SvcRef) (f : SpanService → SpanService) : Span :=
  s.withAccessories
    (modifyAt (fun acc => { acc with Services := modifyAt f acc.Services r.s }) s.Accessories r.a)

def Span.modifyChar (s : Span) (r : CharRef) (f : SpanCharacteristic → SpanCharacteristic) :
    Span :=
  s.modifyService r.service
    (fun sv => { sv with Characteristics := modifyAt f sv.Characteristics r.c })

/-! ## Validation -/

/-- `SpanService::validate`: one fatal error for each required characteristic type
that no characteristic of the service has. -/
def SpanService.validate (sv : SpanService) (s : Span) : Span :=
  sv.req.foldl (fun st r => st.fatalIf (!sv.Characteristics.any (fun c => r.id == c.type))) s

/-- The loop of `SpanAccessory::validate` over one service; the state is
`(foundInfo, foundProtocol, isBridge)`. -/
def SpanAccessory.validateStep (aid : Int) (st : Bool × Bool × Bool) (sv : SpanService) :
    Bool × Bool × Bool :=
  if sv.type == "3E" then (true, st.2.1, st.2.2)
  else if sv.type == "A2" then (st.1, true, st.2.2)
  else if aid == 1 then (st.1, st.2.1, false)
  else st

/-- `SpanAccessory::validate`. -/
def SpanAccessory.validate (acc : SpanAccessory) (s : Span) : Span :=
  let st := acc.Services.foldl (SpanAccessory.validateStep acc.aid) (false, false, s.isBridge)
  let foundInfo := st.1
  let foundProtocol := st.2.1
  let s1 := { s with isBridge := st.2.2 }
  let s2 := s1.fatalIf (!foundInfo)
  s2.fatalIf (!foundProtocol && (acc.aid == 1 || !s2.isBridge))

/-- The two calls `Accessories.back()->Services.back()->validate()` (when there is a
service) and `Accessories.back()->validate()`, as made by the accessory constructor
and by the first `poll`. -/
def Span.validateBack (s : Span) : Span :=
  match s.Accessories.getLast? with
  | none => s
  | some back =>
    let s1 :=
      match back.Services.getLast? with
      | none => s
      | some sv => sv.validate s
    back.validate s1

/-! ## Constructors -/

/-- The aid that `SpanAccessory::SpanAccessory(uint32_t aid)` gives the new
accessory: one more than the aid of the last accessory (1 for the first), unless
the argument is positive. -/
def SpanAccessory.newAid (s : Span) (aid : Nat) : Int :=
  let aid := aid % 4294967296
  let dflt : Int :=
    match s.Accessories.getLast? with
    | none => 1
    | some back => toI32 (back.aid + 1)
  if aid > 0 then toI32 aid else dflt

/-- `SpanAccessory::SpanAccessory(uint32_t aid)`; `aid = 0` asks for the default. -/
def SpanAccessory.new (s : Span) (aid : Nat) : Span :=
  let thisAid : Int := SpanAccessory.newAid s aid
  let s1 := s.validateBack
  let this : SpanAccessory := { aid := thisAid, iidCount := 0, Services := [] }
  let s2 := s1.withAccessories (s1.Accessories ++ [this])
  let s3 := s2.fatalIf (s1.Accessories.any (fun a => thisAid == a.aid))
  s3.fatalIf (s3.Accessories.length == 1 && thisAid != 1)

/-- The call `Accessories.back()->Services.back()->validate()` that opens
`SpanService::SpanService`, made when there is an accessory with a service. -/
def Span.validateBackService (s : Span) : Span :=
  match s.Accessories.getLast? with
  | none => s
  | some back =>
    match back.Services.getLast? with
    | none => s
    | some sv => sv.validate s

/-- The statements `Accessories.back()->Services.push_back(this)` and
`iid=++(Accessories.back()->iidCount)` of the service constructor, on the last
accessory `acc`. -/
def SpanAccessory.pushService (acc : SpanAccessory) (type hapName : String)
    (req opt : List HapCharType) : SpanAccessory :=
  let iid := acc.iidCount + 1
  let this : SpanService :=
    { iid := iid, type := type, hapName := hapName, hidden := false, primary := false,
      Characteristics := [], req := req, opt := opt }
  { acc with Services := acc.Services ++ [this], iidCount := iid }

/-- `SpanService::SpanService(type, hapName)`, followed by the `req.push_back` and
`opt.push_back` calls of the derived class (Services.h), given as `req` and `opt`. -/
def SpanService.new (s : Span) (type hapName : String) (req opt : List HapCharType) : Span :=
  let s1 := s.validateBackService
  match s1.Accessories.getLast? with
  | none => s1.fatal
  | some back =>
    let s2 := s1.withAccessories
      (modifyBack (fun acc => acc.pushService type hapName req opt) s1.Accessories)
    s2.fatalIf (type == "3E" && back.iidCount + 1 != 1)

/-- `SpanService::setPrimary`, on the service that `r` points to. -/
def SpanService.setPrimary (s : Span) (r : SvcRef) : Span :=
  s.modifyService r (fun sv => { sv with primary := true })

/-- `SpanService::setHidden`, on the service that `r` points to. -/
def SpanService.setHidden (s : Span) (r : SvcRef) : Span :=
  s.modifyService r (fun sv => { sv with hidden := true })

/-- The value argument of the eight typed constructors of `SpanCharacteristic`;
a `double` is given by its bit pattern and a `const char *` by its address. -/
inductive InitVal where
  | BOOL (b : Bool)
  | INT (x : Int)
  | UINT8 (x : Nat)
  | UINT16 (x : Nat)
  | UINT32 (x : Nat)
  | UINT64 (x : Nat)
  | FLOAT (bits : Nat)
  | STRING (addr : Nat)
deriving DecidableEq, Repr

/-- The assignment `this->format=...` of each typed constructor. -/
def InitVal.format : InitVal → FORMAT
  | .BOOL _ => .BOOL
  | .INT _ => .INT
  | .UINT8 _ => .UINT8
  | .UINT16 _ => .UINT16
  | .UINT32 _ => .UINT32
  | .UINT64 _ => .UINT64
  | .FLOAT _ => .FLOAT
  | .STRING _ => .STRING

/-- The assignment `this->value.M=value` of each typed constructor, on the unset
content `junk` of the member `value`. -/
def InitVal.write (junk : Nat) : InitVal → Nat
  | .BOOL b => UVal.setBOOL junk b
  | .INT x => UVal.setINT junk x
  | .UINT8 x => UVal.setUINT8 junk x
  | .UINT16 x => UVal.setUINT16 junk x
  | .UINT32 x => UVal.setUINT32 junk x
  | .UINT64 x => UVal.setUINT64 junk x
  | .FLOAT bits => UVal.setFLOAT junk bits
  | .STRING addr => UVal.setSTRING junk addr

/-- Content of the members that the constructors of `SpanCharacteristic` leave
unset: `value` (before the typed store), `newValue` and `updateTime`. -/
structure Junk where
  value : Nat
  newValue : Nat
  updateTime : Nat
deriving DecidableEq, Repr

/-- The statements of the characteristic constructors that touch the last accessory
`acc`: `iid=++iidCount`, `aid=acc.aid`, the `calloc` of `ev`, the typed store of the
value, and `Services.back()->Characteristics.push_back(this)`. -/
def SpanAccessory.pushCharacteristic (acc : SpanAccessory) (maxConnections : Nat)
    (type : String) (perms : Nat) (hapName : String) (v : InitVal) (junk : Junk) :
    SpanAccessory :=
  let iid := acc.iidCount + 1
  let this : SpanCharacteristic :=
    { iid := iid, type := type, hapName := hapName, value := v.write junk.value,
      perms := perms % 256, format := v.format, desc := none, range := none,
      ev := List.replicate maxConnections false, aid := acc.aid, isUpdated := false,
      updateTime := junk.updateTime, newValue := junk.newValue }
  let push : SpanService → SpanService :=
    fun sv => { sv with Characteristics := sv.Characteristics ++ [this] }
  { acc with iidCount := iid, Services := modifyBack push acc.Services }

/-- `SpanCharacteristic::SpanCharacteristic(type, perms, value, hapName)`: the base
constructor followed by the body of the typed one. When there is no accessory or
no service the new object is not linked into the database. -/
def SpanCharacteristic.new (s : Span) (type : String) (perms : Nat) (hapName : String)
    (v : InitVal) (junk : Junk) : Span :=
  match s.Accessories.getLast? with
  | none => s.fatal
  | some back =>
    match back.Services.getLast? with
    | none => s.fatal
    | some sv =>
      let valid := sv.req.any (fun r => type == r.id) || sv.opt.any (fun r => type == r.id)
      let s1 := s.fatalIf (!valid)
      let repeated := sv.Characteristics.any (fun c => type == c.type)
      let s2 := s1.fatalIf (valid && repeated)
      s2.withAccessories
        (modifyBack
          (fun acc => acc.pushCharacteristic s.maxConnections type perms hapName v junk)
          s2.Accessories)

/-- The statement `Accessories.back()->Services.back()->Characteristics.back()->range=this`
of the range constructor, on the last accessory `acc`. -/
def SpanAccessory.setRange (acc : SpanAccessory) (min max step : Int) : SpanAccessory :=
  let setRange : SpanCharacteristic → SpanCharacteristic :=
    fun c => { c with range := some ⟨min, max, step⟩ }
  let inService : SpanService → SpanService :=
    fun sv => { sv with Characteristics := modifyBack setRange sv.Characteristics }
  { acc with Services := modifyBack inService acc.Services }

/-- `SpanRange::SpanRange(min, max, step)`. -/
def SpanRange.new (s : Span) (min max step : Int) : Span :=
  let ok :=
    match s.Accessories.getLast? with
    | none => false
    | some back =>
      match back.Services.getLast? with
      | none => false
      | some sv => !sv.Characteristics.isEmpty
  if !ok then s.fatal
  else s.withAccessories (modifyBack (fun acc => acc.setRange min max step) s.Accessories)

/-- `SpanButton::SpanButton(pin, longTime, singleTime, doubleTime)`. -/
def SpanButton.new (s : Span) (pin : Int) (longTime singleTime doubleTime : Nat) : Span :=
  match s.Accessories.getLast? with
  | none => s.fatal
  | some back =>
    match back.Services.getLast? with
    | none => s.fatal
    | some _ =>
      { s with PushButtons := s.PushButtons ++
          [{ pin := pin, singleTime := singleTime % 65536, longTime := longTime % 65536,
             doubleTime := doubleTime % 65536,
             service := ⟨s.Accessories.length - 1, back.Services.length - 1⟩ }] }

/-- One declaration of a user sketch. -/
inductive Decl where
  | accessory (aid : Nat)
  | service (type hapName : String) (req opt : List HapCharType)
  | setPrimary (r : SvcRef)
  | setHidden (r : SvcRef)
  | characteristic (type : String) (perms : Nat) (hapName : String) (v : InitVal) (junk : Junk)
  | range (min max step : Int)
  | button (pin : Int) (longTime singleTime doubleTime : Nat)
deriving DecidableEq, Repr

/-- Effect of one declaration on `homeSpan`. -/
def declare (s : Span) : Decl → Span
  | .accessory aid => SpanAccessory.new s aid
  | .service type hapName req opt => SpanService.new s type hapName req opt
  | .setPrimary r => SpanService.setPrimary s r
  | .setHidden r => SpanService.setHidden s r
  | .characteristic type perms hapName v junk => SpanCharacteristic.new s type perms hapName v junk
  | .range min max step => SpanRange.new s min max step
  | .button pin longTime singleTime doubleTime =>
    SpanButton.new s pin longTime singleTime doubleTime

/-- The database after the declarations `ds`, made in order from state `s`. -/
def declareAll (s : Span) (ds : List Decl) : Span := ds.foldl declare s

/-! ## Lookup -/

/-- Position of the first element that satisfies `p`: a `for` loop that leaves at
the first match. -/
def firstIdx {α : Type} (p : α → Bool) : List α → Option Nat
  | [] => none
  | x :: xs => if p x then some 0 else (firstIdx p xs).map (· + 1)

/-- The nested loops of `Span::find` over the services of one accessory and their
characteristics: the first characteristic, in that order, with the given iid. -/
def findInServices (iid : Int) : List SpanService → Option (Nat × Nat)
  | [] => none
  | sv :: rest =>
    match firstIdx (fun c => iid == c.iid) sv.Characteristics with
    | some j => some (0, j)
    | none => (findInServices iid rest).map (fun p => (p.1 + 1, p.2))

/-- `Span::find(uint32_t aid, int iid)`; `none` is `NULL`. -/
def Span.find (s : Span) (aid : Nat) (iid : Int) : Option CharRef :=
  match firstIdx (fun a => toU32 a.aid == aid) s.Accessories with
  | none => none
  | some index =>
    match s.Accessories[index]? with
    | none => none
    | some acc => (findInServices iid acc.Services).map (fun p => ⟨index, p.1, p.2⟩)


/-! ## Invariants of the declared database -/

/-- The iids of all characteristics of an accessory, in declaration order. -/
def charIids (acc : SpanAccessory) : List Int :=
  acc.Services.flatMap (fun sv => sv.Characteristics.map (fun c => c.iid))

/-- What the constructors maintain for one accessory: its aid is an `int`, its
characteristics carry its aid, and their iids are distinct and at most `iidCount`. -/
structure AccOK (acc : SpanAccessory) : Prop where
  aidRange : -2147483648 ≤ acc.aid ∧ acc.aid < 2147483648
  charAid : ∀ sv ∈ acc.Services, ∀ c ∈ sv.Characteristics, c.aid = acc.aid
  iidBound : ∀ x ∈ charIids acc, x ≤ acc.iidCount
  iidNodup : (charIids acc).Nodup

/-- What the constructors maintain for the database: every accessory is `AccOK`, and
as long as no fatal error is recorded the aids are pairwise distinct. -/
structure DbOK (s : Span) : Prop where
  accs : ∀ acc ∈ s.Accessories, AccOK acc
  aidNodup : s.nFatalErrors = 0 → (s.Accessories.map (fun a => a.aid)).Nodup


/-! ## C library routines used by the request handlers

The routines follow the C library of the target (newlib on a 32-bit ESP32: `long`
is 32 bits, `long long` 64 bits, out-of-range conversions saturate). Strings are
lists of characters without the terminating NUL. -/

/-- The C `isspace` in the "C" locale. -/
def isSpace (c : Char) : Bool :=
  c == ' ' || c == '\t' || c == '\n' || c == '\r' || c.toNat == 11 || c.toNat == 12

/-- Value of a character as a digit of a numeral, letters counting from ten. -/
def digitVal (c : Char) : Option Nat :=
  if '0' ≤ c ∧ c ≤ '9' then some (c.toNat - 48)
  else if 'a' ≤ c ∧ c ≤ 'z' then some (c.toNat - 87)
  else if 'A' ≤ c ∧ c ≤ 'Z' then some (c.toNat - 55)
  else none

/-- The leading digits of `s` in base `base`: their value, and how many there are. -/
def scanDigits (base : Nat) : List Char → Nat → Nat → Nat × Nat
  | [], acc, n => (acc, n)
  | c :: cs, acc, n =>
    match digitVal c with
    | none => (acc, n)
    | some d => if d < base then scanDigits base cs (acc * base + d) (n + 1) else (acc, n)

/-- An optional sign: whether it is a minus, and the text after it. -/
def scanSign : List Char → Bool × List Char
  | '-' :: cs => (true, cs)
  | '+' :: cs => (false, cs)
  | cs => (false, cs)

/-- Result of the unsigned conversions `strtoul` (`bits = 32`) and `strtoull`
(`bits = 64`) on a magnitude and a sign. -/
def convUnsigned (bits : Nat) (neg : Bool) (m : Nat) : Nat :=
  if m ≥ 2 ^ bits then 2 ^ bits - 1
  else if neg then (2 ^ bits - m) % 2 ^ bits
  else m

/-- Result of the signed conversion `strtol` on a magnitude and a sign. -/
def convSigned (neg : Bool) (m : Nat) : Int :=
  if neg then (if m ≥ 2147483648 then -2147483648 else -(m : Int))
  else (if m ≥ 2147483648 then 2147483647 else (m : Int))

/-- `atoi(s)`, that is `(int) strtol(s, NULL, 10)`. -/
def atoi (s : List Char) : Int :=
  let p := scanSign (s.dropWhile isSpace)
  convSigned p.1 (scanDigits 10 p.2 0 0).1

/-- `strtoull(s, NULL, 0)`: the base is taken from the numeral (`0x` hexadecimal,
leading `0` octal, decimal otherwise). -/
def strtoull0 (s : List Char) : Nat :=
  let p := scanSign (s.dropWhile isSpace)
  match p.2 with
  | '0' :: 'x' :: cs => convUnsigned 64 p.1 (scanDigits 16 cs 0 0).1
  | '0' :: 'X' :: cs => convUnsigned 64 p.1 (scanDigits 16 cs 0 0).1
  | '0' :: cs => convUnsigned 64 p.1 (scanDigits 8 cs 0 0).1
  | cs => convUnsigned 64 p.1 (scanDigits 10 cs 0 0).1

/-- What one `sscanf(text, "%conversion", &target)` call does: `eof` (the text ends
before a conversion starts, `sscanf` returns `EOF`), `nomatch` (`sscanf` returns 0),
or `ok v` (`sscanf` returns 1 and stores `v`). The source tests `!sscanf(...)`, which
holds for `nomatch` only. -/
inductive Scan (α : Type) where
  | eof
  | nomatch
  | ok (v : α)
deriving DecidableEq, Repr

/-- The common part of the integer conversions of `sscanf`: skip white space, read
a sign and decimal digits. -/
def scanDecimal {α : Type} (conv : Bool → Nat → α) (s : List Char) : Scan α :=
  match s.dropWhile isSpace with
  | [] => .eof
  | c :: cs =>
    let p := scanSign (c :: cs)
    let d := scanDigits 10 p.2 0 0
    if d.2 == 0 then .nomatch else .ok (conv p.1 d.1)

/-- `sscanf(s, "%u", ...)`. -/
def scanU (s : List Char) : Scan Nat := scanDecimal (convUnsigned 32) s

/-- `sscanf(s, "%llu", ...)`. -/
def scanLLU (s : List Char) : Scan Nat := scanDecimal (convUnsigned 64) s

/-- `sscanf(s, "%d", ...)`. -/
def scanD (s : List Char) : Scan Int := scanDecimal convSigned s

/-- The tokens that successive `strtok_r` calls return for one string: its maximal
runs of characters that are not in `delim`, in order. `cur` is the run being read,
reversed. -/
def tokensAux (delim : List Char) : List Char → List Char → List (List Char)
  | cur, [] => if cur.isEmpty then [] else [cur.reverse]
  | cur, c :: cs =>
    if delim.contains c then
      (if cur.isEmpty then tokensAux delim [] cs else cur.reverse :: tokensAux delim [] cs)
    else tokensAux delim (c :: cur) cs

def tokens (delim : List Char) (s : List Char) : List (List Char) := tokensAux delim [] s

/-! ## What the handlers take from outside the database -/

/-- The collaborators of one call: the millisecond clock `millis()`, the current
connection `HAPClient::conNum`, the floating-point conversion `sscanf(val,"%lg",...)`
of the C library (the stored double as its bit pattern), and the `update()` methods
of the services (the result of the call, given the service and the database). -/
structure Env where
  millis : Nat
  conNum : Nat
  scanLg : List Char → Scan Nat
  update : SvcRef → Span → Bool

/-- Run-time failures that end the call: a read through a `NULL` characteristic
pointer, and an access to `pObj` beyond the array. -/
inductive Fault where
  | nullCharacteristic
  | outOfBounds
deriving DecidableEq, Repr

/-! ## `SpanCharacteristic::loadUpdate` -/

/-- The end of `loadUpdate` after a value has been stored in `newValue`. -/
def SpanCharacteristic.staged (c : SpanCharacteristic) (snapTime : Nat) :
    StatusCode × SpanCharacteristic :=
  (.TBD, { c with isUpdated := true, updateTime := snapTime })

/-- The `switch(format)` of `loadUpdate` with what follows it. -/
def SpanCharacteristic.loadValue (c : SpanCharacteristic) (env : Env) (snapTime : Nat)
    (val : String) : StatusCode × SpanCharacteristic :=
  match c.format with
  | .BOOL =>
    if val == "0" || val == "false" then
      SpanCharacteristic.staged { c with newValue := UVal.setBOOL c.newValue false } snapTime
    else if val == "1" || val == "true" then
      SpanCharacteristic.staged { c with newValue := UVal.setBOOL c.newValue true } snapTime
    else (.InvalidValue, c)
  | .INT =>
    match scanD val.toList with
    | .nomatch => (.InvalidValue, c)
    | .eof => c.staged snapTime
    | .ok v => SpanCharacteristic.staged { c with newValue := UVal.setINT c.newValue v } snapTime
  | .UINT8 =>
    match scanU val.toList with
    | .nomatch => (.InvalidValue, c)
    | .eof => c.staged snapTime
    | .ok v => SpanCharacteristic.staged { c with newValue := UVal.store 4 c.newValue v } snapTime
  | .UINT16 =>
    match scanU val.toList with
    | .nomatch => (.InvalidValue, c)
    | .eof => c.staged snapTime
    | .ok v => SpanCharacteristic.staged { c with newValue := UVal.store 4 c.newValue v } snapTime
  | .UINT32 =>
    match scanLLU val.toList with
    | .nomatch => (.InvalidValue, c)
    | .eof => c.staged snapTime
    | .ok v => SpanCharacteristic.staged { c with newValue := UVal.store 8 c.newValue v } snapTime
  | .UINT64 =>
    match scanLLU val.toList with
    | .nomatch => (.InvalidValue, c)
    | .eof => c.staged snapTime
    | .ok v => SpanCharacteristic.staged { c with newValue := UVal.store 8 c.newValue v } snapTime
  | .FLOAT =>
    match env.scanLg val.toList with
    | .nomatch => (.InvalidValue, c)
    | .eof => c.staged snapTime
    | .ok v => SpanCharacteristic.staged { c with newValue := UVal.setFLOAT c.newValue v } snapTime
  | .STRING => c.staged snapTime

/-- `SpanCharacteristic::loadUpdate(val, ev)`; `none` is a `NULL` argument and
`snapTime` is `homeSpan.snapTime`. Returns the status and the characteristic after
the call. -/
def SpanCharacteristic.loadUpdate (c : SpanCharacteristic) (env : Env) (snapTime : Nat)
    (val ev : Option String) : StatusCode × SpanCharacteristic :=
  let afterEv : Except StatusCode SpanCharacteristic :=
    match ev with
    | none => .ok c
    | some e =>
      if e == "0" || e == "false" then .ok { c with ev := c.ev.set env.conNum false }
      else if e == "1" || e == "true" then
        (if !hasBit c.perms EV then .error .NotifyNotAllowed
         else .ok { c with ev := c.ev.set env.conNum true })
      else .error .InvalidValue
  match afterEv with
  | .error st => (st, c)
  | .ok c1 =>
    match val with
    | none => (.OK, c1)
    | some v => if !hasBit c1.perms PW then (.ReadOnly, c1) else c1.loadValue env snapTime v


/-! ## `Span::updateCharacteristics` -/

/-- A counted `for(i=lo;i<hi;i++)` loop whose body may fault. -/
def forLoop {σ : Type} (lo hi : Nat) (body : Nat → σ → Except Fault σ) (init : σ) :
    Except Fault σ :=
  (List.range' lo (hi - lo)).foldlM (fun st i => body i st) init

/-- A store to a member of `pObj[i]`. -/
def writeObj (pObj : List SpanBuf) (i : Nat) (f : SpanBuf → SpanBuf) :
    Except Fault (List SpanBuf) :=
  match pObj[i]? with
  | none => .error .outOfBounds
  | some o => .ok (pObj.set i (f o))

/-- The delimiters of the inner `strtok_r` calls. -/
def propDelims : List Char := ['}', '[', ']', ':', ',', ' ', '"', '\t', '\n', '\r']

/-- The test of a timed-write PID: `!TimedWrites.count(pid)`, else
`millis()>TimedWrites[pid]`. -/
def pidFails (tw : List (Nat × Nat)) (now : Nat) (pid : Nat) : Bool :=
  match tw.lookup pid with
  | none => true
  | some alarm => now > alarm

/-- What the parsing loops of `updateCharacteristics` hand on: `bad` is `return(0)`. -/
inductive Parsed (α : Type) where
  | bad (pObj : List SpanBuf)
  | good (v : α)
deriving Repr

/-- The inner `while` loop over the property tokens of one object, after the
`characteristics` tag has been found; `nObj` is the index of the object. -/
def parseProps (tw : List (Nat × Nat)) (now nObj : Nat) :
    List (List Char) → Nat → Bool → List SpanBuf →
      Except Fault (Parsed (Nat × Bool × List SpanBuf))
  | [], okay, twFail, pObj => .ok (.good (okay, twFail, pObj))
  | [_], _, _, pObj => .ok (.bad pObj)
  | t2 :: t3 :: rest, okay, twFail, pObj =>
    if t2 == "aid".toList then
      match writeObj pObj nObj
          (fun o => match scanU t3 with
            | .ok v => { o with aid := toI32 v }
            | _ => o) with
      | .error f => .error f
      | .ok p => parseProps tw now nObj rest (okay ||| 1) twFail p
    else if t2 == "iid".toList then
      match writeObj pObj nObj (fun o => { o with iid := atoi t3 }) with
      | .error f => .error f
      | .ok p => parseProps tw now nObj rest (okay ||| 2) twFail p
    else if t2 == "value".toList then
      match writeObj pObj nObj (fun o => { o with val := some (String.mk t3) }) with
      | .error f => .error f
      | .ok p => parseProps tw now nObj rest (okay ||| 4) twFail p
    else if t2 == "ev".toList then
      match writeObj pObj nObj (fun o => { o with ev := some (String.mk t3) }) with
      | .error f => .error f
      | .ok p => parseProps tw now nObj rest (okay ||| 8) twFail p
    else if t2 == "pid".toList then
      parseProps tw now nObj rest okay (twFail || pidFails tw now (strtoull0 t3)) pObj
    else .ok (.bad pObj)

/-- State of the outer parsing loop. -/
structure PState where
  nObj : Nat
  cFound : Bool
  twFail : Bool
  pObj : List SpanBuf
deriving Repr

/-- One round of the outer `while` loop: the text `seg` between two opening braces. -/
def parseSegment (tw : List (Nat × Nat)) (now : Nat) (st : PState) (seg : List Char) :
    Except Fault (Parsed PState) :=
  match tokens propDelims seg with
  | [] => .ok (.good st)
  | t2 :: rest =>
    if !st.cFound then
      (if t2 == "characteristics".toList then .ok (.good { st with cFound := true })
       else .ok (.bad st.pObj))
    else
      match parseProps tw now st.nObj (t2 :: rest) 0 st.twFail st.pObj with
      | .error f => .error f
      | .ok (.bad p) => .ok (.bad p)
      | .ok (.good (okay, twFail, p)) =>
        if okay == 7 || okay == 11 || okay == 15 then
          .ok (.good { st with nObj := st.nObj + 1, twFail := twFail, pObj := p })
        else .ok (.bad p)

/-- The outer `while` loop over the segments. -/
def parseSegments (tw : List (Nat × Nat)) (now : Nat) :
    List (List Char) → PState → Except Fault (Parsed PState)
  | [], st => .ok (.good st)
  | seg :: rest, st =>
    match parseSegment tw now st seg with
    | .error f => .error f
    | .ok (.bad p) => .ok (.bad p)
    | .ok (.good st1) => parseSegments tw now rest st1

/-- The parsing part of `updateCharacteristics` (up to `snapTime=millis()`). -/
def parseRequest (tw : List (Nat × Nat)) (now : Nat) (buf : List Char) (pObj : List SpanBuf) :
    Except Fault (Parsed PState) :=
  parseSegments tw now (tokens ['{'] buf)
    { nObj := 0, cFound := false, twFail := false, pObj := pObj }

/-- State of the two passes: the array `pObj`, the database, and the `update()` calls
made so far with their results. -/
structure UState where
  pObj : List SpanBuf
  span : Span
  calls : List (SvcRef × Bool)
deriving Repr

/-- Body of the loop of PASS 1. -/
def pass1Step (env : Env) (twFail : Bool) (i : Nat) (st : UState) : Except Fault UState :=
  match st.pObj[i]? with
  | none => .error .outOfBounds
  | some o =>
    if twFail then
      .ok { st with pObj := st.pObj.set i { o with status := .InvalidValue } }
    else
      match st.span.find (toU32 o.aid) o.iid with
      | none =>
        .ok { st with
              pObj := st.pObj.set i { o with characteristic := none, status := .UnknownResource } }
      | some r =>
        match st.span.getChar r with
        | none => .error .nullCharacteristic
        | some c =>
          let status := (c.loadUpdate env st.span.snapTime o.val o.ev).1
          .ok { st with
                pObj := st.pObj.set i { o with characteristic := some r, status := status }
                span := st.span.modifyChar r
                  (fun x => (x.loadUpdate env st.span.snapTime o.val o.ev).2) }

/-- The assignments of PASS 2 to one characteristic: commit or roll back, and clear
`isUpdated`. -/
def SpanCharacteristic.settle (c : SpanCharacteristic) (status : StatusCode) :
    SpanCharacteristic :=
  if status = .OK then { c with value := c.newValue, isUpdated := false }
  else { c with newValue := c.value, isUpdated := false }

/-- Body of the inner loop of PASS 2 for object `j`, after `update()` of the service
`svc` gave `status`. -/
def pass2Inner (svc : SvcRef) (status : StatusCode) (j : Nat) (st : UState) :
    Except Fault UState :=
  match st.pObj[j]? with
  | none => .error .outOfBounds
  | some o =>
    match o.characteristic with
    | none => .error .nullCharacteristic
    | some r =>
      if r.service = svc then
        .ok { st with
              pObj := st.pObj.set j { o with status := status }
              span := st.span.modifyChar r (fun c => c.settle status) }
      else .ok st

/-- The status that PASS 2 takes from the result of `update()`:
`update()?StatusCode::OK:StatusCode::Unable`. -/
def statusOf (b : Bool) : StatusCode := if b then .OK else .Unable

/-- Body of the outer loop of PASS 2 for object `i`. -/
def pass2Step (env : Env) (nObj i : Nat) (st : UState) : Except Fault UState :=
  match st.pObj[i]? with
  | none => .error .outOfBounds
  | some o =>
    if o.status = .TBD then
      match o.characteristic with
      | none => .error .nullCharacteristic
      | some r =>
        let b := env.update r.service st.span
        forLoop i nObj (pass2Inner r.service (statusOf b))
          { st with calls := st.calls ++ [(r.service, b)] }
    else .ok st

/-- PASS 1 over the first `nObj` objects. -/
def pass1 (env : Env) (twFail : Bool) (nObj : Nat) (st : UState) : Except Fault UState :=
  forLoop 0 nObj (pass1Step env twFail) st

/-- PASS 2 over the first `nObj` objects. -/
def pass2 (env : Env) (nObj : Nat) (st : UState) : Except Fault UState :=
  forLoop 0 nObj (pass2Step env nObj) st

/-- What a call of `updateCharacteristics` that returns leaves behind. -/
structure UpdateResult where
  ret : Nat
  nObj : Nat
  pObj : List SpanBuf
  span : Span
  calls : List (SvcRef × Bool)
deriving Repr

/-- `Span::updateCharacteristics(buf, pObj)`. -/
def Span.updateCharacteristics (s : Span) (env : Env) (buf : List Char) (pObj : List SpanBuf) :
    Except Fault UpdateResult :=
  match parseRequest s.TimedWrites env.millis buf pObj with
  | .error f => .error f
  | .ok (.bad p) => .ok { ret := 0, nObj := 0, pObj := p, span := s, calls := [] }
  | .ok (.good ps) =>
    let s1 : Span := { s with snapTime := env.millis }
    match pass1 env ps.twFail ps.nObj { pObj := ps.pObj, span := s1, calls := [] } with
    | .error f => .error f
    | .ok st1 =>
      match pass2 env ps.nObj st1 with
      | .error f => .error f
      | .ok st2 =>
        .ok { ret := 1, nObj := ps.nObj, pObj := st2.pObj, span := st2.span, calls := st2.calls }


/-! ## A sample configuration -/

/-- Unset memory used by the sample declarations. -/
def sampleJunk : Junk := { value := 3735928559, newValue := 43690, updateTime := 7 }

/-- A light bulb: AccessoryInformation, HAPProtocolInformation and a LightBulb service
with a writable `On` and `Brightness` and a read-only `Name`. -/
def sampleDecls : List Decl :=
  [ .accessory 0,
    .service "3E" "AccessoryInformation" [⟨"14", "Identify"⟩] [⟨"23", "Name"⟩],
    .characteristic "14" PW "Identify" (.BOOL false) sampleJunk,
    .service "A2" "HAPProtocolInformation" [⟨"37", "Version"⟩] [],
    .characteristic "37" PR "Version" (.STRING 4096) sampleJunk,
    .service "43" "LightBulb" [⟨"25", "On"⟩] [⟨"8", "Brightness"⟩, ⟨"23", "Name"⟩],
    .characteristic "25" (PR + PW + EV) "On" (.BOOL false) sampleJunk,
    .characteristic "8" (PR + PW + EV) "Brightness" (.INT 50) sampleJunk,
    .characteristic "23" PR "Name" (.STRING 5000) sampleJunk ]

def sampleDb : Span := declareAll (Span.init 8 0) sampleDecls

/-- The `Brightness` characteristic of `sampleDb`. -/
def sampleBrightness : SpanCharacteristic :=
  { iid := 7, type := "8", hapName := "Brightness", value := 50, perms := 7,
    format := .INT, desc := none, range := none, ev := List.replicate 8 false, aid := 1,
    isUpdated := false, updateTime := 7, newValue := 43690 }

/-- The sample declarations followed by a second accessory that asks for aid 1 again. -/
def dupDecls : List Decl :=
  sampleDecls ++
    [ .accessory 1,
      .service "3E" "AccessoryInformation" [⟨"14", "Identify"⟩] [⟨"23", "Name"⟩],
      .characteristic "14" PW "Identify" (.BOOL false) sampleJunk,
      .characteristic "23" PR "Name" (.STRING 5000) sampleJunk ]

def dupDb : Span := declareAll (Span.init 8 0) dupDecls

/-- Collaborators used with the samples: time 1500 ms, connection 0, a C library whose
`%lg` finds no number, and `update()` methods that all return `true`. -/
def sampleEnv : Env :=
  { millis := 1500, conNum := 0, scanLg := fun _ => .nomatch, update := fun _ _ => true }

/-- A writable characteristic of format STRING. -/
def sampleText : SpanCharacteristic :=
  { iid := 9, type := "23", hapName := "Name", value := 5000, perms := PR + PW,
    format := .STRING, desc := none, range := none, ev := List.replicate 8 false, aid := 1,
    isUpdated := false, updateTime := 7, newValue := 43690 }

/-- A default-constructed `SpanBuf` (the unset `status` reads `OK`). -/
def blankObj : SpanBuf :=
  { aid := 0, iid := 0, val := none, ev := none, status := .OK, characteristic := none }

/-! ## Sample requests

The bodies are written with `\x7b` and `\x7d` for the braces. -/

/-- Body `{"characteristics":[{"aid":1,"iid":6,"value":1},{"aid":1,"iid":7,"value":75}]}`:
two writes to the LightBulb service. -/
def twoWrites : List Char :=
  "\x7b\"characteristics\":[\x7b\"aid\":1,\"iid\":6,\"value\":1\x7d,\x7b\"aid\":1,\"iid\":7,\"value\":75\x7d]\x7d".toList

/-- What the parser makes of `twoWrites`. -/
def twoWritesParsed : PState :=
  { nObj := 2, cFound := true, twFail := false,
    pObj := [ { aid := 1, iid := 6, val := some "1", ev := none, status := .OK,
                characteristic := none },
              { aid := 1, iid := 7, val := some "75", ev := none, status := .OK,
                characteristic := none } ] }

/-- Body `{"characteristics":[{"aid":1,"iid":6,"value":1},{"aid":1,"iid":99,"value":1}]}`:
a write to `On` followed by an object for an iid that does not exist. -/
def writeThenUnknownIid : List Char :=
  "\x7b\"characteristics\":[\x7b\"aid\":1,\"iid\":6,\"value\":1\x7d,\x7b\"aid\":1,\"iid\":99,\"value\":1\x7d]\x7d".toList

/-- Body `{"characteristics":[{"aid":1,"iid":7,"value":30},{"aid":5,"iid":1,"ev":1}]}`:
a write to `Brightness` followed by an object for an accessory that does not exist. -/
def writeThenUnknownAid : List Char :=
  "\x7b\"characteristics\":[\x7b\"aid\":1,\"iid\":7,\"value\":30\x7d,\x7b\"aid\":5,\"iid\":1,\"ev\":1\x7d]\x7d".toList

/-- Body `{"characteristics":[{"aid":1,"iid":6,"value":1},{"aid":2,"iid":6,"value":0},
{"aid":1,"iid":7,"value":30}]}` (on one line): writes to `On` and to `Brightness` of the
LightBulb service, with an object for an accessory that does not exist between them. -/
def writeUnknownWrite : List Char :=
  "\x7b\"characteristics\":[\x7b\"aid\":1,\"iid\":6,\"value\":1\x7d,\x7b\"aid\":2,\"iid\":6,\"value\":0\x7d,\x7b\"aid\":1,\"iid\":7,\"value\":30\x7d]\x7d".toList

/-- Body `{"characteristics":[{"aid":1,"iid":6,"value":1},{"aid":1,"iid":8,"value":x}]}`:
a write to `On` followed by a write to the read-only `Name` of the same service. -/
def writeThenReadOnly : List Char :=
  "\x7b\"characteristics\":[\x7b\"aid\":1,\"iid\":6,\"value\":1\x7d,\x7b\"aid\":1,\"iid\":8,\"value\":x\x7d]\x7d".toList

/-- Collaborators like `sampleEnv`, with `update()` methods that all return `false`. -/
def refusingEnv : Env :=
  { millis := 1500, conNum := 0, scanLg := fun _ => .nomatch, update := fun _ _ => false }


/-! ## Auxiliary notions for the statements -/

/-- The aids and iids of a database: for each accessory its aid and, service by service,
the iids of its characteristics. `find` looks at nothing else. -/
def Span.shape (s : Span) : List (Int × List (List Int)) :=
  s.Accessories.map
    (fun a => (a.aid, a.Services.map (fun sv => sv.Characteristics.map (fun c => c.iid))))

/-- The search of `findInServices` on the iids alone. -/
def findInLists (iid : Int) : List (List Int) → Option (Nat × Nat)
  | [] => none
  | l :: rest =>
    match firstIdx (fun x => iid == x) l with
    | some j => some (0, j)
    | none => (findInLists iid rest).map (fun p => (p.1 + 1, p.2))

/-- The search of `Span::find` on the shape alone. -/
def findShape (sh : List (Int × List (List Int))) (aid : Nat) (iid : Int) : Option CharRef :=
  match firstIdx (fun a => toU32 a.1 == aid) sh with
  | none => none
  | some index =>
    match sh[index]? with
    | none => none
    | some acc => (findInLists iid acc.2).map (fun p => ⟨index, p.1, p.2⟩)

/-- The service of the characteristic an object points to, if it points to one. -/
def SpanBuf.service (o : SpanBuf) : Option SvcRef := o.characteristic.map CharRef.service

/-- What PASS 1 leaves in an object `o` that the parser filled as `o0`, for a database
that was `s1` at the start of the pass. -/
def Pass1Obj (twFail : Bool) (s1 : Span) (o0 o : SpanBuf) : Prop :=
  o.aid = o0.aid ∧ o.iid = o0.iid ∧ o.val = o0.val ∧ o.ev = o0.ev ∧
    if twFail = true then o.status = .InvalidValue ∧ o.characteristic = o0.characteristic
    else
      o.characteristic = s1.find (toU32 o0.aid) o0.iid ∧
        (o.characteristic = none → o.status = .UnknownResource) ∧
        (o.status = .TBD → o.characteristic ≠ none)

/-- Invariant of the loop of PASS 1 before round `i`; `p0` and `s1` are the array and the
database at the start of the pass. -/
structure Pass1Inv (twFail : Bool) (p0 : List SpanBuf) (s1 : Span) (i : Nat) (st : UState) :
    Prop where
  len : st.pObj.length = p0.length
  calls : st.calls = []
  shape : st.span.shape = s1.shape
  rest : ∀ k, i ≤ k → st.pObj[k]? = p0[k]?
  done : ∀ k, k < i → ∀ o0, p0[k]? = some o0 →
    ∃ o, st.pObj[k]? = some o ∧ Pass1Obj twFail s1 o0 o
  frozen : twFail = true → st.span = s1

/-- What the inner loop of PASS 2 has done to object `k` when it reaches `j`, having
started at `i` for the service `svc` with the result `status`. -/
def innerMark (svc : SvcRef) (status : StatusCode) (i j k : Nat) (o : SpanBuf) : SpanBuf :=
  if i ≤ k ∧ k < j ∧ o.service = some svc then { o with status := status } else o

/-- Invariant of the inner loop of PASS 2 before round `j`; `st0` is the state at the
start of the loop. -/
structure InnerInv (svc : SvcRef) (status : StatusCode) (i : Nat) (st0 : UState) (j : Nat)
    (st : UState) : Prop where
  calls : st.calls = st0.calls
  len : st.pObj.length = st0.pObj.length
  objs : ∀ k : Nat, st.pObj[k]? = (st0.pObj[k]?).map (innerMark svc status i j k)

/-- Invariant of the outer loop of PASS 2 before round `i`, for `n` objects; `st1` is the
state at the start of the pass. The services called so far are exactly those of the
objects before `i` that PASS 1 staged, each once, and an object still has status TBD
exactly when PASS 1 staged it and its service has not been called. -/
structure Pass2Inv (n : Nat) (st1 : UState) (i : Nat) (st : UState) : Prop where
  len : st.pObj.length = st1.pObj.length
  chars : ∀ k : Nat, (st.pObj[k]?).map SpanBuf.characteristic =
    (st1.pObj[k]?).map SpanBuf.characteristic
  tbd : ∀ k, k < n → ∀ o o1, st.pObj[k]? = some o → st1.pObj[k]? = some o1 →
    (o.status = .TBD ↔
      (o1.status = .TBD ∧ ∀ v, o1.service = some v → v ∉ st.calls.map Prod.fst))
  seen : ∀ k, k < i → ∀ o1, st1.pObj[k]? = some o1 → o1.status = .TBD →
    ∀ v, o1.service = some v → v ∈ st.calls.map Prod.fst
  nodup : (st.calls.map Prod.fst).Nodup
  origin : ∀ v ∈ st.calls.map Prod.fst,
    ∃ k : Nat, k < i ∧ ∃ o1, st1.pObj[k]? = some o1 ∧ o1.status = .TBD ∧ o1.service = some v


/-- The characteristic `r` belongs to the service `svc` and some object `k` with
`i ≤ k < j` of the array `p` points to it: the inner loop of PASS 2 settles it. -/
def innerHit (svc : SvcRef) (i j : Nat) (p : List SpanBuf) (r : CharRef) : Prop :=
  r.service = svc ∧ ∃ k : Nat, i ≤ k ∧ k < j ∧ ∃ o, p[k]? = some o ∧ o.characteristic = some r

/-- What the inner loop of PASS 2 has done to the database when it reaches `j`. -/
structure InnerSpan (svc : SvcRef) (status : StatusCode) (i : Nat) (st0 : UState) (j : Nat)
    (st : UState) : Prop where
  hit : ∀ r, innerHit svc i j st0.pObj r →
    st.span.getChar r = (st0.span.getChar r).map (fun c => c.settle status)
  miss : ∀ r, ¬ innerHit svc i j st0.pObj r → st.span.getChar r = st0.span.getChar r
  frame : st.span.withAccessories [] = st0.span.withAccessories []

/-- What PASS 2 has done to the database and to the objects so far; `st1` is the
state at the start of the pass and `n` the number of objects. A characteristic of a
service that has not been called is untouched; one of a called service is untouched or
settled with the status of that call; the characteristic of an object that PASS 1 staged
is settled, and the object carries the status, once its service has been called; an
object is as PASS 1 left it or carries the status of the call of its service. -/
structure Pass2Span (n : Nat) (st1 : UState) (st : UState) : Prop where
  untouched : ∀ r : CharRef, r.service ∉ st.calls.map Prod.fst →
    st.span.getChar r = st1.span.getChar r
  settled : ∀ (r : CharRef) (b : Bool), (r.service, b) ∈ st.calls →
    st.span.getChar r = st1.span.getChar r ∨
      st.span.getChar r = (st1.span.getChar r).map (fun c => c.settle (statusOf b))
  staged : ∀ (k : Nat) (o1 : SpanBuf) (r : CharRef) (b : Bool), k < n →
    st1.pObj[k]? = some o1 → o1.status = .TBD → o1.characteristic = some r →
    (r.service, b) ∈ st.calls →
    st.span.getChar r = (st1.span.getChar r).map (fun c => c.settle (statusOf b)) ∧
      ∃ o, st.pObj[k]? = some o ∧ o.status = statusOf b
  objs : ∀ (k : Nat) (o1 : SpanBuf), st1.pObj[k]? = some o1 →
    ∃ o, st.pObj[k]? = some o ∧
      (o = o1 ∨ ∃ v b, o1.service = some v ∧ (v, b) ∈ st.calls ∧
        o = { o1 with status := statusOf b })
  frame : st.span.withAccessories [] = st1.span.withAccessories []

/-- The aids of the accessories, in declaration order. -/
def Span.aids (s : Span) : List Int := s.Accessories.map (fun a => a.aid)

/-- The iids of the services and characteristics of an accessory in declaration order:
each service is followed by its characteristics. -/
def allIids (acc : SpanAccessory) : List Int :=
  acc.Services.flatMap (fun sv => sv.iid :: sv.Characteristics.map (fun c => c.iid))

/-- The numbers `1, 2, ..., n`. -/
def countUp (n : Nat) : List Int := (List.range n).map (fun (k : Nat) => (k : Int) + 1)

/-- What the constructors maintain for the iids of one accessory: they are
`1, 2, ..., iidCount` in declaration order. -/
def IidOK (acc : SpanAccessory) : Prop :=
  0 ≤ acc.iidCount ∧ allIids acc = countUp acc.iidCount.toNat

/-- The services of an accessory that is not the first one of a bridge. -/
def infoOnly : List Decl :=
  [ .service "3E" "AccessoryInformation" [⟨"14", "Identify"⟩] [⟨"23", "Name"⟩],
    .characteristic "14" PW "Identify" (.BOOL false) sampleJunk ]

/-- A bridge with three accessories: the second one asks for aid 4294967295 and the
third one for the default. -/
def wrapDecls : List Decl :=
  [ .accessory 0,
    .service "3E" "AccessoryInformation" [⟨"14", "Identify"⟩] [⟨"23", "Name"⟩],
    .characteristic "14" PW "Identify" (.BOOL false) sampleJunk,
    .service "A2" "HAPProtocolInformation" [⟨"37", "Version"⟩] [],
    .characteristic "37" PR "Version" (.STRING 4096) sampleJunk,
    .accessory 4294967295 ] ++ infoOnly ++ [ .accessory 0 ] ++ infoOnly

def wrapDb : Span := declareAll (Span.init 8 0) wrapDecls

/-- How a declaration may change an accessory that exists already: the aid stays, the
iids declared so far stay, and new iids continue the count. -/
def Grows (x y : SpanAccessory) : Prop :=
  y.aid = x.aid ∧ (IidOK x → IidOK y) ∧ allIids x <+: allIids y

/-- The aid argument of an accessory declaration (0 asks for the default); 0 for the
other declarations. -/
def Decl.aidArg : Decl → Nat
  | .accessory a => a
  | _ => 0

/-- Three accessories declared without override. -/
def threeDefaults : List Decl :=
  [ .accessory 0,
    .service "3E" "AccessoryInformation" [⟨"14", "Identify"⟩] [⟨"23", "Name"⟩],
    .characteristic "14" PW "Identify" (.BOOL false) sampleJunk,
    .service "A2" "HAPProtocolInformation" [⟨"37", "Version"⟩] [],
    .characteristic "37" PR "Version" (.STRING 4096) sampleJunk,
    .accessory 0 ] ++ infoOnly ++ [ .accessory 0 ] ++ infoOnly

/-! ## Printing with `snprintf` -/

/-- The character that ends a C string. -/
def NUL : Char := Char.ofNat 0

/-- The C string at the start of `l`: the characters before the first NUL. -/
def cstr (l : List Char) : List Char := l.takeWhile (fun c => c != NUL)

/-- The decimal digits of `n` in front of `acc`; `fuel` bounds the number of digits. -/
def decimalAux : Nat → Nat → List Char → List Char
  | 0, _, acc => acc
  | fuel + 1, n, acc =>
    if n < 10 then Char.ofNat (48 + n) :: acc
    else decimalAux fuel (n / 10) (Char.ofNat (48 + n % 10) :: acc)

/-- The conversions `%u`, `%lu` and `%llu` of `printf`. -/
def fmtU (n : Nat) : List Char := decimalAux (n + 1) n []

/-- The conversion `%d` of `printf`. -/
def fmtD (x : Int) : List Char := if x < 0 then '-' :: fmtU (-x).toNat else fmtU x.toNat

/-- The conversion `%s` of `printf`: the characters up to the terminating NUL. -/
def fmtS (s : List Char) : List Char := cstr s

/-- What the print routines take from outside the database: the current connection
`HAPClient::conNum`, the characters stored at an address (for `%s` of a
`value.STRING`), and the conversion `%lg` of the C library for a double given by its
bit pattern. -/
structure PrintEnv where
  conNum : Nat
  strAt : Nat → List Char
  fmtLg : Nat → List Char

/-- `snprintf(dst, size, format, ...)`, where `text` is the converted format: with a
buffer, the first `size - 1` characters of `text` and a NUL are stored at offset `dst`
of the array `mem`; without one (`NULL`, or `size` 0) nothing is stored. The value
returned is the length of `text` in both cases. A store beyond the array is a fault. -/
def snprintf (mem : List Char) (dst : Option Nat) (size : Nat) (text : List Char) :
    Except Fault (Nat × List Char) :=
  match dst with
  | none => .ok (text.length, mem)
  | some p =>
    if size = 0 then .ok (text.length, mem)
    else
      let w := text.take (size - 1) ++ [NUL]
      if p + w.length ≤ mem.length then
        .ok (text.length, mem.take p ++ w ++ mem.drop (p + w.length))
      else .error .outOfBounds

/-- State of a print routine: the array that `cBuf` points into and the local count
(`nBytes`, `nChars`). -/
structure Out where
  mem : List Char
  nBytes : Nat
deriving DecidableEq, Repr

/-- The statement `nBytes+=snprintf(cBuf?(cBuf+nBytes):NULL,cBuf?size:0,format,...)`;
`cBuf` is the offset of the pointer in the array, `none` for `NULL`. -/
def Out.print (cBuf : Option Nat) (size : Nat) (text : List Char) (o : Out) : Except Fault Out :=
  match snprintf o.mem (cBuf.map (fun p => p + o.nBytes)) (if cBuf.isSome then size else 0)
      text with
  | .error f => .error f
  | .ok r => .ok { mem := r.2, nBytes := o.nBytes + r.1 }

/-- The statement `nBytes+=x->sprintfAttributes(cBuf?(cBuf+nBytes):NULL,...)` for a
print routine `f` of the object `x`. -/
def Out.call (cBuf : Option Nat)
    (f : Option Nat → List Char → Except Fault (Nat × List Char)) (o : Out) : Except Fault Out :=
  match f (cBuf.map (fun p => p + o.nBytes)) o.mem with
  | .error e => .error e
  | .ok r => .ok { mem := r.2, nBytes := o.nBytes + r.1 }

/-- The table `permCodes` of `SpanCharacteristic::sprintfAttributes`. -/
def permCodes : List String := ["pr", "pw", "ev", "aa", "tw", "hd", "wr"]

/-- The table `formatCodes[format]`. -/
def formatCode : FORMAT → String
  | .BOOL => "bool"
  | .UINT8 => "uint8"
  | .UINT16 => "uint16"
  | .UINT32 => "uint32"
  | .UINT64 => "uint64"
  | .INT => "int"
  | .FLOAT => "float"
  | .STRING => "string"

/-- The text after `,"value":` that the `switch(format)` of the print routine converts. -/
def SpanCharacteristic.valueText (c : SpanCharacteristic) (io : PrintEnv) : List Char :=
  match c.format with
  | .BOOL => fmtS (if UVal.getBOOL c.value then "true" else "false").toList
  | .INT => fmtD (UVal.getINT c.value)
  | .UINT8 => fmtU (UVal.getUINT8 c.value)
  | .UINT16 => fmtU (UVal.getUINT16 c.value)
  | .UINT32 => fmtU (UVal.getUINT32 c.value)
  | .UINT64 => fmtU (UVal.getUINT64 c.value)
  | .FLOAT => io.fmtLg (UVal.getFLOAT c.value)
  | .STRING => '"' :: fmtS (io.strAt (UVal.getSTRING c.value)) ++ ['"']

/-- Body of the loop over the permission bits. -/
def permStep (cBuf : Option Nat) (perms : Nat) (i : Nat) (o : Out) : Except Fault Out :=
  if hasBit perms (2 ^ i) then
    match permCodes[i]? with
    | none => .error .outOfBounds
    | some code =>
      match o.print cBuf 64 ('"' :: fmtS code.toList ++ ['"']) with
      | .error f => .error f
      | .ok o1 => if perms ≥ 2 ^ (i + 1) then o1.print cBuf 64 [','] else .ok o1
  else .ok o

/-- An optional statement. -/
def Out.when (b : Bool) (f : Out → Except Fault Out) (o : Out) : Except Fault Out :=
  if b then f o else .ok o

/-- The block `if(flags&GET_TYPE)` of the print routine of a characteristic. -/
def SpanCharacteristic.printType (c : SpanCharacteristic) (flags : Nat) (cBuf : Option Nat)
    (o : Out) : Except Fault Out :=
  o.when (hasBit flags GET_TYPE)
    (Out.print cBuf 64 (",\"type\":\"".toList ++ fmtS c.type.toList ++ ['"']))

/-- The block `if(perms&PR)`: `null` for a characteristic with NV unless `GET_NV` is
asked for, and the value by format otherwise. -/
def SpanCharacteristic.printValue (c : SpanCharacteristic) (io : PrintEnv) (flags : Nat)
    (cBuf : Option Nat) (o : Out) : Except Fault Out :=
  o.when (hasBit c.perms PR)
    (fun o =>
      if hasBit c.perms NV && !hasBit flags GET_NV then o.print cBuf 64 ",\"value\":null".toList
      else o.print cBuf 64 (",\"value\":".toList ++ c.valueText io))

/-- The block `if(flags&GET_META)`: the format, and the range `if(range && (flags&GET_META))`. -/
def SpanCharacteristic.printMeta (c : SpanCharacteristic) (flags : Nat) (cBuf : Option Nat)
    (o : Out) : Except Fault Out :=
  o.when (hasBit flags GET_META)
    (fun o =>
      match o.print cBuf 64
          (",\"format\":\"".toList ++ fmtS (formatCode c.format).toList ++ ['"']) with
      | .error f => .error f
      | .ok o1 =>
        match c.range with
        | some r =>
          o1.when (hasBit flags GET_META)
            (Out.print cBuf 128
              (",\"minValue\":".toList ++ fmtD r.min ++ ",\"maxValue\":".toList ++ fmtD r.max ++
                ",\"minStep\":".toList ++ fmtD r.step))
        | none => .ok o1)

/-- The block `if(desc && (flags&GET_DESC))`. -/
def SpanCharacteristic.printDesc (c : SpanCharacteristic) (flags : Nat) (cBuf : Option Nat)
    (o : Out) : Except Fault Out :=
  match c.desc with
  | some d =>
    o.when (hasBit flags GET_DESC)
      (Out.print cBuf 128 (",\"description\":\"".toList ++ fmtS d.toList ++ ['"']))
  | none => .ok o

/-- The block `if(flags&GET_PERMS)`. -/
def SpanCharacteristic.printPerms (c : SpanCharacteristic) (flags : Nat) (cBuf : Option Nat)
    (o : Out) : Except Fault Out :=
  o.when (hasBit flags GET_PERMS)
    (fun o =>
      match o.print cBuf 64 ",\"perms\":[".toList with
      | .error f => .error f
      | .ok o1 =>
        match forLoop 0 7 (permStep cBuf c.perms) o1 with
        | .error f => .error f
        | .ok o2 => o2.print cBuf 64 [']'])

/-- The block `if(flags&GET_AID)`; the `int aid` is printed with `%u`. -/
def SpanCharacteristic.printAid (c : SpanCharacteristic) (flags : Nat) (cBuf : Option Nat)
    (o : Out) : Except Fault Out :=
  o.when (hasBit flags GET_AID) (Out.print cBuf 64 (",\"aid\":".toList ++ fmtU (toU32 c.aid)))

/-- The block `if(flags&GET_EV)`, which reads `ev[HAPClient::conNum]`. -/
def SpanCharacteristic.printEv (c : SpanCharacteristic) (io : PrintEnv) (flags : Nat)
    (cBuf : Option Nat) (o : Out) : Except Fault Out :=
  o.when (hasBit flags GET_EV)
    (fun o =>
      match c.ev[io.conNum]? with
      | none => .error .outOfBounds
      | some b =>
        o.print cBuf 64 (",\"ev\":".toList ++ fmtS (if b then "true" else "false").toList))

/-- `SpanCharacteristic::sprintfAttributes(cBuf, flags)`: the count returned and the
array after the call. -/
def SpanCharacteristic.sprintfAttributes (c : SpanCharacteristic) (io : PrintEnv) (flags : Nat)
    (cBuf : Option Nat) (mem : List Char) : Except Fault (Nat × List Char) := do
  let o : Out := { mem := mem, nBytes := 0 }
  let o ← o.print cBuf 64 ("\x7b\"iid\":".toList ++ fmtD c.iid)
  let o ← c.printType flags cBuf o
  let o ← c.printValue io flags cBuf o
  let o ← c.printMeta flags cBuf o
  let o ← c.printDesc flags cBuf o
  let o ← c.printPerms flags cBuf o
  let o ← c.printAid flags cBuf o
  let o ← c.printEv io flags cBuf o
  let o ← o.print cBuf 64 ['}']
  pure (o.nBytes, o.mem)

/-- A loop `for(i=0;i<n;i++){ nBytes+=x[i]->sprintfAttributes(...); if(i+1<n) nBytes+=snprintf(...,","); }`
over the elements `xs` of a vector. -/
def printElems {α : Type} (cBuf : Option Nat) (xs : List α)
    (f : α → Option Nat → List Char → Except Fault (Nat × List Char)) (o : Out) :
    Except Fault Out :=
  forLoop 0 xs.length
    (fun i o =>
      match xs[i]? with
      | none => .error .outOfBounds
      | some x =>
        match o.call cBuf (f x) with
        | .error e => .error e
        | .ok o1 => if i + 1 < xs.length then o1.print cBuf 64 [','] else .ok o1)
    o

/-- The flags `GET_META|GET_PERMS|GET_TYPE|GET_DESC` that `SpanService::sprintfAttributes`
passes on. -/
def serviceFlags : Nat := GET_META ||| GET_PERMS ||| GET_TYPE ||| GET_DESC

/-- `SpanService::sprintfAttributes(cBuf)`. -/
def SpanService.sprintfAttributes (sv : SpanService) (io : PrintEnv) (cBuf : Option Nat)
    (mem : List Char) : Except Fault (Nat × List Char) := do
  let o : Out := { mem := mem, nBytes := 0 }
  let o ← o.print cBuf 64
    ("\x7b\"iid\":".toList ++ fmtD sv.iid ++ ",\"type\":\"".toList ++ fmtS sv.type.toList ++
      "\",".toList)
  let o ← o.when sv.hidden (Out.print cBuf 64 "\"hidden\":true,".toList)
  let o ← o.when sv.primary (Out.print cBuf 64 "\"primary\":true,".toList)
  let o ← o.print cBuf 64 "\"characteristics\":[".toList
  let o ← printElems cBuf sv.Characteristics
    (fun c => c.sprintfAttributes io serviceFlags) o
  let o ← o.print cBuf 64 "]\x7d".toList
  pure (o.nBytes, o.mem)

/-- `SpanAccessory::sprintfAttributes(cBuf)`. -/
def SpanAccessory.sprintfAttributes (acc : SpanAccessory) (io : PrintEnv) (cBuf : Option Nat)
    (mem : List Char) : Except Fault (Nat × List Char) := do
  let o : Out := { mem := mem, nBytes := 0 }
  let o ← o.print cBuf 64 ("\x7b\"aid\":".toList ++ fmtU (toU32 acc.aid) ++ ",\"services\":[".toList)
  let o ← printElems cBuf acc.Services (fun sv => sv.sprintfAttributes io) o
  let o ← o.print cBuf 64 "]\x7d".toList
  pure (o.nBytes, o.mem)

/-- `Span::sprintfAttributes(cBuf)`. -/
def Span.sprintfAttributes (s : Span) (io : PrintEnv) (cBuf : Option Nat) (mem : List Char) :
    Except Fault (Nat × List Char) := do
  let o : Out := { mem := mem, nBytes := 0 }
  let o ← o.print cBuf 64 "\x7b\"accessories\":[".toList
  let o ← printElems cBuf s.Accessories (fun acc => acc.sprintfAttributes io) o
  let o ← o.print cBuf 64 "]\x7d".toList
  pure (o.nBytes, o.mem)

/-- Memory used with the samples: the address 4096 holds `1.1.0`, the address 5000
holds `Lamp`, and `%lg` is not used. -/
def sampleIo : PrintEnv :=
  { conNum := 0,
    strAt := fun a => if a = 4096 then "1.1.0".toList else if a = 5000 then "Lamp".toList else [],
    fmtLg := fun _ => ['0'] }

/-- Modelled from the spec: the numeric values of the enumeration `StatusCode` of
HAPConstants.h, which is not among the sources. The spec lists the six error codes; `OK`
is 0, the success status of HAP, and `TBD`, which no print routine receives, is -1. -/
def StatusCode.code : StatusCode → Int
  | .OK => 0
  | .Unable => -70402
  | .ReadOnly => -70404
  | .WriteOnly => -70405
  | .NotifyNotAllowed => -70406
  | .UnknownResource => -70409
  | .InvalidValue => -70410
  | .TBD => -1

/-- An integer conversion of `sscanf` together with the text that follows the numeral. -/
def scanDecimalRest {α : Type} (conv : Bool → Nat → α) (s : List Char) : Scan (α × List Char) :=
  match s.dropWhile isSpace with
  | [] => .eof
  | c :: cs =>
    let p := scanSign (c :: cs)
    let d := scanDigits 10 p.2 0 0
    if d.2 == 0 then .nomatch else .ok (conv p.1 d.1, p.2.drop d.2)

/-- `sscanf(id,"%u.%d",&aid,&iid)`: the values of `aid` and `iid` after the call, given
the values before it. A conversion that fails leaves its variable, and the ones after
it, as they were. -/
def scanId (id : List Char) (aid : Nat) (iid : Int) : Nat × Int :=
  match scanDecimalRest (convUnsigned 32) id with
  | .ok (a, '.' :: rest) =>
    match scanD rest with
    | .ok i => (a, i)
    | _ => (a, iid)
  | .ok (a, _) => (a, iid)
  | _ => (aid, iid)

/-- The locals of `Span::sprintfAttributes(ids, numIDs, flags, cBuf)`. The arrays
`Characteristics` and `status` are filled in index order: entry `i` is appended in round
`i` of PASS 1. -/
structure IdsState where
  aid : Nat
  iid : Int
  Characteristics : List (Option CharRef)
  status : List StatusCode
  sFlag : Bool
deriving DecidableEq, Repr

/-- Body of the loop of PASS 1 of `sprintfAttributes(ids, ...)`. -/
def idsPass1Step (s : Span) (ids : List (List Char)) (i : Nat) (st : IdsState) :
    Except Fault IdsState :=
  match ids[i]? with
  | none => .error .outOfBounds
  | some id =>
    let p := scanId id st.aid st.iid
    match s.find p.1 p.2 with
    | some r =>
      match s.getChar r with
      | none => .error .nullCharacteristic
      | some c =>
        if hasBit c.perms PR then
          .ok { st with aid := p.1, iid := p.2,
                        Characteristics := st.Characteristics ++ [some r],
                        status := st.status ++ [.OK] }
        else
          .ok { aid := p.1, iid := p.2,
                Characteristics := st.Characteristics ++ [none],
                status := st.status ++ [.WriteOnly], sFlag := true }
    | none =>
      .ok { aid := p.1, iid := p.2,
            Characteristics := st.Characteristics ++ [none],
            status := st.status ++ [.UnknownResource], sFlag := true }

/-- PASS 1 of `sprintfAttributes(ids, ...)`; `aid` and `iid` are the unset locals. -/
def idsPass1 (s : Span) (ids : List (List Char)) (aid : Nat) (iid : Int) : Except Fault IdsState :=
  forLoop 0 ids.length (idsPass1Step s ids)
    { aid := aid, iid := iid, Characteristics := [], status := [], sFlag := false }

/-- State of PASS 2: the locals `aid` and `iid`, and the output. -/
structure IdsOut where
  aid : Nat
  iid : Int
  out : Out
deriving DecidableEq, Repr

/-- Body of the loop of PASS 2 of `sprintfAttributes(ids, ...)`. -/
def idsPass2Step (s : Span) (io : PrintEnv) (ids : List (List Char)) (flags : Nat)
    (cBuf : Option Nat) (p1 : IdsState) (i : Nat) (st : IdsOut) : Except Fault IdsOut := do
  let id ← match ids[i]? with
    | none => .error .outOfBounds
    | some id => pure id
  let ch ← match p1.Characteristics[i]? with
    | none => .error .outOfBounds
    | some ch => pure ch
  let status ← match p1.status[i]? with
    | none => .error .outOfBounds
    | some x => pure x
  let st ←
    match ch with
    | some r =>
      match s.getChar r with
      | none => .error .nullCharacteristic
      | some c => do
        let o ← st.out.call cBuf (c.sprintfAttributes io flags)
        pure { st with out := o }
    | none => do
      let p := scanId id st.aid st.iid
      let o ← st.out.print cBuf 64
        ("\x7b\"iid\":".toList ++ fmtD p.2 ++ ",\"aid\":".toList ++ fmtU p.1 ++ ['}'])
      pure { aid := p.1, iid := p.2, out := o }
  let o ←
    if p1.sFlag then
      Out.print cBuf 64 (",\"status\":".toList ++ fmtD status.code ++ ['}'])
        { st.out with nBytes := st.out.nBytes - 1 }
    else pure st.out
  let o ← if i + 1 < ids.length then o.print cBuf 64 [','] else pure o
  pure { st with out := o }

/-- `Span::sprintfAttributes(ids, numIDs, flags, cBuf)`; `ids` holds the `numIDs`
strings, and `aid`, `iid` are the content of the unset locals. -/
def Span.sprintfAttributesIds (s : Span) (io : PrintEnv) (ids : List (List Char)) (flags : Nat)
    (aid : Nat) (iid : Int) (cBuf : Option Nat) (mem : List Char) :
    Except Fault (Nat × List Char) := do
  let p1 ← idsPass1 s ids aid iid
  let o : Out := { mem := mem, nBytes := 0 }
  let o ← o.print cBuf 64 "\x7b\"characteristics\":[".toList
  let st ← forLoop 0 ids.length (idsPass2Step s io ids flags cBuf p1)
    { aid := p1.aid, iid := p1.iid, out := o }
  let o ← st.out.print cBuf 64 "]\x7d".toList
  pure (o.nBytes, o.mem)

/-- Memory like `sampleIo`, with a name of 60 characters at the address 5000. -/
def longIo : PrintEnv :=
  { conNum := 0,
    strAt := fun a =>
      if a = 4096 then "1.1.0".toList
      else if a = 5000 then "Reading lamp on the desk by the window of the upstairs study".toList
      else [],
    fmtLg := fun _ => ['0'] }

/-- The `Name` characteristic of `sampleDb`. -/
def sampleName : SpanCharacteristic :=
  { iid := 8, type := "23", hapName := "Name", value := 5000, perms := 1,
    format := .STRING, desc := none, range := none, ev := List.replicate 8 false, aid := 1,
    isUpdated := false, updateTime := 7, newValue := 43690 }

/-- A `ProgrammableSwitchEvent` characteristic: readable, with notifications, and with
the NV bit (its value is `null` except in an event notification). -/
def sampleSwitchEvent : SpanCharacteristic :=
  { iid := 9, type := "73", hapName := "ProgrammableSwitchEvent", value := 0,
    perms := PR + EV + NV, format := .UINT8, desc := none, range := none,
    ev := List.replicate 8 false, aid := 1, isUpdated := false, updateTime := 7,
    newValue := 43690 }

/-- An array of `n` bytes that the caller has not initialised. -/
def rawArray (n : Nat) : List Char := List.replicate n '#'

/-- A bridge accessory with one more service, whose type has 56 characters. -/
def longTypeDecls : List Decl :=
  [ .accessory 0,
    .service "3E" "AccessoryInformation" [⟨"14", "Identify"⟩] [⟨"23", "Name"⟩],
    .characteristic "14" PW "Identify" (.BOOL false) sampleJunk,
    .service "A2" "HAPProtocolInformation" [⟨"37", "Version"⟩] [],
    .characteristic "37" PR "Version" (.STRING 4096) sampleJunk,
    .service "Vendor.Example.Service.Thermostat.Schedule.WeeklyProgram" "Schedule"
      [⟨"25", "On"⟩] [],
    .characteristic "25" (PR + PW + EV) "On" (.BOOL false) sampleJunk ]

def longTypeDb : Span := declareAll (Span.init 8 0) longTypeDecls

/-- The entries `Characteristics[k]` and `status[k]` that PASS 1 of
`sprintfAttributes(ids, ...)` stores for an id read as `(aid, iid)`. -/
def IdsEntry (s : Span) (aid : Nat) (iid : Int) (ch : Option (Option CharRef))
    (status : Option StatusCode) : Prop :=
  match s.find aid iid with
  | none => ch = some none ∧ status = some .UnknownResource
  | some r =>
    ∃ c, s.getChar r = some c ∧
      if hasBit c.perms PR = true then ch = some (some r) ∧ status = some .OK
      else ch = some none ∧ status = some .WriteOnly

/-- What PASS 1 of `sprintfAttributes(ids, ...)` has stored when it reaches round `i`. -/
structure IdsInv (s : Span) (ids : List (List Char)) (i : Nat) (st : IdsState) : Prop where
  lenC : st.Characteristics.length = i
  lenS : st.status.length = i
  flag : st.sFlag = true ↔ ∃ (k : Nat) (x : StatusCode), st.status[k]? = some x ∧ x ≠ .OK
  entry : ∀ (k : Nat) (id : List Char) (aid : Nat) (iid : Int), k < i → ids[k]? = some id →
    (∀ a0 i0, scanId id a0 i0 = (aid, iid)) →
    IdsEntry s aid iid st.Characteristics[k]? st.status[k]?

/-- Ids as `GET /characteristics?id=1.6,1.2,3.7,1.99` lists them: a readable
characteristic, a write-only one, an accessory and an iid that do not exist. -/
def sampleIds : List (List Char) := ["1.6".toList, "1.2".toList, "3.7".toList, "1.99".toList]

/-! ## Print routines as sequences of pieces -/

/-- One `snprintf` call of a print routine: its size limit and its converted text. -/
structure Piece where
  size : Nat
  text : List Char
deriving DecidableEq, Repr

/-- The statements `nBytes+=snprintf(cBuf?(cBuf+nBytes):NULL,cBuf?size:0,...)` for the
pieces `ps`, in order. -/
def Out.printAll (cBuf : Option Nat) (ps : List Piece) (o : Out) : Except Fault Out :=
  ps.foldlM (fun o p => o.print cBuf p.size p.text) o

/-- The value a print routine returns from its final state. -/
def Out.result (o : Out) : Nat × List Char := (o.nBytes, o.mem)

/-- The value a print routine returns when its last statement has been reached. -/
def Out.finish (r : Except Fault Out) : Except Fault (Nat × List Char) :=
  match r with
  | .error e => .error e
  | .ok o => .ok o.result

/-- The number of characters of the pieces, which is what their `snprintf` calls add up. -/
def Piece.total (ps : List Piece) : Nat := (ps.map (fun p => p.text.length)).sum

/-- The pieces for the elements of a vector, with a comma after each element but the
last. -/
def joinPieces : List (List Piece) → List Piece
  | [] => []
  | [x] => x
  | x :: y :: rest => x ++ ⟨64, [',']⟩ :: joinPieces (y :: rest)

/-- The pieces of the loop over the permission bits `lo, ..., 6`. -/
def permPieces (perms : Nat) (i : Nat) : List Piece :=
  if hasBit perms (2 ^ i) then
    ⟨64, '"' :: fmtS (permCodes.getD i "").toList ++ ['"']⟩ ::
      (if perms ≥ 2 ^ (i + 1) then [⟨64, [',']⟩] else [])
  else []

/-- The pieces that `SpanCharacteristic::sprintfAttributes(cBuf, flags)` prints. -/
def SpanCharacteristic.pieces (c : SpanCharacteristic) (io : PrintEnv) (flags : Nat) :
    List Piece :=
  [⟨64, "\x7b\"iid\":".toList ++ fmtD c.iid⟩] ++
  (if hasBit flags GET_TYPE then
    [⟨64, ",\"type\":\"".toList ++ fmtS c.type.toList ++ ['"']⟩] else []) ++
  (if hasBit c.perms PR then
    (if hasBit c.perms NV && !hasBit flags GET_NV then [⟨64, ",\"value\":null".toList⟩]
     else [⟨64, ",\"value\":".toList ++ c.valueText io⟩])
   else []) ++
  (if hasBit flags GET_META then
    ⟨64, ",\"format\":\"".toList ++ fmtS (formatCode c.format).toList ++ ['"']⟩ ::
      (match c.range with
       | some r =>
         [⟨128, ",\"minValue\":".toList ++ fmtD r.min ++ ",\"maxValue\":".toList ++ fmtD r.max ++
            ",\"minStep\":".toList ++ fmtD r.step⟩]
       | none => [])
   else []) ++
  (match c.desc with
   | some d =>
     if hasBit flags GET_DESC then
       [⟨128, ",\"description\":\"".toList ++ fmtS d.toList ++ ['"']⟩] else []
   | none => []) ++
  (if hasBit flags GET_PERMS then
    [⟨64, ",\"perms\":[".toList⟩] ++ (List.range 7).flatMap (permPieces c.perms) ++ [⟨64, [']']⟩]
   else []) ++
  (if hasBit flags GET_AID then [⟨64, ",\"aid\":".toList ++ fmtU (toU32 c.aid)⟩] else []) ++
  (if hasBit flags GET_EV then
    [⟨64, ",\"ev\":".toList ++
      fmtS (if c.ev.getD io.conNum false then "true" else "false").toList⟩] else []) ++
  [⟨64, ['}']⟩]

/-- The pieces that `SpanService::sprintfAttributes(cBuf)` prints. -/
def SpanService.pieces (sv : SpanService) (io : PrintEnv) : List Piece :=
  [⟨64, "\x7b\"iid\":".toList ++ fmtD sv.iid ++ ",\"type\":\"".toList ++ fmtS sv.type.toList ++
      "\",".toList⟩] ++
  (if sv.hidden then [⟨64, "\"hidden\":true,".toList⟩] else []) ++
  (if sv.primary then [⟨64, "\"primary\":true,".toList⟩] else []) ++
  [⟨64, "\"characteristics\":[".toList⟩] ++
  joinPieces (sv.Characteristics.map (fun c => c.pieces io serviceFlags)) ++
  [⟨64, "]\x7d".toList⟩]

/-- The pieces that `SpanAccessory::sprintfAttributes(cBuf)` prints. -/
def SpanAccessory.pieces (acc : SpanAccessory) (io : PrintEnv) : List Piece :=
  [⟨64, "\x7b\"aid\":".toList ++ fmtU (toU32 acc.aid) ++ ",\"services\":[".toList⟩] ++
  joinPieces (acc.Services.map (fun sv => sv.pieces io)) ++
  [⟨64, "]\x7d".toList⟩]

/-- The pieces that `Span::sprintfAttributes(cBuf)` prints. -/
def Span.pieces (s : Span) (io : PrintEnv) : List Piece :=
  [⟨64, "\x7b\"accessories\":[".toList⟩] ++
  joinPieces (s.Accessories.map (fun acc => acc.pieces io)) ++
  [⟨64, "]\x7d".toList⟩]

/-! ## What a print routine leaves in the array -/

/-- The array `mem` after `cells` are stored from offset `p` on: `some c` stores the
character `c`, `none` leaves the byte as it is. -/
def overlayAt : List Char → Nat → List (Option Char) → List Char
  | [], _, _ => []
  | m :: ms, p + 1, cells => m :: overlayAt ms p cells
  | m :: ms, 0, [] => m :: ms
  | m :: ms, 0, c :: cs => c.getD m :: overlayAt ms 0 cs

/-- What one piece leaves at the positions it is counted for: its characters when it is
shorter than its size limit; otherwise the first `size - 1` of them, a NUL, and nothing
at the remaining positions. -/
def Piece.cells (p : Piece) : List (Option Char) :=
  if p.text.length < p.size then p.text.map some
  else (p.text.take (p.size - 1)).map some ++ some NUL :: List.replicate (p.text.length - p.size) none

/-- What the pieces leave at the positions that are counted for them. -/
def Piece.cellsOf (ps : List Piece) : List (Option Char) := ps.flatMap Piece.cells

/-- What is stored right after the last piece: its terminating NUL when it is shorter
than its size limit; `t` when there is no piece. -/
def Piece.term (t : List (Option Char)) (ps : List Piece) : List (Option Char) :=
  match ps.getLast? with
  | none => t
  | some q => if q.text.length < q.size then [some NUL] else []

/-- A print routine returns the same count without an array (size pass) and with one
(fill pass), and the fill pass returns whenever the array has room for the count and a
terminating NUL. -/
def SameCount (f : Option Nat → List Char → Except Fault (Nat × List Char)) : Prop :=
  ∃ n, (∀ mem, f none mem = .ok (n, mem)) ∧
    ∀ p mem, p + n + 1 ≤ mem.length →
      ∃ mem', f (some p) mem = .ok (n, mem') ∧ mem'.length = mem.length

/-- The C string that cells stored at the start of an array make: the characters before
the first NUL. -/
def visible : List (Option Char) → List Char
  | some c :: rest => if c = NUL then [] else c :: visible rest
  | _ => []

/-- The cells hold a NUL that no untouched byte precedes. -/
def Closed : List (Option Char) → Prop
  | some c :: rest => c = NUL ∨ Closed rest
  | _ => False

/-! ## The print routine for a list of ids -/

/-- The characteristic that is read for the id `(aid, iid)`: the one `find` returns,
when it has the PR permission. -/
def Span.readable (s : Span) (x : Nat × Int) : Option SpanCharacteristic :=
  match s.find x.1 x.2 with
  | none => none
  | some r =>
    match s.getChar r with
    | some c => if hasBit c.perms PR = true then some c else none
    | none => none

/-- The status of the id `(aid, iid)` in a read: UnknownResource if `find` fails,
WriteOnly if the characteristic lacks PR, OK otherwise. -/
def Span.readStatus (s : Span) (x : Nat × Int) : StatusCode :=
  match s.find x.1 x.2 with
  | none => .UnknownResource
  | some r =>
    match s.getChar r with
    | some c => if hasBit c.perms PR = true then .OK else .WriteOnly
    | none => .UnknownResource

/-- Lists joined with `sep` between two of them. -/
def joinWith {α : Type} (sep : List α) : List (List α) → List α
  | [] => []
  | [x] => x
  | x :: y :: rest => x ++ sep ++ joinWith sep (y :: rest)

/-- The text `,"status":<code>}` that takes the place of a closing brace. -/
def statusText (st : StatusCode) : List Char :=
  ",\"status\":".toList ++ fmtD st.code ++ ['}']

/-- What is stored for one id `(aid, iid)` of a request; `anyError` tells whether some
id of the request has a status other than OK. A readable characteristic is stored as its
own print routine stores it, with `,"status":0}` in place of the last character when
`anyError` holds; a failed id is stored as `{"iid":<iid>,"aid":<aid>,"status":<code>}`. -/
def idCells (s : Span) (io : PrintEnv) (flags : Nat) (anyError : Bool) (x : Nat × Int) :
    List (Option Char) :=
  match s.readable x with
  | some c =>
    if anyError then
      (Piece.cellsOf (c.pieces io flags)).dropLast ++ (statusText .OK).map some
    else Piece.cellsOf (c.pieces io flags)
  | none =>
    ("\x7b\"iid\":".toList ++ fmtD x.2 ++ ",\"aid\":".toList ++ fmtU x.1 ++
      statusText (s.readStatus x)).map some

/-- Whether some id of the request has a status other than OK. -/
def Span.anyError (s : Span) (pairs : List (Nat × Int)) : Bool :=
  pairs.any (fun x => s.readStatus x != .OK)

/-- What `sprintfAttributes(ids, ...)` stores for the ids `pairs`: the objects of the
ids, separated by commas, between `{"characteristics":[` and `]}`. -/
def idsCells (s : Span) (io : PrintEnv) (flags : Nat) (pairs : List (Nat × Int)) :
    List (Option Char) :=
  "\x7b\"characteristics\":[".toList.map some ++
    joinWith [some ','] (pairs.map (idCells s io flags (s.anyError pairs))) ++
    "]\x7d".toList.map some

/-- The text of the id `(aid, iid)` in a request: `aid.iid`. -/
def idText (x : Nat × Int) : List Char := fmtU x.1 ++ '.' :: fmtD x.2

/-- The state of a print routine that has counted the cells `a` and stored them, with
`t` stored right after them; without an array there is only the count. -/
def Out.stored (cBuf : Option Nat) (mem : List Char) (a t : List (Option Char)) : Out :=
  match cBuf with
  | none => ⟨mem, a.length⟩
  | some p => ⟨overlayAt mem p (a ++ t), a.length⟩

/-- The array has room for `k` characters and a NUL from the offset of `cBuf` on. -/
def Room (cBuf : Option Nat) (mem : List Char) (k : Nat) : Prop :=
  ∀ p, cBuf = some p → p + k + 1 ≤ mem.length

/-- The ids `1.6`, `1.2`, `3.7` and `1.99` of `sampleIds` as pairs. -/
def samplePairs : List (Nat × Int) := [(1, 6), (1, 2), (3, 7), (1, 99)]

/-! ## Notions for the statements about validation -/

/-- The accessory has a service of type `t`. -/
def SpanAccessory.hasType (acc : SpanAccessory) (t : String) : Bool :=
  acc.Services.any (fun sv => sv.type == t)

/-- The accessory contains no service whose type is other than `3E` or `A2`. -/
def SpanAccessory.plain (acc : SpanAccessory) : Bool :=
  acc.Services.all (fun sv => sv.type == "3E" || sv.type == "A2")

/-- An accessory with an AccessoryInformation service only. -/
def infoOnlyAcc (aid : Int) : SpanAccessory :=
  { aid := aid, iidCount := 1,
    Services := [{ iid := 1, type := "3E", hapName := "AccessoryInformation", hidden := false,
                   primary := false, Characteristics := [], req := [], opt := [] }] }

/-- What holds for the 3E services of an accessory declared without fatal error. -/
def InfoFirst (acc : SpanAccessory) : Prop :=
  ∀ sv ∈ acc.Services, sv.type = "3E" → sv.iid = 1

/-- What holds for the characteristics of the services of an accessory declared without
fatal error: each type is the id of an entry of `req` or `opt` of its service, and no
two characteristics of a service have the same type. -/
def TypesOK (acc : SpanAccessory) : Prop :=
  ∀ sv ∈ acc.Services,
    (∀ c ∈ sv.Characteristics, ∃ h ∈ sv.req ++ sv.opt, h.id = c.type) ∧
      (sv.Characteristics.map (fun c => c.type)).Nodup

/-- Declarations with a second AccessoryInformation service, which gets iid 3. -/
def lateInfoDecls : List Decl :=
  [ .accessory 0,
    .service "3E" "AccessoryInformation" [⟨"14", "Identify"⟩] [⟨"23", "Name"⟩],
    .characteristic "14" PW "Identify" (.BOOL false) sampleJunk,
    .service "3E" "AccessoryInformation" [⟨"14", "Identify"⟩] [⟨"23", "Name"⟩] ]

/-- Two states of an accessory with the same aid and the same service types. -/
def SameTypes (x y : SpanAccessory) : Prop :=
  y.aid = x.aid ∧ y.Services.map (fun sv => sv.type) = x.Services.map (fun sv => sv.type)

/-- What `isBridge` records while the declarations are made: whether every accessory
that has been validated (all but the last one) and has aid 1 is plain. -/
def BridgeInv (s : Span) : Prop :=
  s.isBridge = true ↔
    ∀ (i : Nat) (acc : SpanAccessory), s.Accessories[i]? = some acc →
      i + 1 < s.Accessories.length → acc.aid = 1 → acc.plain = true

/-- A bridge: the first accessory has the two information services only, the second
one is a light bulb without an `A2` service. -/
def bridgeDecls : List Decl :=
  [ .accessory 0,
    .service "3E" "AccessoryInformation" [⟨"14", "Identify"⟩] [⟨"23", "Name"⟩],
    .characteristic "14" PW "Identify" (.BOOL false) sampleJunk,
    .service "A2" "HAPProtocolInformation" [⟨"37", "Version"⟩] [],
    .characteristic "37" PR "Version" (.STRING 4096) sampleJunk,
    .accessory 0,
    .service "3E" "AccessoryInformation" [⟨"14", "Identify"⟩] [⟨"23", "Name"⟩],
    .characteristic "14" PW "Identify" (.BOOL false) sampleJunk,
    .service "43" "LightBulb" [⟨"25", "On"⟩] [⟨"8", "Brightness"⟩, ⟨"23", "Name"⟩],
    .characteristic "25" (PR + PW + EV) "On" (.BOOL false) sampleJunk ]

/-! ## Connection slots

The array `hap` is held as the list of its `client` members: entry `i` is the client
connected in slot `i` (clients are told apart by a number), and `none` when
`!hap[i]->client`. -/

/-- The loop of `Span::getFreeSlot` from index `i` on, with `n` rounds to go. -/
def getFreeSlotLoop (hap : List (Option Nat)) : Nat → Nat → Except Fault Int
  | 0, _ => .ok (-1)
  | n + 1, i =>
    match hap[i]? with
    | none => .error .outOfBounds
    | some none => .ok (i : Int)
    | some (some _) => getFreeSlotLoop hap n (i + 1)

/-- `Span::getFreeSlot()`. -/
def Span.getFreeSlot (s : Span) (hap : List (Option Nat)) : Except Fault Int :=
  getFreeSlotLoop hap s.maxConnections 0

/-- The assignment `ev[slotNum]=false` of `Span::clearNotify`. A store outside the array
is not modelled: the statements about it take `slotNum` inside the array. -/
def SpanCharacteristic.clearEv (c : SpanCharacteristic) (slotNum : Nat) : SpanCharacteristic :=
  { c with ev := c.ev.set slotNum false }

/-- `Span::clearNotify(slotNum)`: the three nested loops over accessories, services and
characteristics. -/
def Span.clearNotify (s : Span) (slotNum : Nat) : Span :=
  s.withAccessories
    (s.Accessories.map (fun acc =>
      { acc with
        Services := acc.Services.map (fun sv =>
          { sv with Characteristics := sv.Characteristics.map (fun c => c.clearEv slotNum) }) }))

/-- The part of the device that `poll` and the `U` command work on: the database and
the connection slots. Two history variables record what has happened: `assigned` lists
the slots that `poll` has given to a new client (the numbers it logs as
`** Client #n Connected`), and `stopped` the clients on which `stop()` was called. -/
structure Server where
  span : Span
  hap : List (Option Nat)
  assigned : List Nat
  stopped : List Nat
deriving DecidableEq, Repr

/-- The device after `begin()`: `maxConnections` slots without a client. -/
def Server.boot (s : Span) : Server :=
  { span := s, hap := List.replicate s.maxConnections none, assigned := [], stopped := [] }

/-- The call `hap[i]->client.stop()`. -/
def Server.stop (sv : Server) (i : Nat) : Except Fault Server :=
  match sv.hap[i]? with
  | none => .error .outOfBounds
  | some none => .ok sv
  | some (some k) => .ok { sv with hap := sv.hap.set i none, stopped := sv.stopped ++ [k] }

/-- The block of `Span::poll` that takes in the new client `newClient`; `rnd` is what
`randombytes_uniform(maxConnections)` returns when it is called. -/
def Server.accept (sv : Server) (newClient rnd : Nat) : Except Fault Server := do
  let free ← sv.span.getFreeSlot sv.hap
  let (freeSlot, sv1) ←
    if free = -1 then do
      let sv1 ← sv.stop rnd
      pure (rnd, sv1)
    else pure (free.toNat, sv)
  if freeSlot < sv1.hap.length then
    pure { sv1 with
      hap := sv1.hap.set freeSlot (some newClient)
      span := sv1.span.clearNotify freeSlot
      assigned := sv1.assigned ++ [freeSlot] }
  else .error .outOfBounds

/-- The loop of the `U` command of `processSerialCommand`, which stops every connected
client. -/
def Server.unpair (sv : Server) : Except Fault Server :=
  forLoop 0 sv.span.maxConnections (fun i st => st.stop i) sv

/-- A request of the client in slot `i` that reaches `loadUpdate(val, ev)` of the
characteristic at `r`: `poll` handles the requests of connected slots only, with
`HAPClient::conNum` set to the slot. -/
def Server.load (sv : Server) (env : Env) (i : Nat) (r : CharRef) (val ev : Option String) :
    Server :=
  match sv.hap[i]? with
  | some (some _) =>
    { sv with
      span := sv.span.modifyChar r
        (fun c => (c.loadUpdate { env with conNum := i } sv.span.snapTime val ev).2) }
  | _ => sv

/-- The connection in slot `i` ends: the peer closes it, or the request handler stops
the client. -/
def Server.drop (sv : Server) (i : Nat) : Server :=
  { sv with hap := sv.hap.set i none }

/-- What happens to the slots and the flags while the device runs. -/
inductive Event where
  | accept (newClient rnd : Nat)
  | load (env : Env) (i : Nat) (r : CharRef) (val ev : Option String)
  | drop (i : Nat)
  | unpair

/-- One event. -/
def Server.step (sv : Server) : Event → Except Fault Server
  | .accept newClient rnd => sv.accept newClient rnd
  | .load env i r val ev => .ok (sv.load env i r val ev)
  | .drop i => .ok (sv.drop i)
  | .unpair => sv.unpair

/-- A sequence of events. -/
def Server.run (sv : Server) (evs : List Event) : Except Fault Server :=
  evs.foldlM Server.step sv

/-- No characteristic has a flag set for slot `i`. -/
def Span.noFlag (s : Span) (i : Nat) : Prop :=
  ∀ r c, s.getChar r = some c → c.ev[i]? ≠ some true

/-- A client connects, subscribes to `On` (aid 1, iid 6) and the pairing is removed. -/
def subscribeThenUnpair : List Event :=
  [.accept 100 0, .load sampleEnv 0 ⟨0, 2, 0⟩ none (some "1"), .unpair]

/-- The value `rnd` of an accept event is one that `randombytes_uniform(n)` can return. -/
def Event.rndBelow (n : Nat) : Event → Bool
  | .accept _ rnd => decide (rnd < n)
  | _ => true

/-- What holds in every state the events lead to: there are `n` slots, and a slot that
`poll` has never assigned has no client and no flag. -/
structure ServerInv (n : Nat) (st : Server) : Prop where
  len : st.hap.length = n
  maxc : st.span.maxConnections = n
  idle : ∀ i, i ∉ st.assigned → ∀ k, st.hap[i]? ≠ some (some k)
  clear : ∀ i, i ∉ st.assigned → st.span.noFlag i

/-- Every characteristic of the accessory has `mc` flags, none of them set: the state
in which `calloc` leaves the array `ev`. -/
def EvFresh (mc : Nat) (acc : SpanAccessory) : Prop :=
  ∀ sv ∈ acc.Services, ∀ c ∈ sv.Characteristics, c.ev = List.replicate mc false

/-! ## `Span::sprintfNotify` -/

/-- The locals `notifyFlag` and `nChars` (with the array) of `sprintfNotify`. -/
structure NotifyState where
  notifyFlag : Bool
  out : Out
deriving DecidableEq, Repr

/-- Body of the loop of `Span::sprintfNotify` for object `i`. -/
def notifyStep (s : Span) (io : PrintEnv) (pObj : List SpanBuf) (conNum : Nat)
    (cBuf : Option Nat) (i : Nat) (st : NotifyState) : Except Fault NotifyState :=
  match pObj[i]? with
  | none => .error .outOfBounds
  | some o =>
    if o.status == .OK && o.val.isSome then
      match o.characteristic with
      | none => .error .nullCharacteristic
      | some r =>
        match s.getChar r with
        | none => .error .nullCharacteristic
        | some c =>
          match c.ev[conNum]? with
          | none => .error .outOfBounds
          | some false => .ok st
          | some true => do
            let o1 ← if st.notifyFlag then st.out.print cBuf 64 [','] else pure st.out
            let o2 ← o1.call cBuf (c.sprintfAttributes io (GET_AID + GET_NV))
            pure { notifyFlag := true, out := o2 }
    else .ok st

/-- `Span::sprintfNotify(pObj, nObj, cBuf, conNum)`: the value returned and the array
after the call. -/
def Span.sprintfNotify (s : Span) (io : PrintEnv) (pObj : List SpanBuf) (nObj : Nat)
    (conNum : Nat) (cBuf : Option Nat) (mem : List Char) : Except Fault (Nat × List Char) := do
  let o : Out := { mem := mem, nBytes := 0 }
  let o ← o.print cBuf 64 "\x7b\"characteristics\":[".toList
  let st ← forLoop 0 nObj (notifyStep s io pObj conNum cBuf) { notifyFlag := false, out := o }
  let o ← st.out.print cBuf 64 "]\x7d".toList
  pure (if st.notifyFlag then o.nBytes else 0, o.mem)

/-- The characteristic that a notification to connection `conNum` lists for the object
`o`: the object has status OK and a value, and the flag `ev[conNum]` of its
characteristic is set. -/
def notifySel (s : Span) (conNum : Nat) (o : SpanBuf) : Option SpanCharacteristic :=
  if o.status == .OK && o.val.isSome then
    match o.characteristic with
    | none => none
    | some r =>
      match s.getChar r with
      | none => none
      | some c => if c.ev[conNum]? = some true then some c else none
  else none

/-- The characteristics that a notification to connection `conNum` lists, in the order
of the objects. -/
def notifyChars (s : Span) (conNum : Nat) (pObj : List SpanBuf) : List SpanCharacteristic :=
  pObj.filterMap (notifySel s conNum)

/-- The text that the pieces of a characteristic spell when none is cut. -/
def SpanCharacteristic.text (c : SpanCharacteristic) (io : PrintEnv) (flags : Nat) : List Char :=
  (c.pieces io flags).flatMap (fun q => q.text)

/-- The body of a notification to connection `conNum`: the listed characteristics with
the flags `GET_AID` and `GET_NV`, separated by commas. -/
def notifyBody (s : Span) (io : PrintEnv) (conNum : Nat) (pObj : List SpanBuf) : List Char :=
  "\x7b\"characteristics\":[".toList ++
    joinWith [','] ((notifyChars s conNum pObj).map (fun c => c.text io (GET_AID + GET_NV))) ++
    "]\x7d".toList

/-- Lists joined with `sep` before each of them, except before the first one when
nothing has been written yet. -/
def joinFrom {α : Type} (sep : List α) : Bool → List (List α) → List α
  | _, [] => []
  | started, x :: rest => (if started then sep ++ x else x) ++ joinFrom sep true rest

/-- Objects of a notification: `On` was written (request with a value, status OK),
`Brightness` was written, and an unknown characteristic. -/
def notifyObjs : List SpanBuf :=
  [ { aid := 1, iid := 6, val := some "1", ev := none, status := .OK,
      characteristic := some ⟨0, 2, 0⟩ },
    { aid := 1, iid := 7, val := some "80", ev := none, status := .OK,
      characteristic := some ⟨0, 2, 1⟩ },
    { aid := 1, iid := 99, val := some "1", ev := none, status := .UnknownResource,
      characteristic := none } ]

/-- The database `sampleDb` after connection 0 has asked for notifications of `On` and
`Brightness`, and connection 1 for those of `Brightness`. -/
def subscribedDb : Span :=
  ((sampleDb.modifyChar ⟨0, 2, 0⟩ (fun c => { c with ev := c.ev.set 0 true })).modifyChar
    ⟨0, 2, 1⟩ (fun c => { c with ev := (c.ev.set 0 true).set 1 true }))

/-! ## Samples for the error paths of `loadUpdate` and of the parser -/

/-- A sensor reading: a characteristic with the permissions PR and EV only. -/
def sampleSensor : SpanCharacteristic :=
  { iid := 9, type := "11", hapName := "CurrentTemperature", value := 20, perms := PR + EV,
    format := .INT, desc := none, range := none, ev := List.replicate 8 false, aid := 1,
    isUpdated := false, updateTime := 7, newValue := 43690 }

/-- Body `{"characteristics":[{"aid":1,"iid":6,"value":1},{"iid":5}]}`: a complete object
followed by one that has an iid only. -/
def writeThenIidOnly : List Char :=
  "\x7b\"characteristics\":[\x7b\"aid\":1,\"iid\":6,\"value\":1\x7d,\x7b\"iid\":5\x7d]\x7d".toList

/-- What the call leaves behind for `writeThenIidOnly` on `sampleDb` with two objects. -/
def writeThenIidOnlyResult : UpdateResult :=
  { ret := 0, nObj := 0,
    pObj := [ { aid := 1, iid := 6, val := some "1", ev := none, status := .OK,
                characteristic := none },
              { aid := 0, iid := 5, val := none, ev := none, status := .OK,
                characteristic := none } ],
    span := sampleDb, calls := [] }

/-! ## `Span::countCharacteristics` -/

/-- Whether the string `s` begins with the string `t`. -/
def beginsWith : List Char → List Char → Bool
  | _, [] => true
  | [], _ :: _ => false
  | c :: cs, d :: ds => c == d && beginsWith cs ds

/-- `strstr(hay, needle)`: the part of `hay` from the first occurrence of `needle` on;
`none` is `NULL`. -/
def strstr (hay needle : List Char) : Option (List Char) :=
  match hay with
  | [] => if needle.isEmpty then some [] else none
  | c :: cs => if beginsWith (c :: cs) needle then some (c :: cs) else strstr cs needle

/-- The `while` loop of `countCharacteristics` for the tag `tag`, with `fuel` rounds at
most: `buf=strstr(buf,tag)`, then `nObj++` and `buf+=strlen(tag)`. -/
def countLoop (tag : List Char) : Nat → List Char → Nat → Nat
  | 0, _, nObj => nObj
  | fuel + 1, buf, nObj =>
    match strstr buf tag with
    | none => nObj
    | some b => countLoop tag fuel (b.drop tag.length) (nObj + 1)

/-- `Span::countCharacteristics(buf)`: the number of times the loop finds the tag
`"aid"` (five characters, with the quotes). Every round moves `buf` forward, so
`buf.length + 1` rounds are enough (`countLoop_fuel`). -/
def Span.countCharacteristics (buf : List Char) : Nat :=
  countLoop "\"aid\"".toList (buf.length + 1) buf 0

/-! ## Sample requests for the parser -/

/-- Body `{"characteristics":[{"aid":1,"iid":6,"value":1},{aid:1,"iid":7,"value":30}]}`:
the second object has its `aid` without quotes. -/
def unquotedAid : List Char :=
  "\x7b\"characteristics\":[\x7b\"aid\":1,\"iid\":6,\"value\":1\x7d,\x7baid:1,\"iid\":7,\"value\":30\x7d]\x7d".toList

/-- Body `{"characteristics":[{"aid":1,"iid":6,"value":1},{"aid":1,"iid":7,"ev":true}]}`:
a write to `On` and a subscription to `Brightness` of the same service. -/
def writeThenSubscribe : List Char :=
  "\x7b\"characteristics\":[\x7b\"aid\":1,\"iid\":6,\"value\":1\x7d,\x7b\"aid\":1,\"iid\":7,\"ev\":true\x7d]\x7d".toList

/-- Body `{"characteristics":[{"aid":1,"iid":6,"value":1},{"aid":1,"iid":7,"value":x}]}`:
a write to `On` and a write to `Brightness` with a text that is no number. -/
def writeThenInvalid : List Char :=
  "\x7b\"characteristics\":[\x7b\"aid\":1,\"iid\":6,\"value\":1\x7d,\x7b\"aid\":1,\"iid\":7,\"value\":x\x7d]\x7d".toList

/-- Body `{"characteristics":[{"aid":1,"iid":6,"value":1},{"aid":1,"iid":7,"ev":1},
{"aid":9,"iid":1,"value":0,"ev":0}]}` (on one line): three objects, with a value, with
`ev`, and with both; the accessory 9 of the last one does not exist. -/
def threeComplete : List Char :=
  "\x7b\"characteristics\":[\x7b\"aid\":1,\"iid\":6,\"value\":1\x7d,\x7b\"aid\":1,\"iid\":7,\"ev\":1\x7d,\x7b\"aid\":9,\"iid\":1,\"value\":0,\"ev\":0\x7d]\x7d".toList

/-- What the parser makes of `threeComplete`. -/
def threeCompleteParsed : PState :=
  { nObj := 3, cFound := true, twFail := false,
    pObj := [ { aid := 1, iid := 6, val := some "1", ev := none, status := .OK,
                characteristic := none },
              { aid := 1, iid := 7, val := none, ev := some "1", status := .OK,
                characteristic := none },
              { aid := 9, iid := 1, val := some "0", ev := some "0", status := .OK,
                characteristic := none } ] }

/-- Body `{"characteristics":[{},{"aid":1,"iid":6,"value":1}]}`: an object without any
property, then a write to `On`. -/
def emptyThenWrite : List Char :=
  "\x7b\"characteristics\":[\x7b\x7d,\x7b\"aid\":1,\"iid\":6,\"value\":1\x7d]\x7d".toList

/-! ## Requests without a timed-write PID -/

/-- Whether some object of the body has a token `pid`. -/
def hasPid (buf : List Char) : Bool :=
  (tokens ['{'] buf).any (fun seg => (tokens propDelims seg).contains "pid".toList)

/-- Body `{"characteristics":[{"aid":1,"iid":7,"value":75}]}`: one write to
`Brightness`. -/
def oneWrite : List Char :=
  "\x7b\"characteristics\":[\x7b\"aid\":1,\"iid\":7,\"value\":75\x7d]\x7d".toList

/-- What the parser makes of `oneWrite`. -/
def oneWriteParsed : PState :=
  { nObj := 1, cFound := true, twFail := false,
    pObj := [ { aid := 1, iid := 7, val := some "75", ev := none, status := .OK,
                characteristic := none } ] }

/-- Collaborators of a later call on another connection: time 9000 ms, connection 3. -/
def laterEnv : Env :=
  { millis := 9000, conNum := 3, scanLg := fun _ => .nomatch, update := fun _ _ => true }

/-! ## `SpanCharacteristic::getValue` and `setVal` -/

/-- `getValue<T>(v)`: the member of the union `v` that the format selects, converted to
`T`. `castT` is the conversion `(T)` of an integer and `dblT` the conversion `(T)` of a
double, given by its bits; for STRING the function prints an error and returns 0. -/
def SpanCharacteristic.getValue (c : SpanCharacteristic) (castT : Int → Int)
    (dblT : Nat → Int) (v : Nat) : Int :=
  match c.format with
  | .BOOL => castT (if UVal.getBOOL v then 1 else 0)
  | .INT => castT (UVal.getINT v)
  | .UINT8 => castT (UVal.getUINT8 v)
  | .UINT16 => castT (UVal.getUINT16 v)
  | .UINT32 => castT (UVal.getUINT32 v)
  | .UINT64 => castT (UVal.getUINT64 v)
  | .FLOAT => dblT (UVal.getFLOAT v)
  | .STRING => castT 0

/-- `getVal<T>()`. -/
def SpanCharacteristic.getVal (c : SpanCharacteristic) (castT : Int → Int)
    (dblT : Nat → Int) : Int :=
  c.getValue castT dblT c.value

/-- `getNewVal<T>()`. -/
def SpanCharacteristic.getNewVal (c : SpanCharacteristic) (castT : Int → Int)
    (dblT : Nat → Int) : Int :=
  c.getValue castT dblT c.newValue

/-- The assignments of `setVal(int val)` to the characteristic itself: the `switch` on
the format, which has no case for FLOAT and STRING, and `updateTime=homeSpan.snapTime`.
`boolean` is `bool`, so `(boolean)val` is `val != 0`; the case UINT8 stores `newValue`
through the member `INT`. -/
def SpanCharacteristic.setVal (c : SpanCharacteristic) (val : Int) (snapTime : Nat) :
    SpanCharacteristic :=
  let c1 : SpanCharacteristic :=
    match c.format with
    | .BOOL =>
      { c with
        value := UVal.setBOOL c.value (val != 0)
        newValue := UVal.setBOOL c.newValue (val != 0) }
    | .INT => { c with value := UVal.setINT c.value val, newValue := UVal.setINT c.newValue val }
    | .UINT8 =>
      { c with
        value := UVal.setUINT8 c.value (val % 256).toNat
        newValue := UVal.setINT c.newValue val }
    | .UINT16 =>
      { c with
        value := UVal.setUINT16 c.value (val % 65536).toNat
        newValue := UVal.setUINT16 c.newValue (val % 65536).toNat }
    | .UINT32 =>
      { c with
        value := UVal.setUINT32 c.value (toU32 val)
        newValue := UVal.setUINT32 c.newValue (toU32 val) }
    | .UINT64 =>
      { c with
        value := UVal.setUINT64 c.value (val % 18446744073709551616).toNat
        newValue := UVal.setUINT64 c.newValue (val % 18446744073709551616).toNat }
    | .FLOAT => c
    | .STRING => c
  { c1 with updateTime := snapTime }

/-- The `SpanBuf` that `setVal` pushes for the characteristic at `r`: the member
initialisers of `SpanBuf`, the characteristic, the status OK and the dummy text. -/
def setValEntry (r : CharRef) : SpanBuf :=
  { aid := 0, iid := 0, val := some "", ev := none, status := .OK, characteristic := some r }

/-- `setVal(val)` called on the characteristic at `r`, with the `push_back` to
`homeSpan.Notifications`. -/
def Span.setVal (s : Span) (r : CharRef) (val : Int) : Span :=
  let s1 := s.modifyChar r (fun c => c.setVal val s.snapTime)
  { s1 with Notifications := s1.Notifications ++ [setValEntry r] }

/-- An `int` converted to the C type of a format: `bool`, `int`, `uint8_t`, `uint16_t`,
`uint32_t`, `uint64_t` (for FLOAT and STRING, which `setVal(int)` does not handle, the
number itself). -/
def FORMAT.convert : FORMAT → Int → Int
  | .BOOL, v => if v = 0 then 0 else 1
  | .INT, v => v
  | .UINT8, v => v % 256
  | .UINT16, v => v % 65536
  | .UINT32, v => v % 4294967296
  | .UINT64, v => v % 18446744073709551616
  | .FLOAT, v => v
  | .STRING, v => v

/-- Conversion `(int)` of an integer. -/
def castInt (x : Int) : Int := toI32 x

/-- The `UINT8` characteristic of a sample: a battery level. -/
def sampleLevel : SpanCharacteristic :=
  { iid := 9, type := "68", hapName := "BatteryLevel", value := 3735928559, perms := PR + EV,
    format := .UINT8, desc := none, range := none, ev := List.replicate 8 false, aid := 1,
    isUpdated := false, updateTime := 7, newValue := 43690 }

/-! ## The accept block of `poll` with the pairing members -/

/-- Modelled from the spec: the pairing states of HAP.h, which is not among the sources;
the spec names the states M1 to M6 and HomeSpan.cpp assigns `pairState_M1`. -/
inductive PairState where
  | M1 | M2 | M3 | M4 | M5 | M6
deriving DecidableEq, Repr

/-- The device with the two members of `HAPClient` that the accept block of `poll`
assigns besides `client`: `cPair` of every slot (the verified controller, told by a
number, `none` for `NULL`) and the static `pairStatus`. -/
structure Device where
  server : Server
  cPair : List (Option Nat)
  pairStatus : PairState
deriving DecidableEq, Repr

/-- The block of `Span::poll` that takes in the new client `newClient`, with the
assignments `hap[freeSlot]->cPair=NULL` and `HAPClient::pairStatus=pairState_M1`; `rnd`
is what `randombytes_uniform(maxConnections)` returns when it is called. -/
def Device.accept (d : Device) (newClient rnd : Nat) : Except Fault Device := do
  let free ← d.server.span.getFreeSlot d.server.hap
  let (freeSlot, sv1) ←
    if free = -1 then do
      let sv1 ← d.server.stop rnd
      pure (rnd, sv1)
    else pure (free.toNat, d.server)
  if freeSlot < sv1.hap.length then
    pure
      { server :=
          { sv1 with
            hap := sv1.hap.set freeSlot (some newClient)
            span := sv1.span.clearNotify freeSlot
            assigned := sv1.assigned ++ [freeSlot] }
        cPair := d.cPair.set freeSlot none
        pairStatus := .M1 }
  else .error .outOfBounds

/-- A device with eight slots, all connected, the controller 7 verified in slot 2, a
flag of `On` set for slot 2, and a pair-setup left at M3. -/
def busyDevice : Device :=
  { server :=
      { span := sampleDb.modifyChar ⟨0, 2, 0⟩ (fun c => { c with ev := c.ev.set 2 true }),
        hap := [some 1, some 2, some 3, some 4, some 5, some 6, some 7, some 8],
        assigned := [0, 1, 2, 3, 4, 5, 6, 7], stopped := [] },
    cPair := [none, none, some 7, none, none, none, none, none],
    pairStatus := .M3 }

/-! ## The objects of a request, as the parser reads them -/

/-- The token lists of the segments that have a token, for the segments `segs` of a
body. -/
def objsOf (segs : List (List Char)) : List (List (List Char)) :=
  (segs.map (tokens propDelims)).filter (fun l => !l.isEmpty)

/-- The token lists of the segments of a body that have a token: the first is the
segment of the `characteristics` tag, the others are the objects. -/
def objTokens (buf : List Char) : List (List (List Char)) := objsOf (tokens ['{'] buf)

/-- The property names of an object: its tokens at even positions, each followed by the
token of its value (the last one may lack a value). -/
def keysOf : List (List Char) → List (List Char)
  | [] => []
  | [t] => [t]
  | t2 :: _ :: rest => t2 :: keysOf rest

/-- Whether the object has the property `k`. -/
def hasKey (k : String) (toks : List (List Char)) : Bool := (keysOf toks).contains k.toList

/-- Whether the name is one of aid, iid, value, ev, pid. -/
def allowedKey (t : List Char) : Bool :=
  t == "aid".toList || t == "iid".toList || t == "value".toList || t == "ev".toList ||
    t == "pid".toList

/-- Every property name of the object has a value token and is an allowed one. -/
def propsOk (toks : List (List Char)) : Bool :=
  toks.length % 2 == 0 && (keysOf toks).all allowedKey

/-- A complete object: only allowed properties, each with a value; aid and iid are
there, and value or ev. -/
def complete (toks : List (List Char)) : Bool :=
  propsOk toks && hasKey "aid" toks && hasKey "iid" toks &&
    (hasKey "value" toks || hasKey "ev" toks)

/-- The variable `okay` of the parser, from the four properties seen so far. -/
def okayBits (a i v e : Bool) : Nat :=
  (if a then 1 else 0) + (if i then 2 else 0) + (if v then 4 else 0) + (if e then 8 else 0)

/-! # Proofs

## Conversions between `int` and `uint32_t` -/

theorem toI32_range (x : Int) : -2147483648 ≤ toI32 x ∧ toI32 x < 2147483648 := by
  unfold toI32; omega

theorem toU32_inj {x y : Int} (hx : -2147483648 ≤ x ∧ x < 2147483648)
    (hy : -2147483648 ≤ y ∧ y < 2147483648) (h : toU32 x = toU32 y) : x = y := by
  unfold toU32 at h
  have h1 : x % 4294967296 = y % 4294967296 := by
    have := congrArg (fun n : Nat => (n : Int)) h
    simp only at this
    rwa [Int.toNat_of_nonneg (by omega), Int.toNat_of_nonneg (by omega)] at this
  omega

/-! ## Lists and first positions -/

theorem modifyBack_nil {α : Type} (f : α → α) : modifyBack f ([] : List α) = [] := rfl

theorem modifyBack_concat {α : Type} (f : α → α) (l : List α) (x : α) :
    modifyBack f (l ++ [x]) = l ++ [f x] := by
  simp [modifyBack]

theorem list_back_cases {α : Type} (l : List α) :
    (l = [] ∧ l.getLast? = none) ∨ ∃ i x, l = i ++ [x] ∧ l.getLast? = some x := by
  rcases List.eq_nil_or_concat l with h | ⟨i, x, h⟩
  · left; subst h; simp
  · right; refine ⟨i, x, ?_, ?_⟩ <;> simp [h]

theorem firstIdx_none {α : Type} (p : α → Bool) (l : List α)
    (h : ∀ x ∈ l, p x = false) : firstIdx p l = none := by
  induction l with
  | nil => rfl
  | cons x xs ih =>
    simp only [firstIdx, h x (List.mem_cons_self _ _)]
    simp [ih (fun y hy => h y (List.mem_cons_of_mem _ hy))]

theorem firstIdx_some_sound {α : Type} (p : α → Bool) (l : List α) (i : Nat)
    (h : firstIdx p l = some i) : ∃ x, l[i]? = some x ∧ p x = true := by
  induction l generalizing i with
  | nil => simp [firstIdx] at h
  | cons x xs ih =>
    simp only [firstIdx] at h
    by_cases hp : p x = true
    · simp [hp] at h; subst h; exact ⟨x, by simp, hp⟩
    · simp [hp] at h
      obtain ⟨j, hj, rfl⟩ := h
      obtain ⟨y, hy, hpy⟩ := ih j hj
      exact ⟨y, by simpa using hy, hpy⟩

theorem firstIdx_none_sound {α : Type} (p : α → Bool) (l : List α)
    (h : firstIdx p l = none) : ∀ x ∈ l, p x = false := by
  induction l with
  | nil => simp
  | cons x xs ih =>
    simp only [firstIdx] at h
    by_cases hp : p x = true
    · simp [hp] at h
    · simp [hp] at h
      intro y hy
      rcases List.mem_cons.1 hy with rfl | hy
      · simpa using hp
      · exact ih h y hy

theorem firstIdx_unique {α : Type} (p : α → Bool) (l : List α) (i : Nat) (x : α)
    (hx : l[i]? = some x) (hp : p x = true)
    (hu : ∀ j y, j < i → l[j]? = some y → p y = false) : firstIdx p l = some i := by
  induction l generalizing i with
  | nil => simp at hx
  | cons a as ih =>
    cases i with
    | zero =>
      simp at hx; subst hx
      simp [firstIdx, hp]
    | succ k =>
      have ha : p a = false := hu 0 a (Nat.succ_pos k) (by simp)
      simp only [firstIdx, ha]
      have := ih k (by simpa using hx) (fun j y hj hy => hu (j + 1) y (by omega) (by simpa using hy))
      simp [this]


/-! ## `Span::find` on a database that satisfies `DbOK` -/

theorem firstIdx_of_nodup_map {α β : Type} [DecidableEq β] (g : α → β) (l : List α)
    (hn : (l.map g).Nodup) (k : Nat) (c : α) (hc : l[k]? = some c) :
    firstIdx (fun x => g c == g x) l = some k := by
  apply firstIdx_unique _ l k c hc (by simp)
  intro j y hj hy
  have hk : k < l.length := (List.getElem?_eq_some.1 hc).1
  have hne := (List.nodup_iff_getElem?_ne_getElem?.1 hn) j k hj (by simpa using hk)
  simp only [List.getElem?_map, hy, hc, Option.map_some'] at hne
  simp only [beq_eq_false_iff_ne, ne_eq]
  intro h
  exact hne (by rw [h])

theorem findInServices_sound (iid : Int) (svcs : List SpanService) (j k : Nat)
    (h : findInServices iid svcs = some (j, k)) :
    ∃ sv c, svcs[j]? = some sv ∧ sv.Characteristics[k]? = some c ∧ c.iid = iid := by
  induction svcs generalizing j with
  | nil => simp [findInServices] at h
  | cons sv rest ih =>
    simp only [findInServices] at h
    cases hf : firstIdx (fun c => iid == c.iid) sv.Characteristics with
    | some i =>
      rw [hf] at h
      simp only [Option.some.injEq, Prod.mk.injEq] at h
      obtain ⟨rfl, rfl⟩ := h
      obtain ⟨c, hc, hp⟩ := firstIdx_some_sound _ _ _ hf
      exact ⟨sv, c, by simp, hc, by simpa using (eq_of_beq hp).symm⟩
    | none =>
      rw [hf] at h
      simp only [Option.map_eq_some'] at h
      obtain ⟨⟨j', k'⟩, hr, hjk⟩ := h
      simp only [Prod.mk.injEq] at hjk
      obtain ⟨rfl, rfl⟩ := hjk
      obtain ⟨sv', c, h1, h2, h3⟩ := ih j' hr
      exact ⟨sv', c, by simpa using h1, h2, h3⟩

theorem findInServices_none_sound (iid : Int) (svcs : List SpanService)
    (h : findInServices iid svcs = none) :
    ∀ sv ∈ svcs, ∀ c ∈ sv.Characteristics, c.iid ≠ iid := by
  induction svcs with
  | nil => simp
  | cons sv rest ih =>
    simp only [findInServices] at h
    cases hf : firstIdx (fun c => iid == c.iid) sv.Characteristics with
    | some i => rw [hf] at h; simp at h
    | none =>
      rw [hf] at h
      simp only [Option.map_eq_none'] at h
      intro sv' hsv' c hc
      rcases List.mem_cons.1 hsv' with rfl | hmem
      · have := firstIdx_none_sound _ _ hf c hc
        simp only [beq_eq_false_iff_ne, ne_eq] at this
        exact fun e => this e.symm
      · exact ih h sv' hmem c hc

theorem findInServices_of_nodup (svcs : List SpanService) (j k : Nat) (sv : SpanService)
    (c : SpanCharacteristic)
    (hn : (svcs.flatMap (fun sv => sv.Characteristics.map (fun c => c.iid))).Nodup)
    (hsv : svcs[j]? = some sv) (hc : sv.Characteristics[k]? = some c) :
    findInServices c.iid svcs = some (j, k) := by
  induction svcs generalizing j with
  | nil => simp at hsv
  | cons h rest ih =>
    simp only [List.flatMap_cons, List.nodup_append] at hn
    obtain ⟨hn1, hn2, hdis⟩ := hn
    cases j with
    | zero =>
      simp at hsv; subst hsv
      simp only [findInServices]
      rw [firstIdx_of_nodup_map (fun c : SpanCharacteristic => c.iid) _ hn1 k c hc]
    | succ j' =>
      simp only [List.getElem?_cons_succ] at hsv
      have hmem : c.iid ∈ rest.flatMap (fun sv => sv.Characteristics.map (fun c => c.iid)) := by
        simp only [List.mem_flatMap, List.mem_map]
        exact ⟨sv, List.getElem?_mem hsv, c, List.getElem?_mem hc, rfl⟩
      have hnot : ∀ x ∈ h.Characteristics, (c.iid == x.iid) = false := by
        intro x hx
        simp only [beq_eq_false_iff_ne, ne_eq]
        intro e
        exact hdis (List.mem_map.2 ⟨x, hx, rfl⟩) (e ▸ hmem)
      simp only [findInServices, firstIdx_none _ _ hnot, ih j' hn2 hsv]
      rfl


theorem getChar_some (s : Span) (r : CharRef) (c : SpanCharacteristic)
    (h : s.getChar r = some c) :
    ∃ acc sv, s.Accessories[r.a]? = some acc ∧ acc.Services[r.s]? = some sv ∧
      sv.Characteristics[r.c]? = some c := by
  unfold Span.getChar Span.getService CharRef.service at h
  simp only at h
  cases ha : s.Accessories[r.a]? with
  | none => simp [ha] at h
  | some acc =>
    simp only [ha] at h
    cases hs : acc.Services[r.s]? with
    | none => simp [hs] at h
    | some sv =>
      simp only [hs] at h
      exact ⟨acc, sv, rfl, hs, h⟩

theorem getChar_of_some (s : Span) (r : CharRef) (acc : SpanAccessory) (sv : SpanService)
    (ha : s.Accessories[r.a]? = some acc) (hs : acc.Services[r.s]? = some sv) :
    s.getChar r = sv.Characteristics[r.c]? := by
  unfold Span.getChar Span.getService CharRef.service
  simp [ha, hs]

/-- On a database that satisfies `DbOK` and records no fatal error, `find` returns
the pointer of every characteristic when given its aid and iid. -/
theorem find_of_getChar (s : Span) (hok : DbOK s) (h0 : s.nFatalErrors = 0) (r : CharRef)
    (c : SpanCharacteristic) (hc : s.getChar r = some c) :
    s.find (toU32 c.aid) c.iid = some r := by
  obtain ⟨acc, sv, ha, hs, hch⟩ := getChar_some s r c hc
  have hacc := hok.accs acc (List.getElem?_mem ha)
  have haid : c.aid = acc.aid :=
    hacc.charAid sv (List.getElem?_mem hs) c (List.getElem?_mem hch)
  have hnd := hok.aidNodup h0
  have hfirst : firstIdx (fun a => toU32 a.aid == toU32 c.aid) s.Accessories = some r.a := by
    apply firstIdx_unique _ _ r.a acc ha (by simp [haid])
    intro j y hj hy
    have hk : r.a < s.Accessories.length := (List.getElem?_eq_some.1 ha).1
    have hne := (List.nodup_iff_getElem?_ne_getElem?.1 hnd) j r.a hj (by simpa using hk)
    simp only [List.getElem?_map, hy, ha, Option.map_some'] at hne
    simp only [beq_eq_false_iff_ne, ne_eq]
    intro e
    have hy' := hok.accs y (List.getElem?_mem hy)
    rw [haid] at e
    exact hne (by rw [toU32_inj hy'.aidRange hacc.aidRange e])
  unfold Span.find
  simp only [hfirst, ha]
  rw [findInServices_of_nodup acc.Services r.s r.c sv c hacc.iidNodup hs hch]
  rfl

/-- Whatever `find` returns is a characteristic of the database with the iid asked
for, in an accessory with the aid asked for. -/
theorem find_sound (s : Span) (aid : Nat) (iid : Int) (r : CharRef)
    (h : s.find aid iid = some r) :
    ∃ acc c, s.Accessories[r.a]? = some acc ∧ toU32 acc.aid = aid ∧
      s.getChar r = some c ∧ c.iid = iid := by
  unfold Span.find at h
  cases hf : firstIdx (fun a => toU32 a.aid == aid) s.Accessories with
  | none => simp [hf] at h
  | some index =>
    simp only [hf] at h
    obtain ⟨acc, hacc, hp⟩ := firstIdx_some_sound _ _ _ hf
    simp only [hacc, Option.map_eq_some'] at h
    obtain ⟨⟨j, k⟩, hfs, rfl⟩ := h
    obtain ⟨sv, c, h1, h2, h3⟩ := findInServices_sound _ _ _ _ hfs
    refine ⟨acc, c, hacc, by simpa using hp, ?_, h3⟩
    rw [getChar_of_some s ⟨index, j, k⟩ acc sv hacc h1]
    exact h2


/-! ## The constructors maintain `DbOK` -/

@[simp] theorem Span.fatal_Accessories (s : Span) : s.fatal.Accessories = s.Accessories := rfl

@[simp] theorem Span.fatal_nFatalErrors (s : Span) :
    s.fatal.nFatalErrors = s.nFatalErrors + 1 := rfl

@[simp] theorem Span.fatalIf_Accessories (s : Span) (b : Bool) :
    (s.fatalIf b).Accessories = s.Accessories := by
  cases b <;> rfl

theorem Span.fatalIf_nFatalErrors (s : Span) (b : Bool) :
    (s.fatalIf b).nFatalErrors = s.nFatalErrors + (if b then 1 else 0) := by
  cases b <;> rfl

theorem Span.le_fatalIf (s : Span) (b : Bool) :
    s.nFatalErrors ≤ (s.fatalIf b).nFatalErrors := by
  rw [Span.fatalIf_nFatalErrors]; omega

@[simp] theorem Span.withAccessories_Accessories (s : Span) (l : List SpanAccessory) :
    (s.withAccessories l).Accessories = l := rfl

@[simp] theorem Span.withAccessories_nFatalErrors (s : Span) (l : List SpanAccessory) :
    (s.withAccessories l).nFatalErrors = s.nFatalErrors := rfl

theorem validateService_keeps (sv : SpanService) (s : Span) :
    (sv.validate s).Accessories = s.Accessories ∧
      s.nFatalErrors ≤ (sv.validate s).nFatalErrors := by
  unfold SpanService.validate
  generalize sv.req = l
  induction l generalizing s with
  | nil => simp
  | cons r rs ih =>
    simp only [List.foldl_cons]
    obtain ⟨h1, h2⟩ := ih (s.fatalIf (!sv.Characteristics.any (fun c => r.id == c.type)))
    have h3 := s.le_fatalIf (!sv.Characteristics.any (fun c => r.id == c.type))
    exact ⟨by rw [h1]; simp, by omega⟩

theorem validateAccessory_keeps (acc : SpanAccessory) (s : Span) :
    (acc.validate s).Accessories = s.Accessories ∧
      s.nFatalErrors ≤ (acc.validate s).nFatalErrors := by
  unfold SpanAccessory.validate
  simp only [Span.fatalIf_Accessories, Span.fatalIf_nFatalErrors, true_and]
  omega

theorem Span.validateBackService_keeps (s : Span) :
    s.validateBackService.Accessories = s.Accessories ∧
      s.nFatalErrors ≤ s.validateBackService.nFatalErrors := by
  unfold Span.validateBackService
  split
  · simp
  · split
    · simp
    · exact validateService_keeps _ s

theorem Span.validateBack_keeps (s : Span) :
    s.validateBack.Accessories = s.Accessories ∧
      s.nFatalErrors ≤ s.validateBack.nFatalErrors := by
  unfold Span.validateBack
  split
  · simp
  · rename_i back _
    split
    · exact validateAccessory_keeps back s
    · rename_i sv _
      obtain ⟨h1, h2⟩ := validateService_keeps sv s
      obtain ⟨h3, h4⟩ := validateAccessory_keeps back (sv.validate s)
      exact ⟨h3.trans h1, by
        show s.nFatalErrors ≤ (back.validate (sv.validate s)).nFatalErrors; omega⟩

theorem DbOK.of_keeps {s s' : Span} (h : DbOK s) (ha : s'.Accessories = s.Accessories)
    (hn : s.nFatalErrors ≤ s'.nFatalErrors) : DbOK s' :=
  ⟨by rw [ha]; exact h.accs, fun h0 => by rw [ha]; exact h.aidNodup (by omega)⟩

theorem DbOK.init (mc t : Nat) : DbOK (Span.init mc t) :=
  ⟨by simp [Span.init], by simp [Span.init]⟩

theorem forall_mem_modifyBack {α : Type} (P : α → Prop) (f : α → α) (l : List α)
    (h : ∀ a ∈ l, P a) (hf : ∀ x, l.getLast? = some x → P x → P (f x)) :
    ∀ a ∈ modifyBack f l, P a := by
  rcases list_back_cases l with ⟨rfl, _⟩ | ⟨i, x, rfl, hl⟩
  · simp [modifyBack_nil]
  · rw [modifyBack_concat]
    intro a ha
    rcases List.mem_append.1 ha with ha | ha
    · exact h a (List.mem_append_left _ ha)
    · simp only [List.mem_singleton] at ha
      subst ha
      exact hf x hl (h x (by simp))

theorem map_modifyBack {α β : Type} (g : α → β) (f : α → α) (l : List α)
    (hf : ∀ x, g (f x) = g x) : (modifyBack f l).map g = l.map g := by
  rcases list_back_cases l with ⟨rfl, _⟩ | ⟨i, x, rfl, _⟩
  · rfl
  · rw [modifyBack_concat]; simp [hf]

theorem forall_mem_modifyAt {α : Type} (P : α → Prop) (f : α → α) (l : List α) (i : Nat)
    (h : ∀ a ∈ l, P a) (hf : ∀ x, P x → P (f x)) : ∀ a ∈ modifyAt f l i, P a := by
  induction l generalizing i with
  | nil => simp [modifyAt]
  | cons x xs ih =>
    cases i with
    | zero =>
      simp only [modifyAt, List.mem_cons]
      rintro a (rfl | ha)
      · exact hf x (h x (by simp))
      · exact h a (by simp [ha])
    | succ k =>
      simp only [modifyAt, List.mem_cons]
      rintro a (rfl | ha)
      · exact h a (by simp)
      · exact ih k (fun b hb => h b (by simp [hb])) a ha

theorem map_modifyAt {α β : Type} (g : α → β) (f : α → α) (l : List α) (i : Nat)
    (hf : ∀ x, g (f x) = g x) : (modifyAt f l i).map g = l.map g := by
  induction l generalizing i with
  | nil => simp [modifyAt]
  | cons x xs ih =>
    cases i with
    | zero => simp [modifyAt, hf]
    | succ k => simp [modifyAt, ih]


theorem charIids_eq_of_map (a b : SpanAccessory)
    (h : b.Services.map (fun sv => sv.Characteristics.map (fun c => c.iid)) =
      a.Services.map (fun sv => sv.Characteristics.map (fun c => c.iid))) :
    charIids b = charIids a := by
  unfold charIids
  rw [List.flatMap_def, List.flatMap_def, h]

theorem DbOK.push_accessory {s s' : Span} (h : DbOK s) (this : SpanAccessory)
    (hthis : AccOK this) (ha : s'.Accessories = s.Accessories ++ [this])
    (hn : s'.nFatalErrors = 0 →
      s.nFatalErrors = 0 ∧ this.aid ∉ s.Accessories.map (fun a => a.aid)) : DbOK s' := by
  constructor
  · rw [ha]
    intro acc hacc
    rcases List.mem_append.1 hacc with hacc | hacc
    · exact h.accs acc hacc
    · simp only [List.mem_singleton] at hacc; subst hacc; exact hthis
  · intro h0
    obtain ⟨h1, h2⟩ := hn h0
    rw [ha, List.map_append, List.nodup_append]
    refine ⟨h.aidNodup h1, by simp, ?_⟩
    intro x hx hx'
    simp only [List.map_cons, List.map_nil, List.mem_singleton] at hx'
    subst hx'
    exact h2 hx

theorem DbOK.modify_back {s s' : Span} (h : DbOK s) (f : SpanAccessory → SpanAccessory)
    (ha : s'.Accessories = modifyBack f s.Accessories)
    (hn : s.nFatalErrors ≤ s'.nFatalErrors)
    (hf : ∀ x, s.Accessories.getLast? = some x → AccOK x → AccOK (f x))
    (haid : ∀ x, (f x).aid = x.aid) : DbOK s' := by
  constructor
  · rw [ha]
    exact forall_mem_modifyBack AccOK f _ h.accs hf
  · intro h0
    rw [ha, map_modifyBack _ f _ haid]
    exact h.aidNodup (by omega)

theorem DbOK.modify_at {s s' : Span} (h : DbOK s) (f : SpanAccessory → SpanAccessory) (i : Nat)
    (ha : s'.Accessories = modifyAt f s.Accessories i)
    (hn : s.nFatalErrors ≤ s'.nFatalErrors)
    (hf : ∀ x, AccOK x → AccOK (f x))
    (haid : ∀ x, (f x).aid = x.aid) : DbOK s' := by
  constructor
  · rw [ha]
    exact forall_mem_modifyAt AccOK f _ i h.accs hf
  · intro h0
    rw [ha, map_modifyAt _ f _ i haid]
    exact h.aidNodup (by omega)

theorem SpanAccessory.newAid_range (s : Span) (aid : Nat) :
    -2147483648 ≤ SpanAccessory.newAid s aid ∧ SpanAccessory.newAid s aid < 2147483648 := by
  unfold SpanAccessory.newAid
  simp only
  split
  · exact toI32_range _
  · split
    · omega
    · exact toI32_range _

theorem DbOK.accessory {s : Span} (h : DbOK s) (aid : Nat) : DbOK (SpanAccessory.new s aid) := by
  obtain ⟨hk1, hk2⟩ := s.validateBack_keeps
  have hthis : AccOK { aid := SpanAccessory.newAid s aid, iidCount := 0, Services := [] } :=
    ⟨SpanAccessory.newAid_range s aid, by simp, by simp [charIids], by simp [charIids]⟩
  refine @DbOK.push_accessory s _ h _ hthis ?_ ?_
  · simp [SpanAccessory.new, hk1]
  · simp only [SpanAccessory.new, Span.fatalIf_nFatalErrors, Span.withAccessories_nFatalErrors,
      hk1]
    intro h0
    have hany : (s.Accessories.any fun a => SpanAccessory.newAid s aid == a.aid) = false := by
      cases hb : (s.Accessories.any fun a => SpanAccessory.newAid s aid == a.aid)
      · rfl
      · rw [hb] at h0; simp at h0
    refine ⟨by omega, ?_⟩
    simp only [List.any_eq_false, beq_iff_eq] at hany
    simp only [List.mem_map, not_exists, not_and]
    intro x hx e
    exact hany x hx e.symm


theorem DbOK.fatal {s : Span} (h : DbOK s) : DbOK s.fatal :=
  h.of_keeps rfl (by simp)

theorem DbOK.modify_back_all {s s' : Span} (h : DbOK s) (f : SpanAccessory → SpanAccessory)
    (ha : s'.Accessories = modifyBack f s.Accessories)
    (hn : s.nFatalErrors ≤ s'.nFatalErrors)
    (hf : ∀ x, AccOK x → AccOK (f x))
    (haid : ∀ x, (f x).aid = x.aid) : DbOK s' :=
  h.modify_back f ha hn (fun x _ hx => hf x hx) haid

theorem charIids_pushService (acc : SpanAccessory) (type hapName : String)
    (req opt : List HapCharType) :
    charIids (acc.pushService type hapName req opt) = charIids acc := by
  simp [charIids, SpanAccessory.pushService]

theorem AccOK.pushService {acc : SpanAccessory} (hok : AccOK acc) (type hapName : String)
    (req opt : List HapCharType) : AccOK (acc.pushService type hapName req opt) := by
  refine ⟨hok.aidRange, ?_, ?_, ?_⟩
  · intro sv hsv c hc
    simp only [SpanAccessory.pushService, List.mem_append, List.mem_singleton] at hsv
    rcases hsv with hsv | rfl
    · exact hok.charAid sv hsv c hc
    · simp at hc
  · rw [charIids_pushService]
    intro y hy
    have := hok.iidBound y hy
    simp only [SpanAccessory.pushService]
    omega
  · rw [charIids_pushService]
    exact hok.iidNodup

theorem DbOK.service {s : Span} (h : DbOK s) (type hapName : String)
    (req opt : List HapCharType) : DbOK (SpanService.new s type hapName req opt) := by
  obtain ⟨hk1, hk2⟩ := s.validateBackService_keeps
  have h1 : DbOK s.validateBackService := h.of_keeps hk1 hk2
  unfold SpanService.new
  simp only
  split
  · exact h1.fatal
  · exact DbOK.modify_back_all h1 (fun acc => acc.pushService type hapName req opt)
      (by simp) (by rw [Span.fatalIf_nFatalErrors]; simp)
      (fun x hx => hx.pushService type hapName req opt) (fun x => rfl)

theorem charIids_pushCharacteristic (acc : SpanAccessory) (mc : Nat) (type : String)
    (perms : Nat) (hapName : String) (v : InitVal) (junk : Junk) :
    charIids (acc.pushCharacteristic mc type perms hapName v junk) = charIids acc ∨
    charIids (acc.pushCharacteristic mc type perms hapName v junk) =
      charIids acc ++ [acc.iidCount + 1] := by
  rcases list_back_cases acc.Services with ⟨hn, _⟩ | ⟨i, y, hi, _⟩
  · left
    simp [charIids, SpanAccessory.pushCharacteristic, hn, modifyBack_nil]
  · right
    simp [charIids, SpanAccessory.pushCharacteristic, hi, modifyBack_concat]

theorem AccOK.pushCharacteristic {acc : SpanAccessory} (hok : AccOK acc) (mc : Nat)
    (type : String) (perms : Nat) (hapName : String) (v : InitVal) (junk : Junk) :
    AccOK (acc.pushCharacteristic mc type perms hapName v junk) := by
  refine ⟨hok.aidRange, ?_, ?_, ?_⟩
  · intro sv hsv c hc
    have key : ∀ sv' ∈ (acc.pushCharacteristic mc type perms hapName v junk).Services,
        ∀ c ∈ sv'.Characteristics, c.aid = acc.aid := by
      simp only [SpanAccessory.pushCharacteristic]
      apply forall_mem_modifyBack (fun sv' : SpanService => ∀ c ∈ sv'.Characteristics, c.aid = acc.aid)
      · exact hok.charAid
      · intro x _ hx c hc
        simp only [List.mem_append, List.mem_singleton] at hc
        rcases hc with hc | rfl
        · exact hx c hc
        · rfl
    exact key sv hsv c hc
  · intro y hy
    have hcount : (acc.pushCharacteristic mc type perms hapName v junk).iidCount =
        acc.iidCount + 1 := rfl
    rw [hcount]
    rcases charIids_pushCharacteristic acc mc type perms hapName v junk with e | e
    · rw [e] at hy
      have := hok.iidBound y hy
      omega
    · rw [e] at hy
      simp only [List.mem_append, List.mem_singleton] at hy
      rcases hy with hy | hy
      · have := hok.iidBound y hy
        omega
      · omega
  · rcases charIids_pushCharacteristic acc mc type perms hapName v junk with e | e
    · rw [e]; exact hok.iidNodup
    · rw [e, List.nodup_append]
      refine ⟨hok.iidNodup, by simp, ?_⟩
      intro y hy hy'
      simp only [List.mem_singleton] at hy'
      have := hok.iidBound y hy
      omega

theorem DbOK.characteristic {s : Span} (h : DbOK s) (type : String) (perms : Nat)
    (hapName : String) (v : InitVal) (junk : Junk) :
    DbOK (SpanCharacteristic.new s type perms hapName v junk) := by
  unfold SpanCharacteristic.new
  split
  · exact h.fatal
  · split
    · exact h.fatal
    · simp only
      refine DbOK.modify_back_all h
        (fun acc => acc.pushCharacteristic s.maxConnections type perms hapName v junk)
        (by simp) ?_ (fun x hx => hx.pushCharacteristic _ _ _ _ _ _) (fun x => rfl)
      simp only [Span.withAccessories_nFatalErrors, Span.fatalIf_nFatalErrors]
      omega

theorem map_iids_setRange (acc : SpanAccessory) (min max step : Int) :
    (acc.setRange min max step).Services.map
        (fun sv => sv.Characteristics.map (fun c => c.iid)) =
      acc.Services.map (fun sv => sv.Characteristics.map (fun c => c.iid)) := by
  simp only [SpanAccessory.setRange]
  apply map_modifyBack
  intro sv
  simp only
  apply map_modifyBack
  intro c
  rfl

theorem AccOK.setRange {acc : SpanAccessory} (hok : AccOK acc) (min max step : Int) :
    AccOK (acc.setRange min max step) := by
  have hi := charIids_eq_of_map acc (acc.setRange min max step) (map_iids_setRange acc min max step)
  refine ⟨hok.aidRange, ?_, ?_, ?_⟩
  · simp only [SpanAccessory.setRange]
    apply forall_mem_modifyBack (fun sv' : SpanService => ∀ c ∈ sv'.Characteristics, c.aid = acc.aid)
    · exact hok.charAid
    · intro x _ hx
      simp only
      apply forall_mem_modifyBack (fun c : SpanCharacteristic => c.aid = acc.aid)
      · exact hx
      · intro c _ hc
        exact hc
  · rw [hi]; exact hok.iidBound
  · rw [hi]; exact hok.iidNodup

theorem DbOK.range {s : Span} (h : DbOK s) (min max step : Int) :
    DbOK (SpanRange.new s min max step) := by
  unfold SpanRange.new
  simp only
  split
  · exact h.fatal
  · exact DbOK.modify_back_all h (fun acc => acc.setRange min max step) (by simp) (by simp)
      (fun x hx => hx.setRange min max step) (fun x => rfl)

theorem DbOK.button {s : Span} (h : DbOK s) (pin : Int) (l sg d : Nat) :
    DbOK (SpanButton.new s pin l sg d) := by
  unfold SpanButton.new
  split
  · exact h.fatal
  · split
    · exact h.fatal
    · exact h.of_keeps rfl (Nat.le_refl _)

theorem DbOK.modifyService {s : Span} (h : DbOK s) (r : SvcRef) (f : SpanService → SpanService)
    (hf : ∀ sv, (f sv).Characteristics = sv.Characteristics) : DbOK (s.modifyService r f) := by
  refine DbOK.modify_at h (fun acc => { acc with Services := modifyAt f acc.Services r.s }) r.a
    (by simp [Span.modifyService]) (by simp [Span.modifyService]) ?_ (fun x => rfl)
  intro acc hok
  have hm : (modifyAt f acc.Services r.s).map (fun sv => sv.Characteristics.map (fun c => c.iid)) =
      acc.Services.map (fun sv => sv.Characteristics.map (fun c => c.iid)) :=
    map_modifyAt _ f _ r.s (fun sv => by simp only [hf])
  have hi := charIids_eq_of_map acc { acc with Services := modifyAt f acc.Services r.s } hm
  refine ⟨hok.aidRange, ?_, ?_, ?_⟩
  · simp only
    apply forall_mem_modifyAt (fun sv' : SpanService => ∀ c ∈ sv'.Characteristics, c.aid = acc.aid)
    · exact hok.charAid
    · intro sv hsv
      rw [hf]; exact hsv
  · rw [hi]; exact hok.iidBound
  · rw [hi]; exact hok.iidNodup

theorem DbOK.declare {s : Span} (h : DbOK s) (d : Decl) : DbOK (declare s d) := by
  cases d with
  | accessory aid => exact h.accessory aid
  | service type hapName req opt => exact h.service type hapName req opt
  | setPrimary r => exact h.modifyService r _ (fun _ => rfl)
  | setHidden r => exact h.modifyService r _ (fun _ => rfl)
  | characteristic type perms hapName v junk => exact h.characteristic type perms hapName v junk
  | range min max step => exact h.range min max step
  | button pin l sg d => exact h.button pin l sg d

theorem DbOK.declareAll {s : Span} (h : DbOK s) (ds : List Decl) : DbOK (declareAll s ds) := by
  induction ds generalizing s with
  | nil => exact h
  | cons d ds ih => exact ih (h.declare d)


/-! ## Claims about `Span::find` -/

/-- C1: in a database built by declarations that record no fatal configuration error,
`find(c.aid, c.iid)` returns the pointer to `c` itself, for every characteristic `c` of
the database (at any position `r`). -/
theorem find_returns_declared (mc t : Nat) (ds : List Decl)
    (h0 : (declareAll (Span.init mc t) ds).nFatalErrors = 0) (r : CharRef)
    (c : SpanCharacteristic) (hc : (declareAll (Span.init mc t) ds).getChar r = some c) :
    (declareAll (Span.init mc t) ds).find (toU32 c.aid) c.iid = some r :=
  find_of_getChar _ ((DbOK.init mc t).declareAll ds) h0 r c hc

set_option maxRecDepth 100000 in
theorem find_returns_declared_witness :
    sampleDb.nFatalErrors = 0 ∧ sampleDb.getChar ⟨0, 2, 1⟩ = some sampleBrightness ∧
      sampleDb.find (toU32 sampleBrightness.aid) sampleBrightness.iid = some ⟨0, 2, 1⟩ :=
  ⟨by decide, by decide,
    find_returns_declared 8 0 sampleDecls (by decide) ⟨0, 2, 1⟩ sampleBrightness (by decide)⟩

set_option maxRecDepth 100000 in
/-- C2, as stated, fails: `dupDb` holds a characteristic with aid 1 and iid 3 (in its
second accessory), yet `find(1, 3)` returns `NULL`, because the search stops at the
first accessory with aid 1. -/
theorem find_null_despite_match :
    dupDb.find 1 3 = none ∧
      (dupDb.getChar ⟨1, 0, 1⟩).map (fun c => (toU32 c.aid, c.iid)) = some (1, 3) := by
  decide

/-- C2, amended: in a database built by declarations that record no fatal configuration
error, `find(aid, iid)` returns `NULL` exactly when no characteristic has that aid and
that iid, and otherwise returns a characteristic whose aid and iid are the arguments. -/
theorem find_null_iff_absent (mc t : Nat) (ds : List Decl)
    (h0 : (declareAll (Span.init mc t) ds).nFatalErrors = 0) (aid : Nat) (iid : Int) :
    ((declareAll (Span.init mc t) ds).find aid iid = none ↔
        ¬ ∃ r c, (declareAll (Span.init mc t) ds).getChar r = some c ∧
          toU32 c.aid = aid ∧ c.iid = iid) ∧
      ∀ r, (declareAll (Span.init mc t) ds).find aid iid = some r →
        ∃ c, (declareAll (Span.init mc t) ds).getChar r = some c ∧
          toU32 c.aid = aid ∧ c.iid = iid := by
  have hok : DbOK (declareAll (Span.init mc t) ds) := (DbOK.init mc t).declareAll ds
  have hsound : ∀ r, (declareAll (Span.init mc t) ds).find aid iid = some r →
      ∃ c, (declareAll (Span.init mc t) ds).getChar r = some c ∧
        toU32 c.aid = aid ∧ c.iid = iid := by
    intro r hr
    obtain ⟨acc, c, ha, haid, hc, hiid⟩ := find_sound _ aid iid r hr
    obtain ⟨acc', sv, ha', hs, hch⟩ := getChar_some _ r c hc
    rw [ha] at ha'
    cases ha'
    have := (hok.accs acc (List.getElem?_mem ha)).charAid sv (List.getElem?_mem hs) c
      (List.getElem?_mem hch)
    exact ⟨c, hc, by rw [this]; exact haid, hiid⟩
  refine ⟨⟨?_, ?_⟩, hsound⟩
  · rintro hnone ⟨r, c, hc, rfl, rfl⟩
    rw [find_of_getChar _ hok h0 r c hc] at hnone
    cases hnone
  · intro hno
    cases hf : (declareAll (Span.init mc t) ds).find aid iid with
    | none => rfl
    | some r =>
      obtain ⟨c, hc, h1, h2⟩ := hsound r hf
      exact absurd ⟨r, c, hc, h1, h2⟩ hno

set_option maxRecDepth 100000 in
theorem find_null_iff_absent_witness :
    sampleDb.nFatalErrors = 0 ∧
      ((sampleDb.find 1 3 = none ↔
          ¬ ∃ r c, sampleDb.getChar r = some c ∧ toU32 c.aid = 1 ∧ c.iid = 3) ∧
        ∀ r, sampleDb.find 1 3 = some r →
          ∃ c, sampleDb.getChar r = some c ∧ toU32 c.aid = 1 ∧ c.iid = 3) :=
  ⟨by decide, find_null_iff_absent 8 0 sampleDecls (by decide) 1 3⟩


/-! ## Claims about `SpanCharacteristic::loadUpdate` -/

/-- The members that `loadValue` never writes. -/
theorem loadValue_keeps (c : SpanCharacteristic) (env : Env) (t : Nat) (v : String) :
    (c.loadValue env t v).2.iid = c.iid ∧ (c.loadValue env t v).2.aid = c.aid ∧
      (c.loadValue env t v).2.value = c.value ∧ (c.loadValue env t v).2.ev = c.ev ∧
      (c.loadValue env t v).2.perms = c.perms ∧ (c.loadValue env t v).2.format = c.format := by
  unfold SpanCharacteristic.loadValue SpanCharacteristic.staged
  cases hf : c.format <;> simp only <;> repeat' split
  all_goals simp [hf]

theorem loadValue_status (c : SpanCharacteristic) (env : Env) (t : Nat) (v : String) :
    ((c.loadValue env t v).1 = .TBD ∧ (c.loadValue env t v).2.isUpdated = true ∧
        (c.loadValue env t v).2.updateTime = t) ∨
      ((c.loadValue env t v).1 = .InvalidValue ∧ (c.loadValue env t v).2 = c) := by
  unfold SpanCharacteristic.loadValue SpanCharacteristic.staged
  cases c.format <;> simp only <;> repeat' split
  all_goals simp

/-- The characteristic after the `ev` part of `loadUpdate`. -/
theorem loadUpdate_keeps (c : SpanCharacteristic) (env : Env) (t : Nat) (val ev : Option String) :
    (c.loadUpdate env t val ev).2.iid = c.iid ∧ (c.loadUpdate env t val ev).2.aid = c.aid ∧
      (c.loadUpdate env t val ev).2.value = c.value ∧
      (c.loadUpdate env t val ev).2.perms = c.perms ∧
      (c.loadUpdate env t val ev).2.format = c.format := by
  unfold SpanCharacteristic.loadUpdate
  simp only
  split
  · simp
  · rename_i c1 hc1
    have h1 : c1.iid = c.iid ∧ c1.aid = c.aid ∧ c1.value = c.value ∧ c1.perms = c.perms ∧
        c1.format = c.format := by
      split at hc1
      · cases hc1; simp
      · split at hc1
        · cases hc1; simp
        · split at hc1
          · split at hc1
            · cases hc1
            · cases hc1; simp
          · cases hc1
    split
    · exact h1
    · split
      · exact h1
      · rename_i v _
        obtain ⟨k1, k2, k3, _, k5, k6⟩ := loadValue_keeps c1 env t v
        obtain ⟨g1, g2, g3, g4, g5⟩ := h1
        exact ⟨k1.trans g1, k2.trans g2, k3.trans g3, k5.trans g4, k6.trans g5⟩


theorem toI32_toU32 (v : Int) (h : -2147483648 ≤ v ∧ v < 2147483648) :
    toI32 ((toU32 v : Nat) : Int) = v := by
  unfold toI32 toU32
  rw [Int.toNat_of_nonneg (by omega)]
  omega

theorem UVal.getINT_setINT (nv : Nat) (v : Int) (h : -2147483648 ≤ v ∧ v < 2147483648) :
    UVal.getINT (UVal.setINT nv v) = v := by
  have h1 : (UVal.setINT nv v) % 4294967296 = toU32 v := by
    have hu : toU32 v < 4294967296 := by
      unfold toU32
      omega
    simp only [UVal.setINT, UVal.store, Nat.reducePow]
    generalize toU32 v = b at *
    omega
  unfold UVal.getINT
  rw [h1]
  exact toI32_toU32 v h

theorem UVal.getBOOL_setBOOL (nv : Nat) (b : Bool) : UVal.getBOOL (UVal.setBOOL nv b) = b := by
  cases b
  · have : (nv % 18446744073709551616 / 256 * 256 + 0 % 256) % 256 = 0 := by omega
    simp [UVal.getBOOL, UVal.setBOOL, UVal.store, this]
  · have : (nv % 18446744073709551616 / 256 * 256 + 1 % 256) % 256 = 1 := by omega
    simp [UVal.getBOOL, UVal.setBOOL, UVal.store, this]


/-- C8: for a characteristic whose perms lack EV, `loadUpdate` with ev "1" or "true"
returns NotifyNotAllowed and leaves the characteristic as it was (every ev flag, value,
newValue, isUpdated and all the rest); with ev "0" or "false" it does not return
NotifyNotAllowed. -/
theorem loadUpdate_notify_not_allowed (c : SpanCharacteristic) (env : Env) (t : Nat)
    (val : Option String) (hEV : hasBit c.perms EV = false) :
    (∀ e : String, e = "1" ∨ e = "true" →
        c.loadUpdate env t val (some e) = (.NotifyNotAllowed, c)) ∧
      (∀ e : String, e = "0" ∨ e = "false" →
        (c.loadUpdate env t val (some e)).1 ≠ .NotifyNotAllowed) := by
  constructor
  · rintro e (rfl | rfl) <;> simp [SpanCharacteristic.loadUpdate, hEV]
  · rintro e (rfl | rfl)
    all_goals
      simp only [SpanCharacteristic.loadUpdate, beq_self_eq_true, Bool.true_or, Bool.or_true,
        if_true]
      split
      · simp
      · split
        · simp
        · rename_i v _
          rcases loadValue_status { c with ev := c.ev.set env.conNum false } env t v with
            h | h
          · rw [h.1]; simp
          · rw [h.1]; simp

theorem loadUpdate_notify_not_allowed_witness :
    hasBit sampleText.perms EV = false ∧
      ((∀ e : String, e = "1" ∨ e = "true" →
          sampleText.loadUpdate sampleEnv 9 (some "x") (some e) =
            (.NotifyNotAllowed, sampleText)) ∧
        (∀ e : String, e = "0" ∨ e = "false" →
          (sampleText.loadUpdate sampleEnv 9 (some "x") (some e)).1 ≠ .NotifyNotAllowed)) :=
  ⟨by decide, loadUpdate_notify_not_allowed sampleText sampleEnv 9 (some "x") (by decide)⟩


theorem forLoop_done {σ : Type} (lo hi : Nat) (body : Nat → σ → Except Fault σ) (init : σ)
    (h : hi ≤ lo) : forLoop lo hi body init = .ok init := by
  unfold forLoop
  rw [Nat.sub_eq_zero_of_le h]
  rfl

theorem forLoop_step {σ : Type} (lo hi : Nat) (body : Nat → σ → Except Fault σ) (init : σ)
    (h : lo < hi) :
    forLoop lo hi body init =
      match body lo init with
      | .error f => .error f
      | .ok st => forLoop (lo + 1) hi body st := by
  unfold forLoop
  obtain ⟨k, hk⟩ : ∃ k, hi - lo = k + 1 := ⟨hi - lo - 1, by omega⟩
  have hk' : hi - (lo + 1) = k := by omega
  rw [hk, hk', List.range'_succ, List.foldlM_cons]
  cases body lo init <;> rfl

/-- Total correctness of a counted loop from an invariant that every round keeps
without faulting. -/
theorem forLoop_invariant {σ : Type} (P : Nat → σ → Prop) (lo hi : Nat)
    (body : Nat → σ → Except Fault σ) (init : σ) (hle : lo ≤ hi) (h0 : P lo init)
    (hstep : ∀ i st, lo ≤ i → i < hi → P i st → ∃ st', body i st = .ok st' ∧ P (i + 1) st') :
    ∃ st, forLoop lo hi body init = .ok st ∧ P hi st := by
  obtain ⟨d, rfl⟩ : ∃ d, hi = lo + d := ⟨hi - lo, by omega⟩
  clear hle
  induction d generalizing lo init with
  | zero => exact ⟨init, forLoop_done _ _ _ _ (Nat.le_refl _), h0⟩
  | succ d ih =>
    obtain ⟨st', hb, hP⟩ := hstep lo init (Nat.le_refl _) (by omega) h0
    rw [forLoop_step _ _ _ _ (by omega), hb]
    have := ih (lo + 1) st' hP (fun i st hi1 hi2 hPi => hstep i st (by omega) (by omega) hPi)
    rw [show lo + 1 + d = lo + (d + 1) by omega] at this
    exact this

/-- Partial correctness of a counted loop: an invariant kept by every round that
returns holds at the end of every loop that returns. -/
theorem forLoop_invariant_ok {σ : Type} (P : Nat → σ → Prop) (lo hi : Nat)
    (body : Nat → σ → Except Fault σ) (init fin : σ) (hle : lo ≤ hi) (h0 : P lo init)
    (hstep : ∀ i st st', lo ≤ i → i < hi → P i st → body i st = .ok st' → P (i + 1) st')
    (hfin : forLoop lo hi body init = .ok fin) : P hi fin := by
  obtain ⟨d, rfl⟩ : ∃ d, hi = lo + d := ⟨hi - lo, by omega⟩
  clear hle
  induction d generalizing lo init with
  | zero =>
    rw [forLoop_done lo (lo + 0) body init (Nat.le_refl _)] at hfin
    cases hfin
    exact h0
  | succ d ih =>
    rw [forLoop_step _ _ _ _ (by omega)] at hfin
    cases hb : body lo init with
    | error f => rw [hb] at hfin; cases hfin
    | ok st' =>
      rw [hb] at hfin
      simp only at hfin
      have hP := hstep lo init st' (Nat.le_refl _) (by omega) h0 hb
      rw [show lo + (d + 1) = lo + 1 + d by omega] at hfin ⊢
      exact ih (lo + 1) st' hP
        (fun i st st'' hi1 hi2 hPi hbi => hstep i st st'' (by omega) (by omega) hPi hbi) hfin


/-! ## The parsing loops keep the object count inside `pObj` -/

theorem writeObj_ok (pObj : List SpanBuf) (i : Nat) (f : SpanBuf → SpanBuf) (p : List SpanBuf)
    (h : writeObj pObj i f = .ok p) : p.length = pObj.length ∧ i < pObj.length := by
  unfold writeObj at h
  cases hi : pObj[i]? with
  | none => rw [hi] at h; cases h
  | some o =>
    rw [hi] at h
    cases h
    exact ⟨by simp, (List.getElem?_eq_some.1 hi).1⟩

theorem parseProps_good (tw : List (Nat × Nat)) (now nObj : Nat) (toks : List (List Char))
    (okay : Nat) (twFail : Bool) (pObj : List SpanBuf) (okay' : Nat) (twFail' : Bool)
    (p : List SpanBuf)
    (h : parseProps tw now nObj toks okay twFail pObj = .ok (.good (okay', twFail', p))) :
    p.length = pObj.length ∧ (okay' = okay ∨ nObj < pObj.length) := by
  induction toks, okay, twFail, pObj using parseProps.induct tw now nObj with
  | case1 okay twFail pObj =>
    simp only [parseProps, Except.ok.injEq, Parsed.good.injEq, Prod.mk.injEq] at h
    obtain ⟨rfl, _, rfl⟩ := h
    exact ⟨rfl, Or.inl rfl⟩
  | case2 => simp [parseProps] at h
  | case3 t2 t3 rest okay twFail pObj h1 f hw =>
    unfold parseProps at h
    simp only [h1, if_true, hw] at h
    cases h
  | case4 t2 t3 rest okay twFail pObj h1 q hw ih =>
    unfold parseProps at h
    simp only [h1, if_true, hw] at h
    obtain ⟨e1, _⟩ := ih h
    obtain ⟨l1, l2⟩ := writeObj_ok _ _ _ _ hw
    exact ⟨e1.trans l1, Or.inr l2⟩
  | case5 t2 t3 rest okay twFail pObj h1 h2 f hw =>
    unfold parseProps at h
    simp only [h1, h2, if_true, hw] at h
    cases h
  | case6 t2 t3 rest okay twFail pObj h1 h2 q hw ih =>
    unfold parseProps at h
    simp only [h1, h2, if_true, hw] at h
    obtain ⟨e1, _⟩ := ih h
    obtain ⟨l1, l2⟩ := writeObj_ok _ _ _ _ hw
    exact ⟨e1.trans l1, Or.inr l2⟩
  | case7 t2 t3 rest okay twFail pObj h1 h2 h3 f hw =>
    unfold parseProps at h
    simp only [h1, h2, h3, if_true, hw] at h
    cases h
  | case8 t2 t3 rest okay twFail pObj h1 h2 h3 q hw ih =>
    unfold parseProps at h
    simp only [h1, h2, h3, if_true, hw] at h
    obtain ⟨e1, _⟩ := ih h
    obtain ⟨l1, l2⟩ := writeObj_ok _ _ _ _ hw
    exact ⟨e1.trans l1, Or.inr l2⟩
  | case9 t2 t3 rest okay twFail pObj h1 h2 h3 h4 f hw =>
    unfold parseProps at h
    simp only [h1, h2, h3, h4, if_true, hw] at h
    cases h
  | case10 t2 t3 rest okay twFail pObj h1 h2 h3 h4 q hw ih =>
    unfold parseProps at h
    simp only [h1, h2, h3, h4, if_true, hw] at h
    obtain ⟨e1, _⟩ := ih h
    obtain ⟨l1, l2⟩ := writeObj_ok _ _ _ _ hw
    exact ⟨e1.trans l1, Or.inr l2⟩
  | case11 t2 t3 rest okay twFail pObj h1 h2 h3 h4 h5 ih =>
    unfold parseProps at h
    simp only [h1, h2, h3, h4, h5, if_true] at h
    exact ih h
  | case12 t2 t3 rest okay twFail pObj h1 h2 h3 h4 h5 =>
    unfold parseProps at h
    simp only [h1, h2, h3, h4, h5] at h
    cases h


theorem parseSegment_good (tw : List (Nat × Nat)) (now : Nat) (st st' : PState)
    (seg : List Char) (h : parseSegment tw now st seg = .ok (.good st'))
    (hb : st.nObj ≤ st.pObj.length) :
    st'.pObj.length = st.pObj.length ∧ st'.nObj ≤ st'.pObj.length := by
  unfold parseSegment at h
  split at h
  · cases h
    exact ⟨rfl, hb⟩
  · rename_i t2 rest _
    split at h
    · split at h
      · cases h
        exact ⟨rfl, hb⟩
      · cases h
    · split at h
      · cases h
      · cases h
      · rename_i okay twFail p hp
        split at h
        · rename_i hok
          cases h
          obtain ⟨h1, h2⟩ := parseProps_good _ _ _ _ _ _ _ _ _ _ hp
          refine ⟨h1, ?_⟩
          simp only
          rcases h2 with h2 | h2
          · subst h2
            simp at hok
          · omega
        · cases h

theorem parseSegments_good (tw : List (Nat × Nat)) (now : Nat) (segs : List (List Char))
    (st st' : PState) (h : parseSegments tw now segs st = .ok (.good st'))
    (hb : st.nObj ≤ st.pObj.length) :
    st'.pObj.length = st.pObj.length ∧ st'.nObj ≤ st'.pObj.length := by
  induction segs generalizing st with
  | nil =>
    simp only [parseSegments, Except.ok.injEq, Parsed.good.injEq] at h
    subst h
    exact ⟨rfl, hb⟩
  | cons seg rest ih =>
    unfold parseSegments at h
    split at h
    · cases h
    · cases h
    · rename_i st1 h1
      obtain ⟨a1, a2⟩ := parseSegment_good tw now st st1 seg h1 hb
      obtain ⟨b1, b2⟩ := ih st1 h a2
      exact ⟨b1.trans a1, b2⟩

/-- The timed-write test fails exactly for a PID that is not in `TimedWrites` or whose
alarm time is before `now`. -/
theorem pidFails_iff (tw : List (Nat × Nat)) (now pid : Nat) :
    pidFails tw now pid = true ↔
      tw.lookup pid = none ∨ ∃ alarm, tw.lookup pid = some alarm ∧ alarm < now := by
  unfold pidFails
  cases tw.lookup pid with
  | none => simp
  | some alarm => simp

/-- A `pid` property raises `twFail` when its PID fails the timed-write test and leaves
the flag as it is otherwise. -/
theorem parseProps_pid (tw : List (Nat × Nat)) (now nObj : Nat) (t3 : List Char)
    (rest : List (List Char)) (okay : Nat) (twFail : Bool) (pObj : List SpanBuf) :
    parseProps tw now nObj ("pid".toList :: t3 :: rest) okay twFail pObj =
      parseProps tw now nObj rest okay (twFail || pidFails tw now (strtoull0 t3)) pObj := by
  rw [parseProps]
  simp

/-- Once raised, `twFail` stays raised to the end of the object. -/
theorem parseProps_twFail_stays (tw : List (Nat × Nat)) (now nObj : Nat)
    (toks : List (List Char)) (okay : Nat) (twFail : Bool) (pObj : List SpanBuf) (okay' : Nat)
    (twFail' : Bool) (p : List SpanBuf) (htw : twFail = true)
    (h : parseProps tw now nObj toks okay twFail pObj = .ok (.good (okay', twFail', p))) :
    twFail' = true := by
  induction toks, okay, twFail, pObj using parseProps.induct tw now nObj with
  | case1 okay twFail pObj =>
    simp only [parseProps, Except.ok.injEq, Parsed.good.injEq, Prod.mk.injEq] at h
    rw [← h.2.1, htw]
  | case2 => simp [parseProps] at h
  | case3 t2 t3 rest okay twFail pObj h1 f hw =>
    unfold parseProps at h
    simp only [h1, if_true, hw] at h
    cases h
  | case4 t2 t3 rest okay twFail pObj h1 q hw ih =>
    unfold parseProps at h
    simp only [h1, if_true, hw] at h
    exact ih htw h
  | case5 t2 t3 rest okay twFail pObj h1 h2 f hw =>
    unfold parseProps at h
    simp only [h1, h2, if_true, hw] at h
    cases h
  | case6 t2 t3 rest okay twFail pObj h1 h2 q hw ih =>
    unfold parseProps at h
    simp only [h1, h2, if_true, hw] at h
    exact ih htw h
  | case7 t2 t3 rest okay twFail pObj h1 h2 h3 f hw =>
    unfold parseProps at h
    simp only [h1, h2, h3, if_true, hw] at h
    cases h
  | case8 t2 t3 rest okay twFail pObj h1 h2 h3 q hw ih =>
    unfold parseProps at h
    simp only [h1, h2, h3, if_true, hw] at h
    exact ih htw h
  | case9 t2 t3 rest okay twFail pObj h1 h2 h3 h4 f hw =>
    unfold parseProps at h
    simp only [h1, h2, h3, h4, if_true, hw] at h
    cases h
  | case10 t2 t3 rest okay twFail pObj h1 h2 h3 h4 q hw ih =>
    unfold parseProps at h
    simp only [h1, h2, h3, h4, if_true, hw] at h
    exact ih htw h
  | case11 t2 t3 rest okay twFail pObj h1 h2 h3 h4 h5 ih =>
    unfold parseProps at h
    simp only [h1, h2, h3, h4, h5, if_true] at h
    exact ih (by rw [htw]; rfl) h
  | case12 t2 t3 rest okay twFail pObj h1 h2 h3 h4 h5 =>
    unfold parseProps at h
    simp only [h1, h2, h3, h4, h5] at h
    cases h

/-- Once raised, `twFail` stays raised to the end of the request. -/
theorem parseSegments_twFail_stays (tw : List (Nat × Nat)) (now : Nat)
    (segs : List (List Char)) (st st' : PState)
    (h : parseSegments tw now segs st = .ok (.good st')) (htw : st.twFail = true) :
    st'.twFail = true := by
  induction segs generalizing st with
  | nil =>
    simp only [parseSegments, Except.ok.injEq, Parsed.good.injEq] at h
    subst h
    exact htw
  | cons seg rest ih =>
    unfold parseSegments at h
    split at h
    · cases h
    · cases h
    · rename_i st1 h1
      refine ih st1 h ?_
      unfold parseSegment at h1
      split at h1
      · cases h1
        exact htw
      · split at h1
        · split at h1
          · cases h1
            exact htw
          · cases h1
        · split at h1
          · cases h1
          · cases h1
          · rename_i okay twFail p hp
            split at h1
            · cases h1
              exact parseProps_twFail_stays _ _ _ _ _ _ _ _ _ _ htw hp
            · cases h1

/-- A request that parses leaves `nObj` objects inside the array `pObj`. -/
theorem parseRequest_good (tw : List (Nat × Nat)) (now : Nat) (buf : List Char)
    (pObj : List SpanBuf) (ps : PState) (h : parseRequest tw now buf pObj = .ok (.good ps)) :
    ps.pObj.length = pObj.length ∧ ps.nObj ≤ ps.pObj.length :=
  parseSegments_good tw now _ _ ps h (Nat.zero_le _)


/-! ## `find` depends on the aids and iids only -/

theorem firstIdx_map {α β : Type} (g : α → β) (p : β → Bool) (l : List α) :
    firstIdx p (l.map g) = firstIdx (fun x => p (g x)) l := by
  induction l with
  | nil => rfl
  | cons x xs ih => simp only [List.map_cons, firstIdx, ih]

theorem findInServices_eq_findInLists (iid : Int) (svcs : List SpanService) :
    findInServices iid svcs =
      findInLists iid (svcs.map (fun sv => sv.Characteristics.map (fun c => c.iid))) := by
  induction svcs with
  | nil => rfl
  | cons sv rest ih =>
    simp only [findInServices, List.map_cons, findInLists, firstIdx_map, ih]

theorem find_eq_findShape (s : Span) (aid : Nat) (iid : Int) :
    s.find aid iid = findShape s.shape aid iid := by
  unfold Span.find findShape Span.shape
  rw [firstIdx_map]
  cases firstIdx (fun a => toU32 a.aid == aid) s.Accessories with
  | none => rfl
  | some index =>
    simp only [List.getElem?_map]
    cases s.Accessories[index]? with
    | none => rfl
    | some acc => simp only [Option.map_some', findInServices_eq_findInLists]

theorem find_congr {s s' : Span} (h : s'.shape = s.shape) (aid : Nat) (iid : Int) :
    s'.find aid iid = s.find aid iid := by
  rw [find_eq_findShape, find_eq_findShape, h]

/-! ## Reading and writing a characteristic through its pointer -/

theorem getElem?_modifyAt {α : Type} (f : α → α) (l : List α) (i k : Nat) :
    (modifyAt f l i)[k]? = if k = i then l[k]?.map f else l[k]? := by
  induction l generalizing i k with
  | nil => simp [modifyAt]
  | cons x xs ih =>
    cases i with
    | zero =>
      cases k with
      | zero => simp [modifyAt]
      | succ k => simp [modifyAt]
    | succ i =>
      cases k with
      | zero => simp [modifyAt]
      | succ k => simp [modifyAt, ih]

theorem length_modifyAt {α : Type} (f : α → α) (l : List α) (i : Nat) :
    (modifyAt f l i).length = l.length := by
  induction l generalizing i with
  | nil => rfl
  | cons x xs ih => cases i <;> simp [modifyAt, ih]

theorem shape_modifyChar (s : Span) (r : CharRef) (f : SpanCharacteristic → SpanCharacteristic)
    (hf : ∀ c, (f c).iid = c.iid) : (s.modifyChar r f).shape = s.shape := by
  unfold Span.shape Span.modifyChar Span.modifyService
  simp only [Span.withAccessories_Accessories]
  apply map_modifyAt
  intro acc
  simp only [Prod.mk.injEq, true_and]
  apply map_modifyAt
  intro sv
  simp only
  apply map_modifyAt
  exact hf

theorem getChar_modifyChar (s : Span) (r r' : CharRef)
    (f : SpanCharacteristic → SpanCharacteristic) :
    (s.modifyChar r f).getChar r' =
      if r' = r then (s.getChar r').map f else s.getChar r' := by
  unfold Span.getChar Span.getService Span.modifyChar Span.modifyService CharRef.service
  simp only [Span.withAccessories_Accessories, getElem?_modifyAt]
  obtain ⟨a, sv, c⟩ := r
  obtain ⟨a', sv', c'⟩ := r'
  simp only [CharRef.mk.injEq]
  by_cases ha : a' = a
  · subst ha
    simp only [if_true, true_and]
    cases s.Accessories[a']? with
    | none => simp
    | some acc =>
      simp only [Option.map_some', getElem?_modifyAt]
      by_cases hs : sv' = sv
      · subst hs
        simp only [if_true, true_and]
        cases acc.Services[sv']? with
        | none => simp
        | some x =>
          simp only [Option.map_some', getElem?_modifyAt]
      · simp only [hs, if_false, false_and]
  · simp only [ha, if_false, false_and]


/-! ## PASS 1 -/

theorem pass1Step_keeps (env : Env) (twFail : Bool) (p0 : List SpanBuf) (s1 : Span) (n i : Nat)
    (st : UState) (hn : n ≤ p0.length) (hi : i < n) (h : Pass1Inv twFail p0 s1 i st) :
    ∃ st', pass1Step env twFail i st = .ok st' ∧ Pass1Inv twFail p0 s1 (i + 1) st' := by
  have hil : i < p0.length := by omega
  obtain ⟨o0, ho0⟩ : ∃ o0, p0[i]? = some o0 := ⟨p0[i], List.getElem?_eq_getElem hil⟩
  have hcur : st.pObj[i]? = some o0 := by rw [h.rest i (Nat.le_refl _), ho0]
  have hlen : i < st.pObj.length := by rw [h.len]; exact hil
  -- the state after the round, for any new content `o` of slot `i`
  have key : ∀ (o : SpanBuf) (sp : Span), sp.shape = s1.shape → (twFail = true → sp = s1) →
      Pass1Obj twFail s1 o0 o →
      Pass1Inv twFail p0 s1 (i + 1) { st with pObj := st.pObj.set i o, span := sp } := by
    intro o sp hsh hfr hobj
    refine ⟨by simp [h.len], h.calls, hsh, ?_, ?_, hfr⟩
    · intro k hk
      simp only
      rw [List.getElem?_set_ne (by omega)]
      exact h.rest k (by omega)
    · intro k hk ok0 hok0
      simp only
      by_cases hki : k = i
      · subst hki
        rw [List.getElem?_set_self hlen]
        rw [ho0] at hok0
        cases hok0
        exact ⟨o, rfl, hobj⟩
      · rw [List.getElem?_set_ne (fun e => hki e.symm)]
        exact h.done k (by omega) ok0 hok0
  unfold pass1Step
  simp only [hcur]
  cases twFail with
  | true =>
    simp only [if_true]
    exact ⟨_, rfl, key { o0 with status := .InvalidValue } st.span h.shape h.frozen
      ⟨rfl, rfl, rfl, rfl, by simp⟩⟩
  | false =>
    simp only [Bool.false_eq_true, if_false]
    have hfind : st.span.find (toU32 o0.aid) o0.iid = s1.find (toU32 o0.aid) o0.iid :=
      find_congr h.shape _ _
    cases hf : st.span.find (toU32 o0.aid) o0.iid with
    | none =>
      simp only
      exact ⟨_, rfl, key { o0 with characteristic := none, status := .UnknownResource } st.span
        h.shape (fun e => by cases e) ⟨rfl, rfl, rfl, rfl, by simp [← hfind, hf]⟩⟩
    | some r =>
      simp only
      obtain ⟨acc, c, _, _, hc, _⟩ := find_sound _ _ _ _ hf
      simp only [hc]
      refine ⟨_, rfl, ?_⟩
      refine key _ _ ?_ (fun e => by cases e) ⟨rfl, rfl, rfl, rfl, ?_⟩
      · rw [shape_modifyChar _ _ _ (fun x => (loadUpdate_keeps x env _ _ _).1)]
        exact h.shape
      · simp [← hfind, hf]


/-- PASS 1 over a parsed request returns, and leaves every object as `Pass1Obj` says. -/
theorem pass1_total (env : Env) (twFail : Bool) (p0 : List SpanBuf) (s1 : Span) (n : Nat)
    (hn : n ≤ p0.length) :
    ∃ st1, pass1 env twFail n { pObj := p0, span := s1, calls := [] } = .ok st1 ∧
      Pass1Inv twFail p0 s1 n st1 := by
  unfold pass1
  apply forLoop_invariant (Pass1Inv twFail p0 s1) 0 n _ _ (Nat.zero_le _)
  · exact ⟨rfl, rfl, rfl, fun _ _ => rfl, fun k hk => absurd hk (Nat.not_lt_zero k),
      fun _ => rfl⟩
  · intro i st _ hi hinv
    exact pass1Step_keeps env twFail p0 s1 n i st hn hi hinv

/-- PASS 2 does nothing when no object among the first `n` has status TBD. -/
theorem pass2_no_tbd (env : Env) (n : Nat) (st1 : UState) (hn : n ≤ st1.pObj.length)
    (h : ∀ k, k < n → ∀ o, st1.pObj[k]? = some o → o.status ≠ .TBD) :
    pass2 env n st1 = .ok st1 := by
  unfold pass2
  obtain ⟨st, h1, h2⟩ := forLoop_invariant (fun _ st => st = st1) 0 n (pass2Step env n) st1
    (Nat.zero_le _) rfl (by
      intro i st _ hi hst
      subst hst
      have hil : i < st.pObj.length := by omega
      have ho : st.pObj[i]? = some st.pObj[i] := List.getElem?_eq_getElem hil
      refine ⟨st, ?_, rfl⟩
      unfold pass2Step
      simp only [ho]
      rw [if_neg (h i hi _ ho)])
  rw [h1, h2]

theorem innerMark_characteristic (svc : SvcRef) (status : StatusCode) (i j k : Nat)
    (o : SpanBuf) : (innerMark svc status i j k o).characteristic = o.characteristic := by
  unfold innerMark
  split <;> rfl

theorem innerMark_service (svc : SvcRef) (status : StatusCode) (i j k : Nat) (o : SpanBuf) :
    (innerMark svc status i j k o).service = o.service := by
  unfold SpanBuf.service
  rw [innerMark_characteristic]

theorem innerMark_succ_ne (svc : SvcRef) (status : StatusCode) (i j k : Nat) (o : SpanBuf)
    (hkj : k ≠ j) : innerMark svc status i (j + 1) k o = innerMark svc status i j k o := by
  unfold innerMark
  have : (i ≤ k ∧ k < j + 1 ∧ o.service = some svc) ↔
      (i ≤ k ∧ k < j ∧ o.service = some svc) := by
    constructor <;> rintro ⟨a, b, c⟩ <;> exact ⟨a, by omega, c⟩
  simp only [this]

/-- One round of the inner loop keeps its invariant, as long as object `j` points to a
characteristic. -/
theorem pass2Inner_keeps (svc : SvcRef) (status : StatusCode) (i j : Nat) (st0 st : UState)
    (hij : i ≤ j) (o0 : SpanBuf) (ho0 : st0.pObj[j]? = some o0)
    (hch : o0.characteristic ≠ none) (h : InnerInv svc status i st0 j st) :
    ∃ st', pass2Inner svc status j st = .ok st' ∧ InnerInv svc status i st0 (j + 1) st' := by
  have hcur : st.pObj[j]? = some o0 := by
    rw [h.objs j, ho0]
    simp [innerMark]
  have hlen : j < st.pObj.length := (List.getElem?_eq_some.1 hcur).1
  obtain ⟨r, hr⟩ : ∃ r, o0.characteristic = some r := by
    cases hc : o0.characteristic with
    | none => exact absurd hc hch
    | some r => exact ⟨r, rfl⟩
  unfold pass2Inner
  simp only [hcur, hr]
  by_cases hsv : r.service = svc
  · simp only [hsv, if_true]
    refine ⟨_, rfl, h.calls, by simp [h.len], ?_⟩
    intro k
    simp only
    by_cases hkj : k = j
    · subst hkj
      rw [List.getElem?_set_self hlen, ho0]
      simp only [Option.map_some', innerMark, SpanBuf.service, hr, hsv, Option.some.injEq]
      rw [if_pos ⟨hij, Nat.lt_succ_self _, trivial⟩]
    · rw [List.getElem?_set_ne (fun e => hkj e.symm), h.objs k]
      cases st0.pObj[k]? with
      | none => rfl
      | some o => simp only [Option.map_some', innerMark_succ_ne _ _ _ _ _ _ hkj]
  · simp only [hsv, if_false]
    refine ⟨_, rfl, h.calls, h.len, ?_⟩
    intro k
    rw [h.objs k]
    cases hk : st0.pObj[k]? with
    | none => rfl
    | some o =>
      simp only [Option.map_some', Option.some.injEq]
      by_cases hkj : k = j
      · subst hkj
        rw [ho0] at hk
        cases hk
        have hns : ¬ o0.service = some svc := by
          simp only [SpanBuf.service, hr, Option.map_some', Option.some.injEq]
          exact hsv
        unfold innerMark
        rw [if_neg (fun e => hns e.2.2), if_neg (fun e => hns e.2.2)]
      · rw [innerMark_succ_ne _ _ _ _ _ _ hkj]

/-- The inner loop of PASS 2 returns when the objects from `i` on point to
characteristics, and marks exactly the objects of the service. -/
theorem inner_total (svc : SvcRef) (status : StatusCode) (i n : Nat) (st0 : UState)
    (hin : i ≤ n) (hn : n ≤ st0.pObj.length)
    (hch : ∀ k, i ≤ k → k < n → ∀ o, st0.pObj[k]? = some o → o.characteristic ≠ none) :
    ∃ st, forLoop i n (pass2Inner svc status) st0 = .ok st ∧ InnerInv svc status i st0 n st := by
  apply forLoop_invariant (InnerInv svc status i st0) i n _ _ hin
  · refine ⟨rfl, rfl, ?_⟩
    intro k
    cases st0.pObj[k]? with
    | none => rfl
    | some o =>
      simp only [Option.map_some', innerMark, Option.some.injEq]
      rw [if_neg (by omega)]
  · intro j st hij hjn hinv
    have hjl : j < st0.pObj.length := by omega
    exact pass2Inner_keeps svc status i j st0 st hij _ (List.getElem?_eq_getElem hjl)
      (hch j hij hjn _ (List.getElem?_eq_getElem hjl)) hinv


theorem service_eq_of_chars {o o1 : SpanBuf}
    (h : (some o).map SpanBuf.characteristic = (some o1).map SpanBuf.characteristic) :
    o.service = o1.service := by
  simp only [Option.map_some', Option.some.injEq] at h
  unfold SpanBuf.service
  rw [h]

/-- One round of the outer loop of PASS 2 keeps its invariant, as long as every object
points to a characteristic. -/
theorem pass2Step_keeps (env : Env) (n i : Nat) (st1 st : UState) (hi : i < n)
    (hn : n ≤ st1.pObj.length)
    (hres : ∀ k, k < n → ∀ o, st1.pObj[k]? = some o → o.characteristic ≠ none)
    (h : Pass2Inv n st1 i st) :
    ∃ st', pass2Step env n i st = .ok st' ∧ Pass2Inv n st1 (i + 1) st' := by
  have hil : i < st.pObj.length := by rw [h.len]; omega
  have hil1 : i < st1.pObj.length := by omega
  have ho : st.pObj[i]? = some st.pObj[i] := List.getElem?_eq_getElem hil
  have ho1 : st1.pObj[i]? = some st1.pObj[i] := List.getElem?_eq_getElem hil1
  generalize st.pObj[i] = o at ho
  generalize st1.pObj[i] = o1 at ho1
  have hsvc : o.service = o1.service := by
    apply service_eq_of_chars
    rw [← ho, ← ho1]
    exact h.chars i
  -- characteristics of the current state
  have hres' : ∀ k, k < n → ∀ x, st.pObj[k]? = some x → x.characteristic ≠ none := by
    intro k hk x hx
    have hc := h.chars k
    rw [hx] at hc
    have hkl : k < st1.pObj.length := by omega
    rw [List.getElem?_eq_getElem hkl] at hc
    simp only [Option.map_some', Option.some.injEq] at hc
    rw [hc]
    exact hres k hk _ (List.getElem?_eq_getElem hkl)
  unfold pass2Step
  simp only [ho]
  by_cases htbd : o.status = .TBD
  · rw [if_pos htbd]
    obtain ⟨r, hr⟩ : ∃ r, o.characteristic = some r := by
      cases hc : o.characteristic with
      | none => exact absurd hc (hres' i hi o ho)
      | some r => exact ⟨r, rfl⟩
    simp only [hr]
    have hos : o.service = some r.service := by simp [SpanBuf.service, hr]
    have ho1s : o1.service = some r.service := hsvc ▸ hos
    obtain ⟨h1tbd, hfresh⟩ := (h.tbd i hi o o1 ho ho1).1 htbd
    have hnew : r.service ∉ st.calls.map Prod.fst := hfresh _ ho1s
    generalize hb : env.update r.service st.span = b
    generalize hstatus : statusOf b = status
    have hstat : status ≠ .TBD := by
      rw [← hstatus]
      cases b <;> simp [statusOf]
    obtain ⟨st', hloop, hinner⟩ := inner_total r.service status i n
      { st with calls := st.calls ++ [(r.service, b)] } (Nat.le_of_lt hi)
      (by simp only; rw [h.len]; exact hn)
      (fun k _ hk x hx => hres' k hk x hx)
    refine ⟨st', hloop, ?_⟩
    have hobjs := hinner.objs
    simp only at hobjs
    have hcalls : st'.calls.map Prod.fst = st.calls.map Prod.fst ++ [r.service] := by
      rw [hinner.calls]
      simp
    refine ⟨?_, ?_, ?_, ?_, ?_, ?_⟩
    · rw [hinner.len]; exact h.len
    · intro k
      rw [hobjs k, ← h.chars k]
      cases st.pObj[k]? with
      | none => rfl
      | some x => simp only [Option.map_some', innerMark_characteristic]
    · intro k hk x x1 hx hx1
      rw [hobjs k] at hx
      have hkl : k < st.pObj.length := by rw [h.len]; omega
      rw [List.getElem?_eq_getElem hkl] at hx
      simp only [Option.map_some', Option.some.injEq] at hx
      have hx0 : st.pObj[k]? = some st.pObj[k] := List.getElem?_eq_getElem hkl
      generalize st.pObj[k] = y at hx hx0
      have hys : y.service = x1.service := by
        apply service_eq_of_chars
        rw [← hx0, ← hx1]
        exact h.chars k
      have hold := h.tbd k hk y x1 hx0 hx1
      rw [hcalls]
      subst hx
      unfold innerMark
      by_cases hcond : i ≤ k ∧ k < n ∧ y.service = some r.service
      · rw [if_pos hcond]
        simp only
        constructor
        · intro e; exact absurd e hstat
        · rintro ⟨_, hv⟩
          have := hv r.service (hys ▸ hcond.2.2)
          simp at this
      · rw [if_neg hcond]
        rw [hold]
        constructor
        · rintro ⟨a, hv⟩
          refine ⟨a, fun v hv1 => ?_⟩
          simp only [List.mem_append, List.mem_singleton, not_or]
          refine ⟨hv v hv1, fun e => ?_⟩
          subst e
          have hki : k < i := by
            by_contra hge
            exact hcond ⟨by omega, hk, hys ▸ hv1⟩
          exact hv _ hv1 (h.seen k hki x1 hx1 a _ hv1)
        · rintro ⟨a, hv⟩
          refine ⟨a, fun v hv1 => ?_⟩
          have := hv v hv1
          simp only [List.mem_append, List.mem_singleton, not_or] at this
          exact this.1
    · intro k hk x1 hx1 hx1t v hv
      rw [hcalls]
      simp only [List.mem_append, List.mem_singleton]
      by_cases hki : k = i
      · subst hki
        rw [ho1] at hx1
        cases hx1
        rw [ho1s] at hv
        cases hv
        exact Or.inr rfl
      · exact Or.inl (h.seen k (by omega) x1 hx1 hx1t v hv)
    · rw [hcalls, List.nodup_append]
      refine ⟨h.nodup, by simp, ?_⟩
      intro v hv hv'
      simp only [List.mem_singleton] at hv'
      subst hv'
      exact hnew hv
    · intro v hv
      rw [hcalls] at hv
      simp only [List.mem_append, List.mem_singleton] at hv
      rcases hv with hv | rfl
      · obtain ⟨k, hk, x⟩ := h.origin v hv
        exact ⟨k, by omega, x⟩
      · exact ⟨i, by omega, o1, ho1, h1tbd, ho1s⟩
  · rw [if_neg htbd]
    refine ⟨st, rfl, h.len, h.chars, h.tbd, ?_, h.nodup, ?_⟩
    · intro k hk x1 hx1 hx1t v hv
      by_cases hki : k = i
      · subst hki
        rw [ho1] at hx1
        cases hx1
        by_contra hnot
        apply htbd
        rw [h.tbd k hi o o1 ho ho1]
        refine ⟨hx1t, fun w hw => ?_⟩
        rw [hv] at hw
        cases hw
        exact hnot
      · exact h.seen k (by omega) x1 hx1 hx1t v hv
    · intro v hv
      obtain ⟨k, hk, x⟩ := h.origin v hv
      exact ⟨k, by omega, x⟩


/-- PASS 2 returns when every object points to a characteristic, with the invariant of
its outer loop at the end. -/
theorem pass2_total (env : Env) (n : Nat) (st1 : UState) (hn : n ≤ st1.pObj.length)
    (hc : st1.calls = [])
    (hres : ∀ k, k < n → ∀ o, st1.pObj[k]? = some o → o.characteristic ≠ none) :
    ∃ st2, pass2 env n st1 = .ok st2 ∧ Pass2Inv n st1 n st2 := by
  unfold pass2
  apply forLoop_invariant (Pass2Inv n st1) 0 n _ _ (Nat.zero_le _)
  · refine ⟨rfl, fun _ => rfl, ?_, ?_, by simp [hc], by simp [hc]⟩
    · intro k _ o o1 ho ho1
      rw [ho] at ho1
      cases ho1
      simp [hc]
    · intro k hk
      exact absurd hk (Nat.not_lt_zero k)
  · intro i st _ hi hinv
    exact pass2Step_keeps env n i st1 st hi hn hres hinv

/-- C3: for a parsed PUT /characteristics request in which every object resolves to a
characteristic, PASS 1 returns (with the state `st1`), the call returns 1, and PASS 2 has
called `update()` exactly once on each service that owns an object staged with status TBD
in PASS 1, and never on any other service. -/
theorem update_once_per_staged_service (s : Span) (env : Env) (buf : List Char)
    (pObj : List SpanBuf) (ps : PState)
    (hp : parseRequest s.TimedWrites env.millis buf pObj = .ok (.good ps))
    (hres : ∀ k, k < ps.nObj → ∀ o, ps.pObj[k]? = some o →
      s.find (toU32 o.aid) o.iid ≠ none) :
    ∃ st1 r,
      pass1 env ps.twFail ps.nObj
        { pObj := ps.pObj, span := { s with snapTime := env.millis }, calls := [] } = .ok st1 ∧
      s.updateCharacteristics env buf pObj = .ok r ∧ r.ret = 1 ∧
      ∀ v : SvcRef,
        ((∃ k : Nat, k < ps.nObj ∧ ∃ o, st1.pObj[k]? = some o ∧ o.status = .TBD ∧
            o.service = some v) → (r.calls.map Prod.fst).count v = 1) ∧
        ((¬ ∃ k : Nat, k < ps.nObj ∧ ∃ o, st1.pObj[k]? = some o ∧ o.status = .TBD ∧
            o.service = some v) → (r.calls.map Prod.fst).count v = 0) := by
  obtain ⟨hlen, hn⟩ := parseRequest_good _ _ _ _ _ hp
  obtain ⟨st1, h1, hinv⟩ := pass1_total env ps.twFail ps.pObj { s with snapTime := env.millis }
    ps.nObj hn
  refine ⟨st1, ?_⟩
  have hn1 : ps.nObj ≤ st1.pObj.length := by rw [hinv.len]; exact hn
  -- the call returns `st2` once PASS 2 does
  have hret : ∀ st2, pass2 env ps.nObj st1 = .ok st2 →
      s.updateCharacteristics env buf pObj =
        .ok { ret := 1, nObj := ps.nObj, pObj := st2.pObj, span := st2.span,
              calls := st2.calls } := by
    intro st2 h2
    unfold Span.updateCharacteristics
    simp only [hp, h1, h2]
  by_cases htw : ps.twFail = true
  · -- a failing PID: nothing is staged and nothing is called
    have hnone : ∀ k, k < ps.nObj → ∀ o, st1.pObj[k]? = some o → o.status ≠ .TBD := by
      intro k hk o ho
      have hkl : k < ps.pObj.length := by omega
      obtain ⟨o', ho', -, -, -, -, hif⟩ := hinv.done k hk _ (List.getElem?_eq_getElem hkl)
      rw [if_pos htw] at hif
      rw [ho] at ho'
      cases ho'
      rw [hif.1]
      simp
    refine ⟨_, h1, hret st1 (pass2_no_tbd env ps.nObj st1 hn1 hnone), rfl, fun v => ⟨?_, ?_⟩⟩
    · rintro ⟨k, hk, o, ho, hs, -⟩
      exact absurd hs (hnone k hk o ho)
    · intro _
      simp [hinv.calls]
  · have hres1 : ∀ k, k < ps.nObj → ∀ o, st1.pObj[k]? = some o → o.characteristic ≠ none := by
      intro k hk o ho
      have hkl : k < ps.pObj.length := by omega
      obtain ⟨o', ho', -, -, -, -, hif⟩ := hinv.done k hk _ (List.getElem?_eq_getElem hkl)
      rw [if_neg htw] at hif
      rw [ho] at ho'
      cases ho'
      rw [hif.1, @find_congr s { s with snapTime := env.millis } rfl]
      exact hres k hk _ (List.getElem?_eq_getElem hkl)
    obtain ⟨st2, h2, hinv2⟩ := pass2_total env ps.nObj st1 hn1 hinv.calls hres1
    refine ⟨_, h1, hret st2 h2, rfl, fun v => ⟨?_, ?_⟩⟩
    · rintro ⟨k, hk, o, ho, hs, hv⟩
      exact List.count_eq_one_of_mem hinv2.nodup (hinv2.seen k hk o ho hs v hv)
    · intro hno
      apply List.count_eq_zero_of_not_mem
      intro hv
      exact hno (hinv2.origin v hv)


set_option maxRecDepth 100000 in
theorem update_once_per_staged_service_witness :
    parseRequest sampleDb.TimedWrites sampleEnv.millis twoWrites [blankObj, blankObj] =
        .ok (.good twoWritesParsed) ∧
      (sampleDb.updateCharacteristics sampleEnv twoWrites [blankObj, blankObj]).toOption.map
          (fun r => r.calls) = some [(⟨0, 2⟩, true)] ∧
      ∃ st1 r,
        pass1 sampleEnv twoWritesParsed.twFail twoWritesParsed.nObj
          { pObj := twoWritesParsed.pObj,
            span := { sampleDb with snapTime := sampleEnv.millis }, calls := [] } = .ok st1 ∧
        sampleDb.updateCharacteristics sampleEnv twoWrites [blankObj, blankObj] = .ok r ∧
        r.ret = 1 ∧
        ∀ v : SvcRef,
          ((∃ k : Nat, k < twoWritesParsed.nObj ∧ ∃ o, st1.pObj[k]? = some o ∧
              o.status = .TBD ∧ o.service = some v) → (r.calls.map Prod.fst).count v = 1) ∧
          ((¬ ∃ k : Nat, k < twoWritesParsed.nObj ∧ ∃ o, st1.pObj[k]? = some o ∧
              o.status = .TBD ∧ o.service = some v) → (r.calls.map Prod.fst).count v = 0) :=
  ⟨by rfl, by decide,
    update_once_per_staged_service sampleDb sampleEnv twoWrites [blankObj, blankObj]
      twoWritesParsed (by rfl) (by
        intro k hk o ho
        have hk2 : k < 2 := hk
        interval_cases k
        · simp only [twoWritesParsed, List.getElem?_cons_zero, Option.some.injEq] at ho
          subst ho
          decide
        · simp only [twoWritesParsed, List.getElem?_cons_succ, List.getElem?_cons_zero,
            Option.some.injEq] at ho
          subst ho
          decide)⟩

theorem settle_settle (c : SpanCharacteristic) (status : StatusCode) :
    (c.settle status).settle status = c.settle status := by
  unfold SpanCharacteristic.settle
  split <;> rfl

theorem withAccessories_modifyChar (s : Span) (r : CharRef)
    (f : SpanCharacteristic → SpanCharacteristic) (l : List SpanAccessory) :
    (s.modifyChar r f).withAccessories l = s.withAccessories l := rfl

theorem innerHit_succ (svc : SvcRef) (i j : Nat) (p : List SpanBuf) (r : CharRef) (o : SpanBuf)
    (hij : i ≤ j) (ho : p[j]? = some o) :
    innerHit svc i (j + 1) p r ↔
      innerHit svc i j p r ∨ (r.service = svc ∧ o.characteristic = some r) := by
  unfold innerHit
  constructor
  · rintro ⟨hs, k, h1, h2, x, hx, hc⟩
    by_cases hkj : k = j
    · subst hkj
      rw [ho] at hx
      cases hx
      exact Or.inr ⟨hs, hc⟩
    · exact Or.inl ⟨hs, k, h1, by omega, x, hx, hc⟩
  · rintro (⟨hs, k, h1, h2, x, hx, hc⟩ | ⟨hs, hc⟩)
    · exact ⟨hs, k, h1, by omega, x, hx, hc⟩
    · exact ⟨hs, j, hij, by omega, o, ho, hc⟩

/-- One round of the inner loop keeps the description of the database. -/
theorem pass2Inner_span (svc : SvcRef) (status : StatusCode) (i j : Nat) (st0 st st' : UState)
    (hij : i ≤ j) (o0 : SpanBuf) (ho0 : st0.pObj[j]? = some o0)
    (hinv : InnerInv svc status i st0 j st) (h : InnerSpan svc status i st0 j st)
    (hstep : pass2Inner svc status j st = .ok st') :
    InnerSpan svc status i st0 (j + 1) st' := by
  have hcur : st.pObj[j]? = some o0 := by
    rw [hinv.objs j, ho0]
    simp [innerMark]
  unfold pass2Inner at hstep
  simp only [hcur] at hstep
  cases hc : o0.characteristic with
  | none => simp [hc] at hstep
  | some rj =>
    simp only [hc] at hstep
    by_cases hsv : rj.service = svc
    · simp only [hsv, if_true, Except.ok.injEq] at hstep
      subst hstep
      refine ⟨?_, ?_, ?_⟩
      · intro r hr
        simp only
        rw [getChar_modifyChar]
        by_cases hrj : r = rj
        · subst hrj
          rw [if_pos rfl]
          by_cases hold : innerHit svc i j st0.pObj r
          · rw [h.hit r hold]
            cases st0.span.getChar r with
            | none => rfl
            | some c => simp [settle_settle]
          · rw [h.miss r hold]
        · rw [if_neg hrj]
          have hold : innerHit svc i j st0.pObj r := by
            rcases (innerHit_succ svc i j st0.pObj r o0 hij ho0).1 hr with h1 | ⟨_, h2⟩
            · exact h1
            · rw [hc] at h2
              cases h2
              exact absurd rfl hrj
          exact h.hit r hold
      · intro r hr
        simp only
        rw [getChar_modifyChar]
        have hrj : r ≠ rj := by
          intro e
          subst e
          exact hr ((innerHit_succ svc i j st0.pObj r o0 hij ho0).2 (Or.inr ⟨hsv, hc⟩))
        rw [if_neg hrj]
        exact h.miss r (fun hh => hr ((innerHit_succ svc i j st0.pObj r o0 hij ho0).2 (Or.inl hh)))
      · simp only [withAccessories_modifyChar]
        exact h.frame
    · simp only [hsv, if_false, Except.ok.injEq] at hstep
      subst hstep
      have hiff : ∀ r, innerHit svc i (j + 1) st0.pObj r ↔ innerHit svc i j st0.pObj r := by
        intro r
        rw [innerHit_succ svc i j st0.pObj r o0 hij ho0]
        constructor
        · rintro (h1 | ⟨h2, h3⟩)
          · exact h1
          · rw [hc] at h3
            cases h3
            exact absurd h2 hsv
        · exact Or.inl
      exact ⟨fun r hr => h.hit r ((hiff r).1 hr), fun r hr => h.miss r (fun hh => hr ((hiff r).2 hh)),
        h.frame⟩

/-- The inner loop of PASS 2, when it returns, has settled exactly the characteristics of
the service that an object from `i` on points to. -/
theorem inner_span (svc : SvcRef) (status : StatusCode) (i n : Nat) (st0 st : UState)
    (hin : i ≤ n) (hn : n ≤ st0.pObj.length)
    (hloop : forLoop i n (pass2Inner svc status) st0 = .ok st) :
    InnerInv svc status i st0 n st ∧ InnerSpan svc status i st0 n st := by
  apply forLoop_invariant_ok
    (fun j st => InnerInv svc status i st0 j st ∧ InnerSpan svc status i st0 j st) i n _ st0 st
    hin ?_ ?_ hloop
  · refine ⟨⟨rfl, rfl, ?_⟩, ?_, ?_, rfl⟩
    · intro k
      cases st0.pObj[k]? with
      | none => rfl
      | some o =>
        simp only [Option.map_some', innerMark, Option.some.injEq]
        rw [if_neg (by omega)]
    · rintro r ⟨_, k, h1, h2, _⟩
      omega
    · intro r _
      rfl
  · intro j x x' hij hjn ⟨h1, h2⟩ hstep
    have hjl : j < st0.pObj.length := by omega
    have ho0 := List.getElem?_eq_getElem hjl
    refine ⟨?_, pass2Inner_span svc status i j st0 x x' hij _ ho0 h1 h2 hstep⟩
    have hcur : x.pObj[j]? = some st0.pObj[j] := by
      rw [h1.objs j, ho0]
      simp [innerMark]
    have hch : st0.pObj[j].characteristic ≠ none := by
      intro e
      unfold pass2Inner at hstep
      simp [hcur, e] at hstep
    obtain ⟨x'', hx'', hinv''⟩ := pass2Inner_keeps svc status i j st0 x hij _ ho0 hch h1
    rw [hstep] at hx''
    cases hx''
    exact hinv''

/-- What a round of the outer loop of PASS 2 that returns has done. -/
theorem pass2Step_cases (env : Env) (n i : Nat) (st st' : UState)
    (h : pass2Step env n i st = .ok st') :
    ∃ o, st.pObj[i]? = some o ∧
      ((o.status ≠ .TBD ∧ st' = st) ∨
        (o.status = .TBD ∧ ∃ r, o.characteristic = some r ∧
          forLoop i n (pass2Inner r.service (statusOf (env.update r.service st.span)))
            { st with calls := st.calls ++ [(r.service, env.update r.service st.span)] } =
              .ok st')) := by
  unfold pass2Step at h
  cases ho : st.pObj[i]? with
  | none => simp [ho] at h
  | some o =>
    simp only [ho] at h
    refine ⟨o, rfl, ?_⟩
    by_cases htbd : o.status = .TBD
    · right
      rw [if_pos htbd] at h
      cases hc : o.characteristic with
      | none => simp [hc] at h
      | some r =>
        simp only [hc] at h
        exact ⟨htbd, r, rfl, h⟩
    · left
      rw [if_neg htbd] at h
      cases h
      exact ⟨htbd, rfl⟩

theorem mem_calls_service {calls : List (SvcRef × Bool)} {v : SvcRef} {b : Bool}
    (h : (v, b) ∈ calls) : v ∈ calls.map Prod.fst :=
  List.mem_map.2 ⟨(v, b), h, rfl⟩

/-- One round of the outer loop of PASS 2 keeps the description of the database. -/
theorem pass2Step_span (env : Env) (n i : Nat) (st1 st st' : UState) (hi : i < n)
    (hn : n ≤ st1.pObj.length) (hinv : Pass2Inv n st1 i st) (h : Pass2Span n st1 st)
    (hstep : pass2Step env n i st = .ok st') : Pass2Span n st1 st' := by
  obtain ⟨o, ho, hcase⟩ := pass2Step_cases env n i st st' hstep
  rcases hcase with ⟨_, rfl⟩ | ⟨htbd, ri, hri, hloop⟩
  · exact h
  generalize hb : env.update ri.service st.span = b at hloop
  have hil1 : i < st1.pObj.length := by omega
  have ho1 : st1.pObj[i]? = some st1.pObj[i] := List.getElem?_eq_getElem hil1
  generalize st1.pObj[i] = o1 at ho1
  have hsvc : o.service = o1.service := by
    apply service_eq_of_chars
    rw [← ho, ← ho1]
    exact hinv.chars i
  have hos : o.service = some ri.service := by simp [SpanBuf.service, hri]
  obtain ⟨-, hfresh⟩ := (hinv.tbd i hi o o1 ho ho1).1 htbd
  have hnew : ri.service ∉ st.calls.map Prod.fst := hfresh _ (hsvc ▸ hos)
  obtain ⟨hI, hS⟩ := inner_span ri.service (statusOf b) i n
    { st with calls := st.calls ++ [(ri.service, b)] } st' (Nat.le_of_lt hi)
    (by simp only; rw [hinv.len]; exact hn) hloop
  have hcalls : st'.calls = st.calls ++ [(ri.service, b)] := hI.calls
  have hobjs := hI.objs
  simp only at hobjs
  have hmiss : ∀ r : CharRef, r.service ≠ ri.service → st'.span.getChar r = st.span.getChar r :=
    fun r hr => hS.miss r (fun hh => hr hh.1)
  -- a member of the new call list is an old one or the new call
  have hmem : ∀ (v : SvcRef) (b' : Bool), (v, b') ∈ st'.calls →
      (v, b') ∈ st.calls ∨ (v = ri.service ∧ b' = b) := by
    intro v b' hv
    rw [hcalls] at hv
    simp only [List.mem_append, List.mem_singleton, Prod.mk.injEq] at hv
    exact hv
  refine ⟨?_, ?_, ?_, ?_, ?_⟩
  · intro r hr
    have hr' : r.service ∉ st.calls.map Prod.fst ∧ r.service ≠ ri.service := by
      rw [hcalls] at hr
      simpa [not_or] using hr
    rw [hmiss r hr'.2]
    exact h.untouched r hr'.1
  · intro r b' hr
    rcases hmem _ _ hr with hold | ⟨hv, hb'⟩
    · have hne : r.service ≠ ri.service := fun e => hnew (e ▸ mem_calls_service hold)
      rw [hmiss r hne]
      exact h.settled r b' hold
    · subst hb'
      have hun := h.untouched r (hv ▸ hnew)
      by_cases hh : innerHit ri.service i n st.pObj r
      · right
        rw [hS.hit r hh]
        simp only
        rw [hun]
      · left
        rw [hS.miss r hh]
        exact hun
  · intro k x1 r b' hk hx1 hx1t hx1c hr
    have hkl : k < st.pObj.length := by rw [hinv.len]; omega
    have hx0 : st.pObj[k]? = some st.pObj[k] := List.getElem?_eq_getElem hkl
    generalize st.pObj[k] = y at hx0
    have hyc : y.characteristic = x1.characteristic := by
      have := hinv.chars k
      rw [hx0, hx1] at this
      simpa using this
    have hys : y.service = some r.service := by simp [SpanBuf.service, hyc, hx1c]
    rcases hmem _ _ hr with hold | ⟨hv, hb'⟩
    · have hne : r.service ≠ ri.service := fun e => hnew (e ▸ mem_calls_service hold)
      obtain ⟨g1, y', hy', g2⟩ := h.staged k x1 r b' hk hx1 hx1t hx1c hold
      rw [hx0] at hy'
      cases hy'
      refine ⟨by rw [hmiss r hne]; exact g1, y, ?_, g2⟩
      rw [hobjs k, hx0]
      simp only [Option.map_some', Option.some.injEq]
      unfold innerMark
      rw [if_neg]
      rintro ⟨_, _, e⟩
      rw [hys] at e
      exact hne (Option.some.inj e)
    · subst hb'
      have hki : i ≤ k := by
        by_contra hlt
        have hseen := hinv.seen k (by omega) x1 hx1 hx1t r.service
          (by simp [SpanBuf.service, hx1c])
        exact hnew (hv ▸ hseen)
      have hhit : innerHit ri.service i n st.pObj r :=
        ⟨hv, k, hki, hk, y, hx0, by rw [hyc, hx1c]⟩
      refine ⟨?_, { y with status := statusOf b' }, ?_, rfl⟩
      · rw [hS.hit r hhit]
        simp only
        rw [h.untouched r (hv ▸ hnew)]
      · rw [hobjs k, hx0]
        simp only [Option.map_some', Option.some.injEq]
        unfold innerMark
        rw [if_pos ⟨hki, hk, by rw [hys, hv]⟩]
  · intro k x1 hx1
    obtain ⟨y, hy, hyo⟩ := h.objs k x1 hx1
    rw [hobjs k, hy]
    simp only [Option.map_some', Option.some.injEq, exists_eq_left']
    have hys : y.service = x1.service := by
      rcases hyo with rfl | ⟨_, _, _, _, rfl⟩
      · rfl
      · rfl
    unfold innerMark
    by_cases hcond : i ≤ k ∧ k < n ∧ y.service = some ri.service
    · rw [if_pos hcond]
      right
      refine ⟨ri.service, b, hys ▸ hcond.2.2, by rw [hcalls]; simp, ?_⟩
      rcases hyo with rfl | ⟨_, _, _, _, rfl⟩
      · rfl
      · rfl
    · rw [if_neg hcond]
      rcases hyo with rfl | ⟨v, b0, h1, h2, rfl⟩
      · exact Or.inl rfl
      · exact Or.inr ⟨v, b0, h1, by rw [hcalls]; exact List.mem_append_left _ h2, rfl⟩
  · rw [hS.frame]
    exact h.frame

/-- PASS 2 returns when every object points to a characteristic; at the end both
descriptions of its outer loop hold. -/
theorem pass2_total_span (env : Env) (n : Nat) (st1 : UState) (hn : n ≤ st1.pObj.length)
    (hc : st1.calls = [])
    (hres : ∀ k, k < n → ∀ o, st1.pObj[k]? = some o → o.characteristic ≠ none) :
    ∃ st2, pass2 env n st1 = .ok st2 ∧ Pass2Inv n st1 n st2 ∧ Pass2Span n st1 st2 := by
  unfold pass2
  apply forLoop_invariant (fun i st => Pass2Inv n st1 i st ∧ Pass2Span n st1 st) 0 n _ _
    (Nat.zero_le _)
  · refine ⟨⟨rfl, fun _ => rfl, ?_, ?_, by simp [hc], by simp [hc]⟩, ?_⟩
    · intro k _ o o1 ho ho1
      rw [ho] at ho1
      cases ho1
      simp [hc]
    · intro k hk
      exact absurd hk (Nat.not_lt_zero k)
    · refine ⟨fun _ _ => rfl, fun _ _ _ => Or.inl rfl, ?_, fun k o1 h => ⟨o1, h, Or.inl rfl⟩, rfl⟩
      intro k o1 r b _ _ _ _ hmem
      rw [hc] at hmem
      cases hmem
  · intro i st _ hi ⟨hinv, hspan⟩
    obtain ⟨st', hstep, hinv'⟩ := pass2Step_keeps env n i st1 st hi hn hres hinv
    exact ⟨st', hstep, hinv', pass2Step_span env n i st1 st st' hi hn hinv hspan hstep⟩

/-- PASS 1 changes a characteristic through `loadUpdate` alone: whatever `loadUpdate`
keeps (the function `g` of the characteristic) is the same after the pass. -/
theorem pass1_keeps {α : Type} (g : SpanCharacteristic → α) (env : Env) (twFail : Bool)
    (n : Nat) (st0 st1 : UState)
    (hg : ∀ (c : SpanCharacteristic) (t : Nat) (val ev : Option String),
      g (c.loadUpdate env t val ev).2 = g c)
    (h : pass1 env twFail n st0 = .ok st1) (r : CharRef) :
    (st1.span.getChar r).map g = (st0.span.getChar r).map g := by
  unfold pass1 at h
  apply forLoop_invariant_ok
    (fun _ st => (st.span.getChar r).map g = (st0.span.getChar r).map g) 0 n _ st0 st1
    (Nat.zero_le _) rfl ?_ h
  intro i st st' _ _ hst hstep
  unfold pass1Step at hstep
  cases ho : st.pObj[i]? with
  | none => simp [ho] at hstep
  | some o =>
    simp only [ho] at hstep
    split at hstep
    · cases hstep
      exact hst
    · split at hstep
      · cases hstep
        exact hst
      · split at hstep
        · cases hstep
        · cases hstep
          simp only
          rw [getChar_modifyChar]
          split
          · rw [← hst]
            cases st.span.getChar r with
            | none => rfl
            | some c => simp [hg]
          · exact hst

/-- Commit and roll-back of PASS 2 on requests whose objects all resolve: the call
returns 1, and for every object that PASS 1 staged with status TBD (`st1` is the state
after PASS 1) the service was called with some result `b`; if `b` is true the final
status is OK and the value of the characteristic is its staged newValue; if `b` is false
the final status is Unable, the value is what it was before the request, and newValue
equals value. -/
theorem staged_objects_settled (s : Span) (env : Env) (buf : List Char) (pObj : List SpanBuf)
    (ps : PState) (hp : parseRequest s.TimedWrites env.millis buf pObj = .ok (.good ps))
    (hres : ∀ k, k < ps.nObj → ∀ o, ps.pObj[k]? = some o →
      s.find (toU32 o.aid) o.iid ≠ none) :
    ∃ st1 r,
      pass1 env ps.twFail ps.nObj
        { pObj := ps.pObj, span := { s with snapTime := env.millis }, calls := [] } = .ok st1 ∧
      s.updateCharacteristics env buf pObj = .ok r ∧ r.ret = 1 ∧
      ∀ k, k < ps.nObj → ∀ o1, st1.pObj[k]? = some o1 → o1.status = .TBD →
        ∃ ref b c0 c1 c2 o, o1.characteristic = some ref ∧ (ref.service, b) ∈ r.calls ∧
          s.getChar ref = some c0 ∧ st1.span.getChar ref = some c1 ∧
          r.span.getChar ref = some c2 ∧ r.pObj[k]? = some o ∧
          (b = true → o.status = .OK ∧ c2.value = c1.newValue) ∧
          (b = false → o.status = .Unable ∧ c2.value = c0.value ∧ c2.newValue = c2.value) := by
  obtain ⟨hlen, hn⟩ := parseRequest_good _ _ _ _ _ hp
  obtain ⟨st1, h1, hinv⟩ := pass1_total env ps.twFail ps.pObj { s with snapTime := env.millis }
    ps.nObj hn
  have hn1 : ps.nObj ≤ st1.pObj.length := by rw [hinv.len]; exact hn
  have hret : ∀ st2, pass2 env ps.nObj st1 = .ok st2 →
      s.updateCharacteristics env buf pObj =
        .ok { ret := 1, nObj := ps.nObj, pObj := st2.pObj, span := st2.span,
              calls := st2.calls } := by
    intro st2 h2
    unfold Span.updateCharacteristics
    simp only [hp, h1, h2]
  refine ⟨st1, ?_⟩
  by_cases htw : ps.twFail = true
  · have hnone : ∀ k, k < ps.nObj → ∀ o, st1.pObj[k]? = some o → o.status ≠ .TBD := by
      intro k hk o ho
      have hkl : k < ps.pObj.length := by omega
      obtain ⟨o', ho', -, -, -, -, hif⟩ := hinv.done k hk _ (List.getElem?_eq_getElem hkl)
      rw [if_pos htw] at hif
      rw [ho] at ho'
      cases ho'
      rw [hif.1]
      simp
    exact ⟨_, h1, hret st1 (pass2_no_tbd env ps.nObj st1 hn1 hnone), rfl,
      fun k hk o1 ho1 ht => absurd ht (hnone k hk o1 ho1)⟩
  · have hchar : ∀ k, k < ps.nObj → ∀ o, st1.pObj[k]? = some o →
        o.characteristic ≠ none ∧ ∃ o0, ps.pObj[k]? = some o0 ∧
          o.characteristic = s.find (toU32 o0.aid) o0.iid := by
      intro k hk o ho
      have hkl : k < ps.pObj.length := by omega
      obtain ⟨o', ho', -, -, -, -, hif⟩ := hinv.done k hk _ (List.getElem?_eq_getElem hkl)
      rw [if_neg htw] at hif
      rw [ho] at ho'
      cases ho'
      have e : o.characteristic = s.find (toU32 ps.pObj[k].aid) ps.pObj[k].iid := by
        rw [hif.1, @find_congr s { s with snapTime := env.millis } rfl]
      exact ⟨by rw [e]; exact hres k hk _ (List.getElem?_eq_getElem hkl),
        _, List.getElem?_eq_getElem hkl, e⟩
    obtain ⟨st2, h2, hinv2, hspan⟩ := pass2_total_span env ps.nObj st1 hn1 hinv.calls
      (fun k hk o ho => (hchar k hk o ho).1)
    refine ⟨_, h1, hret st2 h2, rfl, ?_⟩
    intro k hk o1 ho1 ht
    obtain ⟨hne, o0, ho0, hfind⟩ := hchar k hk o1 ho1
    obtain ⟨ref, href⟩ : ∃ ref, o1.characteristic = some ref := by
      cases hc : o1.characteristic with
      | none => exact absurd hc hne
      | some ref => exact ⟨ref, rfl⟩
    -- the service of the object has been called
    have hcalled := hinv2.seen k hk o1 ho1 ht ref.service (by simp [SpanBuf.service, href])
    obtain ⟨⟨v, b⟩, hvb, hv⟩ := List.mem_map.1 hcalled
    simp only at hv
    subst hv
    -- the characteristic before the request, after PASS 1 and at the end
    obtain ⟨_, c0, _, _, hc0, _⟩ := find_sound s _ _ ref (by rw [← hfind, href])
    have hval := pass1_keeps (fun c => c.value) env ps.twFail ps.nObj _ st1
      (fun c t val ev => (loadUpdate_keeps c env t val ev).2.2.1) h1 ref
    simp only at hval
    have hc0' : ({ s with snapTime := env.millis } : Span).getChar ref = some c0 := hc0
    rw [hc0'] at hval
    obtain ⟨c1, hc1, hc1v⟩ : ∃ c1, st1.span.getChar ref = some c1 ∧ c1.value = c0.value := by
      cases hg : st1.span.getChar ref with
      | none => rw [hg] at hval; simp at hval
      | some c1 =>
        rw [hg] at hval
        simp only [Option.map_some', Option.some.injEq] at hval
        exact ⟨c1, rfl, hval⟩
    obtain ⟨hfin, o, ho, hos⟩ := hspan.staged k o1 ref b hk ho1 ht href hvb
    rw [hc1] at hfin
    refine ⟨ref, b, c0, c1, c1.settle (statusOf b), o, href, hvb, hc0, hc1, hfin, ho, ?_, ?_⟩
    · intro hb
      subst hb
      exact ⟨hos, rfl⟩
    · intro hb
      subst hb
      refine ⟨hos, ?_, ?_⟩
      · simp [SpanCharacteristic.settle, statusOf, hc1v]
      · simp [SpanCharacteristic.settle, statusOf]

/-! ## Requests on which PASS 2 goes wrong -/

set_option maxRecDepth 100000 in
/-- C10 fails on the code: the body `writeThenUnknownIid` parses (two objects, no
failing PID), PASS 1 stages the first object and marks the second UnknownResource with a
`NULL` characteristic, and PASS 2 then reads through that `NULL` pointer in its inner
loop: the call does not return 1. -/
theorem update_faults_on_unknown_after_write :
    (∃ ps, parseRequest sampleDb.TimedWrites sampleEnv.millis writeThenUnknownIid
        [blankObj, blankObj] = .ok (.good ps) ∧ ps.nObj = 2 ∧ ps.twFail = false ∧
      (pass1 sampleEnv ps.twFail ps.nObj
        { pObj := ps.pObj, span := { sampleDb with snapTime := sampleEnv.millis },
          calls := [] }).toOption.map
          (fun st => st.pObj.map (fun o => (o.status, o.characteristic))) =
        some [(.TBD, some ⟨0, 2, 0⟩), (.UnknownResource, none)]) ∧
      sampleDb.updateCharacteristics sampleEnv writeThenUnknownIid [blankObj, blankObj] =
        .error .nullCharacteristic :=
  ⟨⟨_, rfl, rfl, rfl, rfl⟩, rfl⟩

set_option maxRecDepth 100000 in
/-- C6 fails on the code: in the parsed body `writeThenUnknownAid` the second object
matches no characteristic (aid 5 does not exist) and PASS 1 gives it UnknownResource,
but the call faults in PASS 2 and the object does not end with any status. -/
theorem unknown_object_not_reported :
    sampleDb.find 5 1 = none ∧
      (∃ ps, parseRequest sampleDb.TimedWrites sampleEnv.millis writeThenUnknownAid
          [blankObj, blankObj] = .ok (.good ps) ∧ ps.nObj = 2 ∧ ps.twFail = false) ∧
      sampleDb.updateCharacteristics sampleEnv writeThenUnknownAid [blankObj, blankObj] =
        .error .nullCharacteristic :=
  ⟨by decide, ⟨_, rfl, rfl, rfl⟩, rfl⟩

set_option maxRecDepth 100000 in
/-- C4 fails on the code: in the parsed body `writeUnknownWrite` PASS 1 stages the first
and the third object with status TBD (both of the LightBulb service) and marks the second
UnknownResource. Whether `update()` returns true (`sampleEnv`) or false (`refusingEnv`),
PASS 2 faults on the second object in the inner loop started for the first one: the call
returns no final status, and the third object is never given OK or Unable. -/
theorem staged_object_not_settled :
    (∃ ps, parseRequest sampleDb.TimedWrites sampleEnv.millis writeUnknownWrite
        [blankObj, blankObj, blankObj] = .ok (.good ps) ∧
      (pass1 sampleEnv ps.twFail ps.nObj
        { pObj := ps.pObj, span := { sampleDb with snapTime := sampleEnv.millis },
          calls := [] }).toOption.map (fun st => st.pObj.map (fun o => (o.status, o.service))) =
        some [(.TBD, some ⟨0, 2⟩), (.UnknownResource, none), (.TBD, some ⟨0, 2⟩)]) ∧
      sampleDb.updateCharacteristics sampleEnv writeUnknownWrite
          [blankObj, blankObj, blankObj] = .error .nullCharacteristic ∧
      sampleDb.updateCharacteristics refusingEnv writeUnknownWrite
          [blankObj, blankObj, blankObj] = .error .nullCharacteristic :=
  ⟨⟨_, rfl, rfl⟩, rfl, rfl⟩

set_option maxRecDepth 100000 in
/-- C7 fails on the code: in the parsed body `writeThenReadOnly` the second object
carries a value for `Name` (iid 8), which lacks PW; PASS 1 gives it ReadOnly, but PASS 2
treats it like the staged `On` of the same service: its final status is OK and the
value of `Name` is replaced by its unset `newValue` (5000 becomes 43690). -/
theorem read_only_status_overwritten :
    (sampleDb.getChar ⟨0, 2, 2⟩).map (fun c => (c.iid, hasBit c.perms PW, c.value)) =
        some (8, false, 5000) ∧
      (∃ ps, parseRequest sampleDb.TimedWrites sampleEnv.millis writeThenReadOnly
          [blankObj, blankObj] = .ok (.good ps) ∧ ps.twFail = false ∧
        (pass1 sampleEnv ps.twFail ps.nObj
          { pObj := ps.pObj, span := { sampleDb with snapTime := sampleEnv.millis },
            calls := [] }).toOption.map (fun st => st.pObj.map (fun o => o.status)) =
          some [.TBD, .ReadOnly]) ∧
      (sampleDb.updateCharacteristics sampleEnv writeThenReadOnly
          [blankObj, blankObj]).toOption.map
          (fun r => (r.ret, r.pObj.map (fun o => o.status),
            (r.span.getChar ⟨0, 2, 2⟩).map (fun c => c.value))) =
        some (1, [.OK, .OK], some 43690) :=
  ⟨by decide, ⟨_, rfl, rfl, rfl⟩, by decide⟩

/-! ## Accessory ids and instance ids -/

theorem Grows.refl (x : SpanAccessory) : Grows x x := ⟨rfl, id, List.prefix_refl _⟩

theorem Grows.trans {x y z : SpanAccessory} (h1 : Grows x y) (h2 : Grows y z) : Grows x z :=
  ⟨h2.1.trans h1.1, fun h => h2.2.1 (h1.2.1 h), h1.2.2.trans h2.2.2⟩

theorem countUp_succ (n : Nat) : countUp (n + 1) = countUp n ++ [(n : Int) + 1] := by
  simp [countUp, List.range_succ]

theorem countUp_length (n : Nat) : (countUp n).length = n := by simp [countUp]

theorem countUp_nodup (n : Nat) : (countUp n).Nodup := by
  unfold countUp
  refine (List.nodup_range n).map ?_
  intro a b h
  simpa using h

theorem IidOK.push {x y : SpanAccessory} (hc : y.iidCount = x.iidCount + 1)
    (hi : allIids y = allIids x ++ [x.iidCount + 1]) (h : IidOK x) : IidOK y := by
  obtain ⟨h0, h1⟩ := h
  refine ⟨by omega, ?_⟩
  have e : y.iidCount.toNat = x.iidCount.toNat + 1 := by omega
  rw [e, countUp_succ, hi, h1]
  congr 2
  omega

theorem allIids_pushService (acc : SpanAccessory) (type hapName : String)
    (req opt : List HapCharType) :
    allIids (acc.pushService type hapName req opt) = allIids acc ++ [acc.iidCount + 1] := by
  simp [allIids, SpanAccessory.pushService]

theorem Grows.afterPushService (acc : SpanAccessory) (type hapName : String)
    (req opt : List HapCharType) : Grows acc (acc.pushService type hapName req opt) :=
  ⟨rfl, IidOK.push rfl (allIids_pushService acc type hapName req opt),
    by rw [allIids_pushService]; exact List.prefix_append _ _⟩

theorem allIids_pushCharacteristic (acc : SpanAccessory) (mc : Nat) (type : String)
    (perms : Nat) (hapName : String) (v : InitVal) (junk : Junk) (sv : SpanService)
    (hsv : acc.Services.getLast? = some sv) :
    allIids (acc.pushCharacteristic mc type perms hapName v junk) =
      allIids acc ++ [acc.iidCount + 1] := by
  rcases list_back_cases acc.Services with ⟨hn, _⟩ | ⟨i, y, hi, _⟩
  · rw [hn] at hsv; simp at hsv
  · simp [allIids, SpanAccessory.pushCharacteristic, hi, modifyBack_concat]

theorem Grows.afterPushCharacteristic (acc : SpanAccessory) (mc : Nat) (type : String)
    (perms : Nat) (hapName : String) (v : InitVal) (junk : Junk) (sv : SpanService)
    (hsv : acc.Services.getLast? = some sv) :
    Grows acc (acc.pushCharacteristic mc type perms hapName v junk) :=
  ⟨rfl, IidOK.push rfl (allIids_pushCharacteristic acc mc type perms hapName v junk sv hsv),
    by rw [allIids_pushCharacteristic acc mc type perms hapName v junk sv hsv]
       exact List.prefix_append _ _⟩

theorem allIids_eq_of_map (a b : SpanAccessory)
    (h : b.Services.map (fun sv => sv.iid :: sv.Characteristics.map (fun c => c.iid)) =
      a.Services.map (fun sv => sv.iid :: sv.Characteristics.map (fun c => c.iid))) :
    allIids b = allIids a := by
  unfold allIids
  rw [List.flatMap_def, List.flatMap_def, h]

theorem Grows.of_same {x y : SpanAccessory} (ha : y.aid = x.aid) (hc : y.iidCount = x.iidCount)
    (hi : allIids y = allIids x) : Grows x y :=
  ⟨ha, fun h => ⟨by rw [hc]; exact h.1, by rw [hi, hc]; exact h.2⟩, by rw [hi]⟩

theorem Grows.afterSetRange (acc : SpanAccessory) (min max step : Int) :
    Grows acc (acc.setRange min max step) := by
  refine Grows.of_same rfl rfl (allIids_eq_of_map _ _ ?_)
  simp only [SpanAccessory.setRange]
  apply map_modifyBack
  intro sv
  simp only [List.cons.injEq, true_and]
  apply map_modifyBack
  intro c
  rfl

theorem Grows.afterModifyService (acc : SpanAccessory) (f : SpanService → SpanService) (j : Nat)
    (hf : ∀ sv, (f sv).iid = sv.iid ∧ (f sv).Characteristics = sv.Characteristics) :
    Grows acc { acc with Services := modifyAt f acc.Services j } := by
  refine Grows.of_same rfl rfl (allIids_eq_of_map _ _ ?_)
  apply map_modifyAt
  intro sv
  rw [(hf sv).1, (hf sv).2]

theorem getElem?_modifyBack {α : Type} (f : α → α) (l : List α) (i : Nat) (x : α)
    (h : l[i]? = some x) :
    (modifyBack f l)[i]? = some x ∨ (l.getLast? = some x ∧ (modifyBack f l)[i]? = some (f x)) := by
  rcases list_back_cases l with ⟨rfl, _⟩ | ⟨n, y, rfl, hl⟩
  · simp at h
  · rw [modifyBack_concat]
    by_cases hi : i < n.length
    · left
      rw [List.getElem?_append_left hi] at h ⊢
      exact h
    · right
      have hi' : n.length ≤ i := by omega
      rw [List.getElem?_append_right hi'] at h ⊢
      have h0 : i - n.length = 0 := by
        by_contra hne
        have : ([y] : List α)[i - n.length]? = none := by
          apply List.getElem?_eq_none
          simp; omega
        rw [this] at h; cases h
      rw [h0] at h ⊢
      simp at h
      subst h
      exact ⟨hl, by simp⟩

theorem grows_modifyBack (f : SpanAccessory → SpanAccessory) (l : List SpanAccessory)
    (hf : ∀ x, l.getLast? = some x → Grows x (f x)) (i : Nat) (acc : SpanAccessory)
    (h : l[i]? = some acc) : ∃ acc', (modifyBack f l)[i]? = some acc' ∧ Grows acc acc' := by
  rcases getElem?_modifyBack f l i acc h with h1 | ⟨h1, h2⟩
  · exact ⟨acc, h1, Grows.refl acc⟩
  · exact ⟨f acc, h2, hf acc h1⟩

theorem grows_modifyAt (f : SpanAccessory → SpanAccessory) (l : List SpanAccessory) (k : Nat)
    (hf : ∀ x, Grows x (f x)) (i : Nat) (acc : SpanAccessory)
    (h : l[i]? = some acc) : ∃ acc', (modifyAt f l k)[i]? = some acc' ∧ Grows acc acc' := by
  rw [getElem?_modifyAt, h]
  by_cases e : i = k
  · simp [e, hf]
  · simp [e, Grows.refl]

theorem length_modifyBack {α : Type} (f : α → α) (l : List α) :
    (modifyBack f l).length = l.length := by
  rcases list_back_cases l with ⟨rfl, _⟩ | ⟨n, y, rfl, _⟩
  · rfl
  · rw [modifyBack_concat]; simp

/-- What a declaration does to the list of accessories: every accessory stays at its
position and grows, and the list keeps its length unless the declaration is an
accessory, which is appended with the aid `newAid`, no service, and the count 0. -/
theorem declare_accessories (s : Span) (d : Decl) :
    (∀ (i : Nat) (acc : SpanAccessory), s.Accessories[i]? = some acc →
        ∃ acc', (declare s d).Accessories[i]? = some acc' ∧ Grows acc acc') ∧
      (((∀ a, d ≠ .accessory a) ∧
          (declare s d).Accessories.length = s.Accessories.length) ∨
        ∃ a, d = .accessory a ∧
          (declare s d).Accessories =
            s.Accessories ++ [{ aid := SpanAccessory.newAid s a, iidCount := 0, Services := [] }]) := by
  have same : ∀ s' : Span, s'.Accessories = s.Accessories →
      ∀ (i : Nat) (acc : SpanAccessory), s.Accessories[i]? = some acc →
        ∃ acc', s'.Accessories[i]? = some acc' ∧ Grows acc acc' := by
    intro s' e i acc h
    exact ⟨acc, by rw [e]; exact h, Grows.refl acc⟩
  cases d with
  | accessory aid =>
    obtain ⟨hk1, _⟩ := s.validateBack_keeps
    have e : (declare s (.accessory aid)).Accessories =
        s.Accessories ++ [{ aid := SpanAccessory.newAid s aid, iidCount := 0, Services := [] }] := by
      simp [declare, SpanAccessory.new, hk1]
    refine ⟨?_, Or.inr ⟨aid, rfl, e⟩⟩
    intro i acc h
    refine ⟨acc, ?_, Grows.refl acc⟩
    rw [e, List.getElem?_append_left (List.getElem?_eq_some.1 h).1]
    exact h
  | service type hapName req opt =>
    obtain ⟨hk1, _⟩ := s.validateBackService_keeps
    simp only [declare, SpanService.new]
    split
    · exact ⟨same _ (by simp [hk1]), Or.inl ⟨by simp, by simp [hk1]⟩⟩
    · refine ⟨?_, Or.inl ⟨by simp, by simp [hk1, length_modifyBack]⟩⟩
      intro i acc h
      simp only [Span.fatalIf_Accessories, Span.withAccessories_Accessories, hk1]
      exact grows_modifyBack _ _ (fun x _ => Grows.afterPushService x type hapName req opt) i acc h
  | setPrimary r =>
    refine ⟨?_, Or.inl ⟨by simp, by simp [declare, SpanService.setPrimary, Span.modifyService,
      length_modifyAt]⟩⟩
    intro i acc h
    simp only [declare, SpanService.setPrimary, Span.modifyService,
      Span.withAccessories_Accessories]
    exact grows_modifyAt _ _ _
      (fun x => Grows.afterModifyService x (fun sv => { sv with primary := true }) r.s
        (fun sv => ⟨rfl, rfl⟩)) i acc h
  | setHidden r =>
    refine ⟨?_, Or.inl ⟨by simp, by simp [declare, SpanService.setHidden, Span.modifyService,
      length_modifyAt]⟩⟩
    intro i acc h
    simp only [declare, SpanService.setHidden, Span.modifyService,
      Span.withAccessories_Accessories]
    exact grows_modifyAt _ _ _
      (fun x => Grows.afterModifyService x (fun sv => { sv with hidden := true }) r.s
        (fun sv => ⟨rfl, rfl⟩)) i acc h
  | characteristic type perms hapName v junk =>
    simp only [declare, SpanCharacteristic.new]
    split
    · exact ⟨same _ (by simp), Or.inl ⟨by simp, by simp⟩⟩
    · rename_i back hback
      split
      · exact ⟨same _ (by simp), Or.inl ⟨by simp, by simp⟩⟩
      · rename_i sv hsv
        refine ⟨?_, Or.inl ⟨by simp, by simp [length_modifyBack]⟩⟩
        intro i acc h
        simp only [Span.fatalIf_Accessories, Span.withAccessories_Accessories]
        refine grows_modifyBack _ _ (fun x hx => ?_) i acc h
        rw [hback] at hx
        cases hx
        exact Grows.afterPushCharacteristic _ _ _ _ _ _ _ sv hsv
  | range min max step =>
    simp only [declare, SpanRange.new]
    split
    · exact ⟨same _ (by simp), Or.inl ⟨by simp, by simp⟩⟩
    · refine ⟨?_, Or.inl ⟨by simp, by simp [length_modifyBack]⟩⟩
      intro i acc h
      simp only [Span.withAccessories_Accessories]
      exact grows_modifyBack _ _ (fun x _ => Grows.afterSetRange x min max step) i acc h
  | button pin l sg d =>
    simp only [declare, SpanButton.new]
    split
    · exact ⟨same _ (by simp), Or.inl ⟨by simp, by simp⟩⟩
    · split
      · exact ⟨same _ (by simp), Or.inl ⟨by simp, by simp⟩⟩
      · exact ⟨same _ rfl, Or.inl ⟨by simp, rfl⟩⟩

theorem declare_nFatalErrors (s : Span) (d : Decl) :
    s.nFatalErrors ≤ (declare s d).nFatalErrors := by
  cases d with
  | accessory aid =>
    obtain ⟨_, hk2⟩ := s.validateBack_keeps
    simp only [declare, SpanAccessory.new, Span.fatalIf_nFatalErrors,
      Span.withAccessories_nFatalErrors]
    omega
  | service type hapName req opt =>
    obtain ⟨_, hk2⟩ := s.validateBackService_keeps
    simp only [declare, SpanService.new]
    split
    · simp only [Span.fatal_nFatalErrors]; omega
    · simp only [Span.fatalIf_nFatalErrors, Span.withAccessories_nFatalErrors]; omega
  | setPrimary r => simp [declare, SpanService.setPrimary, Span.modifyService]
  | setHidden r => simp [declare, SpanService.setHidden, Span.modifyService]
  | characteristic type perms hapName v junk =>
    simp only [declare, SpanCharacteristic.new]
    split
    · simp
    · split
      · simp
      · simp only [Span.withAccessories_nFatalErrors, Span.fatalIf_nFatalErrors]; omega
  | range min max step =>
    simp only [declare, SpanRange.new]
    split
    · simp
    · simp
  | button pin l sg d =>
    simp only [declare, SpanButton.new]
    split
    · simp
    · split
      · simp
      · exact Nat.le_refl _

theorem declare_aids (s : Span) (d : Decl) :
    ((∀ a, d ≠ .accessory a) ∧ (declare s d).aids = s.aids) ∨
      ∃ a, d = .accessory a ∧ (declare s d).aids = s.aids ++ [SpanAccessory.newAid s a] := by
  obtain ⟨hg, hl | ⟨a, rfl, e⟩⟩ := declare_accessories s d
  · left
    refine ⟨hl.1, ?_⟩
    apply List.ext_getElem?
    intro i
    simp only [Span.aids, List.getElem?_map]
    cases h : s.Accessories[i]? with
    | none =>
      have : (declare s d).Accessories[i]? = none := by
        rw [List.getElem?_eq_none_iff] at h ⊢
        omega
      rw [this]
    | some acc =>
      obtain ⟨acc', h1, h2⟩ := hg i acc h
      rw [h1]
      simp [h2.1]
  · right
    exact ⟨a, rfl, by simp [Span.aids, e]⟩

theorem length_le_declare (s : Span) (d : Decl) :
    s.Accessories.length ≤ (declare s d).Accessories.length := by
  obtain ⟨_, h | ⟨a, _, e⟩⟩ := declare_accessories s d
  · omega
  · rw [e]; simp

theorem length_le_declareAll (s : Span) (ds : List Decl) :
    s.Accessories.length ≤ (declareAll s ds).Accessories.length := by
  induction ds generalizing s with
  | nil => exact Nat.le_refl _
  | cons d ds ih => exact Nat.le_trans (length_le_declare s d) (ih (declare s d))

theorem nFatalErrors_le_declareAll (s : Span) (ds : List Decl) :
    s.nFatalErrors ≤ (declareAll s ds).nFatalErrors := by
  induction ds generalizing s with
  | nil => exact Nat.le_refl _
  | cons d ds ih => exact Nat.le_trans (declare_nFatalErrors s d) (ih (declare s d))

theorem aids_getLast? (s : Span) : s.aids.getLast? = s.Accessories.getLast?.map (fun a => a.aid) := by
  simp [Span.aids, List.getLast?_map]

/-- The aid of a new accessory without override, from the aids so far. -/
theorem newAid_default (s : Span) :
    SpanAccessory.newAid s 0 =
      match s.aids.getLast? with
      | none => 1
      | some x => toI32 (x + 1) := by
  rw [aids_getLast?]
  unfold SpanAccessory.newAid
  cases s.Accessories.getLast? <;> simp

theorem newAid_override (s : Span) (a : Nat) (h0 : 0 < a) (h1 : a < 2147483648) :
    SpanAccessory.newAid s a = a := by
  unfold SpanAccessory.newAid
  have e : a % 4294967296 = a := Nat.mod_eq_of_lt (by omega)
  simp only [e, h0, if_true]
  unfold toI32
  omega

/-- The first accessory has aid 1 as long as no fatal error is recorded. -/
theorem first_aid_step (s : Span) (d : Decl)
    (h : s.nFatalErrors = 0 → ∀ x, s.aids.head? = some x → x = 1)
    (h0 : (declare s d).nFatalErrors = 0) : ∀ x, (declare s d).aids.head? = some x → x = 1 := by
  have hs : s.nFatalErrors = 0 := by have := declare_nFatalErrors s d; omega
  rcases declare_aids s d with ⟨_, e⟩ | ⟨a, rfl, e⟩
  · rw [e]; exact h hs
  · rw [e]
    cases hl : s.aids with
    | nil =>
      intro x hx
      simp only [List.nil_append, List.head?_cons, Option.some.injEq] at hx
      subst hx
      have hacc : s.Accessories = [] := by simpa [Span.aids] using hl
      obtain ⟨hk1, _⟩ := s.validateBack_keeps
      simp only [declare, SpanAccessory.new, Span.fatalIf_nFatalErrors,
        Span.withAccessories_nFatalErrors, Span.fatalIf_Accessories,
        Span.withAccessories_Accessories, hk1, hacc] at h0
      by_contra hne
      simp [hne] at h0
    | cons y ys =>
      intro x hx
      simp only [List.cons_append, List.head?_cons, Option.some.injEq] at hx
      exact h hs x (by rw [hl]; simp [hx])

theorem first_aid_one (s : Span) (ds : List Decl)
    (h : s.nFatalErrors = 0 → ∀ x, s.aids.head? = some x → x = 1)
    (h0 : (declareAll s ds).nFatalErrors = 0) :
    ∀ x, (declareAll s ds).aids.head? = some x → x = 1 := by
  induction ds generalizing s with
  | nil => exact h h0
  | cons d ds ih =>
    exact ih (declare s d) (fun hd => first_aid_step s d h hd) h0

/-- Aids stay positive while every override, and every default count, stays in the
range of `int`; `k` bounds the number of declarations still to come. -/
theorem aids_positive_step (s : Span) (d : Decl) (k : Nat)
    (h : ∀ x ∈ s.aids, 0 < x ∧ x + (k + 1) < 2147483648)
    (hd : d.aidArg + (k + 1) < 2147483648) :
    ∀ x ∈ (declare s d).aids, 0 < x ∧ x + k < 2147483648 := by
  rcases declare_aids s d with ⟨_, e⟩ | ⟨a, rfl, e⟩
  · rw [e]
    intro x hx
    have := h x hx
    omega
  · rw [e]
    intro x hx
    rcases List.mem_append.1 hx with hx | hx
    · have := h x hx
      omega
    · simp only [List.mem_singleton] at hx
      subst hx
      simp only [Decl.aidArg] at hd
      by_cases ha : 0 < a
      · rw [newAid_override s a ha (by omega)]
        omega
      · have ha0 : a = 0 := by omega
        subst ha0
        rw [newAid_default]
        cases hl : s.aids.getLast? with
        | none => simp only; omega
        | some y =>
          have hy := h y (List.mem_of_mem_getLast? hl)
          simp only
          unfold toI32
          omega

theorem aids_positive (s : Span) (ds : List Decl) (k : Nat)
    (h : ∀ x ∈ s.aids, 0 < x ∧ x + (k + ds.length) < 2147483648)
    (hd : ∀ d ∈ ds, d.aidArg + (k + ds.length) < 2147483648) :
    ∀ x ∈ (declareAll s ds).aids, 0 < x ∧ x + k < 2147483648 := by
  induction ds generalizing s with
  | nil => simpa using h
  | cons d ds ih =>
    apply ih (declare s d)
    · apply aids_positive_step s d (k + ds.length)
      · intro x hx
        have := h x hx
        simp only [List.length_cons] at this
        omega
      · have := hd d (by simp)
        simp only [List.length_cons] at this
        omega
    · intro d' hd'
      have := hd d' (by simp [hd'])
      simp only [List.length_cons] at this
      omega

theorem declareAll_grows (s : Span) (ds : List Decl) (i : Nat) (acc : SpanAccessory)
    (h : s.Accessories[i]? = some acc) :
    ∃ acc', (declareAll s ds).Accessories[i]? = some acc' ∧ Grows acc acc' := by
  induction ds generalizing s acc with
  | nil => exact ⟨acc, h, Grows.refl acc⟩
  | cons d ds ih =>
    obtain ⟨acc1, h1, g1⟩ := (declare_accessories s d).1 i acc h
    obtain ⟨acc2, h2, g2⟩ := ih (declare s d) acc1 h1
    exact ⟨acc2, h2, g1.trans g2⟩

theorem iidOK_declare (s : Span) (d : Decl) (h : ∀ acc ∈ s.Accessories, IidOK acc) :
    ∀ acc ∈ (declare s d).Accessories, IidOK acc := by
  obtain ⟨hg, hl | ⟨a, _, e⟩⟩ := declare_accessories s d
  · intro acc' hacc'
    obtain ⟨i, hi⟩ := List.getElem?_of_mem hacc'
    have hlt : i < s.Accessories.length := by
      have := (List.getElem?_eq_some.1 hi).1
      omega
    obtain ⟨acc'', h1, g⟩ := hg i _ (List.getElem?_eq_getElem hlt)
    rw [hi] at h1
    cases h1
    exact g.2.1 (h _ (List.getElem_mem hlt))
  · rw [e]
    intro acc' hacc'
    rcases List.mem_append.1 hacc' with h1 | h1
    · exact h acc' h1
    · simp only [List.mem_singleton] at h1
      subst h1
      exact ⟨by simp, by simp [allIids, countUp]⟩

theorem iidOK_declareAll (s : Span) (ds : List Decl) (h : ∀ acc ∈ s.Accessories, IidOK acc) :
    ∀ acc ∈ (declareAll s ds).Accessories, IidOK acc := by
  induction ds generalizing s with
  | nil => exact h
  | cons d ds ih => exact ih (declare s d) (iidOK_declare s d h)

theorem countUp_getLast? (n : Nat) (x : Int) (h : (countUp n).getLast? = some x) :
    x = n ∧ 0 < n := by
  cases n with
  | zero => simp [countUp] at h
  | succ k =>
    rw [countUp_succ] at h
    simp at h
    subst h
    exact ⟨by push_cast; ring, by omega⟩

/-- Accessories declared without override count up from 1. -/
theorem default_aids_step (s : Span) (d : Decl) (hd : d.aidArg = 0)
    (h : s.aids = countUp s.Accessories.length)
    (hn : (declare s d).Accessories.length < 2147483648) :
    (declare s d).aids = countUp (declare s d).Accessories.length := by
  have hlen : ∀ s' : Span, s'.aids.length = s'.Accessories.length := fun s' => by
    simp [Span.aids]
  rcases declare_aids s d with ⟨_, e⟩ | ⟨a, rfl, e⟩
  · have : (declare s d).Accessories.length = s.Accessories.length := by
      rw [← hlen, e, hlen]
    rw [e, this, h]
  · have hl : (declare s (.accessory a)).Accessories.length = s.Accessories.length + 1 := by
      rw [← hlen, e]; simp [hlen]
    simp only [Decl.aidArg] at hd
    subst hd
    rw [e, hl, countUp_succ, newAid_default, h]
    congr 2
    cases hlast : (countUp s.Accessories.length).getLast? with
    | none =>
      have : countUp s.Accessories.length = [] := List.getLast?_eq_none_iff.1 hlast
      have h0 : s.Accessories.length = 0 := by
        have := congrArg List.length this
        simpa [countUp_length] using this
      simp [h0]
    | some x =>
      obtain ⟨hx, _⟩ := countUp_getLast? _ x hlast
      subst hx
      simp only
      unfold toI32
      omega

theorem default_aids (s : Span) (ds : List Decl) (hd : ∀ d ∈ ds, d.aidArg = 0)
    (h : s.aids = countUp s.Accessories.length)
    (hn : (declareAll s ds).Accessories.length < 2147483648) :
    (declareAll s ds).aids = countUp (declareAll s ds).Accessories.length := by
  induction ds generalizing s with
  | nil => exact h
  | cons d ds ih =>
    apply ih (declare s d) (fun d' hd' => hd d' (by simp [hd']))
    · apply default_aids_step s d (hd d (by simp)) h
      have := length_le_declareAll (declare s d) ds
      have e : declareAll s (d :: ds) = declareAll (declare s d) ds := rfl
      rw [e] at hn
      omega
    · exact hn

set_option maxRecDepth 100000 in
/-- C18, as stated, fails: the declarations `wrapDecls` record no fatal error, neither
when they are made nor when the last accessory is validated, yet the second accessory
(override 4294967295) has aid -1 and the third (default) has aid 0. -/
theorem aid_not_positive_without_error :
    wrapDb.nFatalErrors = 0 ∧ wrapDb.validateBack.nFatalErrors = 0 ∧
      wrapDb.aids = [1, -1, 0] := by
  decide

/-- C18, amended: after declarations that record no fatal configuration error, the aids
of the accessories are pairwise distinct and the first accessory has aid 1; every aid is
positive when each aid override plus the number of declarations is below `2 ^ 31`. -/
theorem aids_distinct_first_one (mc t : Nat) (ds : List Decl)
    (h0 : (declareAll (Span.init mc t) ds).nFatalErrors = 0) :
    (declareAll (Span.init mc t) ds).aids.Nodup ∧
      (∀ x, (declareAll (Span.init mc t) ds).aids.head? = some x → x = 1) ∧
      ((∀ d ∈ ds, d.aidArg + ds.length < 2147483648) →
        ∀ x ∈ (declareAll (Span.init mc t) ds).aids, 0 < x) := by
  refine ⟨((DbOK.init mc t).declareAll ds).aidNodup h0, ?_, ?_⟩
  · exact first_aid_one _ ds (by simp [Span.init, Span.aids]) h0
  · intro hd x hx
    exact (aids_positive (Span.init mc t) ds 0 (by simp [Span.init, Span.aids])
      (by simpa using hd) x hx).1

set_option maxRecDepth 100000 in
theorem aids_distinct_first_one_witness :
    sampleDb.nFatalErrors = 0 ∧ (∀ d ∈ sampleDecls, d.aidArg + sampleDecls.length < 2147483648) ∧
      sampleDb.aids.Nodup ∧ (∀ x, sampleDb.aids.head? = some x → x = 1) ∧
      ∀ x ∈ sampleDb.aids, 0 < x :=
  ⟨by decide, by decide, (aids_distinct_first_one 8 0 sampleDecls (by decide)).1,
    (aids_distinct_first_one 8 0 sampleDecls (by decide)).2.1,
    (aids_distinct_first_one 8 0 sampleDecls (by decide)).2.2 (by decide)⟩

/-- C19: an accessory declared without an aid override gets aid 1 when it is the first
one, and otherwise the aid of the accessory declared before it plus 1 (the sum taken in
`int`, so for a previous aid below 2147483647); declarations without any override give
the `k`-th accessory the aid `k` (for a number of accessories that an `int` can count). -/
theorem default_aid_is_next (mc t : Nat) :
    (∀ s : Span, s.Accessories = [] → (SpanAccessory.new s 0).aids = [1]) ∧
      (∀ (s : Span) (back : SpanAccessory), s.Accessories.getLast? = some back →
        -2147483648 ≤ back.aid → back.aid < 2147483647 →
        (SpanAccessory.new s 0).aids = s.aids ++ [back.aid + 1]) ∧
      ∀ ds : List Decl, (∀ d ∈ ds, d.aidArg = 0) →
        (declareAll (Span.init mc t) ds).Accessories.length < 2147483648 →
        (declareAll (Span.init mc t) ds).aids =
          countUp (declareAll (Span.init mc t) ds).Accessories.length := by
  refine ⟨?_, ?_, ?_⟩
  · intro s hs
    rcases declare_aids s (.accessory 0) with ⟨hne, _⟩ | ⟨a, ha, e⟩
    · exact absurd rfl (hne 0)
    · cases ha
      have e' : (SpanAccessory.new s 0).aids = s.aids ++ [SpanAccessory.newAid s 0] := e
      rw [e', newAid_default]
      simp [Span.aids, hs]
  · intro s back hb h1 h2
    rcases declare_aids s (.accessory 0) with ⟨hne, _⟩ | ⟨a, ha, e⟩
    · exact absurd rfl (hne 0)
    · cases ha
      have e' : (SpanAccessory.new s 0).aids = s.aids ++ [SpanAccessory.newAid s 0] := e
      rw [e', newAid_default, aids_getLast?, hb]
      simp only [Option.map_some']
      congr 2
      unfold toI32
      omega
  · intro ds hd hn
    exact default_aids _ ds hd (by simp [Span.init, Span.aids, countUp]) hn

set_option maxRecDepth 100000 in
theorem default_aid_is_next_witness :
    (∀ d ∈ threeDefaults, d.aidArg = 0) ∧
      (declareAll (Span.init 8 0) threeDefaults).Accessories.length = 3 ∧
      (declareAll (Span.init 8 0) threeDefaults).aids = countUp 3 ∧
      (SpanAccessory.new sampleDb 0).aids = sampleDb.aids ++ [1 + 1] :=
  ⟨by decide, by decide,
    (default_aid_is_next 8 0).2.2 threeDefaults (by decide) (by decide),
    (default_aid_is_next 8 0).2.1 sampleDb
      { aid := 1, iidCount := 8, Services := (sampleDb.Accessories.getLast?.map
          (fun a => a.Services)).getD [] } (by decide) (by decide) (by decide)⟩

/-- C20: in every accessory of a declared database the iids of its services and
characteristics, in declaration order, are `1, 2, ..., iidCount`: one counter serves
both, no iid occurs twice, and further declarations leave the iids declared so far as
they are (the list only grows at its end). -/
theorem iids_count_up (mc t : Nat) (ds : List Decl) :
    (∀ acc ∈ (declareAll (Span.init mc t) ds).Accessories,
        0 ≤ acc.iidCount ∧ allIids acc = countUp acc.iidCount.toNat ∧ (allIids acc).Nodup) ∧
      ∀ (ds' : List Decl) (i : Nat) (acc : SpanAccessory),
        (declareAll (Span.init mc t) ds).Accessories[i]? = some acc →
        ∃ acc', (declareAll (Span.init mc t) (ds ++ ds')).Accessories[i]? = some acc' ∧
          allIids acc <+: allIids acc' := by
  constructor
  · intro acc hacc
    have h := iidOK_declareAll (Span.init mc t) ds (by simp [Span.init]) acc hacc
    exact ⟨h.1, h.2, by rw [h.2]; exact countUp_nodup _⟩
  · intro ds' i acc h
    have e : declareAll (Span.init mc t) (ds ++ ds') =
        declareAll (declareAll (Span.init mc t) ds) ds' := by
      simp [declareAll, List.foldl_append]
    rw [e]
    obtain ⟨acc', h1, g⟩ := declareAll_grows _ ds' i acc h
    exact ⟨acc', h1, g.2.2⟩

set_option maxRecDepth 100000 in
theorem iids_count_up_witness :
    sampleDb.Accessories.map allIids = [[1, 2, 3, 4, 5, 6, 7, 8]] ∧
      (∀ acc ∈ sampleDb.Accessories,
        0 ≤ acc.iidCount ∧ allIids acc = countUp acc.iidCount.toNat ∧ (allIids acc).Nodup) ∧
      (dupDb.Accessories.map allIids = [[1, 2, 3, 4, 5, 6, 7, 8], [1, 2, 3]]) :=
  ⟨by decide, (iids_count_up 8 0 sampleDecls).1, by decide⟩

/-! ## Print routines on sample databases -/

set_option maxRecDepth 1000000 in
/-- C13 fails on the code: `longTypeDb` records no fatal error and its third service has
a type of 56 characters. The size pass returns 421, and the fill pass into an array of
422 bytes returns 421 too, but `snprintf` stores only 63 characters and a NUL for the
opening of that service: the type is cut after `Wee`, the next 11 bytes of the array are
never written, and the text in the array ends at the NUL. -/
theorem long_type_cuts_text :
    longTypeDb.nFatalErrors = 0 ∧ longTypeDb.validateBack.nFatalErrors = 0 ∧
      (longTypeDb.sprintfAttributes sampleIo none []).toOption.map Prod.fst = some 421 ∧
      (longTypeDb.sprintfAttributes sampleIo (some 0) (rawArray 422)).toOption =
        some (421,
          "\x7b\"accessories\":[\x7b\"aid\":1,\"services\":[\x7b\"iid\":1,\"type\":\"3E\",\"characteristics\":[\x7b\"iid\":2,\"type\":\"14\",\"format\":\"bool\",\"perms\":[\"pw\"]\x7d]\x7d,\x7b\"iid\":3,\"type\":\"A2\",\"characteristics\":[\x7b\"iid\":4,\"type\":\"37\",\"value\":\"1.1.0\",\"format\":\"string\",\"perms\":[\"pr\"]\x7d]\x7d,".toList ++
          "\x7b\"iid\":5,\"type\":\"Vendor.Example.Service.Thermostat.Schedule.Wee".toList ++
          NUL :: rawArray 11 ++
          "\"characteristics\":[\x7b\"iid\":6,\"type\":\"25\",\"value\":false,\"format\":\"bool\",\"perms\":[\"pr\",\"pw\",\"ev\"]\x7d]\x7d]\x7d]\x7d".toList ++
          [NUL]) := by
  refine ⟨by decide, by decide, by decide, by decide⟩

set_option maxRecDepth 1000000 in
/-- C14 fails on the code: the `Name` of `sampleDb` points to a string of 60 characters.
The size pass of its print routine returns 80, and so does the fill pass into an array of
81 bytes, but `snprintf` stores only the first 63 characters of `,"value":"..."` and a
NUL: the array holds a text of 71 characters, then 7 bytes that are never written, then
the closing brace. For the whole database the count is 565 and the text in the array has
517 characters. -/
theorem count_exceeds_stored_text :
    sampleDb.getChar ⟨0, 2, 2⟩ = some sampleName ∧
      (sampleName.sprintfAttributes longIo 0 none []).toOption.map Prod.fst = some 80 ∧
      (sampleName.sprintfAttributes longIo 0 (some 0) (rawArray 81)).toOption =
        some (80,
          "\x7b\"iid\":8,\"value\":\"Reading lamp on the desk by the window of the upstair".toList ++
          NUL :: rawArray 7 ++ ['}', NUL]) ∧
      (sampleDb.sprintfAttributes longIo none []).toOption.map Prod.fst = some 565 ∧
      (sampleDb.sprintfAttributes longIo (some 0) (rawArray 566)).toOption.map
        (fun r => (r.1, (cstr r.2).length)) = some (565, 517) := by
  refine ⟨by decide, by decide, by decide, by decide, by decide⟩

set_option maxRecDepth 1000000 in
/-- C17 fails on the code: for the permissions PR, EV and NV (133) the print routine
with `GET_PERMS` stores `"perms":["pr","ev",]`: the test `perms>=(1<<(i+1))` after `"ev"`
holds because of the NV bit, which has no code of its own, so a comma follows the last
code. -/
theorem perms_trailing_comma :
    sampleSwitchEvent.perms = 133 ∧
      (sampleSwitchEvent.sprintfAttributes sampleIo GET_PERMS (some 0) (rawArray 44)).toOption =
        some (43, "\x7b\"iid\":9,\"value\":null,\"perms\":[\"pr\",\"ev\",]\x7d".toList ++ [NUL]) := by
  refine ⟨by decide, by decide⟩

/-! ## Decimal numerals: what `printf` writes, `sscanf` reads back -/

theorem decimalAux_append (fuel n : Nat) (acc : List Char) :
    decimalAux fuel n acc = decimalAux fuel n [] ++ acc := by
  induction fuel generalizing n acc with
  | zero => simp [decimalAux]
  | succ f ih =>
    simp only [decimalAux]
    split
    · simp
    · rw [ih (n / 10) (Char.ofNat (48 + n % 10) :: acc), ih (n / 10) [Char.ofNat (48 + n % 10)]]
      simp

theorem digitVal_digit : ∀ d, d < 10 → digitVal (Char.ofNat (48 + d)) = some d := by
  decide

theorem digit_facts : ∀ d, d < 10 →
    isSpace (Char.ofNat (48 + d)) = false ∧ Char.ofNat (48 + d) ≠ '-' ∧
      Char.ofNat (48 + d) ≠ '+' ∧ Char.ofNat (48 + d) ≠ NUL := by
  decide

/-- A numeral starts with a digit. -/
theorem decimalAux_head (fuel n : Nat) (acc : List Char) :
    ∃ d tl, d < 10 ∧ decimalAux (fuel + 1) n acc = Char.ofNat (48 + d) :: tl := by
  induction fuel generalizing n acc with
  | zero =>
    simp only [decimalAux]
    split
    · exact ⟨n, acc, by omega, rfl⟩
    · exact ⟨n % 10, acc, by omega, rfl⟩
  | succ f ih =>
    rw [decimalAux]
    split
    · exact ⟨n, acc, by omega, rfl⟩
    · exact ih (n / 10) _

/-- Reading the digits of a numeral gives back its value and its length. -/
theorem scanDigits_decimalAux (fuel n : Nat) (h : n < 10 ^ fuel) (rest : List Char) (a k : Nat) :
    scanDigits 10 (decimalAux fuel n rest) a k =
      scanDigits 10 rest (a * 10 ^ (decimalAux fuel n []).length + n)
        (k + (decimalAux fuel n []).length) := by
  induction fuel generalizing n rest a k with
  | zero =>
    have : n = 0 := by simpa using h
    subst this
    simp [decimalAux]
  | succ f ih =>
    simp only [decimalAux]
    split
    · rename_i hn
      simp [scanDigits, digitVal_digit n hn, hn]
    · rename_i hn
      have h1 : n / 10 < 10 ^ f := by
        rw [Nat.div_lt_iff_lt_mul (by norm_num)]
        calc n < 10 ^ (f + 1) := h
          _ = 10 ^ f * 10 := by ring
      rw [ih (n / 10) h1, decimalAux_append f (n / 10) [Char.ofNat (48 + n % 10)]]
      have hd : n % 10 < 10 := Nat.mod_lt _ (by norm_num)
      simp only [scanDigits, digitVal_digit _ hd, hd, if_true, List.length_append,
        List.length_singleton]
      have e1 : (a * 10 ^ (decimalAux f (n / 10) []).length + n / 10) * 10 + n % 10 =
          a * 10 ^ ((decimalAux f (n / 10) []).length + 1) + n := by
        rw [pow_succ]
        have := Nat.div_add_mod n 10
        nlinarith [this]
      rw [e1, Nat.add_assoc]

theorem fmtU_scan (n : Nat) (rest : List Char) (a k : Nat) :
    scanDigits 10 (fmtU n ++ rest) a k =
      scanDigits 10 rest (a * 10 ^ (fmtU n).length + n) (k + (fmtU n).length) := by
  unfold fmtU
  rw [← decimalAux_append]
  exact scanDigits_decimalAux (n + 1) n
    (Nat.lt_of_lt_of_le (Nat.lt_pow_self (by norm_num) n) (Nat.pow_le_pow_right (by norm_num) (by omega)))
    rest a k

theorem fmtU_head (n : Nat) : ∃ d tl, d < 10 ∧ fmtU n = Char.ofNat (48 + d) :: tl :=
  decimalAux_head n n []

theorem fmtU_length_pos (n : Nat) : 0 < (fmtU n).length := by
  obtain ⟨d, tl, _, e⟩ := fmtU_head n
  rw [e]; simp

/-- `sscanf` with `%u` reads back what `printf` with `%u` wrote, when a character that
is no digit follows. -/
theorem scanDecimalRest_fmtU (n : Nat) (h : n < 4294967296) (c : Char) (rest : List Char)
    (hc : digitVal c = none) :
    scanDecimalRest (convUnsigned 32) (fmtU n ++ c :: rest) = .ok (n, c :: rest) := by
  obtain ⟨d, tl, hd, e⟩ := fmtU_head n
  obtain ⟨h1, h2, h3, _⟩ := digit_facts d hd
  have hdrop : (fmtU n ++ c :: rest).dropWhile isSpace = fmtU n ++ c :: rest := by
    rw [e]; simp [List.dropWhile, h1]
  have hsign : scanSign (fmtU n ++ c :: rest) = (false, fmtU n ++ c :: rest) := by
    rw [e]
    simp only [List.cons_append]
    unfold scanSign
    split
    · rename_i heq; simp only [List.cons.injEq] at heq; exact absurd heq.1 h2
    · rename_i heq; simp only [List.cons.injEq] at heq; exact absurd heq.1 h3
    · rfl
  unfold scanDecimalRest
  rw [hdrop]
  have hne : ∃ x xs, fmtU n ++ c :: rest = x :: xs := by rw [e]; exact ⟨_, _, rfl⟩
  obtain ⟨x, xs, hx⟩ := hne
  rw [hx]
  simp only
  rw [← hx, hsign]
  simp only
  rw [fmtU_scan]
  have hstop : ∀ a k, scanDigits 10 (c :: rest) a k = (a, k) := by
    intro a k
    simp [scanDigits, hc]
  rw [hstop]
  have hpos := fmtU_length_pos n
  have hz : ((0 + (fmtU n).length) == 0) = false := beq_false_of_ne (by omega)
  simp only [hz, zero_mul, zero_add, Bool.false_eq_true, if_false]
  have hconv : convUnsigned 32 false n = n := by
    unfold convUnsigned
    simp only [Nat.reducePow]
    rw [if_neg (by omega)]
    simp
  rw [hconv, List.drop_left]
  have hz' : ((fmtU n).length == 0) = false := beq_false_of_ne (by omega)
  simp [hz']

/-- `sscanf` with `%d` reads back what `printf` with `%d` wrote. -/
theorem scanD_fmtD (x : Int) (h : -2147483648 ≤ x ∧ x < 2147483648) :
    scanD (fmtD x) = .ok x := by
  have key : ∀ m : Nat, scanDigits 10 (fmtU m) 0 0 = (m, (fmtU m).length) := by
    intro m
    have := fmtU_scan m [] 0 0
    simpa [scanDigits] using this
  unfold scanD scanDecimal fmtD
  by_cases hx : x < 0
  · rw [if_pos hx]
    have hsp : isSpace '-' = false := by decide
    simp only [List.dropWhile, hsp]
    simp only [scanSign, key]
    have hpos := fmtU_length_pos (-x).toNat
    have hz : ((fmtU (-x).toNat).length == 0) = false := beq_false_of_ne (by omega)
    simp only [hz, Bool.false_eq_true, if_false]
    congr 1
    unfold convSigned
    simp only [if_true]
    split <;> omega
  · rw [if_neg hx]
    obtain ⟨d, tl, hd, e⟩ := fmtU_head x.toNat
    obtain ⟨h1, h2, h3, _⟩ := digit_facts d hd
    have hk := key x.toNat
    have hpos := fmtU_length_pos x.toNat
    rw [e] at hk hpos ⊢
    simp only [List.dropWhile, h1]
    have hsign : scanSign (Char.ofNat (48 + d) :: tl) = (false, Char.ofNat (48 + d) :: tl) := by
      unfold scanSign
      split
      · rename_i heq; simp only [List.cons.injEq] at heq; exact absurd heq.1 h2
      · rename_i heq; simp only [List.cons.injEq] at heq; exact absurd heq.1 h3
      · rfl
    simp only [hsign, hk]
    have hz : ((Char.ofNat (48 + d) :: tl).length == 0) = false := by simp
    simp only [hz, Bool.false_eq_true, if_false]
    congr 1
    unfold convSigned
    simp only [Bool.false_eq_true, if_false]
    split <;> omega

/-- An id written as `aid.iid` is read as the pair `(aid, iid)`, whatever the variables
held before. -/
theorem scanId_fmt (aid : Nat) (iid : Int) (ha : aid < 4294967296)
    (hi : -2147483648 ≤ iid ∧ iid < 2147483648) (a0 : Nat) (i0 : Int) :
    scanId (fmtU aid ++ '.' :: fmtD iid) a0 i0 = (aid, iid) := by
  unfold scanId
  rw [scanDecimalRest_fmtU aid ha '.' (fmtD iid) (by decide)]
  simp only
  rw [scanD_fmtD iid hi]

/-! ## PASS 1 of the print routine for a list of ids -/

theorem getElem?_append_singleton {α : Type} (l : List α) (x : α) (k : Nat) :
    (l ++ [x])[k]? = if k < l.length then l[k]? else if k = l.length then some x else none := by
  by_cases h : k < l.length
  · rw [List.getElem?_append_left h, if_pos h]
  · rw [List.getElem?_append_right (by omega), if_neg h]
    by_cases h2 : k = l.length
    · simp [h2]
    · rw [if_neg h2]
      apply List.getElem?_eq_none
      simp; omega

theorem idsPass1Step_keeps (s : Span) (ids : List (List Char)) (i : Nat) (st : IdsState)
    (hi : i < ids.length) (h : IdsInv s ids i st) :
    ∃ st', idsPass1Step s ids i st = .ok st' ∧ IdsInv s ids (i + 1) st' := by
  obtain ⟨id, hid⟩ : ∃ id, ids[i]? = some id := ⟨ids[i], List.getElem?_eq_getElem hi⟩
  -- the entries that exist already are kept
  have old : ∀ (c : Option CharRef) (x : StatusCode) (k : Nat), k < i →
      (st.Characteristics ++ [c])[k]? = st.Characteristics[k]? ∧
        (st.status ++ [x])[k]? = st.status[k]? := by
    intro c x k hk
    rw [getElem?_append_singleton, getElem?_append_singleton, h.lenC, h.lenS]
    simp [hk]
  have new : ∀ (c : Option CharRef) (x : StatusCode),
      (st.Characteristics ++ [c])[i]? = some c ∧ (st.status ++ [x])[i]? = some x := by
    intro c x
    rw [getElem?_append_singleton, getElem?_append_singleton, h.lenC, h.lenS]
    simp
  have flagOf : ∀ (x : StatusCode) (b : Bool),
      (b = true ↔ (st.sFlag = true ∨ x ≠ .OK)) →
      (b = true ↔ ∃ (k : Nat) (y : StatusCode), (st.status ++ [x])[k]? = some y ∧ y ≠ .OK) := by
    intro x b hb
    rw [hb, h.flag]
    constructor
    · rintro (⟨k, y, hk, hy⟩ | hx)
      · have hlt : k < i := by
          have := (List.getElem?_eq_some.1 hk).1
          rw [h.lenS] at this; exact this
        exact ⟨k, y, by rw [(old none x k hlt).2]; exact hk, hy⟩
      · exact ⟨i, x, (new none x).2, hx⟩
    · rintro ⟨k, y, hk, hy⟩
      rw [getElem?_append_singleton, h.lenS] at hk
      by_cases hlt : k < i
      · rw [if_pos hlt] at hk
        exact Or.inl ⟨k, y, hk, hy⟩
      · rw [if_neg hlt] at hk
        by_cases he : k = i
        · rw [if_pos he] at hk
          cases hk
          exact Or.inr hy
        · rw [if_neg he] at hk; cases hk
  have entryOf : ∀ (c : Option CharRef) (x : StatusCode),
      IdsEntry s (scanId id st.aid st.iid).1 (scanId id st.aid st.iid).2 (some c) (some x) →
      ∀ (k : Nat) (id' : List Char) (aid : Nat) (iid : Int), k < i + 1 → ids[k]? = some id' →
        (∀ a0 i0, scanId id' a0 i0 = (aid, iid)) →
        IdsEntry s aid iid (st.Characteristics ++ [c])[k]? (st.status ++ [x])[k]? := by
    intro c x hnew k id' aid iid hk hid' hscan
    by_cases hlt : k < i
    · rw [(old c x k hlt).1, (old c x k hlt).2]
      exact h.entry k id' aid iid hlt hid' hscan
    · have he : k = i := by omega
      subst he
      rw [hid] at hid'
      cases hid'
      rw [(new c x).1, (new c x).2]
      have := hscan st.aid st.iid
      rw [this] at hnew
      exact hnew
  unfold idsPass1Step
  rw [hid]
  simp only
  cases hf : s.find (scanId id st.aid st.iid).1 (scanId id st.aid st.iid).2 with
  | none =>
    refine ⟨_, rfl, ⟨by simp [h.lenC], by simp [h.lenS], ?_, ?_⟩⟩
    · exact flagOf .UnknownResource true (by simp)
    · exact entryOf none .UnknownResource (by simp [IdsEntry, hf])
  | some r =>
    obtain ⟨acc, c, _, _, hc, _⟩ := find_sound s _ _ r hf
    simp only [hc]
    by_cases hpr : hasBit c.perms PR = true
    · rw [if_pos hpr]
      refine ⟨_, rfl, ⟨by simp [h.lenC], by simp [h.lenS], ?_, ?_⟩⟩
      · exact flagOf .OK st.sFlag (by simp)
      · exact entryOf (some r) .OK (by simp [IdsEntry, hf, hc, hpr])
    · rw [if_neg hpr]
      refine ⟨_, rfl, ⟨by simp [h.lenC], by simp [h.lenS], ?_, ?_⟩⟩
      · exact flagOf .WriteOnly true (by simp)
      · exact entryOf none .WriteOnly (by simp [IdsEntry, hf, hc, hpr])

theorem idsPass1_total (s : Span) (ids : List (List Char)) (a0 : Nat) (i0 : Int) :
    ∃ p1, idsPass1 s ids a0 i0 = .ok p1 ∧ IdsInv s ids ids.length p1 := by
  unfold idsPass1
  apply forLoop_invariant (IdsInv s ids) 0 ids.length _ _ (Nat.zero_le _)
  · exact ⟨rfl, rfl, by simp, fun k _ _ _ hk => absurd hk (Nat.not_lt_zero k)⟩
  · intro i st _ hi hP
    exact idsPass1Step_keeps s ids i st hi hP

/-- C11: PASS 1 of `sprintfAttributes(ids, numIDs, flags, cBuf)` returns, with one status
for each id; an id written `aid.iid` gets UnknownResource if `find(aid, iid)` fails,
WriteOnly if the characteristic found lacks PR, and OK otherwise. -/
theorem ids_status (s : Span) (ids : List (List Char)) (a0 : Nat) (i0 : Int) :
    ∃ p1, idsPass1 s ids a0 i0 = .ok p1 ∧ p1.status.length = ids.length ∧
      ∀ (i aid : Nat) (iid : Int), aid < 4294967296 → -2147483648 ≤ iid → iid < 2147483648 →
        ids[i]? = some (fmtU aid ++ '.' :: fmtD iid) →
        (s.find aid iid = none → p1.status[i]? = some .UnknownResource) ∧
          ∀ r c, s.find aid iid = some r → s.getChar r = some c →
            p1.status[i]? = some (if hasBit c.perms PR = true then .OK else .WriteOnly) := by
  obtain ⟨p1, h1, hinv⟩ := idsPass1_total s ids a0 i0
  refine ⟨p1, h1, hinv.lenS, ?_⟩
  intro i aid iid ha hl hu hid
  have hlt : i < ids.length := (List.getElem?_eq_some.1 hid).1
  have he := hinv.entry i _ aid iid hlt hid (scanId_fmt aid iid ha ⟨hl, hu⟩)
  unfold IdsEntry at he
  constructor
  · intro hnone
    rw [hnone] at he
    exact he.2
  · intro r c hr hc
    rw [hr] at he
    obtain ⟨c', hc', hif⟩ := he
    rw [hc] at hc'
    cases hc'
    by_cases hpr : hasBit c.perms PR = true
    · rw [if_pos hpr] at hif ⊢; exact hif.2
    · rw [if_neg hpr] at hif ⊢; exact hif.2

set_option maxRecDepth 1000000 in
theorem ids_status_witness :
    sampleIds = [fmtU 1 ++ '.' :: fmtD 6, fmtU 1 ++ '.' :: fmtD 2, fmtU 3 ++ '.' :: fmtD 7,
        fmtU 1 ++ '.' :: fmtD 99] ∧
      (idsPass1 sampleDb sampleIds 0 0).toOption.map (fun p => p.status) =
        some [.OK, .WriteOnly, .UnknownResource, .UnknownResource] ∧
      ∃ p1, idsPass1 sampleDb sampleIds 0 0 = .ok p1 ∧ p1.status.length = 4 ∧
        (sampleDb.find 3 7 = none → p1.status[2]? = some .UnknownResource) := by
  refine ⟨by decide, by decide, ?_⟩
  obtain ⟨p1, h1, h2, h3⟩ := ids_status sampleDb sampleIds 0 0
  exact ⟨p1, h1, h2, (h3 2 3 7 (by decide) (by decide) (by decide) (by decide)).1⟩

/-! ## Print routines print their pieces -/

theorem printAll_nil (cBuf : Option Nat) (o : Out) : Out.printAll cBuf [] o = .ok o := rfl

theorem printAll_cons (cBuf : Option Nat) (p : Piece) (ps : List Piece) (o : Out) :
    Out.printAll cBuf (p :: ps) o =
      match o.print cBuf p.size p.text with
      | .error f => .error f
      | .ok o1 => Out.printAll cBuf ps o1 := by
  unfold Out.printAll
  rw [List.foldlM_cons]
  cases o.print cBuf p.size p.text <;> rfl

theorem printAll_single (cBuf : Option Nat) (p : Piece) (o : Out) :
    Out.printAll cBuf [p] o = o.print cBuf p.size p.text := by
  rw [printAll_cons]
  cases o.print cBuf p.size p.text <;> rfl

theorem printAll_append (cBuf : Option Nat) (ps qs : List Piece) (o : Out) :
    Out.printAll cBuf (ps ++ qs) o =
      match Out.printAll cBuf ps o with
      | .error f => .error f
      | .ok o1 => Out.printAll cBuf qs o1 := by
  induction ps generalizing o with
  | nil => rfl
  | cons p ps ih =>
    rw [List.cons_append, printAll_cons, printAll_cons]
    cases o.print cBuf p.size p.text with
    | error f => rfl
    | ok o1 => exact ih o1

theorem bind_eq_match {α β : Type} (x : Except Fault α) (f : α → Except Fault β) :
    (x >>= f) = match x with
      | .error e => .error e
      | .ok a => f a := by
  cases x <;> rfl

theorem when_printAll (cBuf : Option Nat) (b : Bool) (ps : List Piece) (o : Out) :
    o.when b (Out.printAll cBuf ps) = Out.printAll cBuf (if b then ps else []) o := by
  cases b <;> rfl

theorem when_print (cBuf : Option Nat) (b : Bool) (size : Nat) (text : List Char) (o : Out) :
    o.when b (Out.print cBuf size text) = Out.printAll cBuf (if b then [⟨size, text⟩] else []) o := by
  cases b
  · rfl
  · simp only [Out.when, if_true, printAll_single]

/-- A routine that prints the pieces `ps`, called at the current position, prints them
there. -/
theorem printAll_shift (cBuf : Option Nat) (n : Nat) (ps : List Piece) (mem : List Char) (j : Nat) :
    (match Out.printAll (cBuf.map (fun p => p + n)) ps ⟨mem, j⟩ with
      | .error f => .error f
      | .ok o => .ok (⟨o.mem, n + o.nBytes⟩ : Out)) =
    Out.printAll cBuf ps ⟨mem, n + j⟩ := by
  induction ps generalizing mem j with
  | nil => rfl
  | cons p ps ih =>
    rw [printAll_cons, printAll_cons]
    have e : ((cBuf.map (fun p => p + n)).map (fun q => q + j)) = cBuf.map (fun q => q + (n + j)) := by
      cases cBuf with
      | none => rfl
      | some q => simp [Nat.add_assoc]
    have e2 : (cBuf.map (fun p => p + n)).isSome = cBuf.isSome := by cases cBuf <;> rfl
    simp only [Out.print, e, e2]
    cases snprintf mem (cBuf.map (fun q => q + (n + j))) (if cBuf.isSome = true then p.size else 0)
        p.text with
    | error f => rfl
    | ok r =>
      simp only
      have := ih r.2 (j + r.1)
      rw [← Nat.add_assoc] at this
      exact this

theorem call_printAll (cBuf : Option Nat)
    (f : Option Nat → List Char → Except Fault (Nat × List Char)) (ps : List Piece)
    (hf : ∀ cb mem, f cb mem = Out.finish (Out.printAll cb ps ⟨mem, 0⟩))
    (o : Out) : o.call cBuf f = Out.printAll cBuf ps o := by
  unfold Out.call
  have h := printAll_shift cBuf o.nBytes ps o.mem 0
  rw [hf]
  unfold Out.finish
  have e : (⟨o.mem, o.nBytes + 0⟩ : Out) = o := by cases o; rfl
  rw [e] at h
  rw [← h]
  cases Out.printAll (cBuf.map (fun p => p + o.nBytes)) ps ⟨o.mem, 0⟩ <;> rfl

theorem pure_eq_ok {α : Type} (a : α) : (pure a : Except Fault α) = .ok a := rfl

/-- Sequencing two prints of piece lists prints the concatenation. -/
theorem printAll_bind {β : Type} (cBuf : Option Nat) (ps qs : List Piece) (o : Out)
    (k : Out → Except Fault β) :
    (Out.printAll cBuf ps o >>= fun o1 => Out.printAll cBuf qs o1 >>= k) =
      (Out.printAll cBuf (ps ++ qs) o >>= k) := by
  rw [printAll_append]
  cases Out.printAll cBuf ps o <;> rfl

theorem bind_finish (x : Except Fault Out) :
    (x >>= fun o => (pure (o.nBytes, o.mem) : Except Fault (Nat × List Char))) = Out.finish x := by
  cases x <;> rfl

theorem print_eq_printAll (cBuf : Option Nat) (size : Nat) (text : List Char) (o : Out) :
    o.print cBuf size text = Out.printAll cBuf [⟨size, text⟩] o :=
  (printAll_single cBuf ⟨size, text⟩ o).symm

theorem print_fun_eq (cBuf : Option Nat) (size : Nat) (text : List Char) :
    Out.print cBuf size text = Out.printAll cBuf [⟨size, text⟩] := by
  funext o
  exact print_eq_printAll cBuf size text o

/-- A counted loop whose rounds print pieces prints the pieces of all rounds. -/
theorem forLoop_printAll (cBuf : Option Nat) (lo hi : Nat) (body : Nat → Out → Except Fault Out)
    (g : Nat → List Piece)
    (h : ∀ i o, lo ≤ i → i < hi → body i o = Out.printAll cBuf (g i) o) (o : Out) :
    forLoop lo hi body o = Out.printAll cBuf ((List.range' lo (hi - lo)).flatMap g) o := by
  obtain ⟨d, hd⟩ : ∃ d, hi - lo = d := ⟨_, rfl⟩
  induction d generalizing lo o with
  | zero =>
    rw [forLoop_done _ _ _ _ (by omega), hd]
    rfl
  | succ d ih =>
    rw [forLoop_step _ _ _ _ (by omega), hd, List.range'_succ, List.flatMap_cons,
      printAll_append, h lo o (Nat.le_refl _) (by omega)]
    cases Out.printAll cBuf (g lo) o with
    | error f => rfl
    | ok o1 =>
      simp only
      have := ih (lo + 1) (fun i o hi1 hi2 => h i o (by omega) hi2) o1 (by omega)
      rw [this]
      have e : hi - (lo + 1) = d := by omega
      rw [e]

theorem permStep_pieces (cBuf : Option Nat) (perms i : Nat) (hi : i < 7) (o : Out) :
    permStep cBuf perms i o = Out.printAll cBuf (permPieces perms i) o := by
  unfold permStep permPieces
  have hlt : i < permCodes.length := by simpa [permCodes] using hi
  obtain ⟨code, hcode⟩ : ∃ code, permCodes[i]? = some code :=
    ⟨permCodes[i], List.getElem?_eq_getElem hlt⟩
  have hd : permCodes.getD i "" = code := by
    simp [List.getD, hcode]
  by_cases hb : hasBit perms (2 ^ i) = true
  · simp only [hb, if_true, hcode, hd]
    rw [printAll_cons]
    cases o.print cBuf 64 ('"' :: fmtS code.toList ++ ['"']) with
    | error f => rfl
    | ok o1 =>
      simp only
      by_cases hge : perms ≥ 2 ^ (i + 1)
      · simp only [hge, if_true, printAll_single]
      · simp only [hge, if_false]; rfl
  · simp only [hb, Bool.false_eq_true, if_false]
    rfl

theorem permLoop_pieces (cBuf : Option Nat) (perms : Nat) (o : Out) :
    forLoop 0 7 (permStep cBuf perms) o =
      Out.printAll cBuf ((List.range 7).flatMap (permPieces perms)) o := by
  rw [forLoop_printAll cBuf 0 7 _ (permPieces perms)
    (fun i o _ hi => permStep_pieces cBuf perms i hi o)]
  rfl

/-- The loop over the elements of a vector prints their pieces with a comma between
two of them. -/
theorem printElems_pieces {α : Type} (cBuf : Option Nat) (xs : List α)
    (f : α → Option Nat → List Char → Except Fault (Nat × List Char)) (pc : α → List Piece)
    (hf : ∀ x cb mem, f x cb mem = Out.finish (Out.printAll cb (pc x) ⟨mem, 0⟩))
    (o : Out) : printElems cBuf xs f o = Out.printAll cBuf (joinPieces (xs.map pc)) o := by
  unfold printElems
  suffices key : ∀ (d lo : Nat) (o : Out), xs.length - lo = d → lo ≤ xs.length →
      forLoop lo xs.length
        (fun i o =>
          match xs[i]? with
          | none => .error .outOfBounds
          | some x =>
            match o.call cBuf (f x) with
            | .error e => .error e
            | .ok o1 => if i + 1 < xs.length then o1.print cBuf 64 [','] else .ok o1) o =
      Out.printAll cBuf (joinPieces ((xs.drop lo).map pc)) o by
    have := key xs.length 0 o (by omega) (Nat.zero_le _)
    simpa using this
  intro d
  induction d with
  | zero =>
    intro lo o hd hlo
    rw [forLoop_done _ _ _ _ (by omega), List.drop_of_length_le (by omega)]
    rfl
  | succ d ih =>
    intro lo o hd hlo
    have hlt : lo < xs.length := by omega
    rw [forLoop_step _ _ _ _ hlt, List.drop_eq_getElem_cons hlt, List.getElem?_eq_getElem hlt]
    simp only [List.map_cons]
    rw [call_printAll cBuf (f xs[lo]) (pc xs[lo]) (hf xs[lo]) o]
    by_cases hnext : lo + 1 < xs.length
    · rw [List.drop_eq_getElem_cons hnext]
      simp only [List.map_cons, joinPieces, hnext, if_true]
      rw [printAll_append]
      cases Out.printAll cBuf (pc xs[lo]) o with
      | error e => rfl
      | ok o1 =>
        simp only
        rw [printAll_cons]
        cases o1.print cBuf 64 [','] with
        | error e => rfl
        | ok o2 =>
          simp only
          have := ih (lo + 1) o2 (by omega) (by omega)
          rw [List.drop_eq_getElem_cons hnext, List.map_cons] at this
          exact this
    · have hlast : lo + 1 = xs.length := by omega
      rw [List.drop_of_length_le (by omega)]
      simp only [List.map_nil, joinPieces, hnext, if_false]
      cases Out.printAll cBuf (pc xs[lo]) o with
      | error e => rfl
      | ok o1 =>
        simp only
        rw [forLoop_done _ _ _ _ (by omega)]

/-! ### Each print routine prints its pieces -/

theorem printType_pieces (c : SpanCharacteristic) (flags : Nat) (cBuf : Option Nat) (o : Out) :
    c.printType flags cBuf o =
      Out.printAll cBuf
        (if hasBit flags GET_TYPE then
          [⟨64, ",\"type\":\"".toList ++ fmtS c.type.toList ++ ['"']⟩] else []) o := by
  unfold SpanCharacteristic.printType
  exact when_print cBuf _ _ _ o

theorem printValue_pieces (c : SpanCharacteristic) (io : PrintEnv) (flags : Nat)
    (cBuf : Option Nat) (o : Out) :
    c.printValue io flags cBuf o =
      Out.printAll cBuf
        (if hasBit c.perms PR then
          (if hasBit c.perms NV && !hasBit flags GET_NV then [⟨64, ",\"value\":null".toList⟩]
           else [⟨64, ",\"value\":".toList ++ c.valueText io⟩])
         else []) o := by
  unfold SpanCharacteristic.printValue Out.when
  cases hasBit c.perms PR
  · rfl
  · simp only [if_true]
    cases (hasBit c.perms NV && !hasBit flags GET_NV)
    · simp only [Bool.false_eq_true, if_false, printAll_single]
    · simp only [if_true, printAll_single]

theorem printMeta_pieces (c : SpanCharacteristic) (flags : Nat) (cBuf : Option Nat) (o : Out) :
    c.printMeta flags cBuf o =
      Out.printAll cBuf
        (if hasBit flags GET_META then
          ⟨64, ",\"format\":\"".toList ++ fmtS (formatCode c.format).toList ++ ['"']⟩ ::
            (match c.range with
             | some r =>
               [⟨128, ",\"minValue\":".toList ++ fmtD r.min ++ ",\"maxValue\":".toList ++
                  fmtD r.max ++ ",\"minStep\":".toList ++ fmtD r.step⟩]
             | none => [])
         else []) o := by
  unfold SpanCharacteristic.printMeta Out.when
  cases hm : hasBit flags GET_META
  · rfl
  · simp only [if_true]
    rw [printAll_cons]
    cases o.print cBuf 64 (",\"format\":\"".toList ++ fmtS (formatCode c.format).toList ++ ['"']) with
    | error f => rfl
    | ok o1 =>
      simp only
      cases c.range with
      | none => rfl
      | some r => simp only [printAll_single]

theorem printDesc_pieces (c : SpanCharacteristic) (flags : Nat) (cBuf : Option Nat) (o : Out) :
    c.printDesc flags cBuf o =
      Out.printAll cBuf
        (match c.desc with
         | some d =>
           if hasBit flags GET_DESC then
             [⟨128, ",\"description\":\"".toList ++ fmtS d.toList ++ ['"']⟩] else []
         | none => []) o := by
  unfold SpanCharacteristic.printDesc
  cases c.desc with
  | none => rfl
  | some d => exact when_print cBuf _ _ _ o

theorem printPerms_pieces (c : SpanCharacteristic) (flags : Nat) (cBuf : Option Nat) (o : Out) :
    c.printPerms flags cBuf o =
      Out.printAll cBuf
        (if hasBit flags GET_PERMS then
          [⟨64, ",\"perms\":[".toList⟩] ++ (List.range 7).flatMap (permPieces c.perms) ++
            [⟨64, [']']⟩]
         else []) o := by
  unfold SpanCharacteristic.printPerms Out.when
  cases hasBit flags GET_PERMS
  · rfl
  · simp only [if_true]
    rw [List.append_assoc, List.singleton_append, printAll_cons]
    cases o.print cBuf 64 ",\"perms\":[".toList with
    | error f => rfl
    | ok o1 =>
      simp only
      rw [printAll_append, permLoop_pieces]
      cases Out.printAll cBuf ((List.range 7).flatMap (permPieces c.perms)) o1 with
      | error f => rfl
      | ok o2 => simp only [printAll_single]

theorem printAid_pieces (c : SpanCharacteristic) (flags : Nat) (cBuf : Option Nat) (o : Out) :
    c.printAid flags cBuf o =
      Out.printAll cBuf
        (if hasBit flags GET_AID then [⟨64, ",\"aid\":".toList ++ fmtU (toU32 c.aid)⟩] else [])
        o := by
  unfold SpanCharacteristic.printAid
  exact when_print cBuf _ _ _ o

theorem printEv_pieces (c : SpanCharacteristic) (io : PrintEnv) (flags : Nat)
    (hev : hasBit flags GET_EV = true → io.conNum < c.ev.length) (cBuf : Option Nat) (o : Out) :
    c.printEv io flags cBuf o =
      Out.printAll cBuf
        (if hasBit flags GET_EV then
          [⟨64, ",\"ev\":".toList ++
            fmtS (if c.ev.getD io.conNum false then "true" else "false").toList⟩] else []) o := by
  unfold SpanCharacteristic.printEv Out.when
  cases hb : hasBit flags GET_EV
  · rfl
  · have hlt := hev hb
    simp only [if_true, List.getElem?_eq_getElem hlt, printAll_single]
    have : c.ev.getD io.conNum false = c.ev[io.conNum] := by
      simp [List.getD, List.getElem?_eq_getElem hlt]
    rw [this]

/-- The print routine of a characteristic prints its pieces, provided the connection
number is a valid index of `ev` when `GET_EV` is asked for. -/
theorem char_prints_pieces (c : SpanCharacteristic) (io : PrintEnv) (flags : Nat)
    (hev : hasBit flags GET_EV = true → io.conNum < c.ev.length)
    (cBuf : Option Nat) (mem : List Char) :
    c.sprintfAttributes io flags cBuf mem =
      Out.finish (Out.printAll cBuf (c.pieces io flags) ⟨mem, 0⟩) := by
  unfold SpanCharacteristic.sprintfAttributes SpanCharacteristic.pieces
  simp only [printType_pieces, printValue_pieces, printMeta_pieces, printDesc_pieces,
    printPerms_pieces, printAid_pieces, printEv_pieces c io flags hev, print_eq_printAll,
    printAll_bind]
  rw [bind_finish]
  cases c.desc <;> cases c.range <;> simp only [List.append_assoc]

/-- Without `GET_EV` the print routine of a characteristic prints its pieces. -/
theorem char_prints_serviceFlags (c : SpanCharacteristic) (io : PrintEnv)
    (cBuf : Option Nat) (mem : List Char) :
    c.sprintfAttributes io serviceFlags cBuf mem =
      Out.finish (Out.printAll cBuf (c.pieces io serviceFlags) ⟨mem, 0⟩) :=
  char_prints_pieces c io serviceFlags (fun h => absurd h (by decide)) cBuf mem

theorem service_prints_pieces (sv : SpanService) (io : PrintEnv) (cBuf : Option Nat)
    (mem : List Char) :
    sv.sprintfAttributes io cBuf mem =
      Out.finish (Out.printAll cBuf (sv.pieces io) ⟨mem, 0⟩) := by
  unfold SpanService.sprintfAttributes SpanService.pieces
  simp only [printElems_pieces cBuf sv.Characteristics _ (fun c => c.pieces io serviceFlags)
      (fun c cb mem => char_prints_serviceFlags c io cb mem),
    when_print, print_eq_printAll, printAll_bind]
  rw [bind_finish]
  simp only [List.append_assoc]

theorem accessory_prints_pieces (acc : SpanAccessory) (io : PrintEnv) (cBuf : Option Nat)
    (mem : List Char) :
    acc.sprintfAttributes io cBuf mem =
      Out.finish (Out.printAll cBuf (acc.pieces io) ⟨mem, 0⟩) := by
  unfold SpanAccessory.sprintfAttributes SpanAccessory.pieces
  simp only [printElems_pieces cBuf acc.Services _ (fun sv => sv.pieces io)
      (fun sv cb mem => service_prints_pieces sv io cb mem),
    print_eq_printAll, printAll_bind]
  rw [bind_finish]
  simp only [List.append_assoc]

theorem span_prints_pieces (s : Span) (io : PrintEnv) (cBuf : Option Nat) (mem : List Char) :
    s.sprintfAttributes io cBuf mem =
      Out.finish (Out.printAll cBuf (s.pieces io) ⟨mem, 0⟩) := by
  unfold Span.sprintfAttributes Span.pieces
  simp only [printElems_pieces cBuf s.Accessories _ (fun acc => acc.pieces io)
      (fun acc cb mem => accessory_prints_pieces acc io cb mem),
    print_eq_printAll, printAll_bind]
  rw [bind_finish]
  simp only [List.append_assoc]

/-! ## What a fill pass stores -/

theorem overlayAt_nil (p : Nat) (cells : List (Option Char)) : overlayAt [] p cells = [] := by
  simp [overlayAt]

theorem overlayAt_cons_succ (m : Char) (ms : List Char) (p : Nat) (cells : List (Option Char)) :
    overlayAt (m :: ms) (p + 1) cells = m :: overlayAt ms p cells := rfl

theorem overlayAt_cons_zero (m : Char) (ms : List Char) (c : Option Char)
    (cs : List (Option Char)) :
    overlayAt (m :: ms) 0 (c :: cs) = c.getD m :: overlayAt ms 0 cs := rfl

theorem overlayAt_nil_cells (mem : List Char) (p : Nat) : overlayAt mem p [] = mem := by
  induction mem generalizing p with
  | nil => rfl
  | cons m ms ih =>
    cases p with
    | zero => rfl
    | succ p => simp [overlayAt, ih]

theorem overlayAt_length (mem : List Char) (p : Nat) (cells : List (Option Char)) :
    (overlayAt mem p cells).length = mem.length := by
  induction mem generalizing p cells with
  | nil => simp [overlayAt]
  | cons m ms ih =>
    cases p with
    | zero =>
      cases cells with
      | nil => rfl
      | cons c cs => simp [overlayAt, ih]
    | succ p => simp [overlayAt, ih]

/-- The store of `snprintf` is an overlay. -/
theorem store_eq_overlayAt (mem : List Char) (p : Nat) (w : List Char)
    (h : p + w.length ≤ mem.length) :
    mem.take p ++ w ++ mem.drop (p + w.length) = overlayAt mem p (w.map some) := by
  induction mem generalizing p w with
  | nil =>
    simp only [List.length_nil] at h
    have hp : p = 0 := by omega
    have hw : w = [] := List.eq_nil_of_length_eq_zero (by omega)
    subst hp hw
    rfl
  | cons m ms ih =>
    cases p with
    | zero =>
      cases w with
      | nil => simp [overlayAt]
      | cons x w' =>
        have := ih 0 w' (by simp at h; omega)
        simp only [List.take_zero, List.nil_append, Nat.zero_add] at this
        simp [overlayAt, ← this]
    | succ p =>
      have := ih p w (by simp at h; omega)
      simp only [overlayAt, ← this]
      have e : p + 1 + w.length = (p + w.length) + 1 := by omega
      simp [e]

theorem overlayAt_zero_twice (mem : List Char) (t : List (Option Char)) (w : List Char)
    (h : t.length ≤ w.length) :
    overlayAt (overlayAt mem 0 t) 0 (w.map some) = overlayAt mem 0 (w.map some) := by
  induction mem generalizing t w with
  | nil => cases t <;> rfl
  | cons m ms ih =>
    cases t with
    | nil => rfl
    | cons c cs =>
      cases w with
      | nil => simp at h
      | cons x w' =>
        simp only [overlayAt, List.map_cons, Option.getD_some]
        rw [ih cs w' (by simpa using h)]

/-- A store that covers what was stored last at the same place replaces it. -/
theorem overlayAt_twice (mem : List Char) (p : Nat) (a t : List (Option Char)) (w : List Char)
    (h : t.length ≤ w.length) :
    overlayAt (overlayAt mem p (a ++ t)) (p + a.length) (w.map some) =
      overlayAt mem p (a ++ w.map some) := by
  induction mem generalizing p a with
  | nil => simp [overlayAt]
  | cons m ms ih =>
    cases p with
    | succ p =>
      have e : p + 1 + a.length = (p + a.length) + 1 := by omega
      rw [overlayAt_cons_succ, overlayAt_cons_succ, e, overlayAt_cons_succ, ih p a]
    | zero =>
      cases a with
      | nil =>
        simp only [List.nil_append, List.length_nil, Nat.add_zero]
        exact overlayAt_zero_twice (m :: ms) t w h
      | cons c cs =>
        have e : 0 + (c :: cs).length = (0 + cs.length) + 1 := by simp
        rw [List.cons_append, List.cons_append, overlayAt_cons_zero, overlayAt_cons_zero, e,
          overlayAt_cons_succ, ih 0 cs]

theorem overlayAt_zero_nones (mem : List Char) (j : Nat) :
    overlayAt mem 0 (List.replicate j none) = mem := by
  induction mem generalizing j with
  | nil => rfl
  | cons m ms ih =>
    cases j with
    | zero => rfl
    | succ j => simp [List.replicate_succ, overlayAt, ih]

/-- Cells that store nothing at the end of an overlay can be left out. -/
theorem overlayAt_nones (mem : List Char) (p : Nat) (x : List (Option Char)) (j : Nat) :
    overlayAt mem p (x ++ List.replicate j none) = overlayAt mem p x := by
  induction mem generalizing p x with
  | nil => simp [overlayAt]
  | cons m ms ih =>
    cases p with
    | succ p => rw [overlayAt_cons_succ, overlayAt_cons_succ, ih]
    | zero =>
      cases x with
      | nil =>
        simp only [List.nil_append]
        rw [overlayAt_zero_nones, overlayAt_nil_cells]
      | cons c cs =>
        rw [List.cons_append, overlayAt_cons_zero, overlayAt_cons_zero, ih]

theorem Piece.cells_length (q : Piece) (hq : 0 < q.size) : q.cells.length = q.text.length := by
  unfold Piece.cells
  split
  · simp
  · simp only [List.length_append, List.length_map, List.length_take, List.length_cons,
      List.length_replicate]
    omega

theorem Piece.cellsOf_length (ps : List Piece) (hsz : ∀ q ∈ ps, 0 < q.size) :
    (Piece.cellsOf ps).length = Piece.total ps := by
  induction ps with
  | nil => rfl
  | cons q rest ih =>
    simp only [Piece.cellsOf, List.flatMap_cons, List.length_append, Piece.total, List.map_cons,
      List.sum_cons]
    rw [Piece.cells_length q (hsz q (by simp))]
    have := ih (fun q' hq' => hsz q' (by simp [hq']))
    simp only [Piece.cellsOf, Piece.total] at this
    rw [this]

theorem Piece.total_cons (q : Piece) (ps : List Piece) :
    Piece.total (q :: ps) = q.text.length + Piece.total ps := by
  simp [Piece.total]

theorem Piece.total_append (ps qs : List Piece) :
    Piece.total (ps ++ qs) = Piece.total ps + Piece.total qs := by
  simp [Piece.total]

/-- The size pass: without an array the pieces are only counted. -/
theorem printAll_null (ps : List Piece) (mem : List Char) (n : Nat) :
    Out.printAll none ps ⟨mem, n⟩ = .ok ⟨mem, n + Piece.total ps⟩ := by
  induction ps generalizing n with
  | nil => rfl
  | cons q rest ih =>
    rw [printAll_cons]
    have : Out.print none q.size q.text ⟨mem, n⟩ = .ok ⟨mem, n + q.text.length⟩ := rfl
    rw [this]
    simp only
    rw [ih, Piece.total_cons, Nat.add_assoc]

/-- One `snprintf` into the array, on top of what was stored before. -/
theorem print_overlay (mem : List Char) (p : Nat) (a t : List (Option Char)) (q : Piece)
    (hq : 0 < q.size) (ht : t.length ≤ 1)
    (hb : p + a.length + q.text.length + 1 ≤ mem.length) :
    Out.print (some p) q.size q.text ⟨overlayAt mem p (a ++ t), a.length⟩ =
      .ok ⟨overlayAt mem p
          ((a ++ q.cells) ++ (if q.text.length < q.size then [some NUL] else [])),
        a.length + q.text.length⟩ := by
  have hw : (q.text.take (q.size - 1) ++ [NUL]).length ≤ q.text.length + 1 := by
    simp only [List.length_append, List.length_take, List.length_singleton]
    omega
  have hfit : p + a.length + (q.text.take (q.size - 1) ++ [NUL]).length ≤
      (overlayAt mem p (a ++ t)).length := by
    rw [overlayAt_length]; omega
  have hne : q.size ≠ 0 := by omega
  simp only [Out.print, snprintf, Option.map_some', Option.isSome_some, if_true, hne, if_false,
    hfit]
  rw [store_eq_overlayAt _ _ _ hfit,
    overlayAt_twice mem p a t _ (by simp only [List.length_append, List.length_singleton]; omega)]
  congr 2
  unfold Piece.cells
  by_cases hf : q.text.length < q.size
  · simp only [hf, if_true]
    rw [List.take_of_length_le (by omega)]
    simp
  · simp only [hf, if_false, List.append_nil]
    have e : a ++ ((q.text.take (q.size - 1)).map some ++
          some NUL :: List.replicate (q.text.length - q.size) none) =
        (a ++ (q.text.take (q.size - 1) ++ [NUL]).map some) ++
          List.replicate (q.text.length - q.size) none := by
      simp
    rw [e, overlayAt_nones]

theorem Piece.term_cons (t : List (Option Char)) (q : Piece) (rest : List Piece) :
    Piece.term t (q :: rest) =
      Piece.term (if q.text.length < q.size then [some NUL] else []) rest := by
  cases rest with
  | nil => simp [Piece.term]
  | cons r rs =>
    obtain ⟨x, hx⟩ : ∃ x, (r :: rs).getLast? = some x :=
      ⟨_, List.getLast?_eq_getLast _ (by simp)⟩
    simp [Piece.term, List.getLast?_cons_cons, hx]

/-- The fill pass: the pieces are stored one after the other, each cut to its size limit,
and the count advances by their full lengths. -/
theorem printAll_overlay (ps : List Piece) (hsz : ∀ q ∈ ps, 0 < q.size) (mem : List Char)
    (p : Nat) (a t : List (Option Char)) (ht : t.length ≤ 1)
    (hb : p + a.length + Piece.total ps + 1 ≤ mem.length) :
    Out.printAll (some p) ps ⟨overlayAt mem p (a ++ t), a.length⟩ =
      .ok ⟨overlayAt mem p ((a ++ Piece.cellsOf ps) ++ Piece.term t ps),
        a.length + Piece.total ps⟩ := by
  induction ps generalizing a t with
  | nil =>
    rw [printAll_nil]
    simp [Piece.cellsOf, Piece.term, Piece.total]
  | cons q rest ih =>
    have hq := hsz q (by simp)
    rw [Piece.total_cons] at hb
    rw [printAll_cons, print_overlay mem p a t q hq ht (by omega)]
    simp only
    have hlen : (a ++ q.cells).length = a.length + q.text.length := by
      rw [List.length_append, Piece.cells_length q hq]
    have := ih (fun q' hq' => hsz q' (by simp [hq'])) (a ++ q.cells)
      (if q.text.length < q.size then [some NUL] else []) (by split <;> simp)
      (by rw [hlen]; omega)
    rw [hlen] at this
    rw [this, Piece.term_cons, Piece.total_cons]
    simp [Piece.cellsOf, Nat.add_assoc]

/-! ### The pieces of the print routines -/

theorem mem_joinPieces (xs : List (List Piece)) (q : Piece) (h : q ∈ joinPieces xs) :
    q.size = 64 ∨ ∃ x ∈ xs, q ∈ x := by
  induction xs with
  | nil => simp [joinPieces] at h
  | cons x rest ih =>
    cases rest with
    | nil =>
      simp only [joinPieces] at h
      exact Or.inr ⟨x, by simp, h⟩
    | cons y rest' =>
      simp only [joinPieces, List.mem_append, List.mem_cons] at h
      rcases h with h | h | h
      · exact Or.inr ⟨x, by simp, h⟩
      · left; rw [h]
      · rcases ih h with h1 | ⟨z, hz, hq⟩
        · exact Or.inl h1
        · exact Or.inr ⟨z, by simp [hz], hq⟩

theorem permPieces_size (perms i : Nat) (q : Piece) (h : q ∈ permPieces perms i) :
    0 < q.size := by
  unfold permPieces at h
  split at h
  · simp only [List.mem_cons] at h
    rcases h with h | h
    · rw [h]; simp
    · split at h
      · simp only [List.mem_singleton] at h; rw [h]; simp
      · simp at h
  · simp at h

theorem char_pieces_size (c : SpanCharacteristic) (io : PrintEnv) (flags : Nat) :
    ∀ q ∈ c.pieces io flags, 0 < q.size := by
  intro q hq
  unfold SpanCharacteristic.pieces at hq
  simp only [List.mem_append, List.mem_singleton] at hq
  rcases hq with (((((((hq | hq) | hq) | hq) | hq) | hq) | hq) | hq) | hq
  · rw [hq]; simp
  · split at hq
    · simp only [List.mem_singleton] at hq; rw [hq]; simp
    · simp at hq
  · split at hq
    · split at hq <;> (simp only [List.mem_singleton] at hq; rw [hq]; simp)
    · simp at hq
  · split at hq
    · simp only [List.mem_cons] at hq
      rcases hq with hq | hq
      · rw [hq]; simp
      · split at hq
        · simp only [List.mem_singleton] at hq; rw [hq]; simp
        · simp at hq
    · simp at hq
  · split at hq
    · split at hq
      · simp only [List.mem_singleton] at hq; rw [hq]; simp
      · simp at hq
    · simp at hq
  · split at hq
    · simp only [List.mem_append, List.mem_singleton, List.mem_flatMap] at hq
      rcases hq with (hq | ⟨i, _, hq⟩) | hq
      · rw [hq]; simp
      · exact permPieces_size _ _ _ hq
      · rw [hq]; simp
    · simp at hq
  · split at hq
    · simp only [List.mem_singleton] at hq; rw [hq]; simp
    · simp at hq
  · split at hq
    · simp only [List.mem_singleton] at hq; rw [hq]; simp
    · simp at hq
  · rw [hq]; simp

theorem service_pieces_size (sv : SpanService) (io : PrintEnv) :
    ∀ q ∈ sv.pieces io, 0 < q.size := by
  intro q hq
  unfold SpanService.pieces at hq
  simp only [List.mem_append, List.mem_singleton] at hq
  rcases hq with ((((hq | hq) | hq) | hq) | hq) | hq
  · rw [hq]; simp
  · split at hq
    · simp only [List.mem_singleton] at hq; rw [hq]; simp
    · simp at hq
  · split at hq
    · simp only [List.mem_singleton] at hq; rw [hq]; simp
    · simp at hq
  · rw [hq]; simp
  · rcases mem_joinPieces _ q hq with h | ⟨x, hx, hqx⟩
    · omega
    · simp only [List.mem_map] at hx
      obtain ⟨c, _, rfl⟩ := hx
      exact char_pieces_size c io serviceFlags q hqx
  · rw [hq]; simp

theorem accessory_pieces_size (acc : SpanAccessory) (io : PrintEnv) :
    ∀ q ∈ acc.pieces io, 0 < q.size := by
  intro q hq
  unfold SpanAccessory.pieces at hq
  simp only [List.mem_append, List.mem_singleton] at hq
  rcases hq with (hq | hq) | hq
  · rw [hq]; simp
  · rcases mem_joinPieces _ q hq with h | ⟨x, hx, hqx⟩
    · omega
    · simp only [List.mem_map] at hx
      obtain ⟨sv, _, rfl⟩ := hx
      exact service_pieces_size sv io q hqx
  · rw [hq]; simp

theorem span_pieces_size (s : Span) (io : PrintEnv) : ∀ q ∈ s.pieces io, 0 < q.size := by
  intro q hq
  unfold Span.pieces at hq
  simp only [List.mem_append, List.mem_singleton] at hq
  rcases hq with (hq | hq) | hq
  · rw [hq]; simp
  · rcases mem_joinPieces _ q hq with h | ⟨x, hx, hqx⟩
    · omega
    · simp only [List.mem_map] at hx
      obtain ⟨acc, _, rfl⟩ := hx
      exact accessory_pieces_size acc io q hqx
  · rw [hq]; simp

theorem Piece.term_append_fits (t : List (Option Char)) (ps : List Piece) (q : Piece)
    (hq : q.text.length < q.size) : Piece.term t (ps ++ [q]) = [some NUL] := by
  simp [Piece.term, hq]

/-- A routine that prints pieces, the last of which is shorter than its size limit:
the count of both passes and the array after the fill pass. -/
theorem prints_overlay (f : Option Nat → List Char → Except Fault (Nat × List Char))
    (ps : List Piece) (q : Piece) (hq : q.text.length < q.size)
    (hsz : ∀ x ∈ ps ++ [q], 0 < x.size)
    (hf : ∀ cb mem, f cb mem = Out.finish (Out.printAll cb (ps ++ [q]) ⟨mem, 0⟩)) :
    (∀ mem, f none mem = .ok (Piece.total (ps ++ [q]), mem)) ∧
      ∀ p mem, p + Piece.total (ps ++ [q]) + 1 ≤ mem.length →
        f (some p) mem =
          .ok (Piece.total (ps ++ [q]),
            overlayAt mem p (Piece.cellsOf (ps ++ [q]) ++ [some NUL])) := by
  constructor
  · intro mem
    rw [hf, printAll_null]
    simp [Out.finish, Out.result]
  · intro p mem hb
    have h := printAll_overlay (ps ++ [q]) hsz mem p [] [] (by simp) (by simpa using hb)
    simp only [List.nil_append, List.length_nil, Nat.zero_add, overlayAt_nil_cells] at h
    rw [hf, h, Piece.term_append_fits [] ps q hq]
    rfl

theorem sameCount_of_pieces (f : Option Nat → List Char → Except Fault (Nat × List Char))
    (ps : List Piece) (q : Piece) (hq : q.text.length < q.size)
    (hsz : ∀ x ∈ ps ++ [q], 0 < x.size)
    (hf : ∀ cb mem, f cb mem = Out.finish (Out.printAll cb (ps ++ [q]) ⟨mem, 0⟩)) :
    SameCount f := by
  obtain ⟨h1, h2⟩ := prints_overlay f ps q hq hsz hf
  exact ⟨_, h1, fun p mem hb => ⟨_, h2 p mem hb, overlayAt_length _ _ _⟩⟩

/-- The pieces of each routine end with a closing piece of one or two characters. -/
theorem char_pieces_last (c : SpanCharacteristic) (io : PrintEnv) (flags : Nat) :
    ∃ ps, c.pieces io flags = ps ++ [⟨64, ['}']⟩] := ⟨_, rfl⟩

theorem service_pieces_last (sv : SpanService) (io : PrintEnv) :
    ∃ ps, sv.pieces io = ps ++ [⟨64, "]\x7d".toList⟩] := ⟨_, rfl⟩

theorem accessory_pieces_last (acc : SpanAccessory) (io : PrintEnv) :
    ∃ ps, acc.pieces io = ps ++ [⟨64, "]\x7d".toList⟩] := ⟨_, rfl⟩

theorem span_pieces_last (s : Span) (io : PrintEnv) :
    ∃ ps, s.pieces io = ps ++ [⟨64, "]\x7d".toList⟩] := ⟨_, rfl⟩

/-- C15: each print routine (of the database, an accessory, a service, a characteristic
with any flags) returns the same count when called with `NULL` and when called with an
array, on the same database; the fill pass returns whenever the array has room for the
count and the terminating NUL (for a characteristic with `GET_EV`, when `conNum` is an
index of `ev`). -/
theorem size_pass_eq_fill_pass (io : PrintEnv) :
    (∀ s : Span, SameCount (s.sprintfAttributes io)) ∧
      (∀ acc : SpanAccessory, SameCount (acc.sprintfAttributes io)) ∧
      (∀ sv : SpanService, SameCount (sv.sprintfAttributes io)) ∧
      ∀ (c : SpanCharacteristic) (flags : Nat),
        (hasBit flags GET_EV = true → io.conNum < c.ev.length) →
        SameCount (c.sprintfAttributes io flags) := by
  refine ⟨?_, ?_, ?_, ?_⟩
  · intro s
    obtain ⟨ps, e⟩ := span_pieces_last s io
    exact sameCount_of_pieces _ ps ⟨64, "]\x7d".toList⟩ (by decide)
      (by rw [← e]; exact span_pieces_size s io)
      (fun cb mem => by rw [← e]; exact span_prints_pieces s io cb mem)
  · intro acc
    obtain ⟨ps, e⟩ := accessory_pieces_last acc io
    exact sameCount_of_pieces _ ps ⟨64, "]\x7d".toList⟩ (by decide)
      (by rw [← e]; exact accessory_pieces_size acc io)
      (fun cb mem => by rw [← e]; exact accessory_prints_pieces acc io cb mem)
  · intro sv
    obtain ⟨ps, e⟩ := service_pieces_last sv io
    exact sameCount_of_pieces _ ps ⟨64, "]\x7d".toList⟩ (by decide)
      (by rw [← e]; exact service_pieces_size sv io)
      (fun cb mem => by rw [← e]; exact service_prints_pieces sv io cb mem)
  · intro c flags hev
    obtain ⟨ps, e⟩ := char_pieces_last c io flags
    exact sameCount_of_pieces _ ps ⟨64, ['}']⟩ (by decide)
      (by rw [← e]; exact char_pieces_size c io flags)
      (fun cb mem => by rw [← e]; exact char_prints_pieces c io flags hev cb mem)

/-! ### The C string that a fill pass leaves -/

theorem drop_overlayAt (mem : List Char) (p : Nat) (cells : List (Option Char)) :
    (overlayAt mem p cells).drop p = overlayAt (mem.drop p) 0 cells := by
  induction mem generalizing p with
  | nil => simp [overlayAt_nil]
  | cons m ms ih =>
    cases p with
    | zero => rfl
    | succ p => rw [overlayAt_cons_succ, List.drop_succ_cons, List.drop_succ_cons, ih]

theorem cstr_cons (c : Char) (l : List Char) :
    cstr (c :: l) = if c = NUL then [] else c :: cstr l := by
  unfold cstr
  by_cases h : c = NUL
  · simp [h, List.takeWhile]
  · have hb : (c != NUL) = true := by simp [h]
    simp [h, hb, List.takeWhile]

/-- The C string at the start of an array on which closed cells are stored. -/
theorem cstr_overlayAt_zero (cells : List (Option Char)) (mem : List Char) (hc : Closed cells)
    (hl : cells.length ≤ mem.length) : cstr (overlayAt mem 0 cells) = visible cells := by
  induction cells generalizing mem with
  | nil => exact absurd hc (by simp [Closed])
  | cons c cs ih =>
    cases c with
    | none => exact absurd hc (by simp [Closed])
    | some x =>
      cases mem with
      | nil => simp at hl
      | cons m ms =>
        rw [overlayAt_cons_zero, Option.getD_some, cstr_cons]
        simp only [visible]
        by_cases hx : x = NUL
        · simp [hx]
        · simp only [hx, if_false]
          have hc' : Closed cs := by
            simp only [Closed] at hc
            rcases hc with h | h
            · exact absurd h hx
            · exact h
          rw [ih ms hc' (by simpa using hl)]

theorem cstr_overlayAt (cells : List (Option Char)) (mem : List Char) (p : Nat)
    (hc : Closed cells) (hl : p + cells.length ≤ mem.length) :
    cstr ((overlayAt mem p cells).drop p) = visible cells := by
  rw [drop_overlayAt]
  exact cstr_overlayAt_zero cells _ hc (by simp; omega)

theorem closed_map_append (l : List Char) (x : List (Option Char)) (h : Closed x) :
    Closed (l.map some ++ x) := by
  induction l with
  | nil => exact h
  | cons c cs ih => exact Or.inr ih

theorem closed_nul (l : List Char) (x : List (Option Char)) :
    Closed (l.map some ++ some NUL :: x) :=
  closed_map_append l _ (Or.inl rfl)

theorem closed_cells_append (q : Piece) (x : List (Option Char)) (h : Closed x) :
    Closed (q.cells ++ x) := by
  unfold Piece.cells
  split
  · exact closed_map_append _ _ h
  · rw [List.append_assoc, List.cons_append]
    exact closed_nul _ _

/-- What pieces store, followed by a NUL, is closed. -/
theorem closed_cellsOf (ps : List Piece) : Closed (Piece.cellsOf ps ++ [some NUL]) := by
  induction ps with
  | nil => exact Or.inl rfl
  | cons q rest ih =>
    simp only [Piece.cellsOf, List.flatMap_cons, List.append_assoc]
    exact closed_cells_append q _ ih

set_option maxRecDepth 1000000 in
/-- The size pass on the sample database returns 509. -/
theorem sampleDb_count : sampleDb.sprintfAttributes sampleIo none [] = .ok (509, []) := by
  rfl

/-- C16: `Span::sprintfAttributes(cBuf)` takes the database and returns a count and the
array, it stores nothing in the database. Two calls on the same database, into arrays
of any content that have room for the count `n` and a NUL, return `n` both, store the
same characters at the same offsets (`cells`), and leave the same C string. -/
theorem repeated_print_identical (s : Span) (io : PrintEnv) (n : Nat)
    (hn : s.sprintfAttributes io none [] = .ok (n, []))
    (p1 p2 : Nat) (mem1 mem2 : List Char)
    (h1 : p1 + n + 1 ≤ mem1.length) (h2 : p2 + n + 1 ≤ mem2.length) :
    ∃ cells : List (Option Char),
      s.sprintfAttributes io (some p1) mem1 = .ok (n, overlayAt mem1 p1 cells) ∧
        s.sprintfAttributes io (some p2) mem2 = .ok (n, overlayAt mem2 p2 cells) ∧
        cstr ((overlayAt mem1 p1 cells).drop p1) = cstr ((overlayAt mem2 p2 cells).drop p2) := by
  obtain ⟨ps, e⟩ := span_pieces_last s io
  obtain ⟨hnull, hfill⟩ := prints_overlay (s.sprintfAttributes io) ps ⟨64, "]\x7d".toList⟩
    (by decide) (by rw [← e]; exact span_pieces_size s io)
    (fun cb mem => by rw [← e]; exact span_prints_pieces s io cb mem)
  have hn' : n = Piece.total (ps ++ [⟨64, "]\x7d".toList⟩]) := by
    have := hnull []
    rw [hn] at this
    simpa using this
  have hlen : (Piece.cellsOf (ps ++ [⟨64, "]\x7d".toList⟩]) ++ [some NUL]).length = n + 1 := by
    rw [List.length_append, Piece.cellsOf_length _ (by rw [← e]; exact span_pieces_size s io), hn']
    rfl
  refine ⟨Piece.cellsOf (ps ++ [⟨64, "]\x7d".toList⟩]) ++ [some NUL], ?_, ?_, ?_⟩
  · rw [hn']; exact hfill p1 mem1 (by rw [← hn']; exact h1)
  · rw [hn']; exact hfill p2 mem2 (by rw [← hn']; exact h2)
  · rw [cstr_overlayAt _ _ _ (closed_cellsOf _) (by rw [hlen]; omega),
      cstr_overlayAt _ _ _ (closed_cellsOf _) (by rw [hlen]; omega)]

set_option maxRecDepth 1000000 in
theorem repeated_print_identical_witness :
    sampleDb.sprintfAttributes sampleIo none [] = .ok (509, []) ∧
      ∃ cells : List (Option Char),
        sampleDb.sprintfAttributes sampleIo (some 0) (rawArray 510) =
            .ok (509, overlayAt (rawArray 510) 0 cells) ∧
          sampleDb.sprintfAttributes sampleIo (some 3) (List.replicate 600 'x') =
            .ok (509, overlayAt (List.replicate 600 'x') 3 cells) ∧
          cstr ((overlayAt (rawArray 510) 0 cells).drop 0) =
            cstr ((overlayAt (List.replicate 600 'x') 3 cells).drop 3) :=
  ⟨sampleDb_count,
    repeated_print_identical sampleDb sampleIo 509 sampleDb_count 0 3 (rawArray 510)
      (List.replicate 600 'x') (by decide) (by decide)⟩

/-! ## PASS 2 of the print routine for a list of ids -/

theorem decimalAux_length (fuel n k : Nat) (h : n < 10 ^ k) (hk : 0 < k) :
    (decimalAux fuel n []).length ≤ k := by
  induction fuel generalizing n k with
  | zero => simp [decimalAux]
  | succ f ih =>
    simp only [decimalAux]
    split
    · simp; omega
    · rename_i hn
      rw [decimalAux_append]
      have hk2 : 2 ≤ k := by
        by_contra hlt
        have : k = 1 := by omega
        subst this
        simp at h
        omega
      have h1 : n / 10 < 10 ^ (k - 1) := by
        rw [Nat.div_lt_iff_lt_mul (by norm_num)]
        calc n < 10 ^ k := h
          _ = 10 ^ (k - 1 + 1) := by congr 1; omega
          _ = 10 ^ (k - 1) * 10 := by ring
      have := ih (n / 10) (k - 1) h1 (by omega)
      simp only [List.length_append, List.length_singleton]
      omega

theorem fmtU_length (n : Nat) (h : n < 4294967296) : (fmtU n).length ≤ 10 :=
  decimalAux_length _ n 10 (by omega) (by omega)

theorem fmtD_length (x : Int) (h : -2147483648 ≤ x ∧ x < 2147483648) : (fmtD x).length ≤ 11 := by
  unfold fmtD
  split
  · have := decimalAux_length ((-x).toNat + 1) (-x).toNat 10 (by omega) (by omega)
    simp only [List.length_cons, fmtU]
    omega
  · have := decimalAux_length (x.toNat + 1) x.toNat 10 (by omega) (by omega)
    simp only [fmtU]
    omega

theorem statusText_length (st : StatusCode) :
    0 < (statusText st).length ∧ (statusText st).length < 64 := by
  cases st <;> decide

/-! ### Steps of a print routine on a stored state -/

theorem print_stored (cBuf : Option Nat) (mem : List Char) (a t : List (Option Char))
    (q : Piece) (hq : 0 < q.size) (ht : t.length ≤ (q.text.take (q.size - 1)).length + 1)
    (hb : Room cBuf mem (a.length + q.text.length)) :
    Out.print cBuf q.size q.text (Out.stored cBuf mem a t) =
      .ok (Out.stored cBuf mem (a ++ q.cells)
        (if q.text.length < q.size then [some NUL] else [])) := by
  cases cBuf with
  | none =>
    simp only [Out.stored, List.length_append, Piece.cells_length q hq]
    rfl
  | some p =>
    have hb' := hb p rfl
    simp only [Out.stored]
    have hw : (q.text.take (q.size - 1) ++ [NUL]).length ≤ q.text.length + 1 := by
      simp only [List.length_append, List.length_take, List.length_singleton]
      omega
    have hfit : p + a.length + (q.text.take (q.size - 1) ++ [NUL]).length ≤
        (overlayAt mem p (a ++ t)).length := by
      rw [overlayAt_length]; omega
    have hne : q.size ≠ 0 := by omega
    simp only [Out.print, snprintf, Option.map_some', Option.isSome_some, if_true, hne, if_false,
      hfit]
    rw [store_eq_overlayAt _ _ _ hfit,
      overlayAt_twice mem p a t _ (by simpa using ht)]
    have hlen : (a ++ q.cells).length = a.length + q.text.length := by
      rw [List.length_append, Piece.cells_length q hq]
    rw [hlen]
    congr 2
    unfold Piece.cells
    by_cases hf : q.text.length < q.size
    · simp only [hf, if_true]
      rw [List.take_of_length_le (by omega)]
      simp
    · simp only [hf, if_false, List.append_nil]
      have e : a ++ ((q.text.take (q.size - 1)).map some ++
            some NUL :: List.replicate (q.text.length - q.size) none) =
          (a ++ (q.text.take (q.size - 1) ++ [NUL]).map some) ++
            List.replicate (q.text.length - q.size) none := by
        simp
      rw [e, overlayAt_nones]

theorem printAll_stored (cBuf : Option Nat) (ps : List Piece) (hsz : ∀ q ∈ ps, 0 < q.size)
    (mem : List Char) (a t : List (Option Char)) (ht : t.length ≤ 1)
    (hb : Room cBuf mem (a.length + Piece.total ps)) :
    Out.printAll cBuf ps (Out.stored cBuf mem a t) =
      .ok (Out.stored cBuf mem (a ++ Piece.cellsOf ps) (Piece.term t ps)) := by
  cases cBuf with
  | none =>
    simp only [Out.stored]
    rw [printAll_null, List.length_append, Piece.cellsOf_length ps hsz]
  | some p =>
    have hb' := hb p rfl
    simp only [Out.stored]
    rw [printAll_overlay ps hsz mem p a t ht (by omega), List.length_append,
      Piece.cellsOf_length ps hsz]

/-! ### What PASS 1 leaves for PASS 2 -/

theorem idsEntry_read (s : Span) (x : Nat × Int) (ch : Option (Option CharRef))
    (st : Option StatusCode) (h : IdsEntry s x.1 x.2 ch st) :
    st = some (s.readStatus x) ∧
      ((∃ r c, ch = some (some r) ∧ s.getChar r = some c ∧ s.readable x = some c ∧
          s.readStatus x = .OK) ∨
        (ch = some none ∧ s.readable x = none ∧ s.readStatus x ≠ .OK)) := by
  unfold IdsEntry at h
  unfold Span.readStatus Span.readable
  cases hf : s.find x.1 x.2 with
  | none =>
    rw [hf] at h
    simp only at h ⊢
    exact ⟨h.2, Or.inr ⟨h.1, trivial, by decide⟩⟩
  | some r =>
    rw [hf] at h
    simp only at h ⊢
    obtain ⟨c, hc, h⟩ := h
    rw [hc]
    simp only
    by_cases hp : hasBit c.perms PR = true
    · rw [if_pos hp] at h
      rw [if_pos hp, if_pos hp]
      exact ⟨h.2, Or.inl ⟨r, c, h.1, hc, rfl, rfl⟩⟩
    · rw [if_neg hp] at h
      rw [if_neg hp, if_neg hp]
      exact ⟨h.2, Or.inr ⟨h.1, rfl, by decide⟩⟩

theorem pass1_entries (s : Span) (pairs : List (Nat × Int))
    (hr : ∀ x ∈ pairs, x.1 < 4294967296 ∧ -2147483648 ≤ x.2 ∧ x.2 < 2147483648)
    (p1 : IdsState) (hinv : IdsInv s (pairs.map idText) (pairs.map idText).length p1)
    (i : Nat) (x : Nat × Int) (hx : pairs[i]? = some x) :
    p1.status[i]? = some (s.readStatus x) ∧
      ((∃ r c, p1.Characteristics[i]? = some (some r) ∧ s.getChar r = some c ∧
          s.readable x = some c ∧ s.readStatus x = .OK) ∨
        (p1.Characteristics[i]? = some none ∧ s.readable x = none ∧ s.readStatus x ≠ .OK)) := by
  have hi : i < pairs.length := by
    by_contra hlt
    rw [List.getElem?_eq_none (by omega)] at hx
    cases hx
  have hmem : x ∈ pairs := List.mem_iff_getElem?.2 ⟨i, hx⟩
  obtain ⟨h1, h2, h3⟩ := hr x hmem
  have hid : (pairs.map idText)[i]? = some (idText x) := by
    rw [List.getElem?_map, hx]; rfl
  exact idsEntry_read s x _ _
    (hinv.entry i (idText x) x.1 x.2 (by simpa using hi) hid
      (fun a0 i0 => scanId_fmt x.1 x.2 h1 ⟨h2, h3⟩ a0 i0))

theorem pass1_flag (s : Span) (pairs : List (Nat × Int))
    (hr : ∀ x ∈ pairs, x.1 < 4294967296 ∧ -2147483648 ≤ x.2 ∧ x.2 < 2147483648)
    (p1 : IdsState) (hinv : IdsInv s (pairs.map idText) (pairs.map idText).length p1) :
    p1.sFlag = s.anyError pairs := by
  rw [Bool.eq_iff_iff, hinv.flag]
  unfold Span.anyError
  rw [List.any_eq_true]
  constructor
  · rintro ⟨k, y, hk, hy⟩
    have hlt : k < pairs.length := by
      by_contra hlt
      have : p1.status.length ≤ k := by
        rw [hinv.lenS, List.length_map]; omega
      rw [List.getElem?_eq_none this] at hk
      cases hk
    have hx : pairs[k]? = some pairs[k] := List.getElem?_eq_getElem hlt
    have h := (pass1_entries s pairs hr p1 hinv k _ hx).1
    rw [hk] at h
    injection h with h
    refine ⟨pairs[k], List.getElem_mem hlt, ?_⟩
    rw [← h]
    cases y <;> first | exact absurd rfl hy | rfl
  · rintro ⟨x, hx, hne⟩
    obtain ⟨k, hk⟩ := List.mem_iff_getElem?.1 hx
    refine ⟨k, s.readStatus x, (pass1_entries s pairs hr p1 hinv k x hk).1, ?_⟩
    intro h
    rw [h] at hne
    exact absurd hne (by decide)

/-! ### The statements of PASS 2 on a stored state -/

theorem Piece.cells_fits (q : Piece) (h : q.text.length < q.size) :
    q.cells = q.text.map some := by
  unfold Piece.cells
  simp [h]

theorem Room.mono {cBuf : Option Nat} {mem : List Char} {k j : Nat} (h : Room cBuf mem k)
    (hj : j ≤ k) : Room cBuf mem j := by
  intro p hp
  have := h p hp
  omega

/-- A text shorter than its size limit printed after the stored cells. -/
theorem print_fits_stored (cBuf : Option Nat) (mem : List Char) (a t : List (Option Char))
    (size : Nat) (text : List Char) (hf : text.length < size)
    (ht : t.length ≤ text.length + 1) (hb : Room cBuf mem (a.length + text.length)) :
    Out.print cBuf size text (Out.stored cBuf mem a t) =
      .ok (Out.stored cBuf mem (a ++ text.map some) [some NUL]) := by
  have h := print_stored cBuf mem a t ⟨size, text⟩ (by show 0 < size; omega)
    (by
      show t.length ≤ (text.take (size - 1)).length + 1
      rw [List.take_of_length_le (by omega)]
      exact ht) hb
  rw [Piece.cells_fits ⟨size, text⟩ hf] at h
  simp only [hf, if_true] at h
  exact h

/-- The call of the print routine of a characteristic after the stored cells. -/
theorem call_char_stored (c : SpanCharacteristic) (io : PrintEnv) (flags : Nat)
    (hev : hasBit flags GET_EV = true → io.conNum < c.ev.length)
    (cBuf : Option Nat) (mem : List Char) (a t : List (Option Char)) (ht : t.length ≤ 1)
    (hb : Room cBuf mem (a.length + (Piece.cellsOf (c.pieces io flags)).length)) :
    (Out.stored cBuf mem a t).call cBuf (c.sprintfAttributes io flags) =
      .ok (Out.stored cBuf mem (a ++ Piece.cellsOf (c.pieces io flags)) [some NUL]) := by
  rw [call_printAll cBuf _ (c.pieces io flags) (fun cb m => char_prints_pieces c io flags hev cb m)]
  have hsz := char_pieces_size c io flags
  rw [Piece.cellsOf_length _ hsz] at hb
  rw [printAll_stored cBuf _ hsz mem a t ht hb]
  obtain ⟨ps, hps⟩ := char_pieces_last c io flags
  rw [hps, Piece.term_append_fits t ps _ (by decide)]

/-- The cells of a characteristic end with its closing brace. -/
theorem char_cells_last (c : SpanCharacteristic) (io : PrintEnv) (flags : Nat) :
    Piece.cellsOf (c.pieces io flags) =
      (Piece.cellsOf (c.pieces io flags)).dropLast ++ [some '}'] := by
  obtain ⟨ps, hps⟩ := char_pieces_last c io flags
  rw [hps]
  have : Piece.cellsOf (ps ++ [⟨64, ['}']⟩]) = Piece.cellsOf ps ++ [some '}'] := by
    simp [Piece.cellsOf, Piece.cells]
  rw [this, List.dropLast_concat]

/-- The statement that moves `nBytes` one character back and prints the status. -/
theorem status_stored (cBuf : Option Nat) (mem : List Char) (a : List (Option Char))
    (b : Option Char) (st : StatusCode)
    (hb : Room cBuf mem (a.length + (statusText st).length)) :
    Out.print cBuf 64 (statusText st)
        { Out.stored cBuf mem (a ++ [b]) [some NUL] with
          nBytes := (Out.stored cBuf mem (a ++ [b]) [some NUL]).nBytes - 1 } =
      .ok (Out.stored cBuf mem (a ++ (statusText st).map some) [some NUL]) := by
  have e : ({ Out.stored cBuf mem (a ++ [b]) [some NUL] with
      nBytes := (Out.stored cBuf mem (a ++ [b]) [some NUL]).nBytes - 1 } : Out) =
      Out.stored cBuf mem a [b, some NUL] := by
    cases cBuf with
    | none => simp [Out.stored]
    | some p => simp [Out.stored]
  rw [e]
  have hl := statusText_length st
  exact print_fits_stored cBuf mem a _ 64 _ hl.2 (by simp only [List.length_cons, List.length_nil]; omega) hb

theorem failed_text_length (x : Nat × Int)
    (hr : x.1 < 4294967296 ∧ -2147483648 ≤ x.2 ∧ x.2 < 2147483648) :
    ("\x7b\"iid\":".toList ++ fmtD x.2 ++ ",\"aid\":".toList ++ fmtU x.1 ++ ['}']).length < 64 := by
  have h1 := fmtU_length x.1 hr.1
  have h2 := fmtD_length x.2 hr.2
  simp only [List.length_append, List.length_singleton]
  have e1 : "\x7b\"iid\":".toList.length = 7 := by decide
  have e2 : ",\"aid\":".toList.length = 7 := by decide
  omega

/-- One round of PASS 2 stores the object of the id after the cells stored so far, and a
comma unless the id is the last one. -/
theorem idsPass2Step_stored (s : Span) (io : PrintEnv) (flags : Nat) (pairs : List (Nat × Int))
    (hr : ∀ x ∈ pairs, x.1 < 4294967296 ∧ -2147483648 ≤ x.2 ∧ x.2 < 2147483648)
    (hev : hasBit flags GET_EV = true →
      ∀ x ∈ pairs, ∀ c, s.readable x = some c → io.conNum < c.ev.length)
    (p1 : IdsState) (hinv : IdsInv s (pairs.map idText) (pairs.map idText).length p1)
    (cBuf : Option Nat) (mem : List Char) (i : Nat) (x : Nat × Int) (hx : pairs[i]? = some x)
    (a t : List (Option Char)) (ht : t.length ≤ 1) (aid : Nat) (iid : Int)
    (hb : Room cBuf mem (a.length + (idCells s io flags (s.anyError pairs) x).length + 1)) :
    ∃ aid' iid', idsPass2Step s io (pairs.map idText) flags cBuf p1 i
        ⟨aid, iid, Out.stored cBuf mem a t⟩ =
      .ok ⟨aid', iid', Out.stored cBuf mem
        (a ++ idCells s io flags (s.anyError pairs) x ++
          (if i + 1 < pairs.length then [some ','] else [])) [some NUL]⟩ := by
  have hmem : x ∈ pairs := List.mem_iff_getElem?.2 ⟨i, hx⟩
  have hid : (pairs.map idText)[i]? = some (idText x) := by
    rw [List.getElem?_map, hx]; rfl
  obtain ⟨hst, hch⟩ := pass1_entries s pairs hr p1 hinv i x hx
  have hflag := pass1_flag s pairs hr p1 hinv
  -- the comma
  have hcomma : ∀ (cells : List (Option Char)), Room cBuf mem (cells.length + 1) →
      (Out.stored cBuf mem cells [some NUL]).print cBuf 64 [','] =
        .ok (Out.stored cBuf mem (cells ++ [some ',']) [some NUL]) := fun cells hroom =>
    print_fits_stored cBuf mem cells _ 64 [','] (by decide) (by simp) hroom
  unfold idsPass2Step
  rw [hid, hst]
  rcases hch with ⟨r, c, hch, hc, hrd, hok⟩ | ⟨hch, hrd, hne⟩
  · -- a readable characteristic
    rw [hch]
    have hcells : idCells s io flags (s.anyError pairs) x =
        if s.anyError pairs then
          (Piece.cellsOf (c.pieces io flags)).dropLast ++ (statusText .OK).map some
        else Piece.cellsOf (c.pieces io flags) := by
      unfold idCells; rw [hrd]
    have hlast := char_cells_last c io flags
    have hlen : (Piece.cellsOf (c.pieces io flags)).length =
        (Piece.cellsOf (c.pieces io flags)).dropLast.length + 1 := by
      conv_lhs => rw [hlast]
      simp
    have hsl := statusText_length .OK
    have hcall := call_char_stored c io flags (fun h => hev h x hmem c hrd) cBuf mem a t ht
      (by
        refine Room.mono hb ?_
        rw [hcells]
        split
        · simp only [List.length_append, List.length_map]; omega
        · omega)
    simp only [hc, pure, Except.pure, bind, Except.bind, hcall, hok]
    rw [hflag]
    by_cases hany : s.anyError pairs = true
    · rw [hcells, if_pos hany] at hb ⊢
      simp only [hany, if_true]
      have hov := status_stored cBuf mem (a ++ (Piece.cellsOf (c.pieces io flags)).dropLast)
        (some '}') .OK
        (by
          refine Room.mono hb ?_
          simp only [List.length_append, List.length_map]; omega)
      rw [List.append_assoc a, ← hlast] at hov
      have hov' : Out.print cBuf 64 (",\"status\":".toList ++ fmtD StatusCode.OK.code ++ ['}'])
          { Out.stored cBuf mem (a ++ Piece.cellsOf (c.pieces io flags)) [some NUL] with
            nBytes := (Out.stored cBuf mem (a ++ Piece.cellsOf (c.pieces io flags))
              [some NUL]).nBytes - 1 } = _ := hov
      rw [hov']
      simp only
      rw [List.length_map]
      by_cases hlt : i + 1 < pairs.length
      · rw [if_pos hlt, if_pos hlt, hcomma (a ++ (Piece.cellsOf (c.pieces io flags)).dropLast ++ (statusText .OK).map some)
          (by
            refine Room.mono hb ?_
            simp only [List.length_append, List.length_map]; omega)]
        exact ⟨aid, iid, by simp only [List.append_assoc, List.map_append]⟩
      · rw [if_neg hlt, if_neg hlt]
        exact ⟨aid, iid, by simp only [List.append_assoc, List.map_append, List.append_nil]⟩
    · have hany' : s.anyError pairs = false := by
        cases h : s.anyError pairs
        · rfl
        · exact absurd h hany
      rw [hcells, hany'] at hb ⊢
      simp only [Bool.false_eq_true, if_false] at hb ⊢
      rw [List.length_map]
      by_cases hlt : i + 1 < pairs.length
      · rw [if_pos hlt, if_pos hlt, hcomma (a ++ Piece.cellsOf (c.pieces io flags))
          (by
            refine Room.mono hb ?_
            simp only [List.length_append]; omega)]
        exact ⟨aid, iid, by simp only [List.append_assoc, List.map_append]⟩
      · rw [if_neg hlt, if_neg hlt]
        exact ⟨aid, iid, by simp only [List.append_assoc, List.map_append, List.append_nil]⟩
  · -- a failed id
    rw [hch]
    obtain ⟨h1, h2, h3⟩ := hr x hmem
    have hscan : scanId (idText x) aid iid = (x.1, x.2) := scanId_fmt x.1 x.2 h1 ⟨h2, h3⟩ aid iid
    have hany : s.anyError pairs = true := by
      unfold Span.anyError
      rw [List.any_eq_true]
      refine ⟨x, hmem, ?_⟩
      cases hs : s.readStatus x <;> first | exact absurd hs hne | rfl
    have hcells : idCells s io flags (s.anyError pairs) x =
        ("\x7b\"iid\":".toList ++ fmtD x.2 ++ ",\"aid\":".toList ++ fmtU x.1 ++
          statusText (s.readStatus x)).map some := by
      unfold idCells; rw [hrd]
    have hsl := statusText_length (s.readStatus x)
    rw [hcells] at hb ⊢
    have hfl := failed_text_length x ⟨h1, h2, h3⟩
    have hp := print_fits_stored cBuf mem a t 64
      ("\x7b\"iid\":".toList ++ fmtD x.2 ++ ",\"aid\":".toList ++ fmtU x.1 ++ ['}']) hfl
      (by omega)
      (by
        refine Room.mono hb ?_
        simp only [List.length_append, List.length_map, List.length_singleton] at hfl ⊢
        omega)
    simp only [pure, Except.pure, bind, Except.bind, hscan, hp]
    rw [hflag, hany]
    simp only [if_true]
    have hov := status_stored cBuf mem
      (a ++ ("\x7b\"iid\":".toList ++ fmtD x.2 ++ ",\"aid\":".toList ++ fmtU x.1).map some)
      (some '}') (s.readStatus x)
      (by
        refine Room.mono hb ?_
        simp only [List.length_append, List.length_map]; omega)
    have e : a ++ ("\x7b\"iid\":".toList ++ fmtD x.2 ++ ",\"aid\":".toList ++ fmtU x.1).map some
          ++ [some '}'] =
        a ++ ("\x7b\"iid\":".toList ++ fmtD x.2 ++ ",\"aid\":".toList ++ fmtU x.1 ++
          ['}']).map some := by
      simp
    rw [e] at hov
    have hov' : Out.print cBuf 64
        (",\"status\":".toList ++ fmtD (s.readStatus x).code ++ ['}'])
        { Out.stored cBuf mem (a ++ ("\x7b\"iid\":".toList ++ fmtD x.2 ++ ",\"aid\":".toList ++
            fmtU x.1 ++ ['}']).map some) [some NUL] with
          nBytes := (Out.stored cBuf mem (a ++ ("\x7b\"iid\":".toList ++ fmtD x.2 ++
            ",\"aid\":".toList ++ fmtU x.1 ++ ['}']).map some) [some NUL]).nBytes - 1 } = _ := hov
    rw [hov']
    simp only
    rw [List.length_map]
    by_cases hlt : i + 1 < pairs.length
    · rw [if_pos hlt, if_pos hlt, hcomma (a ++ ("\x7b\"iid\":".toList ++ fmtD x.2 ++ ",\"aid\":".toList ++ fmtU x.1).map some ++
      (statusText (s.readStatus x)).map some)
        (by
          refine Room.mono hb ?_
          simp only [List.length_append, List.length_map]; omega)]
      exact ⟨x.1, x.2, by simp only [List.append_assoc, List.map_append]⟩
    · rw [if_neg hlt, if_neg hlt]
      exact ⟨x.1, x.2, by simp only [List.append_assoc, List.map_append, List.append_nil]⟩

theorem joinWith_cons {α : Type} (sep x : List α) (l : List (List α)) :
    joinWith sep (x :: l) = x ++ (if 0 < l.length then sep else []) ++ joinWith sep l := by
  cases l with
  | nil => simp [joinWith]
  | cons y rest => simp [joinWith]

/-- The loop of PASS 2 from round `lo` on stores the objects of the remaining ids,
separated by commas. -/
theorem idsPass2_stored (s : Span) (io : PrintEnv) (flags : Nat) (pairs : List (Nat × Int))
    (hr : ∀ x ∈ pairs, x.1 < 4294967296 ∧ -2147483648 ≤ x.2 ∧ x.2 < 2147483648)
    (hev : hasBit flags GET_EV = true →
      ∀ x ∈ pairs, ∀ c, s.readable x = some c → io.conNum < c.ev.length)
    (p1 : IdsState) (hinv : IdsInv s (pairs.map idText) (pairs.map idText).length p1)
    (cBuf : Option Nat) (mem : List Char) (d : Nat) :
    ∀ (lo : Nat) (a t : List (Option Char)) (aid : Nat) (iid : Int), lo + d = pairs.length →
      t.length ≤ 1 →
      Room cBuf mem (a.length +
        (joinWith [some ','] ((pairs.drop lo).map (idCells s io flags (s.anyError pairs)))).length
          + 1) →
      ∃ aid' iid' t', t'.length ≤ 1 ∧
        forLoop lo (pairs.map idText).length
            (idsPass2Step s io (pairs.map idText) flags cBuf p1)
            ⟨aid, iid, Out.stored cBuf mem a t⟩ =
          .ok ⟨aid', iid', Out.stored cBuf mem
            (a ++ joinWith [some ','] ((pairs.drop lo).map (idCells s io flags (s.anyError pairs))))
            t'⟩ := by
  induction d with
  | zero =>
    intro lo a t aid iid hlo ht _
    rw [forLoop_done _ _ _ _ (by rw [List.length_map]; omega),
      List.drop_of_length_le (by omega)]
    exact ⟨aid, iid, t, ht, by simp [joinWith]⟩
  | succ d ih =>
    intro lo a t aid iid hlo ht hb
    have hlt : lo < pairs.length := by omega
    rw [List.drop_eq_getElem_cons hlt, List.map_cons, joinWith_cons] at hb ⊢
    have hl : ((pairs.drop (lo + 1)).map (idCells s io flags (s.anyError pairs))).length =
        pairs.length - (lo + 1) := by simp
    have hif : (0 < ((pairs.drop (lo + 1)).map (idCells s io flags (s.anyError pairs))).length) ↔
        lo + 1 < pairs.length := by rw [hl]; omega
    simp only [hif] at hb ⊢
    obtain ⟨aid1, iid1, h1⟩ := idsPass2Step_stored s io flags pairs hr hev p1 hinv cBuf mem lo
      pairs[lo] (List.getElem?_eq_getElem hlt) a t ht aid iid
      (by
        refine Room.mono hb ?_
        simp only [List.length_append]; omega)
    rw [forLoop_step _ _ _ _ (by rw [List.length_map]; exact hlt), h1]
    simp only
    obtain ⟨aid2, iid2, t2, ht2, h2⟩ := ih (lo + 1)
      (a ++ idCells s io flags (s.anyError pairs) pairs[lo] ++
        (if lo + 1 < pairs.length then [some ','] else [])) [some NUL] aid1 iid1 (by omega)
      (by simp)
      (by
        refine Room.mono hb ?_
        simp only [List.length_append]; omega)
    rw [h2]
    exact ⟨aid2, iid2, t2, ht2, by simp only [List.append_assoc]⟩

/-- The routine for a list of ids, with or without an array. -/
theorem ids_prints_stored (s : Span) (io : PrintEnv) (flags : Nat) (pairs : List (Nat × Int))
    (hr : ∀ x ∈ pairs, x.1 < 4294967296 ∧ -2147483648 ≤ x.2 ∧ x.2 < 2147483648)
    (hev : hasBit flags GET_EV = true →
      ∀ x ∈ pairs, ∀ c, s.readable x = some c → io.conNum < c.ev.length)
    (a0 : Nat) (i0 : Int) (cBuf : Option Nat) (mem : List Char)
    (hb : Room cBuf mem (idsCells s io flags pairs).length) :
    s.sprintfAttributesIds io (pairs.map idText) flags a0 i0 cBuf mem =
      .ok (Out.stored cBuf mem (idsCells s io flags pairs) [some NUL]).result := by
  obtain ⟨p1, hp1, hinv⟩ := idsPass1_total s (pairs.map idText) a0 i0
  unfold Span.sprintfAttributesIds
  rw [hp1]
  have e0 : (⟨mem, 0⟩ : Out) = Out.stored cBuf mem [] [] := by
    cases cBuf with
    | none => rfl
    | some p => simp [Out.stored, overlayAt_nil_cells]
  unfold idsCells at hb ⊢
  simp only [List.length_append, List.length_map] at hb
  have hhead := print_fits_stored cBuf mem [] [] 64 "\x7b\"characteristics\":[".toList
    (by decide) (by simp)
    (by
      refine Room.mono hb ?_
      simp only [List.length_nil]; omega)
  rw [← e0] at hhead
  obtain ⟨aid', iid', t', ht', hloop⟩ := idsPass2_stored s io flags pairs hr hev p1 hinv cBuf mem
    pairs.length 0 ([] ++ "\x7b\"characteristics\":[".toList.map some) [some NUL] p1.aid p1.iid
    (by omega) (by simp)
    (by
      refine Room.mono hb ?_
      simp only [List.nil_append, List.length_map, List.drop_zero]
      have : "]\x7d".toList.length = 2 := by decide
      omega)
  rw [List.drop_zero] at hloop
  have hfoot := print_fits_stored cBuf mem
    ([] ++ "\x7b\"characteristics\":[".toList.map some ++
      joinWith [some ','] (pairs.map (idCells s io flags (s.anyError pairs)))) t' 64
    "]\x7d".toList (by decide)
    (by
      have : "]\x7d".toList.length = 2 := by decide
      omega)
    (by
      refine Room.mono hb ?_
      simp only [List.nil_append, List.length_append, List.length_map]
      omega)
  simp only [pure, Except.pure, bind, Except.bind, hhead, hloop, hfoot]
  simp only [List.nil_append, Out.result]

theorem readable_status (s : Span) (x : Nat × Int) :
    (∀ c, s.readable x = some c → s.readStatus x = .OK) ∧
      (s.readable x = none → s.readStatus x ≠ .OK) := by
  unfold Span.readable Span.readStatus
  cases s.find x.1 x.2 with
  | none => exact ⟨fun c h => (by cases h), fun _ h => (by cases h)⟩
  | some r =>
    simp only
    cases s.getChar r with
    | none => exact ⟨fun c h => (by cases h), fun _ h => (by cases h)⟩
    | some c =>
      simp only
      by_cases hp : hasBit c.perms PR = true
      · rw [if_pos hp, if_pos hp]
        exact ⟨fun _ _ => rfl, fun h => by cases h⟩
      · rw [if_neg hp, if_neg hp]
        exact ⟨fun c h => (by cases h), fun _ h => (by cases h)⟩

/-- C12: `sprintfAttributes(ids, numIDs, flags, cBuf)` for ids written `aid.iid` returns, in
the size pass and in the fill pass, the count of `idsCells`, and the fill pass stores
`idsCells` and a NUL: the objects of the ids, in order and separated by commas, between
`{"characteristics":[` and `]}`. If every id has status OK, the object of each id is what the
print routine of its characteristic stores, with no status. If some id has another status,
the object of each id ends with `,"status":<code>}` for the status of that id: for a
readable characteristic this text stands in place of the closing brace of what its print
routine stores, and for a failed id the object is `{"iid":<iid>,"aid":<aid>,"status":<code>}`. -/
theorem ids_status_overlay (s : Span) (io : PrintEnv) (flags : Nat) (pairs : List (Nat × Int))
    (hr : ∀ x ∈ pairs, x.1 < 4294967296 ∧ -2147483648 ≤ x.2 ∧ x.2 < 2147483648)
    (hev : hasBit flags GET_EV = true →
      ∀ x ∈ pairs, ∀ c ∈ s.readable x, io.conNum < c.ev.length)
    (a0 : Nat) (i0 : Int) :
    (∀ mem, s.sprintfAttributesIds io (pairs.map idText) flags a0 i0 none mem =
        .ok ((idsCells s io flags pairs).length, mem)) ∧
      (∀ p mem, p + (idsCells s io flags pairs).length + 1 ≤ mem.length →
        s.sprintfAttributesIds io (pairs.map idText) flags a0 i0 (some p) mem =
          .ok ((idsCells s io flags pairs).length,
            overlayAt mem p (idsCells s io flags pairs ++ [some NUL]))) ∧
      idsCells s io flags pairs =
        "\x7b\"characteristics\":[".toList.map some ++
          joinWith [some ','] (pairs.map (idCells s io flags (s.anyError pairs))) ++
          "]\x7d".toList.map some ∧
      (s.anyError pairs = false →
        ∀ x ∈ pairs, s.readStatus x = .OK ∧
          ∃ c, s.readable x = some c ∧
            idCells s io flags (s.anyError pairs) x = Piece.cellsOf (c.pieces io flags)) ∧
      (s.anyError pairs = true →
        ∀ x ∈ pairs, ∃ body,
          idCells s io flags (s.anyError pairs) x =
            body ++ (",\"status\":".toList ++ fmtD (s.readStatus x).code ++ ['}']).map some ∧
          (∀ c, s.readable x = some c →
            s.readStatus x = .OK ∧ Piece.cellsOf (c.pieces io flags) = body ++ [some '}']) ∧
          (s.readable x = none →
            s.readStatus x ≠ .OK ∧
              body = ("\x7b\"iid\":".toList ++ fmtD x.2 ++ ",\"aid\":".toList ++
                fmtU x.1).map some)) := by
  have hev' : hasBit flags GET_EV = true →
      ∀ x ∈ pairs, ∀ c, s.readable x = some c → io.conNum < c.ev.length :=
    fun h x hx c hc => hev h x hx c (Option.mem_def.2 hc)
  refine ⟨?_, ?_, rfl, ?_, ?_⟩
  · intro mem
    exact ids_prints_stored s io flags pairs hr hev' a0 i0 none mem (fun p hp => by cases hp)
  · intro p mem hb
    exact ids_prints_stored s io flags pairs hr hev' a0 i0 (some p) mem
      (fun q hq => by cases hq; exact hb)
  · intro hany x hx
    have hok : s.readStatus x = .OK := by
      unfold Span.anyError at hany
      rw [List.any_eq_false] at hany
      have := hany x hx
      cases hs : s.readStatus x <;> first | rfl | (rw [hs] at this; exact absurd rfl this)
    refine ⟨hok, ?_⟩
    cases hrd : s.readable x with
    | none => exact absurd hok ((readable_status s x).2 hrd)
    | some c =>
      refine ⟨c, rfl, ?_⟩
      unfold idCells
      rw [hrd, hany]
      rfl
  · intro hany x _
    cases hrd : s.readable x with
    | none =>
      refine ⟨_, ?_, fun c h => (by cases h), fun _ => ⟨(readable_status s x).2 hrd, rfl⟩⟩
      unfold idCells statusText
      rw [hrd]
      simp only [List.map_append]
    | some c =>
      have hok := (readable_status s x).1 c hrd
      refine ⟨(Piece.cellsOf (c.pieces io flags)).dropLast, ?_,
        fun c' h => ?_, fun h => by cases h⟩
      · unfold idCells statusText
        rw [hrd, hany, hok]
        rfl
      · cases h
        exact ⟨hok, char_cells_last c io flags⟩

set_option maxRecDepth 1000000 in
/-- The ids `1.6,1.2,3.7,1.99` on `sampleDb` with the flags `GET_TYPE` and `GET_EV`: the
readable characteristic 1.6 gets `,"status":0}`, the write-only 1.2 and the two unknown ids
are listed with their codes. -/
theorem ids_status_overlay_witness :
    (∀ x ∈ samplePairs, x.1 < 4294967296 ∧ -2147483648 ≤ x.2 ∧ x.2 < 2147483648) ∧
      samplePairs.map idText = sampleIds ∧
      sampleDb.anyError samplePairs = true ∧
      visible (idsCells sampleDb sampleIo 24 samplePairs) =
        ("\x7b\"characteristics\":[\x7b\"iid\":6,\"type\":\"25\",\"value\":false," ++
          "\"ev\":false,\"status\":0\x7d,\x7b\"iid\":2,\"aid\":1,\"status\":-70405\x7d," ++
          "\x7b\"iid\":7,\"aid\":3,\"status\":-70409\x7d," ++
          "\x7b\"iid\":99,\"aid\":1,\"status\":-70409\x7d]\x7d").toList ∧
      sampleDb.sprintfAttributesIds sampleIo (samplePairs.map idText) 24 0 0 (some 0)
          (rawArray 183) =
        .ok ((idsCells sampleDb sampleIo 24 samplePairs).length,
          overlayAt (rawArray 183) 0 (idsCells sampleDb sampleIo 24 samplePairs ++ [some NUL])) :=
  ⟨by decide, by decide, by decide, by decide,
    (ids_status_overlay sampleDb sampleIo 24 samplePairs (by decide) (fun _ => by decide)
      0 0).2.1 0 (rawArray 183) (by decide)⟩

/-! ## `SpanAccessory::validate` -/

theorem validate_fold (aid : Int) (svs : List SpanService) (fi fp b : Bool) :
    svs.foldl (SpanAccessory.validateStep aid) (fi, fp, b) =
      (fi || svs.any (fun sv => sv.type == "3E"), fp || svs.any (fun sv => sv.type == "A2"),
        b && !(aid == 1 && !svs.all (fun sv => sv.type == "3E" || sv.type == "A2"))) := by
  induction svs generalizing fi fp b with
  | nil => simp
  | cons sv rest ih =>
    rw [List.foldl_cons]
    by_cases h1 : sv.type = "3E"
    · have h2 : ¬ sv.type = "A2" := by rw [h1]; decide
      have hstep : SpanAccessory.validateStep aid (fi, fp, b) sv = (true, fp, b) := by
        simp [SpanAccessory.validateStep, h1]
      rw [hstep, ih]
      simp [h1]
    · by_cases h2 : sv.type = "A2"
      · have hstep : SpanAccessory.validateStep aid (fi, fp, b) sv = (fi, true, b) := by
          simp [SpanAccessory.validateStep, h1, h2]
        rw [hstep, ih]
        simp [h1, h2]
      · have e1 : (sv.type == "3E") = false := beq_false_of_ne h1
        have e2 : (sv.type == "A2") = false := beq_false_of_ne h2
        by_cases h3 : aid = 1
        · have hstep : SpanAccessory.validateStep aid (fi, fp, b) sv = (fi, fp, false) := by
            simp [SpanAccessory.validateStep, h1, h2, h3]
          rw [hstep, ih]
          simp [e1, e2, h3]
        · have hstep : SpanAccessory.validateStep aid (fi, fp, b) sv = (fi, fp, b) := by
            simp [SpanAccessory.validateStep, h1, h2, h3]
          rw [hstep, ih]
          have e3 : (aid == 1) = false := beq_false_of_ne h3
          simp [e1, e2, e3]

theorem validate_isBridge (acc : SpanAccessory) (s : Span) :
    (acc.validate s).isBridge = (s.isBridge && !(acc.aid == 1 && !acc.plain)) := by
  unfold SpanAccessory.validate SpanAccessory.plain
  simp only [validate_fold]
  unfold Span.fatalIf Span.fatal
  repeat' split
  all_goals rfl

/-- C23: `SpanAccessory::validate` adds one to `nFatalErrors` when the accessory has no
service of type `3E`, and one more when it has no service of type `A2` and its aid is 1
or the device is not a bridge; it adds nothing when the accessory has a `3E` service and
either an `A2` service or an aid other than 1 on a bridge. The list of accessories stays,
and `isBridge` becomes false only for an accessory with aid 1 that has another service. -/
theorem validate_counts_missing (acc : SpanAccessory) (s : Span) :
    (acc.validate s).nFatalErrors =
        s.nFatalErrors + (if acc.hasType "3E" = true then 0 else 1) +
          (if acc.hasType "A2" = false ∧ (acc.aid = 1 ∨ s.isBridge = false) then 1 else 0) ∧
      (acc.validate s).nFatalErrors =
        s.nFatalErrors + (if acc.hasType "3E" = true then 0 else 1) +
          (if acc.hasType "A2" = false ∧ (acc.aid = 1 ∨ (acc.validate s).isBridge = false)
            then 1 else 0) ∧
      (acc.hasType "3E" = true →
        acc.hasType "A2" = true ∨ (acc.aid ≠ 1 ∧ s.isBridge = true) →
        (acc.validate s).nFatalErrors = s.nFatalErrors) ∧
      (acc.validate s).Accessories = s.Accessories ∧
      ((acc.validate s).isBridge = true ↔
        s.isBridge = true ∧ (acc.aid = 1 → acc.plain = true)) := by
  have hb := validate_isBridge acc s
  have key : (acc.validate s).nFatalErrors =
      s.nFatalErrors + (if acc.hasType "3E" = true then 0 else 1) +
        (if acc.hasType "A2" = false ∧ (acc.aid = 1 ∨ s.isBridge = false) then 1 else 0) := by
    unfold SpanAccessory.validate SpanAccessory.hasType
    simp only [validate_fold, Span.fatalIf_nFatalErrors, Bool.false_or]
    by_cases h1 : acc.aid = 1
    · cases acc.Services.any (fun sv => sv.type == "3E") <;>
        cases acc.Services.any (fun sv => sv.type == "A2") <;> simp [h1, Span.fatalIf, Span.fatal]
    · cases acc.Services.any (fun sv => sv.type == "3E") <;>
        cases acc.Services.any (fun sv => sv.type == "A2") <;>
        cases s.isBridge <;> simp [h1, Span.fatalIf, Span.fatal]
  refine ⟨key, ?_, ?_, (validateAccessory_keeps acc s).1, ?_⟩
  · rw [key, hb]
    by_cases h1 : acc.aid = 1
    · simp [h1]
    · simp [h1]
  · intro h3 h
    rw [key, if_pos h3]
    rcases h with h | ⟨h1, h2⟩
    · simp [h]
    · simp [h1, h2]
  · rw [hb]
    by_cases h1 : acc.aid = 1
    · cases s.isBridge <;> cases acc.plain <;> simp [h1]
    · cases s.isBridge <;> simp [h1]

/-! ## Properties that hold as long as no fatal error is recorded -/

theorem Span.fatal_ne_zero (s : Span) : s.fatal.nFatalErrors ≠ 0 := by
  simp [Span.fatal]

theorem Span.fatalIf_zero (s : Span) (b : Bool) (h : (s.fatalIf b).nFatalErrors = 0) :
    b = false ∧ s.nFatalErrors = 0 := by
  cases b
  · exact ⟨rfl, h⟩
  · exact absurd h (by simp [Span.fatalIf, Span.fatal])

/-- A property of the accessories that every declaration keeps unless it records a fatal
error holds after each declaration that leaves `nFatalErrors` at 0. -/
theorem declare_keeps_unless_fatal (P : SpanAccessory → Prop)
    (hnew : ∀ aid, P { aid := aid, iidCount := 0, Services := [] })
    (hsvc : ∀ acc type hapName req opt, P acc →
      (type == "3E" && acc.iidCount + 1 != 1) = false →
      P (acc.pushService type hapName req opt))
    (hchar : ∀ acc sv mc type perms hapName v junk, P acc → acc.Services.getLast? = some sv →
      (sv.req.any (fun r => type == r.id) || sv.opt.any (fun r => type == r.id)) = true →
      sv.Characteristics.any (fun c => type == c.type) = false →
      P (acc.pushCharacteristic mc type perms hapName v junk))
    (hrange : ∀ acc min max step, P acc → P (acc.setRange min max step))
    (hprim : ∀ (acc : SpanAccessory) k, P acc →
      P { acc with Services := modifyAt (fun sv => { sv with primary := true }) acc.Services k })
    (hhid : ∀ (acc : SpanAccessory) k, P acc →
      P { acc with Services := modifyAt (fun sv => { sv with hidden := true }) acc.Services k })
    (s : Span) (d : Decl) (h : s.nFatalErrors = 0 → ∀ acc ∈ s.Accessories, P acc)
    (h0 : (declare s d).nFatalErrors = 0) : ∀ acc ∈ (declare s d).Accessories, P acc := by
  have hs0 : s.nFatalErrors = 0 := by
    have := declare_nFatalErrors s d
    omega
  have hP := h hs0
  cases d with
  | accessory aid =>
    obtain ⟨hk1, _⟩ := s.validateBack_keeps
    have e : (declare s (.accessory aid)).Accessories =
        s.Accessories ++ [{ aid := SpanAccessory.newAid s aid, iidCount := 0, Services := [] }] := by
      simp [declare, SpanAccessory.new, hk1]
    rw [e]
    intro acc hacc
    rcases List.mem_append.1 hacc with h1 | h1
    · exact hP acc h1
    · rw [List.mem_singleton] at h1
      rw [h1]; exact hnew _
  | service type hapName req opt =>
    obtain ⟨hk1, hk2⟩ := s.validateBackService_keeps
    simp only [declare, SpanService.new] at h0 ⊢
    split at h0
    · exact absurd h0 (Span.fatal_ne_zero _)
    · rename_i back hback
      obtain ⟨hc, _⟩ := Span.fatalIf_zero _ _ h0
      rw [Span.fatalIf_Accessories, Span.withAccessories_Accessories, hk1]
      apply forall_mem_modifyBack P _ _ hP
      intro x hx hPx
      have e : back = x := by
        rw [hk1, hx] at hback
        exact (Option.some.inj hback).symm
      rw [e] at hc
      exact hsvc x type hapName req opt hPx hc
  | setPrimary r =>
    simp only [declare, SpanService.setPrimary, Span.modifyService,
      Span.withAccessories_Accessories]
    exact forall_mem_modifyAt P _ _ r.a hP (fun x hx => hprim x r.s hx)
  | setHidden r =>
    simp only [declare, SpanService.setHidden, Span.modifyService,
      Span.withAccessories_Accessories]
    exact forall_mem_modifyAt P _ _ r.a hP (fun x hx => hhid x r.s hx)
  | characteristic type perms hapName v junk =>
    simp only [declare, SpanCharacteristic.new] at h0 ⊢
    split at h0
    · exact absurd h0 (Span.fatal_ne_zero _)
    · rename_i back hback
      split at h0
      · exact absurd h0 (Span.fatal_ne_zero _)
      · rename_i sv hsv
        rw [Span.withAccessories_nFatalErrors] at h0
        obtain ⟨hc2, h1⟩ := Span.fatalIf_zero _ _ h0
        obtain ⟨hc1, _⟩ := Span.fatalIf_zero _ _ h1
        have hvalid : (sv.req.any (fun r => type == r.id) ||
            sv.opt.any (fun r => type == r.id)) = true := by
          cases hb : (sv.req.any (fun r => type == r.id) || sv.opt.any (fun r => type == r.id))
          · rw [hb] at hc1; exact absurd hc1 (by decide)
          · rfl
        rw [hvalid, Bool.true_and] at hc2
        rw [Span.withAccessories_Accessories, Span.fatalIf_Accessories, Span.fatalIf_Accessories]
        apply forall_mem_modifyBack P _ _ hP
        intro x hx hPx
        have e : back = x := by
          rw [hx] at hback
          exact (Option.some.inj hback).symm
        rw [e] at hsv
        exact hchar x sv s.maxConnections type perms hapName v junk hPx hsv hvalid hc2
  | range min max step =>
    simp only [declare, SpanRange.new] at h0 ⊢
    split at h0
    · exact absurd h0 (Span.fatal_ne_zero _)
    · rename_i hok
      rw [if_neg hok, Span.withAccessories_Accessories]
      exact forall_mem_modifyBack P _ _ hP (fun x _ hPx => hrange x min max step hPx)
  | button pin l sg dt =>
    simp only [declare, SpanButton.new] at h0 ⊢
    split
    · exact hP
    · split
      · exact hP
      · exact hP

theorem declareAll_keeps_unless_fatal (P : SpanAccessory → Prop)
    (hstep : ∀ (s : Span) (d : Decl), (s.nFatalErrors = 0 → ∀ acc ∈ s.Accessories, P acc) →
      (declare s d).nFatalErrors = 0 → ∀ acc ∈ (declare s d).Accessories, P acc)
    (s : Span) (ds : List Decl) (h : s.nFatalErrors = 0 → ∀ acc ∈ s.Accessories, P acc)
    (h0 : (declareAll s ds).nFatalErrors = 0) : ∀ acc ∈ (declareAll s ds).Accessories, P acc := by
  induction ds generalizing s with
  | nil => exact h h0
  | cons d ds ih => exact ih (declare s d) (hstep s d h) h0

/-! ## The AccessoryInformation service and the types of the characteristics -/

theorem infoFirst_step (s : Span) (d : Decl)
    (h : s.nFatalErrors = 0 → ∀ acc ∈ s.Accessories, InfoFirst acc)
    (h0 : (declare s d).nFatalErrors = 0) : ∀ acc ∈ (declare s d).Accessories, InfoFirst acc := by
  refine declare_keeps_unless_fatal InfoFirst ?_ ?_ ?_ ?_ ?_ ?_ s d h h0
  · intro aid sv hsv
    simp at hsv
  · intro acc type hapName req opt hP hc sv hsv ht
    simp only [SpanAccessory.pushService, List.mem_append, List.mem_singleton] at hsv
    rcases hsv with hsv | rfl
    · exact hP sv hsv ht
    · simp only at ht ⊢
      rw [ht] at hc
      simpa using hc
  · intro acc sv0 mc type perms hapName v junk hP _ _ _
    unfold InfoFirst SpanAccessory.pushCharacteristic
    simp only
    exact forall_mem_modifyBack (fun sv : SpanService => sv.type = "3E" → sv.iid = 1) _ _ hP
      (fun x _ hx => hx)
  · intro acc min max step hP
    unfold InfoFirst SpanAccessory.setRange
    simp only
    exact forall_mem_modifyBack (fun sv : SpanService => sv.type = "3E" → sv.iid = 1) _ _ hP
      (fun x _ hx => hx)
  · intro acc k hP
    exact forall_mem_modifyAt (fun sv : SpanService => sv.type = "3E" → sv.iid = 1) _ _ k hP
      (fun x hx => hx)
  · intro acc k hP
    exact forall_mem_modifyAt (fun sv : SpanService => sv.type = "3E" → sv.iid = 1) _ _ k hP
      (fun x hx => hx)

theorem typesOK_step (s : Span) (d : Decl)
    (h : s.nFatalErrors = 0 → ∀ acc ∈ s.Accessories, TypesOK acc)
    (h0 : (declare s d).nFatalErrors = 0) : ∀ acc ∈ (declare s d).Accessories, TypesOK acc := by
  refine declare_keeps_unless_fatal TypesOK ?_ ?_ ?_ ?_ ?_ ?_ s d h h0
  · intro aid sv hsv
    simp at hsv
  · intro acc type hapName req opt hP _ sv hsv
    simp only [SpanAccessory.pushService, List.mem_append, List.mem_singleton] at hsv
    rcases hsv with hsv | rfl
    · exact hP sv hsv
    · simp
  · intro acc sv0 mc type perms hapName v junk hP hlast hvalid hrep
    unfold TypesOK SpanAccessory.pushCharacteristic
    simp only
    apply forall_mem_modifyBack
      (fun sv : SpanService => (∀ c ∈ sv.Characteristics, ∃ h ∈ sv.req ++ sv.opt, h.id = c.type) ∧
        (sv.Characteristics.map (fun c : SpanCharacteristic => c.type)).Nodup) _ _
      (fun a ha => hP a ha)
    intro x hx ⟨hx1, hx2⟩
    have e : sv0 = x := by
      rw [hx] at hlast
      exact (Option.some.inj hlast).symm
    rw [e] at hvalid hrep
    simp only
    constructor
    · intro c hc
      rcases List.mem_append.1 hc with hc | hc
      · exact hx1 c hc
      · rw [List.mem_singleton] at hc
        rw [hc]
        simp only [Bool.or_eq_true, List.any_eq_true, beq_iff_eq] at hvalid
        rcases hvalid with ⟨r, hr, e⟩ | ⟨r, hr, e⟩
        · exact ⟨r, List.mem_append_left _ hr, e.symm⟩
        · exact ⟨r, List.mem_append_right _ hr, e.symm⟩
    · rw [List.map_append, List.map_singleton]
      refine List.Nodup.append hx2 (List.nodup_singleton _) ?_
      intro a ha hb
      rw [List.mem_singleton] at hb
      rw [hb] at ha
      obtain ⟨c, hc, e⟩ := List.mem_map.1 ha
      simp only [List.any_eq_false, beq_iff_eq] at hrep
      exact hrep c hc e.symm
  · intro acc min max step hP
    unfold TypesOK SpanAccessory.setRange
    simp only
    apply forall_mem_modifyBack
      (fun sv : SpanService => (∀ c ∈ sv.Characteristics, ∃ h ∈ sv.req ++ sv.opt, h.id = c.type) ∧
        (sv.Characteristics.map (fun c : SpanCharacteristic => c.type)).Nodup) _ _
      (fun a ha => hP a ha)
    intro x _ ⟨hx1, hx2⟩
    simp only
    constructor
    · exact forall_mem_modifyBack (fun c : SpanCharacteristic => ∃ h ∈ x.req ++ x.opt, h.id = c.type)
        _ _ hx1 (fun c _ hc => hc)
    · rw [map_modifyBack (fun c : SpanCharacteristic => c.type)
        (fun c => { c with range := some ⟨min, max, step⟩ }) _ (fun c => rfl)]
      exact hx2
  · intro acc k hP
    exact forall_mem_modifyAt
      (fun sv : SpanService => (∀ c ∈ sv.Characteristics, ∃ h ∈ sv.req ++ sv.opt, h.id = c.type) ∧
        (sv.Characteristics.map (fun c : SpanCharacteristic => c.type)).Nodup) _ _ k
      (fun a ha => hP a ha) (fun x hx => hx)
  · intro acc k hP
    exact forall_mem_modifyAt
      (fun sv : SpanService => (∀ c ∈ sv.Characteristics, ∃ h ∈ sv.req ++ sv.opt, h.id = c.type) ∧
        (sv.Characteristics.map (fun c : SpanCharacteristic => c.type)).Nodup) _ _ k
      (fun a ha => hP a ha) (fun x hx => hx)

/-- C21: after declarations that record no fatal error every service of type `3E` has
iid 1; and the constructor of a `3E` service that gets another iid (the count of the last
accessory plus 1) adds one to `nFatalErrors`, on top of what the validation of the
service before it adds. -/
theorem info_service_iid_one (mc t : Nat) (ds : List Decl) :
    ((declareAll (Span.init mc t) ds).nFatalErrors = 0 →
        ∀ acc ∈ (declareAll (Span.init mc t) ds).Accessories,
          ∀ sv ∈ acc.Services, sv.type = "3E" → sv.iid = 1) ∧
      ∀ (s : Span) (back : SpanAccessory) (hapName : String) (req opt : List HapCharType),
        s.Accessories.getLast? = some back → back.iidCount + 1 ≠ 1 →
        (SpanService.new s "3E" hapName req opt).nFatalErrors =
            s.validateBackService.nFatalErrors + 1 ∧
          s.nFatalErrors < (SpanService.new s "3E" hapName req opt).nFatalErrors ∧
          ∃ acc sv, (SpanService.new s "3E" hapName req opt).Accessories.getLast? = some acc ∧
            acc.Services.getLast? = some sv ∧ sv.type = "3E" ∧ sv.iid = back.iidCount + 1 := by
  constructor
  · intro h0
    exact declareAll_keeps_unless_fatal InfoFirst infoFirst_step _ ds
      (fun _ acc hacc => by simp [Span.init] at hacc) h0
  · intro s back hapName req opt hback hne
    obtain ⟨hk1, hk2⟩ := s.validateBackService_keeps
    have hb1 : s.validateBackService.Accessories.getLast? = some back := by rw [hk1]; exact hback
    have hn : (SpanService.new s "3E" hapName req opt).nFatalErrors =
        s.validateBackService.nFatalErrors + 1 := by
      unfold SpanService.new
      simp only [hb1, Span.fatalIf_nFatalErrors, Span.withAccessories_nFatalErrors]
      simp [hne]
    refine ⟨hn, by omega, ?_⟩
    obtain ⟨l, x, hl, hx⟩ : ∃ l x, s.Accessories = l ++ [x] ∧ s.Accessories.getLast? = some x := by
      rcases list_back_cases s.Accessories with ⟨_, h2⟩ | h2
      · rw [h2] at hback; cases hback
      · exact h2
    have e : x = back := by
      rw [hx] at hback
      exact Option.some.inj hback
    refine ⟨back.pushService "3E" hapName req opt,
      { iid := back.iidCount + 1, type := "3E", hapName := hapName, hidden := false,
        primary := false, Characteristics := [], req := req, opt := opt }, ?_, ?_, rfl, rfl⟩
    · unfold SpanService.new
      simp only [hb1, Span.fatalIf_Accessories, Span.withAccessories_Accessories, hk1]
      rw [hl, modifyBack_concat, e]
      simp
    · simp [SpanAccessory.pushService]

set_option maxRecDepth 100000 in
theorem info_service_iid_one_witness :
    sampleDb.nFatalErrors = 0 ∧
      (∀ acc ∈ sampleDb.Accessories, ∀ sv ∈ acc.Services, sv.type = "3E" → sv.iid = 1) ∧
      (declareAll (Span.init 8 0) lateInfoDecls).nFatalErrors = 1 :=
  ⟨by decide, (info_service_iid_one 8 0 sampleDecls).1 (by decide), by decide⟩

/-- C22: after declarations that record no fatal error, the type of every characteristic
is the id of an entry of `req` or `opt` of its service and no two characteristics of a
service have the same type; the constructor of a characteristic adds one to
`nFatalErrors` exactly when its type is no such id or is the type of a characteristic
already in the service. -/
theorem characteristic_types_valid (mc t : Nat) (ds : List Decl) :
    ((declareAll (Span.init mc t) ds).nFatalErrors = 0 →
        ∀ acc ∈ (declareAll (Span.init mc t) ds).Accessories, ∀ sv ∈ acc.Services,
          (∀ c ∈ sv.Characteristics, ∃ h ∈ sv.req ++ sv.opt, h.id = c.type) ∧
            (sv.Characteristics.map (fun c => c.type)).Nodup) ∧
      ∀ (s : Span) (back : SpanAccessory) (sv : SpanService) (type : String) (perms : Nat)
        (hapName : String) (v : InitVal) (junk : Junk),
        s.Accessories.getLast? = some back → back.Services.getLast? = some sv →
        (SpanCharacteristic.new s type perms hapName v junk).nFatalErrors =
          s.nFatalErrors +
            (if (∃ h ∈ sv.req ++ sv.opt, h.id = type) ∧
                type ∉ sv.Characteristics.map (fun c => c.type) then 0 else 1) := by
  constructor
  · intro h0
    exact declareAll_keeps_unless_fatal TypesOK typesOK_step _ ds
      (fun _ acc hacc => by simp [Span.init] at hacc) h0
  · intro s back sv type perms hapName v junk hback hsv
    unfold SpanCharacteristic.new
    simp only [hback, hsv, Span.withAccessories_nFatalErrors, Span.fatalIf_nFatalErrors]
    have e1 : (sv.req.any (fun r => type == r.id) || sv.opt.any (fun r => type == r.id)) = true ↔
        ∃ h ∈ sv.req ++ sv.opt, h.id = type := by
      simp only [Bool.or_eq_true, List.any_eq_true, beq_iff_eq, List.mem_append]
      constructor
      · rintro (⟨r, hr, e⟩ | ⟨r, hr, e⟩)
        · exact ⟨r, Or.inl hr, e.symm⟩
        · exact ⟨r, Or.inr hr, e.symm⟩
      · rintro ⟨r, hr | hr, e⟩
        · exact Or.inl ⟨r, hr, e.symm⟩
        · exact Or.inr ⟨r, hr, e.symm⟩
    have e2 : sv.Characteristics.any (fun c => type == c.type) = true ↔
        type ∈ sv.Characteristics.map (fun c => c.type) := by
      simp only [List.any_eq_true, beq_iff_eq, List.mem_map]
      constructor
      · rintro ⟨c, hc, e⟩
        exact ⟨c, hc, e.symm⟩
      · rintro ⟨c, hc, e⟩
        exact ⟨c, hc, e.symm⟩
    by_cases hv : ∃ h ∈ sv.req ++ sv.opt, h.id = type
    · have hv' := e1.2 hv
      by_cases hr : type ∈ sv.Characteristics.map (fun c => c.type)
      · have hr' := e2.2 hr
        have hrhs : (if (∃ h ∈ sv.req ++ sv.opt, h.id = type) ∧
            type ∉ sv.Characteristics.map (fun c => c.type) then 0 else 1) = 1 :=
          if_neg (fun h => h.2 hr)
        rw [hv', hr', hrhs]
        simp
      · have hr' : sv.Characteristics.any (fun c => type == c.type) = false := by
          cases hb : sv.Characteristics.any (fun c => type == c.type)
          · rfl
          · exact absurd (e2.1 hb) hr
        have hrhs : (if (∃ h ∈ sv.req ++ sv.opt, h.id = type) ∧
            type ∉ sv.Characteristics.map (fun c => c.type) then 0 else 1) = 0 :=
          if_pos ⟨hv, hr⟩
        rw [hv', hr', hrhs]
        simp
    · have hv' : (sv.req.any (fun r => type == r.id) || sv.opt.any (fun r => type == r.id)) =
          false := by
        cases hb : (sv.req.any (fun r => type == r.id) || sv.opt.any (fun r => type == r.id))
        · rfl
        · exact absurd (e1.1 hb) hv
      have hrhs : (if (∃ h ∈ sv.req ++ sv.opt, h.id = type) ∧
          type ∉ sv.Characteristics.map (fun c => c.type) then 0 else 1) = 1 :=
        if_neg (fun h => hv h.1)
      rw [hv', hrhs]
      simp

set_option maxRecDepth 100000 in
theorem characteristic_types_valid_witness :
    sampleDb.nFatalErrors = 0 ∧
      (∀ acc ∈ sampleDb.Accessories, ∀ sv ∈ acc.Services,
        (∀ c ∈ sv.Characteristics, ∃ h ∈ sv.req ++ sv.opt, h.id = c.type) ∧
          (sv.Characteristics.map (fun c => c.type)).Nodup) ∧
      (declare sampleDb (.characteristic "25" PR "On" (.BOOL false) sampleJunk)).nFatalErrors = 1 ∧
      (declare sampleDb (.characteristic "99" PR "Other" (.BOOL false) sampleJunk)).nFatalErrors
        = 1 :=
  ⟨by decide, (characteristic_types_valid 8 0 sampleDecls).1 (by decide), by decide, by decide⟩

/-! ## The flag `isBridge` -/

theorem SameTypes.same (x : SpanAccessory) : SameTypes x x := ⟨rfl, rfl⟩

theorem SameTypes.chain {x y z : SpanAccessory} (h1 : SameTypes x y) (h2 : SameTypes y z) :
    SameTypes x z := ⟨h2.1.trans h1.1, h2.2.trans h1.2⟩

theorem SameTypes.plain {x y : SpanAccessory} (h : SameTypes x y) : y.plain = x.plain := by
  have e : ∀ acc : SpanAccessory, acc.plain =
      (acc.Services.map (fun sv => sv.type)).all (fun t => t == "3E" || t == "A2") := by
    intro acc
    unfold SpanAccessory.plain
    induction acc.Services with
    | nil => rfl
    | cons a l ih => simp only [List.all_cons, List.map_cons, ih]
  rw [e, e, h.2]

theorem plain_iff (acc : SpanAccessory) :
    acc.plain = true ↔ ∀ sv ∈ acc.Services, sv.type = "3E" ∨ sv.type = "A2" := by
  simp [SpanAccessory.plain, List.all_eq_true]

theorem getElem?_modifyBack_of_lt {α : Type} (f : α → α) (l : List α) (i : Nat)
    (h : i + 1 < l.length) : (modifyBack f l)[i]? = l[i]? := by
  rcases list_back_cases l with ⟨rfl, _⟩ | ⟨n, y, rfl, _⟩
  · rfl
  · rw [modifyBack_concat]
    have hi : i < n.length := by
      simp only [List.length_append, List.length_singleton] at h
      omega
    rw [List.getElem?_append_left hi, List.getElem?_append_left hi]

theorem fatalIf_isBridge (s : Span) (b : Bool) : (s.fatalIf b).isBridge = s.isBridge := by
  cases b <;> rfl

theorem validateService_isBridge (sv : SpanService) (s : Span) :
    (sv.validate s).isBridge = s.isBridge := by
  unfold SpanService.validate
  generalize sv.req = l
  induction l generalizing s with
  | nil => rfl
  | cons r rs ih =>
    rw [List.foldl_cons, ih, fatalIf_isBridge]

theorem validateBackService_isBridge (s : Span) : s.validateBackService.isBridge = s.isBridge := by
  unfold Span.validateBackService
  split
  · rfl
  · split
    · rfl
    · exact validateService_isBridge _ s

theorem validateBack_isBridge (s : Span) :
    s.validateBack.isBridge =
      match s.Accessories.getLast? with
      | none => s.isBridge
      | some back => (s.isBridge && !(back.aid == 1 && !back.plain)) := by
  unfold Span.validateBack
  cases s.Accessories.getLast? with
  | none => rfl
  | some back =>
    simp only
    rw [validate_isBridge]
    cases back.Services.getLast? with
    | none => rfl
    | some sv => simp only [validateService_isBridge]

/-- Only the declaration of an accessory can change `isBridge`. -/
theorem declare_isBridge (s : Span) (d : Decl) (hd : ∀ a, d ≠ .accessory a) :
    (declare s d).isBridge = s.isBridge := by
  cases d with
  | accessory aid => exact absurd rfl (hd aid)
  | service type hapName req opt =>
    simp only [declare, SpanService.new]
    split
    · exact validateBackService_isBridge s
    · rw [fatalIf_isBridge]
      exact validateBackService_isBridge s
  | setPrimary r => rfl
  | setHidden r => rfl
  | characteristic type perms hapName v junk =>
    simp only [declare, SpanCharacteristic.new]
    split
    · rfl
    · split
      · rfl
      · show ((s.fatalIf _).fatalIf _).isBridge = s.isBridge
        rw [fatalIf_isBridge, fatalIf_isBridge]
  | range min max step =>
    simp only [declare, SpanRange.new]
    split <;> rfl
  | button pin l sg dt =>
    simp only [declare, SpanButton.new]
    split
    · rfl
    · split <;> rfl

theorem declare_accessory_isBridge (s : Span) (a : Nat) :
    (declare s (.accessory a)).isBridge = s.validateBack.isBridge := by
  simp only [declare, SpanAccessory.new, fatalIf_isBridge]
  rfl

/-- An accessory that is not the last one keeps its aid and its service types. -/
theorem declare_sameTypes (s : Span) (d : Decl) (i : Nat) (acc : SpanAccessory)
    (h : s.Accessories[i]? = some acc) (hi : i + 1 < s.Accessories.length) :
    ∃ acc', (declare s d).Accessories[i]? = some acc' ∧ SameTypes acc acc' := by
  have same : ∀ s' : Span, s'.Accessories = s.Accessories →
      ∃ acc', s'.Accessories[i]? = some acc' ∧ SameTypes acc acc' :=
    fun s' e => ⟨acc, by rw [e]; exact h, SameTypes.same acc⟩
  have back : ∀ (s' : Span) (f : SpanAccessory → SpanAccessory),
      s'.Accessories = modifyBack f s.Accessories →
      ∃ acc', s'.Accessories[i]? = some acc' ∧ SameTypes acc acc' :=
    fun s' f e => ⟨acc, by rw [e, getElem?_modifyBack_of_lt f _ i hi]; exact h, SameTypes.same acc⟩
  have at_ : ∀ (s' : Span) (g : SpanService → SpanService) (k j : Nat),
      (∀ sv, (g sv).type = sv.type) →
      s'.Accessories = modifyAt (fun acc => { acc with Services := modifyAt g acc.Services j })
        s.Accessories k →
      ∃ acc', s'.Accessories[i]? = some acc' ∧ SameTypes acc acc' := by
    intro s' g k j hg e
    rw [e, getElem?_modifyAt, h]
    by_cases hk : i = k
    · rw [if_pos hk]
      exact ⟨_, rfl, rfl, map_modifyAt (fun sv : SpanService => sv.type) g _ j hg⟩
    · rw [if_neg hk]
      exact ⟨acc, rfl, SameTypes.same acc⟩
  cases d with
  | accessory aid =>
    obtain ⟨hk1, _⟩ := s.validateBack_keeps
    have e : (declare s (.accessory aid)).Accessories =
        s.Accessories ++ [{ aid := SpanAccessory.newAid s aid, iidCount := 0, Services := [] }] := by
      simp [declare, SpanAccessory.new, hk1]
    refine ⟨acc, ?_, SameTypes.same acc⟩
    rw [e, List.getElem?_append_left (by omega)]
    exact h
  | service type hapName req opt =>
    obtain ⟨hk1, _⟩ := s.validateBackService_keeps
    simp only [declare, SpanService.new]
    split
    · exact same _ (by simp [hk1])
    · exact back _ (fun acc => acc.pushService type hapName req opt) (by simp [hk1])
  | setPrimary r => exact at_ _ (fun sv => { sv with primary := true }) r.a r.s (fun _ => rfl) rfl
  | setHidden r => exact at_ _ (fun sv => { sv with hidden := true }) r.a r.s (fun _ => rfl) rfl
  | characteristic type perms hapName v junk =>
    simp only [declare, SpanCharacteristic.new]
    split
    · exact same _ rfl
    · split
      · exact same _ rfl
      · exact back _
          (fun acc => acc.pushCharacteristic s.maxConnections type perms hapName v junk) (by simp)
  | range min max step =>
    simp only [declare, SpanRange.new]
    split
    · exact same _ rfl
    · exact back _ (fun acc => acc.setRange min max step) (by simp)
  | button pin l sg dt =>
    simp only [declare, SpanButton.new]
    split
    · exact same _ rfl
    · split
      · exact same _ rfl
      · exact same _ rfl

theorem declareAll_sameTypes (s : Span) (ds : List Decl) (i : Nat) (acc : SpanAccessory)
    (h : s.Accessories[i]? = some acc) (hi : i + 1 < s.Accessories.length) :
    ∃ acc', (declareAll s ds).Accessories[i]? = some acc' ∧ SameTypes acc acc' := by
  induction ds generalizing s acc with
  | nil => exact ⟨acc, h, SameTypes.same acc⟩
  | cons d ds ih =>
    obtain ⟨acc1, h1, g1⟩ := declare_sameTypes s d i acc h hi
    obtain ⟨acc2, h2, g2⟩ := ih (declare s d) acc1 h1
      (Nat.lt_of_lt_of_le hi (length_le_declare s d))
    exact ⟨acc2, h2, g1.chain g2⟩

/-- After the validation of the last accessory `isBridge` tells whether every accessory
with aid 1 is plain. -/
theorem validateBack_bridge (s : Span) (h : BridgeInv s) :
    s.validateBack.isBridge = true ↔
      ∀ acc ∈ s.Accessories, acc.aid = 1 → acc.plain = true := by
  rw [validateBack_isBridge]
  have h' := h
  unfold BridgeInv at h'
  rcases list_back_cases s.Accessories with ⟨hnil, hl⟩ | ⟨l, back, hl, hb⟩
  · rw [hl]
    simp only
    rw [h', hnil]
    simp
  · rw [hb]
    simp only
    have hlen : s.Accessories.length = l.length + 1 := by rw [hl]; simp
    have hold : s.isBridge = true ↔ ∀ acc ∈ l, acc.aid = 1 → acc.plain = true := by
      rw [h']
      constructor
      · intro hh acc hacc
        obtain ⟨i, hi⟩ := List.mem_iff_getElem?.1 hacc
        have hil : i < l.length := (List.getElem?_eq_some.1 hi).1
        exact hh i acc (by rw [hl, List.getElem?_append_left hil]; exact hi) (by omega)
      · intro hh i acc hi hlt
        have hil : i < l.length := by omega
        rw [hl, List.getElem?_append_left hil] at hi
        exact hh acc (List.mem_iff_getElem?.2 ⟨i, hi⟩)
    have hsplit : (∀ acc ∈ s.Accessories, acc.aid = 1 → acc.plain = true) ↔
        (∀ acc ∈ l, acc.aid = 1 → acc.plain = true) ∧ (back.aid = 1 → back.plain = true) := by
      rw [hl]
      constructor
      · intro hh
        exact ⟨fun acc hacc => hh acc (List.mem_append_left _ hacc),
          hh back (List.mem_append_right _ (List.mem_singleton_self _))⟩
      · rintro ⟨h1, h2⟩ acc hacc
        rcases List.mem_append.1 hacc with h3 | h3
        · exact h1 acc h3
        · rw [List.mem_singleton] at h3
          rw [h3]; exact h2
    rw [hsplit, ← hold]
    by_cases h1 : back.aid = 1
    · cases s.isBridge <;> cases back.plain <;> simp [h1]
    · have e1 : (back.aid == 1) = false := beq_false_of_ne h1
      cases s.isBridge <;> simp [h1, e1]

theorem BridgeInv.atInit (mc t : Nat) : BridgeInv (Span.init mc t) := by
  simp [BridgeInv, Span.init]

theorem BridgeInv.afterDeclare {s : Span} (h : BridgeInv s) (d : Decl) : BridgeInv (declare s d) := by
  have h' := h
  unfold BridgeInv at h'
  obtain ⟨_, ⟨hd, hlen⟩ | ⟨a, rfl, e⟩⟩ := declare_accessories s d
  · unfold BridgeInv
    rw [declare_isBridge s d hd, h', hlen]
    constructor
    · intro hh i acc' hi hlt h1
      have hil : i < s.Accessories.length := by omega
      obtain ⟨acc1, h2, g⟩ := declare_sameTypes s d i s.Accessories[i]
        (List.getElem?_eq_getElem hil) hlt
      rw [hi] at h2
      cases h2
      rw [g.plain]
      exact hh i _ (List.getElem?_eq_getElem hil) hlt (by rw [← g.1]; exact h1)
    · intro hh i acc hi hlt h1
      obtain ⟨acc1, h2, g⟩ := declare_sameTypes s d i acc hi hlt
      rw [← g.plain]
      exact hh i acc1 h2 hlt (by rw [g.1]; exact h1)
  · unfold BridgeInv
    rw [declare_accessory_isBridge, validateBack_bridge s h, e]
    constructor
    · intro hh i acc hi hlt h1
      have hil : i < s.Accessories.length := by
        simp only [List.length_append, List.length_singleton] at hlt
        omega
      rw [List.getElem?_append_left hil] at hi
      exact hh acc (List.mem_iff_getElem?.2 ⟨i, hi⟩) h1
    · intro hh acc hacc h1
      obtain ⟨i, hi⟩ := List.mem_iff_getElem?.1 hacc
      have hil : i < s.Accessories.length := (List.getElem?_eq_some.1 hi).1
      exact hh i acc (by rw [List.getElem?_append_left hil]; exact hi)
        (by simp only [List.length_append, List.length_singleton]; omega) h1

theorem BridgeInv.afterDeclareAll {s : Span} (h : BridgeInv s) (ds : List Decl) :
    BridgeInv (declareAll s ds) := by
  induction ds generalizing s with
  | nil => exact h
  | cons d ds ih => exact ih (h.afterDeclare d)

theorem declareAll_append (s : Span) (ds1 ds2 : List Decl) :
    declareAll s (ds1 ++ ds2) = declareAll (declareAll s ds1) ds2 := by
  simp [declareAll, List.foldl_append]

/-- C24: when the declarations and the validation of the last accessory by `poll` record
no fatal error, `isBridge` is true if and only if every accessory with aid 1 contains only
services of type `3E` or `A2`; that accessory is the first one and no other has aid 1;
and at any point of the declarations at which the last accessory has an aid other than 1
(so before that accessory, or a later one, is validated) `isBridge` has its final value. -/
theorem bridge_iff_first_plain (mc t : Nat) (ds : List Decl)
    (h0 : (declareAll (Span.init mc t) ds).validateBack.nFatalErrors = 0) :
    ((declareAll (Span.init mc t) ds).validateBack.isBridge = true ↔
        ∀ acc ∈ (declareAll (Span.init mc t) ds).validateBack.Accessories, acc.aid = 1 →
          ∀ sv ∈ acc.Services, sv.type = "3E" ∨ sv.type = "A2") ∧
      (∀ acc0 rest, (declareAll (Span.init mc t) ds).validateBack.Accessories = acc0 :: rest →
        acc0.aid = 1 ∧ ∀ acc ∈ rest, acc.aid ≠ 1) ∧
      ∀ (ds1 ds2 : List Decl) (back : SpanAccessory), ds = ds1 ++ ds2 →
        (declareAll (Span.init mc t) ds1).Accessories.getLast? = some back → back.aid ≠ 1 →
        (declareAll (Span.init mc t) ds1).isBridge =
          (declareAll (Span.init mc t) ds).validateBack.isBridge := by
  obtain ⟨hk1, hk2⟩ := (declareAll (Span.init mc t) ds).validateBack_keeps
  have hF0 : (declareAll (Span.init mc t) ds).nFatalErrors = 0 := by omega
  have hinv : BridgeInv (declareAll (Span.init mc t) ds) := (BridgeInv.atInit mc t).afterDeclareAll ds
  have hfinal := validateBack_bridge _ hinv
  have hnodup : (declareAll (Span.init mc t) ds).aids.Nodup :=
    ((DbOK.init mc t).declareAll ds).aidNodup hF0
  have hhead : ∀ x, (declareAll (Span.init mc t) ds).aids.head? = some x → x = 1 :=
    first_aid_one _ ds (by simp [Span.init, Span.aids]) hF0
  have hfirst : ∀ acc0 rest, (declareAll (Span.init mc t) ds).Accessories = acc0 :: rest →
      acc0.aid = 1 ∧ ∀ acc ∈ rest, acc.aid ≠ 1 := by
    intro acc0 rest e
    unfold Span.aids at hnodup hhead
    rw [e] at hnodup hhead
    simp only [List.map_cons, List.head?_cons] at hnodup hhead
    have h1 : acc0.aid = 1 := hhead _ rfl
    refine ⟨h1, ?_⟩
    intro acc hacc h2
    have hnot := (List.nodup_cons.1 hnodup).1
    apply hnot
    rw [h1, ← h2]
    exact List.mem_map.2 ⟨acc, hacc, rfl⟩
  refine ⟨?_, ?_, ?_⟩
  · rw [hfinal, hk1]
    constructor
    · intro hh acc hacc h1
      exact (plain_iff acc).1 (hh acc hacc h1)
    · intro hh acc hacc h1
      exact (plain_iff acc).2 (hh acc hacc h1)
  · rw [hk1]; exact hfirst
  · intro ds1 ds2 back hds hback hne
    have hsF : declareAll (Span.init mc t) ds =
        declareAll (declareAll (Span.init mc t) ds1) ds2 := by
      rw [hds, declareAll_append]
    have inv1 : BridgeInv (declareAll (Span.init mc t) ds1) := (BridgeInv.atInit mc t).afterDeclareAll ds1
    unfold BridgeInv at inv1
    obtain ⟨l, x, hl, hx⟩ : ∃ l x, (declareAll (Span.init mc t) ds1).Accessories = l ++ [x] ∧
        (declareAll (Span.init mc t) ds1).Accessories.getLast? = some x := by
      rcases list_back_cases (declareAll (Span.init mc t) ds1).Accessories with ⟨_, h2⟩ | h2
      · rw [h2] at hback; cases hback
      · exact h2
    have hxb : x = back := by
      rw [hx] at hback
      exact Option.some.inj hback
    -- the first accessory of the final database has aid 1
    obtain ⟨acc0, rest, hcons⟩ : ∃ acc0 rest,
        (declareAll (Span.init mc t) ds).Accessories = acc0 :: rest := by
      have hlen := length_le_declareAll (declareAll (Span.init mc t) ds1) ds2
      rw [← hsF, hl] at hlen
      cases hc : (declareAll (Span.init mc t) ds).Accessories with
      | nil => rw [hc] at hlen; simp at hlen
      | cons a r => exact ⟨a, r, rfl⟩
    obtain ⟨h01, hrest⟩ := hfirst acc0 rest hcons
    have hF0' : (declareAll (Span.init mc t) ds).Accessories[0]? = some acc0 := by
      rw [hcons]; simp
    -- so the prefix has at least two accessories
    obtain ⟨a0, l', hl'⟩ : ∃ a0 l', l = a0 :: l' := by
      cases l with
      | nil =>
        exfalso
        have h1 : (declareAll (Span.init mc t) ds1).Accessories[0]? = some back := by
          rw [hl, hxb]; simp
        obtain ⟨acc', h2, g⟩ := declareAll_grows _ ds2 0 back h1
        rw [← hsF, hF0'] at h2
        cases h2
        exact hne (by rw [← g.1]; exact h01)
      | cons a0 l' => exact ⟨a0, l', rfl⟩
    have h10 : (declareAll (Span.init mc t) ds1).Accessories[0]? = some a0 := by
      rw [hl, hl']; simp
    have hlen1 : 0 + 1 < (declareAll (Span.init mc t) ds1).Accessories.length := by
      rw [hl, hl']; simp
    rw [Bool.eq_iff_iff, inv1, hfinal]
    constructor
    · intro hh acc hacc h1
      rw [hcons] at hacc
      rcases List.mem_cons.1 hacc with e | hr
      · obtain ⟨acc', h2, g⟩ := declareAll_sameTypes _ ds2 0 a0 h10 hlen1
        rw [← hsF, hF0'] at h2
        cases h2
        rw [e, g.plain]
        exact hh 0 a0 h10 hlen1 (by rw [← g.1]; exact h01)
      · exact absurd h1 (hrest acc hr)
    · intro hh i acc hi hlt h1
      obtain ⟨acc', h2, g⟩ := declareAll_sameTypes _ ds2 i acc hi hlt
      rw [← hsF] at h2
      rw [← g.plain]
      exact hh acc' (List.mem_iff_getElem?.2 ⟨i, h2⟩) (by rw [g.1]; exact h1)

set_option maxRecDepth 100000 in
theorem bridge_iff_first_plain_witness :
    (declareAll (Span.init 8 0) bridgeDecls).validateBack.nFatalErrors = 0 ∧
      (declareAll (Span.init 8 0) bridgeDecls).validateBack.isBridge = true ∧
      (declareAll (Span.init 8 0) bridgeDecls).aids = [1, 2] ∧
      sampleDb.validateBack.isBridge = false ∧
      ((declareAll (Span.init 8 0) bridgeDecls).validateBack.isBridge = true ↔
        ∀ acc ∈ (declareAll (Span.init 8 0) bridgeDecls).validateBack.Accessories, acc.aid = 1 →
          ∀ sv ∈ acc.Services, sv.type = "3E" ∨ sv.type = "A2") :=
  ⟨by decide, by decide, by decide, by decide,
    (bridge_iff_first_plain 8 0 bridgeDecls (by decide)).1⟩

/-! ## The notification flags -/

/-- The `ev` array after `loadUpdate` with an accepted `ev` text: the flag of the current
connection is stored, whatever becomes of the value. -/
theorem loadUpdate_ev (c : SpanCharacteristic) (env : Env) (t : Nat) (val : Option String)
    (e : String) (b : Bool) (hperm : hasBit c.perms EV = true)
    (he : ((e = "1" ∨ e = "true") ∧ b = true) ∨ ((e = "0" ∨ e = "false") ∧ b = false)) :
    (c.loadUpdate env t val (some e)).2.ev = c.ev.set env.conNum b := by
  have key : ∀ c1 : SpanCharacteristic, c1.ev = c.ev.set env.conNum b →
      (match val with
        | none => (StatusCode.OK, c1)
        | some v => if !hasBit c1.perms PW then (StatusCode.ReadOnly, c1)
            else c1.loadValue env t v).2.ev = c.ev.set env.conNum b := by
    intro c1 h1
    cases val with
    | none => exact h1
    | some v =>
      simp only
      split
      · exact h1
      · rw [(loadValue_keeps c1 env t v).2.2.2.1]
        exact h1
  unfold SpanCharacteristic.loadUpdate
  rcases he with ⟨he, rfl⟩ | ⟨he, rfl⟩
  · have h1 : (e == "0" || e == "false") = false := by
      rcases he with rfl | rfl <;> decide
    have h2 : (e == "1" || e == "true") = true := by
      rcases he with rfl | rfl <;> decide
    simp only [h1, h2, hperm, Bool.not_true, Bool.false_eq_true, if_false, if_true]
    exact key _ rfl
  · have h1 : (e == "0" || e == "false") = true := by
      rcases he with rfl | rfl <;> decide
    simp only [h1, if_true]
    exact key _ rfl

/-- C25: for a characteristic with the EV permission, `loadUpdate` with the `ev` text `1`
or `true` sets the flag `ev[conNum]` of the current connection, with `0` or `false` it
clears it, and the flags of all other slots stay as they are (`conNum` being an index of
the array `ev`). -/
theorem loadUpdate_sets_own_flag (c : SpanCharacteristic) (env : Env) (t : Nat)
    (val : Option String) (e : String) (b : Bool) (hperm : hasBit c.perms EV = true)
    (hs : env.conNum < c.ev.length)
    (he : ((e = "1" ∨ e = "true") ∧ b = true) ∨ ((e = "0" ∨ e = "false") ∧ b = false)) :
    (c.loadUpdate env t val (some e)).2.ev[env.conNum]? = some b ∧
      (∀ k, k ≠ env.conNum → (c.loadUpdate env t val (some e)).2.ev[k]? = c.ev[k]?) ∧
      (c.loadUpdate env t val (some e)).2.ev.length = c.ev.length := by
  rw [loadUpdate_ev c env t val e b hperm he]
  refine ⟨?_, ?_, ?_⟩
  · rw [List.getElem?_set_self hs]
  · intro k hk
    rw [List.getElem?_set_ne (Ne.symm hk)]
  · rw [List.length_set]

set_option maxRecDepth 100000 in
theorem loadUpdate_sets_own_flag_witness :
    hasBit sampleBrightness.perms EV = true ∧
      (sampleBrightness.loadUpdate ⟨0, 3, fun _ => .eof, fun _ _ => true⟩ 9 (some "70")
        (some "true")).2.ev = [false, false, false, true, false, false, false, false] ∧
      (sampleBrightness.loadUpdate ⟨0, 3, fun _ => .eof, fun _ _ => true⟩ 9 (some "70")
        (some "true")).2.ev[3]? = some true :=
  ⟨by decide, by decide,
    (loadUpdate_sets_own_flag sampleBrightness ⟨0, 3, fun _ => .eof, fun _ _ => true⟩ 9
      (some "70") "true" true (by decide) (by decide) (Or.inl ⟨Or.inr rfl, rfl⟩)).1⟩

/-! ## `Span::getFreeSlot` -/

theorem getFreeSlotLoop_spec (hap : List (Option Nat)) (n : Nat) :
    ∀ i, i + n ≤ hap.length →
      ∃ r, getFreeSlotLoop hap n i = .ok r ∧
        ((r = -1 ∧ ∀ j, i ≤ j → j < i + n → ∃ k, hap[j]? = some (some k)) ∨
          ∃ m : Nat, r = (m : Int) ∧ i ≤ m ∧ m < i + n ∧ hap[m]? = some none ∧
            ∀ j, i ≤ j → j < m → ∃ k, hap[j]? = some (some k)) := by
  induction n with
  | zero =>
    intro i _
    exact ⟨-1, rfl, Or.inl ⟨rfl, fun j h1 h2 => by omega⟩⟩
  | succ n ih =>
    intro i hi
    have hlt : i < hap.length := by omega
    unfold getFreeSlotLoop
    rw [List.getElem?_eq_getElem hlt]
    cases hc : hap[i] with
    | none =>
      refine ⟨(i : Int), rfl, Or.inr ⟨i, rfl, Nat.le_refl _, by omega, ?_, fun j h1 h2 => by omega⟩⟩
      rw [List.getElem?_eq_getElem hlt, hc]
    | some k =>
      simp only
      obtain ⟨r, hr, h⟩ := ih (i + 1) (by omega)
      refine ⟨r, hr, ?_⟩
      have hik : hap[i]? = some (some k) := by rw [List.getElem?_eq_getElem hlt, hc]
      rcases h with ⟨h1, h2⟩ | ⟨m, h1, h2, h3, h4, h5⟩
      · left
        refine ⟨h1, fun j hj1 hj2 => ?_⟩
        by_cases e : j = i
        · rw [e]; exact ⟨k, hik⟩
        · exact h2 j (by omega) (by omega)
      · right
        refine ⟨m, h1, by omega, by omega, h4, fun j hj1 hj2 => ?_⟩
        by_cases e : j = i
        · rw [e]; exact ⟨k, hik⟩
        · exact h5 j (by omega) hj2

/-- What `getFreeSlot` returns when `hap` has an entry for each of the `maxConnections`
slots. -/
theorem getFreeSlot_spec (s : Span) (hap : List (Option Nat)) (hlen : s.maxConnections ≤ hap.length) :
    ∃ r, s.getFreeSlot hap = .ok r ∧
      ((r = -1 ∧ ∀ j, j < s.maxConnections → ∃ k, hap[j]? = some (some k)) ∨
        ∃ m : Nat, r = (m : Int) ∧ m < s.maxConnections ∧ hap[m]? = some none ∧
          ∀ j, j < m → ∃ k, hap[j]? = some (some k)) := by
  obtain ⟨r, hr, h⟩ := getFreeSlotLoop_spec hap s.maxConnections 0 (by omega)
  refine ⟨r, hr, ?_⟩
  rcases h with ⟨h1, h2⟩ | ⟨m, h1, _, h3, h4, h5⟩
  · exact Or.inl ⟨h1, fun j hj => h2 j (Nat.zero_le _) (by omega)⟩
  · exact Or.inr ⟨m, h1, by omega, h4, fun j hj => h5 j (Nat.zero_le _) hj⟩

/-- C29: with an entry of `hap` for each of the `maxConnections` slots, `getFreeSlot`
returns; the value is either -1, and then every slot has a connected client, or the
least index below `maxConnections` whose slot has none; so it is -1 if and only if every
slot has a connected client. -/
theorem getFreeSlot_least (s : Span) (hap : List (Option Nat))
    (hlen : s.maxConnections ≤ hap.length) :
    ∃ r, s.getFreeSlot hap = .ok r ∧
      ((r = -1 ∧ ∀ j, j < s.maxConnections → ∃ k, hap[j]? = some (some k)) ∨
        ∃ m : Nat, r = (m : Int) ∧ m < s.maxConnections ∧ hap[m]? = some none ∧
          ∀ j, j < m → ∃ k, hap[j]? = some (some k)) ∧
      (r = -1 ↔ ∀ j, j < s.maxConnections → ∃ k, hap[j]? = some (some k)) := by
  obtain ⟨r, hr, h⟩ := getFreeSlot_spec s hap hlen
  refine ⟨r, hr, h, ?_⟩
  rcases h with ⟨h1, h2⟩ | ⟨m, h1, h2, h3, _⟩
  · exact ⟨fun _ => h2, fun _ => h1⟩
  · constructor
    · intro e
      rw [h1] at e
      omega
    · intro hall
      obtain ⟨k, hk⟩ := hall m h2
      rw [h3] at hk
      cases hk

set_option maxRecDepth 100000 in
theorem getFreeSlot_least_witness :
    sampleDb.maxConnections = 8 ∧
      sampleDb.getFreeSlot [some 1, some 2, none, some 3, none, none, none, none] = .ok 2 ∧
      ∃ r, sampleDb.getFreeSlot [some 1, some 2, none, some 3, none, none, none, none] = .ok r ∧
        ((r = -1 ∧ ∀ j, j < sampleDb.maxConnections →
            ∃ k, [some 1, some 2, none, some 3, none, none, none, none][j]? = some (some k)) ∨
          ∃ m : Nat, r = (m : Int) ∧ m < sampleDb.maxConnections ∧
            [some 1, some 2, none, some 3, none, none, none, none][m]? = some none ∧
            ∀ j, j < m →
              ∃ k, [some 1, some 2, none, some 3, none, none, none, none][j]? = some (some k)) ∧
        (r = -1 ↔ ∀ j, j < sampleDb.maxConnections →
          ∃ k, [some 1, some 2, none, some 3, none, none, none, none][j]? = some (some k)) :=
  ⟨by decide, by rfl,
    getFreeSlot_least sampleDb [some 1, some 2, none, some 3, none, none, none, none] (by decide)⟩

/-! ## `Span::clearNotify` -/

theorem getService_clearNotify (s : Span) (k : Nat) (r : SvcRef) :
    (s.clearNotify k).getService r =
      (s.getService r).map (fun sv =>
        { sv with Characteristics := sv.Characteristics.map (fun c => c.clearEv k) }) := by
  unfold Span.getService Span.clearNotify
  simp only [Span.withAccessories_Accessories, List.getElem?_map]
  cases s.Accessories[r.a]? with
  | none => rfl
  | some acc =>
    simp only [Option.map_some', List.getElem?_map]

theorem getChar_clearNotify (s : Span) (k : Nat) (r : CharRef) :
    (s.clearNotify k).getChar r = (s.getChar r).map (fun c => c.clearEv k) := by
  unfold Span.getChar
  rw [getService_clearNotify]
  cases s.getService r.service with
  | none => rfl
  | some sv => simp only [Option.map_some', List.getElem?_map]

/-- C27: after `clearNotify(k)` every characteristic is the one that was at its place
with `ev[k]` set to false (`k` being an index of `ev`): the flags of the other slots and
all other members of the characteristic are as before, and so are the members of the
services, of the accessories and of `homeSpan` other than the characteristics. -/
theorem clearNotify_clears_slot (s : Span) (k : Nat) :
    (∀ r c', (s.clearNotify k).getChar r = some c' →
        ∃ c, s.getChar r = some c ∧ (k < c.ev.length → c'.ev[k]? = some false) ∧
          (∀ t, t ≠ k → c'.ev[t]? = c.ev[t]?) ∧ c'.ev.length = c.ev.length ∧
          { c' with ev := c.ev } = c) ∧
      (∀ r, ((s.clearNotify k).getChar r).isSome = (s.getChar r).isSome) ∧
      (∀ r, ((s.clearNotify k).getService r).map
            (fun sv => ({ sv with Characteristics := [] }, sv.Characteristics.length)) =
          (s.getService r).map
            (fun sv => ({ sv with Characteristics := [] }, sv.Characteristics.length))) ∧
      (s.clearNotify k).Accessories.map (fun a => (a.aid, a.iidCount, a.Services.length)) =
        s.Accessories.map (fun a => (a.aid, a.iidCount, a.Services.length)) ∧
      { s.clearNotify k with Accessories := s.Accessories } = s := by
  refine ⟨?_, ?_, ?_, ?_, rfl⟩
  · intro r c' h
    rw [getChar_clearNotify] at h
    cases hc : s.getChar r with
    | none => rw [hc] at h; cases h
    | some c =>
      rw [hc] at h
      simp only [Option.map_some', Option.some.injEq] at h
      subst h
      refine ⟨c, rfl, ?_, ?_, ?_, rfl⟩
      · intro hk
        simp only [SpanCharacteristic.clearEv]
        rw [List.getElem?_set_self hk]
      · intro t ht
        simp only [SpanCharacteristic.clearEv]
        rw [List.getElem?_set_ne (Ne.symm ht)]
      · simp [SpanCharacteristic.clearEv]
  · intro r
    rw [getChar_clearNotify]
    cases s.getChar r <;> rfl
  · intro r
    rw [getService_clearNotify]
    cases s.getService r with
    | none => rfl
    | some sv => simp
  · unfold Span.clearNotify
    simp [Function.comp_def]

/-! ## Accepting a client in `poll` -/

theorem getFreeSlot_full (s : Span) (hap : List (Option Nat))
    (hlen : s.maxConnections ≤ hap.length)
    (hall : ∀ j, j < s.maxConnections → ∃ k, hap[j]? = some (some k)) :
    s.getFreeSlot hap = .ok (-1) := by
  obtain ⟨r, hr, h⟩ := getFreeSlot_spec s hap hlen
  rcases h with ⟨h1, _⟩ | ⟨m, _, h2, h3, _⟩
  · rw [hr, h1]
  · obtain ⟨k, hk⟩ := hall m h2
    rw [h3] at hk
    cases hk

/-- C30: with `maxConnections` slots, all of them connected, and a value below
`maxConnections` from `randombytes_uniform`, the accept block of `poll` returns: it calls
`stop()` on the client of the slot `rnd` and on no other, stores the new client in that
slot, and leaves the other slots as they are; a client that was in no slot before is in
exactly one slot afterwards. -/
theorem accept_evicts_one (sv : Server) (newClient rnd : Nat)
    (hlen : sv.hap.length = sv.span.maxConnections)
    (hfull : ∀ c ∈ sv.hap, c ≠ none)
    (hrnd : rnd < sv.span.maxConnections)
    (hnone : some newClient ∉ sv.hap) :
    ∃ st old, sv.accept newClient rnd = .ok st ∧ sv.hap[rnd]? = some (some old) ∧
      st.stopped = sv.stopped ++ [old] ∧ st.hap[rnd]? = some (some newClient) ∧
      (∀ j : Nat, j ≠ rnd → st.hap[j]? = sv.hap[j]?) ∧ st.hap.length = sv.hap.length ∧
      (∀ j : Nat, st.hap[j]? = some (some newClient) ↔ j = rnd) ∧
      st.assigned = sv.assigned ++ [rnd] := by
  have hall : ∀ j, j < sv.span.maxConnections → ∃ k, sv.hap[j]? = some (some k) := by
    intro j hj
    have hjl : j < sv.hap.length := by omega
    have hm : sv.hap[j] ∈ sv.hap := List.getElem_mem hjl
    cases hc : sv.hap[j] with
    | none => rw [hc] at hm; exact absurd rfl (hfull none hm)
    | some k => exact ⟨k, by rw [List.getElem?_eq_getElem hjl, hc]⟩
  have hnew : ∀ j : Nat, sv.hap[j]? ≠ some (some newClient) :=
    fun j h => hnone (List.mem_iff_getElem?.2 ⟨j, h⟩)
  obtain ⟨old, hold⟩ := hall rnd hrnd
  have hfree := getFreeSlot_full sv.span sv.hap (by omega) hall
  have hlt : rnd < sv.hap.length := by omega
  have hacc : sv.accept newClient rnd =
      .ok { span := sv.span.clearNotify rnd, hap := sv.hap.set rnd (some newClient),
            assigned := sv.assigned ++ [rnd], stopped := sv.stopped ++ [old] } := by
    unfold Server.accept Server.stop
    simp only [hfree, hold, bind, Except.bind, pure, Except.pure, if_true, List.length_set, hlt,
      List.set_set]
  refine ⟨_, old, hacc, hold, rfl, ?_, ?_, ?_, ?_, rfl⟩
  · simp only
    rw [List.getElem?_set_self hlt]
  · intro j hj
    simp only
    rw [List.getElem?_set_ne (Ne.symm hj)]
  · simp
  · intro j
    simp only
    constructor
    · intro h
      by_contra hj
      rw [List.getElem?_set_ne (Ne.symm hj)] at h
      exact hnew j h
    · intro hj
      rw [hj, List.getElem?_set_self hlt]

set_option maxRecDepth 100000 in
theorem accept_evicts_one_witness :
    (∀ c ∈ [some 1, some 2, some 3, some 4, some 5, some 6, some 7, some 8], c ≠ none) ∧
      (Server.accept ⟨sampleDb, [some 1, some 2, some 3, some 4, some 5, some 6, some 7, some 8],
          [], []⟩ 9 5).toOption.map (fun st => (st.hap, st.stopped)) =
        some ([some 1, some 2, some 3, some 4, some 5, some 9, some 7, some 8], [6]) ∧
      ∃ st old, Server.accept ⟨sampleDb,
          [some 1, some 2, some 3, some 4, some 5, some 6, some 7, some 8], [], []⟩ 9 5 = .ok st ∧
        [some 1, some 2, some 3, some 4, some 5, some 6, some 7, some 8][5]? = some (some old) ∧
        st.stopped = [] ++ [old] ∧ st.hap[5]? = some (some 9) ∧
        (∀ j : Nat, j ≠ 5 → st.hap[j]? =
          [some 1, some 2, some 3, some 4, some 5, some 6, some 7, some 8][j]?) ∧
        st.hap.length = 8 ∧ (∀ j : Nat, st.hap[j]? = some (some 9) ↔ j = 5) ∧
        st.assigned = [] ++ [5] :=
  ⟨by decide, by decide,
    accept_evicts_one ⟨sampleDb, [some 1, some 2, some 3, some 4, some 5, some 6, some 7, some 8],
      [], []⟩ 9 5 (by decide) (by decide) (by decide) (by decide)⟩

/-! ## Flags and slots over time -/

theorem loadUpdate_ev_other (c : SpanCharacteristic) (env : Env) (t : Nat)
    (val ev : Option String) (j : Nat) (hj : j ≠ env.conNum) :
    (c.loadUpdate env t val ev).2.ev[j]? = c.ev[j]? := by
  have key : ∀ c1 : SpanCharacteristic, c1.ev[j]? = c.ev[j]? →
      (match val with
        | none => (StatusCode.OK, c1)
        | some v => if !hasBit c1.perms PW then (StatusCode.ReadOnly, c1)
            else c1.loadValue env t v).2.ev[j]? = c.ev[j]? := by
    intro c1 h1
    cases val with
    | none => exact h1
    | some v =>
      simp only
      split
      · exact h1
      · rw [(loadValue_keeps c1 env t v).2.2.2.1]
        exact h1
  unfold SpanCharacteristic.loadUpdate
  cases ev with
  | none => exact key c rfl
  | some e =>
    simp only
    by_cases h0 : (e == "0" || e == "false") = true
    · rw [if_pos h0]
      exact key _ (by simp only; rw [List.getElem?_set_ne (Ne.symm hj)])
    · rw [if_neg h0]
      by_cases h1 : (e == "1" || e == "true") = true
      · rw [if_pos h1]
        by_cases hp : (!hasBit c.perms EV) = true
        · rw [if_pos hp]
        · rw [if_neg hp]
          exact key _ (by simp only; rw [List.getElem?_set_ne (Ne.symm hj)])
      · rw [if_neg h1]

theorem noFlag_clearNotify_self (s : Span) (k : Nat) : (s.clearNotify k).noFlag k := by
  intro r c' h
  rw [getChar_clearNotify] at h
  cases hc : s.getChar r with
  | none => rw [hc] at h; cases h
  | some c =>
    rw [hc] at h
    simp only [Option.map_some', Option.some.injEq] at h
    subst h
    simp only [SpanCharacteristic.clearEv]
    by_cases hk : k < c.ev.length
    · rw [List.getElem?_set_self hk]
      simp
    · rw [List.getElem?_eq_none (by rw [List.length_set]; omega)]
      simp

theorem noFlag_clearNotify_other (s : Span) (k i : Nat) (hi : i ≠ k) (h : s.noFlag i) :
    (s.clearNotify k).noFlag i := by
  intro r c' hc'
  rw [getChar_clearNotify] at hc'
  cases hc : s.getChar r with
  | none => rw [hc] at hc'; cases hc'
  | some c =>
    rw [hc] at hc'
    simp only [Option.map_some', Option.some.injEq] at hc'
    subst hc'
    simp only [SpanCharacteristic.clearEv]
    rw [List.getElem?_set_ne (Ne.symm hi)]
    exact h r c hc

theorem stop_spec (sv : Server) (i : Nat) (hi : i < sv.hap.length) :
    ∃ st, sv.stop i = .ok st ∧ st.span = sv.span ∧ st.assigned = sv.assigned ∧
      st.hap.length = sv.hap.length ∧
      ∀ (j k : Nat), st.hap[j]? = some (some k) → sv.hap[j]? = some (some k) := by
  unfold Server.stop
  rw [List.getElem?_eq_getElem hi]
  cases sv.hap[i] with
  | none => exact ⟨sv, rfl, rfl, rfl, rfl, fun j k h => h⟩
  | some c =>
    refine ⟨_, rfl, rfl, rfl, by simp, ?_⟩
    intro j k h
    simp only at h
    by_cases e : j = i
    · rw [e, List.getElem?_set_self hi] at h
      cases h
    · rw [List.getElem?_set_ne (Ne.symm e)] at h
      exact h

theorem unpair_spec (sv : Server) (hlen : sv.span.maxConnections ≤ sv.hap.length) :
    ∃ st, sv.unpair = .ok st ∧ st.span = sv.span ∧ st.assigned = sv.assigned ∧
      st.hap.length = sv.hap.length ∧
      ∀ (j k : Nat), st.hap[j]? = some (some k) → sv.hap[j]? = some (some k) := by
  unfold Server.unpair
  have h := forLoop_invariant
    (fun (_ : Nat) (st : Server) => st.span = sv.span ∧ st.assigned = sv.assigned ∧
      st.hap.length = sv.hap.length ∧
      ∀ (j k : Nat), st.hap[j]? = some (some k) → sv.hap[j]? = some (some k))
    0 sv.span.maxConnections (fun i st => st.stop i) sv (Nat.zero_le _)
    ⟨rfl, rfl, rfl, fun j k h => h⟩
    (by
      intro i st _ hi ⟨h1, h2, h3, h4⟩
      obtain ⟨st', e, g1, g2, g3, g4⟩ := stop_spec st i (by omega)
      exact ⟨st', e, g1.trans h1, g2.trans h2, g3.trans h3, fun j k h => h4 j k (g4 j k h)⟩)
  exact h

/-- What the accept block does when `hap` has its `maxConnections` entries and the
random value is below `maxConnections`. -/
theorem accept_spec (sv : Server) (newClient rnd : Nat)
    (hlen : sv.hap.length = sv.span.maxConnections) (hrnd : rnd < sv.span.maxConnections) :
    ∃ st f, sv.accept newClient rnd = .ok st ∧ f < sv.span.maxConnections ∧
      st.assigned = sv.assigned ++ [f] ∧ st.hap[f]? = some (some newClient) ∧
      st.hap.length = sv.hap.length ∧ st.span = sv.span.clearNotify f ∧
      ∀ (j k : Nat), j ≠ f → st.hap[j]? = some (some k) → sv.hap[j]? = some (some k) := by
  obtain ⟨r, hr, h⟩ := getFreeSlot_spec sv.span sv.hap (by omega)
  unfold Server.accept
  rcases h with ⟨h1, _⟩ | ⟨m, h1, h2, _, _⟩
  · obtain ⟨sv1, e, g1, g2, g3, g4⟩ := stop_spec sv rnd (by omega)
    have hlt : rnd < sv1.hap.length := by omega
    simp only [hr, h1, e, bind, Except.bind, pure, Except.pure, if_true, hlt]
    refine ⟨_, rnd, rfl, hrnd, by rw [g2], ?_, by simp [g3], by rw [g1], ?_⟩
    · simp only
      rw [List.getElem?_set_self hlt]
    · intro j k hj hh
      simp only at hh
      rw [List.getElem?_set_ne (Ne.symm hj)] at hh
      exact g4 j k hh
  · have hne : ¬ ((m : Int) = -1) := by omega
    have hlt : m < sv.hap.length := by omega
    simp only [hr, h1, hne, bind, Except.bind, pure, Except.pure, if_false, Int.toNat_ofNat,
      hlt, if_true]
    refine ⟨_, m, rfl, h2, rfl, ?_, by simp, rfl, ?_⟩
    · simp only
      rw [List.getElem?_set_self hlt]
    · intro j k hj hh
      simp only at hh
      rw [List.getElem?_set_ne (Ne.symm hj)] at hh
      exact hh

theorem clearNotify_maxConnections (s : Span) (k : Nat) :
    (s.clearNotify k).maxConnections = s.maxConnections := rfl

theorem ServerInv.boot (s : Span) (h : ∀ i, s.noFlag i) : ServerInv s.maxConnections (Server.boot s) :=
  ⟨by simp [Server.boot], rfl,
    fun i _ k hk => (by
      simp only [Server.boot] at hk
      by_cases hi : i < s.maxConnections
      · rw [List.getElem?_replicate_of_lt hi] at hk
        cases hk
      · rw [List.getElem?_eq_none (by simp; omega)] at hk
        cases hk),
    fun i _ => h i⟩

theorem ServerInv.step {n : Nat} {sv : Server} (h : ServerInv n sv) (e : Event)
    (he : e.rndBelow n = true) : ∃ st, sv.step e = .ok st ∧ ServerInv n st := by
  cases e with
  | accept newClient rnd =>
    have hr : rnd < sv.span.maxConnections := by
      rw [h.maxc]
      simpa [Event.rndBelow] using he
    obtain ⟨st, f, e, _, g2, _, g4, g5, g6⟩ :=
      accept_spec sv newClient rnd (by rw [h.len, h.maxc]) hr
    refine ⟨st, e, ⟨g4.trans h.len, by rw [g5]; exact h.maxc, ?_, ?_⟩⟩
    · intro i hi k hk
      rw [g2, List.mem_append, List.mem_singleton] at hi
      exact h.idle i (fun hm => hi (Or.inl hm)) k (g6 i k (fun e => hi (Or.inr e)) hk)
    · intro i hi
      rw [g2, List.mem_append, List.mem_singleton] at hi
      rw [g5]
      exact noFlag_clearNotify_other _ f i (fun e => hi (Or.inr e))
        (h.clear i (fun hm => hi (Or.inl hm)))
  | load env i r val ev =>
    refine ⟨_, rfl, ?_⟩
    unfold Server.load
    cases hc : sv.hap[i]? with
    | none => exact h
    | some c =>
      cases c with
      | none => exact h
      | some k =>
        simp only
        refine ⟨h.len, h.maxc, h.idle, ?_⟩
        intro j hj r' c' hc'
        simp only at hc'
        have hji : j ≠ i := by
          intro e
          rw [e] at hj
          exact h.idle i hj k hc
        rw [getChar_modifyChar] at hc'
        by_cases hr : r' = r
        · rw [if_pos hr] at hc'
          cases hg : sv.span.getChar r' with
          | none => rw [hg] at hc'; cases hc'
          | some c0 =>
            rw [hg] at hc'
            simp only [Option.map_some', Option.some.injEq] at hc'
            rw [← hc', loadUpdate_ev_other _ _ _ _ _ j (by simpa using hji)]
            exact h.clear j hj r' c0 hg
        · rw [if_neg hr] at hc'
          exact h.clear j hj r' c' hc'
  | drop i =>
    refine ⟨_, rfl, ⟨by simp [Server.drop, h.len], h.maxc, ?_, h.clear⟩⟩
    intro j hj k hk
    simp only [Server.drop] at hk
    by_cases e : j = i
    · by_cases hi : i < sv.hap.length
      · rw [e, List.getElem?_set_self hi] at hk
        cases hk
      · rw [List.set_eq_of_length_le (by omega)] at hk
        exact h.idle j hj k hk
    · rw [List.getElem?_set_ne (Ne.symm e)] at hk
      exact h.idle j hj k hk
  | unpair =>
    obtain ⟨st, e, g1, g2, g3, g4⟩ := unpair_spec sv (by rw [h.len, h.maxc])
    refine ⟨st, e, ⟨g3.trans h.len, by rw [g1]; exact h.maxc, ?_, ?_⟩⟩
    · intro i hi k hk
      rw [g2] at hi
      exact h.idle i hi k (g4 i k hk)
    · intro i hi
      rw [g2] at hi
      rw [g1]
      exact h.clear i hi

theorem ServerInv.run {n : Nat} {sv : Server} (h : ServerInv n sv) (evs : List Event)
    (he : ∀ e ∈ evs, e.rndBelow n = true) : ∃ st, sv.run evs = .ok st ∧ ServerInv n st := by
  induction evs generalizing sv with
  | nil => exact ⟨sv, rfl, h⟩
  | cons e rest ih =>
    obtain ⟨st1, h1, inv1⟩ := h.step e (he e (List.mem_cons_self _ _))
    obtain ⟨st2, h2, inv2⟩ := ih inv1 (fun x hx => he x (List.mem_cons_of_mem _ hx))
    refine ⟨st2, ?_, inv2⟩
    unfold Server.run at h2 ⊢
    rw [List.foldlM_cons, h1]
    exact h2

/-! ## The flags of a declared database -/

theorem fatalIf_maxConnections (s : Span) (b : Bool) :
    (s.fatalIf b).maxConnections = s.maxConnections := by
  cases b <;> rfl

theorem validateService_maxConnections (sv : SpanService) (s : Span) :
    (sv.validate s).maxConnections = s.maxConnections := by
  unfold SpanService.validate
  generalize sv.req = l
  induction l generalizing s with
  | nil => rfl
  | cons r rs ih => rw [List.foldl_cons, ih, fatalIf_maxConnections]

theorem validateBackService_maxConnections (s : Span) :
    s.validateBackService.maxConnections = s.maxConnections := by
  unfold Span.validateBackService
  split
  · rfl
  · split
    · rfl
    · exact validateService_maxConnections _ s

theorem validateBack_maxConnections (s : Span) :
    s.validateBack.maxConnections = s.maxConnections := by
  unfold Span.validateBack
  split
  · rfl
  · have hv : ∀ (acc : SpanAccessory) (s1 : Span),
        (acc.validate s1).maxConnections = s1.maxConnections := by
      intro acc s1
      unfold SpanAccessory.validate
      simp only [fatalIf_maxConnections]
    rw [hv]
    split
    · rfl
    · exact validateService_maxConnections _ s

theorem declare_evFresh (s : Span) (d : Decl)
    (h : ∀ acc ∈ s.Accessories, EvFresh s.maxConnections acc) :
    (declare s d).maxConnections = s.maxConnections ∧
      ∀ acc ∈ (declare s d).Accessories, EvFresh s.maxConnections acc := by
  cases d with
  | accessory aid =>
    obtain ⟨hk1, _⟩ := s.validateBack_keeps
    constructor
    · simp only [declare, SpanAccessory.new, fatalIf_maxConnections]
      exact validateBack_maxConnections s
    · have e : (declare s (.accessory aid)).Accessories =
          s.Accessories ++ [{ aid := SpanAccessory.newAid s aid, iidCount := 0, Services := [] }] := by
        simp [declare, SpanAccessory.new, hk1]
      rw [e]
      intro acc hacc
      rcases List.mem_append.1 hacc with h1 | h1
      · exact h acc h1
      · rw [List.mem_singleton] at h1
        rw [h1]
        intro sv hsv
        simp at hsv
  | service type hapName req opt =>
    obtain ⟨hk1, _⟩ := s.validateBackService_keeps
    simp only [declare, SpanService.new]
    split
    · exact ⟨validateBackService_maxConnections s, by simpa [hk1] using h⟩
    · refine ⟨by rw [fatalIf_maxConnections]; exact validateBackService_maxConnections s, ?_⟩
      rw [Span.fatalIf_Accessories, Span.withAccessories_Accessories, hk1]
      apply forall_mem_modifyBack (EvFresh s.maxConnections) _ _ h
      intro x _ hx sv hsv
      simp only [SpanAccessory.pushService, List.mem_append, List.mem_singleton] at hsv
      rcases hsv with hsv | rfl
      · exact hx sv hsv
      · intro c hc
        simp at hc
  | setPrimary r =>
    refine ⟨rfl, ?_⟩
    simp only [declare, SpanService.setPrimary, Span.modifyService,
      Span.withAccessories_Accessories]
    apply forall_mem_modifyAt (EvFresh s.maxConnections) _ _ r.a h
    intro acc hacc
    exact forall_mem_modifyAt
      (fun sv : SpanService => ∀ c ∈ sv.Characteristics, c.ev = List.replicate s.maxConnections false)
      _ _ r.s (fun a ha => hacc a ha) (fun x hx => hx)
  | setHidden r =>
    refine ⟨rfl, ?_⟩
    simp only [declare, SpanService.setHidden, Span.modifyService,
      Span.withAccessories_Accessories]
    apply forall_mem_modifyAt (EvFresh s.maxConnections) _ _ r.a h
    intro acc hacc
    exact forall_mem_modifyAt
      (fun sv : SpanService => ∀ c ∈ sv.Characteristics, c.ev = List.replicate s.maxConnections false)
      _ _ r.s (fun a ha => hacc a ha) (fun x hx => hx)
  | characteristic type perms hapName v junk =>
    simp only [declare, SpanCharacteristic.new]
    split
    · exact ⟨rfl, h⟩
    · split
      · exact ⟨rfl, h⟩
      · refine ⟨by
          show ((s.fatalIf _).fatalIf _).maxConnections = s.maxConnections
          rw [fatalIf_maxConnections, fatalIf_maxConnections], ?_⟩
        rw [Span.withAccessories_Accessories, Span.fatalIf_Accessories, Span.fatalIf_Accessories]
        apply forall_mem_modifyBack (EvFresh s.maxConnections) _ _ h
        intro x _ hx
        unfold EvFresh SpanAccessory.pushCharacteristic
        simp only
        apply forall_mem_modifyBack
          (fun sv : SpanService =>
            ∀ c ∈ sv.Characteristics, c.ev = List.replicate s.maxConnections false)
          _ _ (fun a ha => hx a ha)
        intro sv _ hsv c hc
        simp only [List.mem_append, List.mem_singleton] at hc
        rcases hc with hc | rfl
        · exact hsv c hc
        · rfl
  | range min max step =>
    simp only [declare, SpanRange.new]
    split
    · exact ⟨rfl, h⟩
    · refine ⟨rfl, ?_⟩
      rw [Span.withAccessories_Accessories]
      apply forall_mem_modifyBack (EvFresh s.maxConnections) _ _ h
      intro x _ hx
      unfold EvFresh SpanAccessory.setRange
      simp only
      apply forall_mem_modifyBack
        (fun sv : SpanService =>
          ∀ c ∈ sv.Characteristics, c.ev = List.replicate s.maxConnections false)
        _ _ (fun a ha => hx a ha)
      intro sv _ hsv
      simp only
      exact forall_mem_modifyBack
        (fun c : SpanCharacteristic => c.ev = List.replicate s.maxConnections false)
        _ _ hsv (fun c _ hc => hc)
  | button pin l sg dt =>
    simp only [declare, SpanButton.new]
    split
    · exact ⟨rfl, h⟩
    · split
      · exact ⟨rfl, h⟩
      · exact ⟨rfl, h⟩

theorem declareAll_evFresh (s : Span) (ds : List Decl)
    (h : ∀ acc ∈ s.Accessories, EvFresh s.maxConnections acc) :
    (declareAll s ds).maxConnections = s.maxConnections ∧
      ∀ acc ∈ (declareAll s ds).Accessories, EvFresh s.maxConnections acc := by
  induction ds generalizing s with
  | nil => exact ⟨rfl, h⟩
  | cons d ds ih =>
    obtain ⟨h1, h2⟩ := declare_evFresh s d h
    obtain ⟨h3, h4⟩ := ih (declare s d) (by rw [h1]; exact h2)
    exact ⟨h3.trans h1, by rw [h1] at h4; exact h4⟩

/-- In a declared database every characteristic has `maxConnections` flags, none set. -/
theorem declared_ev (mc t : Nat) (ds : List Decl) (r : CharRef) (c : SpanCharacteristic)
    (h : (declareAll (Span.init mc t) ds).getChar r = some c) :
    c.ev = List.replicate mc false ∧ (declareAll (Span.init mc t) ds).maxConnections = mc := by
  obtain ⟨h1, h2⟩ := declareAll_evFresh (Span.init mc t) ds (by simp [Span.init])
  obtain ⟨acc, sv, ha, hs, hc⟩ := getChar_some _ r c h
  exact ⟨h2 acc (List.getElem?_mem ha) sv (List.getElem?_mem hs) c (List.getElem?_mem hc), h1⟩

theorem declared_noFlag (mc t : Nat) (ds : List Decl) (i : Nat) :
    (declareAll (Span.init mc t) ds).noFlag i := by
  intro r c h
  rw [(declared_ev mc t ds r c h).1]
  by_cases hi : i < mc
  · rw [List.getElem?_replicate_of_lt hi]
    simp
  · rw [List.getElem?_eq_none (by simp; omega)]
    simp

/-- When the accept block returns, the slot it has assigned holds the new client and no
flag of that slot is set. -/
theorem accept_clears (sv : Server) (newClient rnd : Nat) (st : Server)
    (h : sv.accept newClient rnd = .ok st) :
    ∃ f, st.assigned = sv.assigned ++ [f] ∧ st.hap[f]? = some (some newClient) ∧
      st.span.noFlag f := by
  have fin : ∀ (sv1 : Server) (f : Nat), sv1.assigned = sv.assigned →
      (if f < sv1.hap.length then
          (pure { sv1 with
            hap := sv1.hap.set f (some newClient)
            span := sv1.span.clearNotify f
            assigned := sv1.assigned ++ [f] } : Except Fault Server)
        else .error .outOfBounds) = .ok st →
      ∃ f, st.assigned = sv.assigned ++ [f] ∧ st.hap[f]? = some (some newClient) ∧
        st.span.noFlag f := by
    intro sv1 f ha hh
    by_cases hf : f < sv1.hap.length
    · rw [if_pos hf] at hh
      cases hh
      exact ⟨f, by rw [ha], by simp only; rw [List.getElem?_set_self hf],
        noFlag_clearNotify_self _ f⟩
    · rw [if_neg hf] at hh
      cases hh
  unfold Server.accept at h
  cases hfree : sv.span.getFreeSlot sv.hap with
  | error e =>
    rw [hfree] at h
    cases h
  | ok r =>
    rw [hfree] at h
    simp only [bind, Except.bind] at h
    by_cases hr : r = -1
    · simp only [hr, if_true] at h
      cases hs : sv.stop rnd with
      | error e =>
        rw [hs] at h
        cases h
      | ok sv1 =>
        rw [hs] at h
        have ha : sv1.assigned = sv.assigned := by
          unfold Server.stop at hs
          split at hs
          · cases hs
          · cases hs; rfl
          · cases hs; rfl
        exact fin sv1 rnd ha h
    · simp only [hr, if_false] at h
      exact fin sv r.toNat rfl h

set_option maxRecDepth 1000000 in
/-- C28, as stated, fails: on `sampleDb` a client is accepted into slot 0, asks for
notifications of `On` with `ev` 1, and the `U` command stops every client. Slot 0 then
has no connected client, yet `ev[0]` of `On` is still true. -/
theorem flag_outlives_client :
    (sampleDb.getChar ⟨0, 2, 0⟩).map (fun c => (c.iid, hasBit c.perms EV, c.ev[0]?)) =
        some (6, true, some false) ∧
      ((Server.boot sampleDb).run subscribeThenUnpair).toOption.map
          (fun st => (st.hap[0]?, (st.span.getChar ⟨0, 2, 0⟩).map (fun c => c.ev[0]?))) =
        some (some none, some (some true)) := by
  decide

/-- C28, amended: from a declared database and `maxConnections` empty slots, every
sequence of accepts (with random values below `maxConnections`), `loadUpdate` requests
on connected slots, closed connections and `U` commands runs through, and in the state
reached every slot that `poll` has never assigned has no client and no flag set; and
whenever `poll` accepts a client it clears every flag of the slot it assigns. A closed
connection leaves the flags of its slot as they are until the slot is assigned again. -/
theorem unassigned_slot_has_no_flag (mc t : Nat) (ds : List Decl) (evs : List Event)
    (hrnd : ∀ e ∈ evs, e.rndBelow mc = true) :
    (∃ st, (Server.boot (declareAll (Span.init mc t) ds)).run evs = .ok st ∧
        ∀ i, i ∉ st.assigned → (∀ k, st.hap[i]? ≠ some (some k)) ∧ st.span.noFlag i) ∧
      ∀ (sv : Server) (newClient rnd : Nat) (st : Server),
        sv.accept newClient rnd = .ok st →
        ∃ f, st.assigned = sv.assigned ++ [f] ∧ st.hap[f]? = some (some newClient) ∧
          st.span.noFlag f := by
  constructor
  · have hmc : (declareAll (Span.init mc t) ds).maxConnections = mc :=
      (declareAll_evFresh (Span.init mc t) ds (by simp [Span.init])).1
    have hb := ServerInv.boot (declareAll (Span.init mc t) ds)
      (fun i => declared_noFlag mc t ds i)
    rw [hmc] at hb
    obtain ⟨st, h1, inv⟩ := hb.run evs hrnd
    exact ⟨st, h1, fun i hi => ⟨inv.idle i hi, inv.clear i hi⟩⟩
  · exact accept_clears

set_option maxRecDepth 1000000 in
theorem unassigned_slot_has_no_flag_witness :
    (∀ e ∈ subscribeThenUnpair, e.rndBelow 8 = true) ∧
      ((Server.boot sampleDb).run subscribeThenUnpair).toOption.map (fun st => st.assigned) =
        some [0] ∧
      ∃ st, (Server.boot (declareAll (Span.init 8 0) sampleDecls)).run subscribeThenUnpair =
          .ok st ∧
        ∀ i, i ∉ st.assigned → (∀ k, st.hap[i]? ≠ some (some k)) ∧ st.span.noFlag i :=
  ⟨by decide, by decide,
    (unassigned_slot_has_no_flag 8 0 sampleDecls subscribeThenUnpair (by decide)).1⟩

/-! ## The body of a notification -/

theorem joinWith_cons_joinFrom {α : Type} (sep : List α) (rest : List (List α)) :
    ∀ x, joinWith sep (x :: rest) = x ++ joinFrom sep true rest := by
  induction rest with
  | nil => intro x; simp [joinWith, joinFrom]
  | cons y r ih =>
    intro x
    rw [joinWith, ih y]
    simp [joinFrom]

theorem joinWith_eq_joinFrom {α : Type} (sep : List α) (l : List (List α)) :
    joinWith sep l = joinFrom sep false l := by
  cases l with
  | nil => rfl
  | cons x rest =>
    rw [joinWith_cons_joinFrom]
    simp [joinFrom]

theorem joinFrom_length {α β γ : Type} (a : α) (b : β) (f : γ → List α) (g : γ → List β)
    (h : ∀ x, (f x).length = (g x).length) (l : List γ) :
    ∀ started, (joinFrom [a] started (l.map f)).length = (joinFrom [b] started (l.map g)).length := by
  induction l with
  | nil => intro _; rfl
  | cons x rest ih =>
    intro started
    simp only [List.map_cons, joinFrom, List.length_append, ih true]
    cases started <;> simp [h x]

theorem text_length (c : SpanCharacteristic) (io : PrintEnv) (flags : Nat) :
    (Piece.cellsOf (c.pieces io flags)).length = (c.text io flags).length := by
  rw [Piece.cellsOf_length _ (char_pieces_size c io flags)]
  unfold Piece.total SpanCharacteristic.text
  generalize c.pieces io flags = ps
  induction ps with
  | nil => rfl
  | cons q rest ih => simp [ih]

/-- What an object of the list is for the loop, when every object with status OK and a
value has a characteristic of the database whose array `ev` has an entry `conNum`. -/
theorem notifySel_cases (s : Span) (conNum : Nat) (o : SpanBuf)
    (hwf : o.status = .OK → o.val ≠ none →
      ∃ r c, o.characteristic = some r ∧ s.getChar r = some c ∧ conNum < c.ev.length) :
    ((o.status == .OK && o.val.isSome) = false ∧ notifySel s conNum o = none) ∨
      ∃ r c b, (o.status == .OK && o.val.isSome) = true ∧ o.characteristic = some r ∧
        s.getChar r = some c ∧ c.ev[conNum]? = some b ∧
        notifySel s conNum o = if b = true then some c else none := by
  cases hc : (o.status == .OK && o.val.isSome) with
  | false =>
    left
    exact ⟨rfl, by unfold notifySel; rw [hc]; rfl⟩
  | true =>
    right
    have h1 : o.status = .OK := by
      simp only [Bool.and_eq_true, beq_iff_eq] at hc
      exact hc.1
    have h2 : o.val ≠ none := by
      simp only [Bool.and_eq_true] at hc
      intro e
      rw [e] at hc
      exact absurd hc.2 (by decide)
    obtain ⟨r, c, hr, hg, hlt⟩ := hwf h1 h2
    refine ⟨r, c, c.ev[conNum], rfl, hr, hg, List.getElem?_eq_getElem hlt, ?_⟩
    unfold notifySel
    rw [hc, hr]
    simp only [if_true, hg, List.getElem?_eq_getElem hlt, Option.some.injEq]

/-- One round of the loop of `sprintfNotify` on a stored state. -/
theorem notifyStep_stored (s : Span) (io : PrintEnv) (pObj : List SpanBuf) (conNum : Nat)
    (cBuf : Option Nat) (mem : List Char) (i : Nat) (o : SpanBuf) (ho : pObj[i]? = some o)
    (hwf : o.status = .OK → o.val ≠ none →
      ∃ r c, o.characteristic = some r ∧ s.getChar r = some c ∧ conNum < c.ev.length)
    (a t : List (Option Char)) (ht : t.length ≤ 1) (flag : Bool)
    (hb : Room cBuf mem (a.length +
      (joinFrom [some ','] flag (((notifySel s conNum o).toList).map
        (fun c => Piece.cellsOf (c.pieces io (GET_AID + GET_NV))))).length)) :
    ∃ t', t'.length ≤ 1 ∧
      notifyStep s io pObj conNum cBuf i ⟨flag, Out.stored cBuf mem a t⟩ =
        .ok ⟨flag || (notifySel s conNum o).isSome,
          Out.stored cBuf mem
            (a ++ joinFrom [some ','] flag (((notifySel s conNum o).toList).map
              (fun c => Piece.cellsOf (c.pieces io (GET_AID + GET_NV))))) t'⟩ := by
  unfold notifyStep
  rw [ho]
  rcases notifySel_cases s conNum o hwf with ⟨h1, h2⟩ | ⟨r, c, b, h1, h2, h3, h4, h5⟩
  · simp only [h1, h2, Bool.false_eq_true, if_false, Option.toList, List.map_nil, joinFrom,
      List.append_nil, Option.isSome_none, Bool.or_false]
    exact ⟨t, ht, rfl⟩
  · simp only [h1, if_true, h2, h3, h4]
    cases b with
    | false =>
      rw [h5]
      simp only [Bool.false_eq_true, if_false, Option.toList, List.map_nil, joinFrom,
        List.append_nil, Option.isSome_none, Bool.or_false]
      exact ⟨t, ht, rfl⟩
    | true =>
      rw [h5] at hb ⊢
      simp only [if_true, Option.toList, List.map_cons, List.map_nil, joinFrom, List.append_nil,
        Option.isSome_some, Bool.or_true] at hb ⊢
      refine ⟨[some NUL], by simp, ?_⟩
      cases flag with
      | false =>
        simp only [Bool.false_eq_true, if_false] at hb ⊢
        have hcall := call_char_stored c io (GET_AID + GET_NV) (fun h => absurd h (by decide))
          cBuf mem a t ht hb
        simp only [pure, Except.pure, bind, Except.bind, hcall]
      | true =>
        simp only [if_true] at hb ⊢
        have hcomma := print_fits_stored cBuf mem a t 64 [','] (by decide)
          (by simp only [List.length_singleton]; omega)
          (Room.mono hb (by simp only [List.length_append, List.length_singleton]; omega))
        have hcall := call_char_stored c io (GET_AID + GET_NV) (fun h => absurd h (by decide))
          cBuf mem (a ++ [','].map some) [some NUL] (by simp)
          (Room.mono hb (by
            simp only [List.length_append, List.length_singleton, List.map_cons, List.map_nil,
              List.length_cons, List.length_nil]
            omega))
        simp only [pure, Except.pure, bind, Except.bind, hcomma, hcall]
        simp only [List.map_cons, List.map_nil, List.append_assoc]

theorem joinFrom_append {α : Type} (sep : List α) (l1 l2 : List (List α)) :
    ∀ started, joinFrom sep started (l1 ++ l2) =
      joinFrom sep started l1 ++ joinFrom sep (started || !l1.isEmpty) l2 := by
  induction l1 with
  | nil => intro started; simp [joinFrom]
  | cons x rest ih =>
    intro started
    show joinFrom sep started (x :: (rest ++ l2)) = _
    simp only [joinFrom]
    rw [ih true]
    simp

theorem notifyChars_cons (s : Span) (conNum : Nat) (o : SpanBuf) (rest : List SpanBuf) :
    notifyChars s conNum (o :: rest) =
      (notifySel s conNum o).toList ++ notifyChars s conNum rest := by
  unfold notifyChars
  rw [List.filterMap_cons]
  cases notifySel s conNum o <;> rfl

/-- The loop of `sprintfNotify` from round `lo` on. -/
theorem notifyLoop_stored (s : Span) (io : PrintEnv) (pObj : List SpanBuf) (conNum : Nat)
    (cBuf : Option Nat) (mem : List Char)
    (hwf : ∀ o ∈ pObj, o.status = .OK → o.val ≠ none →
      ∃ r c, o.characteristic = some r ∧ s.getChar r = some c ∧ conNum < c.ev.length)
    (d : Nat) :
    ∀ (lo : Nat) (a t : List (Option Char)) (flag : Bool), lo + d = pObj.length →
      t.length ≤ 1 →
      Room cBuf mem (a.length +
        (joinFrom [some ','] flag ((notifyChars s conNum (pObj.drop lo)).map
          (fun c => Piece.cellsOf (c.pieces io (GET_AID + GET_NV))))).length) →
      ∃ t', t'.length ≤ 1 ∧
        forLoop lo pObj.length (notifyStep s io pObj conNum cBuf)
            ⟨flag, Out.stored cBuf mem a t⟩ =
          .ok ⟨flag || !(notifyChars s conNum (pObj.drop lo)).isEmpty,
            Out.stored cBuf mem
              (a ++ joinFrom [some ','] flag ((notifyChars s conNum (pObj.drop lo)).map
                (fun c => Piece.cellsOf (c.pieces io (GET_AID + GET_NV))))) t'⟩ := by
  induction d with
  | zero =>
    intro lo a t flag hlo ht _
    rw [forLoop_done _ _ _ _ (by omega), List.drop_of_length_le (by omega)]
    exact ⟨t, ht, by simp [notifyChars, joinFrom]⟩
  | succ d ih =>
    intro lo a t flag hlo ht hb
    have hlt : lo < pObj.length := by omega
    rw [List.drop_eq_getElem_cons hlt, notifyChars_cons, List.map_append, joinFrom_append] at hb ⊢
    have hX : (((notifySel s conNum pObj[lo]).toList).map
        (fun c => Piece.cellsOf (c.pieces io (GET_AID + GET_NV)))).isEmpty =
        !(notifySel s conNum pObj[lo]).isSome := by
      cases notifySel s conNum pObj[lo] <;> rfl
    rw [hX, Bool.not_not] at hb ⊢
    obtain ⟨t1, ht1, h1⟩ := notifyStep_stored s io pObj conNum cBuf mem lo pObj[lo]
      (List.getElem?_eq_getElem hlt) (hwf _ (List.getElem_mem hlt)) a t ht flag
      (Room.mono hb (by simp only [List.length_append]; omega))
    rw [forLoop_step _ _ _ _ hlt, h1]
    simp only
    obtain ⟨t2, ht2, h2⟩ := ih (lo + 1)
      (a ++ joinFrom [some ','] flag (((notifySel s conNum pObj[lo]).toList).map
        (fun c => Piece.cellsOf (c.pieces io (GET_AID + GET_NV)))))
      t1 (flag || (notifySel s conNum pObj[lo]).isSome)
      (by omega) ht1
      (Room.mono hb (by simp only [List.length_append]; omega))
    rw [h2]
    refine ⟨t2, ht2, ?_⟩
    have e : (flag || (notifySel s conNum pObj[lo]).isSome ||
          !(notifyChars s conNum (pObj.drop (lo + 1))).isEmpty) =
        (flag || !((notifySel s conNum pObj[lo]).toList ++
          notifyChars s conNum (pObj.drop (lo + 1))).isEmpty) := by
      cases notifySel s conNum pObj[lo] <;> simp
    rw [e]
    simp only [List.append_assoc]

/-- `sprintfNotify` with or without an array: the value returned and what is stored. -/
theorem notify_stored (s : Span) (io : PrintEnv) (pObj : List SpanBuf) (conNum : Nat)
    (hwf : ∀ o ∈ pObj, o.status = .OK → o.val ≠ none →
      ∃ r c, o.characteristic = some r ∧ s.getChar r = some c ∧ conNum < c.ev.length)
    (cBuf : Option Nat) (mem : List Char)
    (hb : Room cBuf mem (notifyBody s io conNum pObj).length) :
    ∃ cells : List (Option Char), cells.length = (notifyBody s io conNum pObj).length ∧
      s.sprintfNotify io pObj pObj.length conNum cBuf mem =
        .ok (if notifyChars s conNum pObj = [] then 0 else cells.length,
          (Out.stored cBuf mem cells [some NUL]).mem) := by
  have hlen : ("\x7b\"characteristics\":[".toList.map some ++
      joinFrom [some ','] false ((notifyChars s conNum pObj).map
        (fun c => Piece.cellsOf (c.pieces io (GET_AID + GET_NV)))) ++
      "]\x7d".toList.map some).length = (notifyBody s io conNum pObj).length := by
    unfold notifyBody
    rw [joinWith_eq_joinFrom]
    simp only [List.length_append, List.length_map]
    rw [joinFrom_length (some ',') ',' _ (fun c => c.text io (GET_AID + GET_NV))
      (fun c => text_length c io (GET_AID + GET_NV)) _ false]
  refine ⟨_, hlen, ?_⟩
  rw [← hlen] at hb
  simp only [List.length_append, List.length_map] at hb
  have h2 : "]\x7d".toList.length = 2 := by decide
  have e0 : (⟨mem, 0⟩ : Out) = Out.stored cBuf mem [] [] := by
    cases cBuf with
    | none => rfl
    | some p => simp [Out.stored, overlayAt_nil_cells]
  have hhead := print_fits_stored cBuf mem [] [] 64 "\x7b\"characteristics\":[".toList
    (by decide) (by simp)
    (Room.mono hb (by simp only [List.length_nil]; omega))
  rw [← e0] at hhead
  obtain ⟨t', ht', hloop⟩ := notifyLoop_stored s io pObj conNum cBuf mem hwf pObj.length 0
    ([] ++ "\x7b\"characteristics\":[".toList.map some) [some NUL] false (by omega) (by simp)
    (Room.mono hb (by
      simp only [List.nil_append, List.length_map, List.drop_zero]
      omega))
  rw [List.drop_zero] at hloop
  have hfoot := print_fits_stored cBuf mem
    ([] ++ "\x7b\"characteristics\":[".toList.map some ++
      joinFrom [some ','] false ((notifyChars s conNum pObj).map
        (fun c => Piece.cellsOf (c.pieces io (GET_AID + GET_NV))))) t' 64
    "]\x7d".toList (by decide) (by omega)
    (Room.mono hb (by
      simp only [List.nil_append, List.length_append, List.length_map]
      omega))
  unfold Span.sprintfNotify
  simp only [pure, Except.pure, bind, Except.bind, hhead, hloop, hfoot]
  simp only [List.nil_append, Bool.false_or]
  have hflag : (!(notifyChars s conNum pObj).isEmpty) = true ↔ ¬ notifyChars s conNum pObj = [] := by
    cases notifyChars s conNum pObj <;> simp
  by_cases hn : notifyChars s conNum pObj = []
  · have hf : (!(notifyChars s conNum pObj).isEmpty) = false := by
      rw [hn]; rfl
    rw [hf, if_pos hn]
    rfl
  · rw [hflag.2 hn, if_neg hn]
    simp only [if_true]
    congr 2
    cases cBuf <;> rfl

theorem notifySel_eq_none (s : Span) (conNum : Nat) (o : SpanBuf) :
    notifySel s conNum o = none ↔
      ¬ (o.status = .OK ∧ o.val ≠ none ∧
        ∃ r c, o.characteristic = some r ∧ s.getChar r = some c ∧ c.ev[conNum]? = some true) := by
  unfold notifySel
  cases hc : (o.status == .OK && o.val.isSome) with
  | false =>
    simp only [Bool.false_eq_true, if_false, true_iff]
    rintro ⟨h1, h2, _⟩
    have : (o.status == .OK && o.val.isSome) = true := by
      rw [h1]
      cases hv : o.val with
      | none => exact absurd hv h2
      | some v => rfl
    rw [hc] at this
    cases this
  | true =>
    have h1 : o.status = .OK := by
      simp only [Bool.and_eq_true, beq_iff_eq] at hc
      exact hc.1
    have h2 : o.val ≠ none := by
      simp only [Bool.and_eq_true] at hc
      intro e
      rw [e] at hc
      exact absurd hc.2 (by decide)
    simp only [if_true]
    cases hr : o.characteristic with
    | none =>
      simp only [true_iff]
      rintro ⟨_, _, r, c, h, _⟩
      cases h
    | some r =>
      simp only
      cases hg : s.getChar r with
      | none =>
        simp only [true_iff]
        rintro ⟨_, _, r', c, h, h', _⟩
        cases h
        rw [hg] at h'
        cases h'
      | some c =>
        simp only
        by_cases he : c.ev[conNum]? = some true
        · rw [if_pos he]
          constructor
          · intro h
            cases h
          · intro h
            exact absurd ⟨h1, h2, r, c, rfl, hg, he⟩ h
        · rw [if_neg he]
          simp only [true_iff]
          rintro ⟨_, _, r', c', h, h', h''⟩
          cases h
          rw [hg] at h'
          cases h'
          exact he h''

/-- The text of a characteristic with the flags `GET_AID` and `GET_NV`: the iid, the
value if the characteristic is readable, and the aid. -/
theorem text_aid_nv (c : SpanCharacteristic) (io : PrintEnv) :
    c.text io (GET_AID + GET_NV) =
      "\x7b\"iid\":".toList ++ fmtD c.iid ++
        (if hasBit c.perms PR = true then ",\"value\":".toList ++ c.valueText io else []) ++
        ",\"aid\":".toList ++ fmtU (toU32 c.aid) ++ ['}'] := by
  have h1 : hasBit (GET_AID + GET_NV) GET_TYPE = false := by decide
  have h2 : hasBit (GET_AID + GET_NV) GET_NV = true := by decide
  have h3 : hasBit (GET_AID + GET_NV) GET_META = false := by decide
  have h4 : hasBit (GET_AID + GET_NV) GET_DESC = false := by decide
  have h5 : hasBit (GET_AID + GET_NV) GET_PERMS = false := by decide
  have h6 : hasBit (GET_AID + GET_NV) GET_AID = true := by decide
  have h7 : hasBit (GET_AID + GET_NV) GET_EV = false := by decide
  unfold SpanCharacteristic.text SpanCharacteristic.pieces
  rw [h1, h2, h3, h4, h5, h6, h7]
  cases c.desc <;> cases hasBit c.perms PR <;> simp

/-- C26: for a list of objects in which every object with status OK and a value points
to a characteristic of the database (with an entry `ev[conNum]`), `sprintfNotify` returns
in the size pass and, given room for the body and a NUL, in the fill pass. It returns 0
when no object has status OK, a value and the flag `ev[conNum]` of its characteristic
set; otherwise it returns the length of the body `{"characteristics":[...]}` that lists
those objects in order, separated by commas, each as its characteristic prints with
the flags `GET_AID` and `GET_NV`: iid, value (if readable) and aid. -/
theorem notify_returns_body_length (s : Span) (io : PrintEnv) (pObj : List SpanBuf)
    (conNum : Nat)
    (hwf : ∀ o ∈ pObj, o.status = .OK → o.val ≠ none →
      ∃ r c, o.characteristic = some r ∧ s.getChar r = some c ∧ conNum < c.ev.length) :
    (∀ mem, s.sprintfNotify io pObj pObj.length conNum none mem =
        .ok (if notifyChars s conNum pObj = [] then 0
          else (notifyBody s io conNum pObj).length, mem)) ∧
      (∀ p mem, p + (notifyBody s io conNum pObj).length + 1 ≤ mem.length →
        ∃ mem', s.sprintfNotify io pObj pObj.length conNum (some p) mem =
          .ok (if notifyChars s conNum pObj = [] then 0
            else (notifyBody s io conNum pObj).length, mem')) ∧
      (notifyChars s conNum pObj = [] ↔
        ∀ o ∈ pObj, ¬ (o.status = .OK ∧ o.val ≠ none ∧
          ∃ r c, o.characteristic = some r ∧ s.getChar r = some c ∧
            c.ev[conNum]? = some true)) ∧
      notifyBody s io conNum pObj =
        "\x7b\"characteristics\":[".toList ++
          joinWith [','] ((notifyChars s conNum pObj).map
            (fun c => "\x7b\"iid\":".toList ++ fmtD c.iid ++
              (if hasBit c.perms PR = true then ",\"value\":".toList ++ c.valueText io else []) ++
              ",\"aid\":".toList ++ fmtU (toU32 c.aid) ++ ['}'])) ++
          "]\x7d".toList := by
  refine ⟨?_, ?_, ?_, ?_⟩
  · intro mem
    obtain ⟨cells, hl, h⟩ := notify_stored s io pObj conNum hwf none mem (fun p hp => by cases hp)
    rw [h, hl]
    rfl
  · intro p mem hb
    obtain ⟨cells, hl, h⟩ := notify_stored s io pObj conNum hwf (some p) mem
      (fun q hq => by cases hq; exact hb)
    rw [h, hl]
    exact ⟨_, rfl⟩
  · unfold notifyChars
    rw [List.filterMap_eq_nil_iff]
    constructor
    · intro h o ho
      exact (notifySel_eq_none s conNum o).1 (h o ho)
    · intro h o ho
      exact (notifySel_eq_none s conNum o).2 (h o ho)
  · unfold notifyBody
    simp only [text_aid_nv]

set_option maxRecDepth 1000000 in
theorem notifyObjs_wf : ∀ o ∈ notifyObjs, o.status = .OK → o.val ≠ none →
    ∃ r c, o.characteristic = some r ∧ subscribedDb.getChar r = some c ∧ 0 < c.ev.length := by
  have key : ∀ r : CharRef,
      (subscribedDb.getChar r).map (fun c => decide (0 < c.ev.length)) = some true →
      ∃ c, subscribedDb.getChar r = some c ∧ 0 < c.ev.length := by
    intro r h
    cases hg : subscribedDb.getChar r with
    | none => rw [hg] at h; cases h
    | some c =>
      rw [hg] at h
      exact ⟨c, rfl, by simpa using h⟩
  intro o ho
  simp only [notifyObjs, List.mem_cons, List.mem_singleton, List.not_mem_nil, or_false] at ho
  rcases ho with rfl | rfl | rfl
  · intro _ _
    obtain ⟨c, h1, h2⟩ := key ⟨0, 2, 0⟩ (by decide)
    exact ⟨_, c, rfl, h1, h2⟩
  · intro _ _
    obtain ⟨c, h1, h2⟩ := key ⟨0, 2, 1⟩ (by decide)
    exact ⟨_, c, rfl, h1, h2⟩
  · intro h
    cases h

set_option maxRecDepth 1000000 in
theorem notify_returns_body_length_witness :
    notifyBody subscribedDb sampleIo 0 notifyObjs =
        ("\x7b\"characteristics\":[\x7b\"iid\":6,\"value\":false,\"aid\":1\x7d," ++
          "\x7b\"iid\":7,\"value\":50,\"aid\":1\x7d]\x7d").toList ∧
      notifyChars subscribedDb 2 notifyObjs = [] ∧
      (∀ mem, subscribedDb.sprintfNotify sampleIo notifyObjs notifyObjs.length 0 none mem =
        .ok (if notifyChars subscribedDb 0 notifyObjs = [] then 0
          else (notifyBody subscribedDb sampleIo 0 notifyObjs).length, mem)) ∧
      (subscribedDb.sprintfNotify sampleIo notifyObjs 3 0 none []).toOption = some (82, []) ∧
      (subscribedDb.sprintfNotify sampleIo notifyObjs 3 2 none []).toOption = some (0, []) :=
  ⟨by decide, by decide,
    (notify_returns_body_length subscribedDb sampleIo notifyObjs 0 notifyObjs_wf).1,
    by decide, by decide⟩

/-! ## Error returns of `loadUpdate` -/

set_option maxRecDepth 100000 in
/-- C36 fails as stated: a call that carries an accepted `ev` request together with a
value that is refused returns the error of the value and has already stored the flag.
`Brightness` (PR+PW+EV, INT) with the value text `x` and `ev` `1` returns InvalidValue,
and the sensor (PR+EV) with the value `5` and `ev` `1` returns ReadOnly; in both calls
`ev[0]` has changed from false to true. -/
theorem loadUpdate_error_after_flag :
    sampleBrightness.ev[0]? = some false ∧
      sampleBrightness.loadUpdate sampleEnv 9 (some "x") (some "1") =
        (.InvalidValue,
          { sampleBrightness with
            ev := [true, false, false, false, false, false, false, false] }) ∧
      sampleSensor.ev[0]? = some false ∧
      sampleSensor.loadUpdate sampleEnv 9 (some "5") (some "1") =
        (.ReadOnly,
          { sampleSensor with ev := [true, false, false, false, false, false, false, false] }) :=
  ⟨by decide, by decide, by decide, by decide⟩

/-- The characteristic after the `ev` part of `loadUpdate` differs from the one before
in the member `ev` at most, and there in `ev[conNum]` at most. -/
theorem loadUpdate_error_frame (c : SpanCharacteristic) (env : Env) (t : Nat)
    (val ev : Option String) (h : (c.loadUpdate env t val ev).1 ≠ .TBD) :
    (c.loadUpdate env t val ev).2 = c ∨
      ∃ b, (c.loadUpdate env t val ev).2 = { c with ev := c.ev.set env.conNum b } := by
  unfold SpanCharacteristic.loadUpdate at h ⊢
  simp only at h ⊢
  split
  · exact Or.inl rfl
  · rename_i c1 hc1
    have h1 : c1 = c ∨ ∃ b, c1 = { c with ev := c.ev.set env.conNum b } := by
      split at hc1
      · cases hc1; exact Or.inl rfl
      · split at hc1
        · cases hc1; exact Or.inr ⟨false, rfl⟩
        · split at hc1
          · split at hc1
            · cases hc1
            · cases hc1; exact Or.inr ⟨true, rfl⟩
          · cases hc1
    rw [hc1] at h
    simp only at h
    cases val with
    | none => exact h1
    | some v =>
      simp only at h ⊢
      by_cases hpw : (!hasBit c1.perms PW) = true
      · rw [if_pos hpw]
        exact h1
      · rw [if_neg hpw] at h ⊢
        rcases loadValue_status c1 env t v with ⟨e, _⟩ | ⟨_, e⟩
        · exact absurd e h
        · rw [e]
          exact h1

/-- The `ev` array after `loadUpdate` with an accepted `ev` text; `0` and `false` need no
permission. -/
theorem loadUpdate_ev_stored (c : SpanCharacteristic) (env : Env) (t : Nat)
    (val : Option String) (e : String) (b : Bool)
    (he : ((e = "1" ∨ e = "true") ∧ hasBit c.perms EV = true ∧ b = true) ∨
      ((e = "0" ∨ e = "false") ∧ b = false)) :
    (c.loadUpdate env t val (some e)).2.ev = c.ev.set env.conNum b := by
  have key : ∀ c1 : SpanCharacteristic, c1.ev = c.ev.set env.conNum b →
      (match val with
        | none => (StatusCode.OK, c1)
        | some v => if !hasBit c1.perms PW then (StatusCode.ReadOnly, c1)
            else c1.loadValue env t v).2.ev = c.ev.set env.conNum b := by
    intro c1 h1
    cases val with
    | none => exact h1
    | some v =>
      simp only
      split
      · exact h1
      · rw [(loadValue_keeps c1 env t v).2.2.2.1]
        exact h1
  unfold SpanCharacteristic.loadUpdate
  rcases he with ⟨he, hperm, rfl⟩ | ⟨he, rfl⟩
  · have h1 : (e == "0" || e == "false") = false := by
      rcases he with rfl | rfl <;> decide
    have h2 : (e == "1" || e == "true") = true := by
      rcases he with rfl | rfl <;> decide
    simp only [h1, h2, hperm, Bool.not_true, Bool.false_eq_true, if_false, if_true]
    exact key _ rfl
  · have h1 : (e == "0" || e == "false") = true := by
      rcases he with rfl | rfl <;> decide
    simp only [h1, if_true]
    exact key _ rfl

/-- C36 (amended): when `loadUpdate` returns InvalidValue, NotifyNotAllowed or ReadOnly,
the characteristic is as it was before the call in every member but `ev` (so value,
newValue, isUpdated and updateTime are unchanged), and every flag other than
`ev[conNum]` is unchanged. The characteristic is unchanged altogether when the call
carried no `ev` request or no value, and when the status is NotifyNotAllowed. When the
call carried an accepted `ev` request (`1` or `true` with the EV permission, `0` or
`false`) together with a value, `ev[conNum]` holds the requested flag. -/
theorem loadUpdate_error_keeps (c : SpanCharacteristic) (env : Env) (t : Nat)
    (val ev : Option String)
    (h : (c.loadUpdate env t val ev).1 = .InvalidValue ∨
      (c.loadUpdate env t val ev).1 = .NotifyNotAllowed ∨
      (c.loadUpdate env t val ev).1 = .ReadOnly) :
    { (c.loadUpdate env t val ev).2 with ev := c.ev } = c ∧
      (∀ k, k ≠ env.conNum → (c.loadUpdate env t val ev).2.ev[k]? = c.ev[k]?) ∧
      (c.loadUpdate env t val ev).2.ev.length = c.ev.length ∧
      (ev = none → (c.loadUpdate env t val ev).2 = c) ∧
      (val = none → (c.loadUpdate env t val ev).2 = c) ∧
      ((c.loadUpdate env t val ev).1 = .NotifyNotAllowed →
        (c.loadUpdate env t val ev).2 = c) ∧
      (∀ (e v : String) (b : Bool), ev = some e → val = some v →
        (((e = "1" ∨ e = "true") ∧ hasBit c.perms EV = true ∧ b = true) ∨
          ((e = "0" ∨ e = "false") ∧ b = false)) →
        (c.loadUpdate env t val ev).2.ev = c.ev.set env.conNum b) := by
  have hne : (c.loadUpdate env t val ev).1 ≠ .TBD := by
    rcases h with e | e | e <;> rw [e] <;> decide
  have hfr := loadUpdate_error_frame c env t val ev hne
  refine ⟨?_, ?_, ?_, ?_, ?_, ?_, ?_⟩
  · rcases hfr with e | ⟨b, e⟩ <;> rw [e]
  · intro k hk
    rcases hfr with e | ⟨b, e⟩ <;> rw [e]
    simp only
    rw [List.getElem?_set_ne (Ne.symm hk)]
  · rcases hfr with e | ⟨b, e⟩ <;> rw [e]
    simp
  · intro he
    subst he
    unfold SpanCharacteristic.loadUpdate at h ⊢
    simp only at h ⊢
    cases val with
    | none => rfl
    | some v =>
      simp only at h ⊢
      by_cases hpw : (!hasBit c.perms PW) = true
      · rw [if_pos hpw]
      · rw [if_neg hpw] at h ⊢
        rcases loadValue_status c env t v with ⟨e, _⟩ | ⟨_, e⟩
        · rw [e] at h
          rcases h with h | h | h <;> cases h
        · exact e
  · intro hv
    subst hv
    unfold SpanCharacteristic.loadUpdate at h ⊢
    simp only at h ⊢
    split
    · rfl
    · rename_i c1 hc1
      rw [hc1] at h
      simp only at h
      rcases h with h | h | h <;> cases h
  · intro hs
    unfold SpanCharacteristic.loadUpdate at hs ⊢
    simp only at hs ⊢
    split
    · rfl
    · rename_i c1 hc1
      rw [hc1] at hs
      simp only at hs
      cases val with
      | none => cases hs
      | some v =>
        simp only at hs
        by_cases hpw : (!hasBit c1.perms PW) = true
        · rw [if_pos hpw] at hs
          cases hs
        · rw [if_neg hpw] at hs
          rcases loadValue_status c1 env t v with ⟨e, _⟩ | ⟨e, _⟩ <;> rw [e] at hs <;> cases hs
  · intro e v b he hv hb
    subst he
    subst hv
    exact loadUpdate_ev_stored c env t (some v) e b hb

set_option maxRecDepth 100000 in
theorem loadUpdate_error_keeps_witness :
    (sampleBrightness.loadUpdate sampleEnv 9 (some "x") (some "1")).1 = .InvalidValue ∧
      { (sampleBrightness.loadUpdate sampleEnv 9 (some "x") (some "1")).2 with
        ev := sampleBrightness.ev } = sampleBrightness ∧
      (sampleBrightness.loadUpdate sampleEnv 9 (some "x") (some "1")).2.ev =
        sampleBrightness.ev.set sampleEnv.conNum true :=
  ⟨by decide,
    (loadUpdate_error_keeps sampleBrightness sampleEnv 9 (some "x") (some "1")
      (Or.inl (by decide))).1,
    (loadUpdate_error_keeps sampleBrightness sampleEnv 9 (some "x") (some "1")
      (Or.inl (by decide))).2.2.2.2.2.2 "1" "x" true rfl rfl
      (Or.inl ⟨Or.inl rfl, by decide, rfl⟩)⟩

/-! ## Requests that do not parse -/

/-- C38: when `updateCharacteristics` returns 0, the parsing loops have ended the call:
the database is what it was (every characteristic with its value, newValue, isUpdated
and ev flags, and `snapTime`), and no `update()` has been called. -/
theorem failed_parse_keeps_database (s : Span) (env : Env) (buf : List Char)
    (pObj : List SpanBuf) (r : UpdateResult)
    (h : s.updateCharacteristics env buf pObj = .ok r) (h0 : r.ret = 0) :
    r.span = s ∧ r.calls = [] ∧
      parseRequest s.TimedWrites env.millis buf pObj = .ok (.bad r.pObj) := by
  unfold Span.updateCharacteristics at h
  split at h
  · cases h
  · rename_i p hp
    cases h
    exact ⟨rfl, rfl, hp⟩
  · simp only at h
    split at h
    · cases h
    · split at h
      · cases h
      · cases h
        cases h0

set_option maxRecDepth 100000 in
theorem failed_parse_keeps_database_witness :
    sampleDb.updateCharacteristics sampleEnv writeThenIidOnly [blankObj, blankObj] =
        .ok writeThenIidOnlyResult ∧
      writeThenIidOnlyResult.ret = 0 ∧
      writeThenIidOnlyResult.span = sampleDb ∧ writeThenIidOnlyResult.calls = [] ∧
      parseRequest sampleDb.TimedWrites sampleEnv.millis writeThenIidOnly
        [blankObj, blankObj] = .ok (.bad writeThenIidOnlyResult.pObj) :=
  ⟨by rfl, rfl,
    failed_parse_keeps_database sampleDb sampleEnv writeThenIidOnly [blankObj, blankObj]
      writeThenIidOnlyResult (by rfl) rfl⟩

/-! ## Requests whose objects are all complete -/

set_option maxRecDepth 100000 in
/-- The scope of the verdict 1: the body `threeComplete` starts with the
`characteristics` tag and each of its three objects has aid, iid and a value, `ev`, or
both; the parser accepts it (three objects, as `threeCompleteParsed`), but the third
object matches no characteristic and PASS 2 reads through its `NULL` pointer in the
inner loop started for the first object: the call does not return. -/
theorem complete_objects_fault :
    parseRequest sampleDb.TimedWrites sampleEnv.millis threeComplete
        [blankObj, blankObj, blankObj] = .ok (.good threeCompleteParsed) ∧
      sampleDb.find 9 1 = none ∧
      sampleDb.updateCharacteristics sampleEnv threeComplete [blankObj, blankObj, blankObj] =
        .error .nullCharacteristic :=
  ⟨by rfl, by decide, by rfl⟩

/-! ## `countCharacteristics` and the parser -/

theorem beginsWith_length (s t : List Char) (h : beginsWith s t = true) :
    t.length ≤ s.length := by
  induction s generalizing t with
  | nil =>
    cases t with
    | nil => simp
    | cons d ds => simp [beginsWith] at h
  | cons c cs ih =>
    cases t with
    | nil => simp
    | cons d ds =>
      simp only [beginsWith, Bool.and_eq_true] at h
      have := ih ds h.2
      simp only [List.length_cons]
      omega

theorem strstr_some (hay needle b : List Char) (h : strstr hay needle = some b) :
    b.length ≤ hay.length ∧ beginsWith b needle = true := by
  induction hay with
  | nil =>
    unfold strstr at h
    split at h
    · rename_i hn
      cases h
      cases needle with
      | nil => exact ⟨Nat.le_refl _, rfl⟩
      | cons d ds => simp at hn
    · cases h
  | cons c cs ih =>
    unfold strstr at h
    split at h
    · rename_i hb
      cases h
      exact ⟨Nat.le_refl _, hb⟩
    · obtain ⟨h1, h2⟩ := ih h
      exact ⟨by simp only [List.length_cons]; omega, h2⟩

/-- The loop of `countCharacteristics` ends before the fuel does: with more rounds than
`buf` has characters the count does not depend on the fuel. -/
theorem countLoop_fuel (tag : List Char) (ht : 0 < tag.length) (fuel1 : Nat) :
    ∀ (fuel2 : Nat) (buf : List Char) (nObj : Nat), buf.length < fuel1 → buf.length < fuel2 →
      countLoop tag fuel1 buf nObj = countLoop tag fuel2 buf nObj := by
  induction fuel1 with
  | zero => intro fuel2 buf nObj h1; omega
  | succ f1 ih =>
    intro fuel2 buf nObj h1 h2
    cases fuel2 with
    | zero => omega
    | succ f2 =>
      unfold countLoop
      cases hs : strstr buf tag with
      | none => rfl
      | some b =>
        simp only
        obtain ⟨hb1, hb2⟩ := strstr_some buf tag b hs
        have hb3 := beginsWith_length b tag hb2
        have hd : (b.drop tag.length).length < b.length := by
          rw [List.length_drop]
          omega
        exact ih f2 _ _ (by omega) (by omega)

set_option maxRecDepth 100000 in
/-- C35 fails on the code: `countCharacteristics` counts the places where the five
characters `"aid"` stand, while the parser takes the quote for a delimiter and stores
each property before it knows whether the object is complete. The body
`writeThenIidOnly` has the count 1, and the parser writes `pObj[1].iid`: with an array of
one object that is a store beyond the array, with two the call returns 0 having written
the second. The body `unquotedAid` has the count 1 as well, and the parser finds two
objects in it: with an array of one object it stores beyond the array, with two it
returns 1 with two objects parsed. -/
theorem count_below_written_index :
    Span.countCharacteristics writeThenIidOnly = 1 ∧
      sampleDb.updateCharacteristics sampleEnv writeThenIidOnly [blankObj] =
        .error .outOfBounds ∧
      (sampleDb.updateCharacteristics sampleEnv writeThenIidOnly
          [blankObj, blankObj]).toOption.map (fun r => (r.ret, r.pObj[1]?)) =
        some (0, some { blankObj with iid := 5 }) ∧
      Span.countCharacteristics unquotedAid = 1 ∧
      sampleDb.updateCharacteristics sampleEnv unquotedAid [blankObj] = .error .outOfBounds ∧
      (sampleDb.updateCharacteristics sampleEnv unquotedAid
          [blankObj, blankObj]).toOption.map (fun r => (r.ret, r.nObj)) = some (1, 2) :=
  ⟨by decide, by rfl, by decide, by decide, by rfl, by decide⟩

/-! ## Objects that PASS 1 did not stage -/

set_option maxRecDepth 100000 in
/-- C37 fails on the code: in the body `writeThenSubscribe` the second object carries
`ev` only, for `Brightness`; PASS 1 gives it OK and stages nothing. In `writeThenInvalid`
the second object carries a value that `loadUpdate` refuses with InvalidValue. In both
requests PASS 2, working on the staged `On` of the same service, assigns
`value=newValue` to `Brightness` as well: its value changes from 50 to its never-set
`newValue` 43690. -/
theorem unstaged_object_changes_value :
    (sampleDb.getChar ⟨0, 2, 1⟩).map (fun c => (c.iid, c.value, c.newValue)) =
        some (7, 50, 43690) ∧
      (∃ ps, parseRequest sampleDb.TimedWrites sampleEnv.millis writeThenSubscribe
          [blankObj, blankObj] = .ok (.good ps) ∧ ps.twFail = false ∧
        ps.pObj.map (fun o => (o.aid, o.iid, o.val, o.ev)) =
          [(1, 6, some "1", none), (1, 7, none, some "true")] ∧
        (pass1 sampleEnv ps.twFail ps.nObj
          { pObj := ps.pObj, span := { sampleDb with snapTime := sampleEnv.millis },
            calls := [] }).toOption.map (fun st => st.pObj.map (fun o => o.status)) =
          some [.TBD, .OK]) ∧
      (sampleDb.updateCharacteristics sampleEnv writeThenSubscribe
          [blankObj, blankObj]).toOption.map
          (fun r => (r.ret, r.calls, (r.span.getChar ⟨0, 2, 1⟩).map (fun c => c.value))) =
        some (1, [(⟨0, 2⟩, true)], some 43690) ∧
      (∃ ps, parseRequest sampleDb.TimedWrites sampleEnv.millis writeThenInvalid
          [blankObj, blankObj] = .ok (.good ps) ∧ ps.twFail = false ∧
        (pass1 sampleEnv ps.twFail ps.nObj
          { pObj := ps.pObj, span := { sampleDb with snapTime := sampleEnv.millis },
            calls := [] }).toOption.map (fun st => st.pObj.map (fun o => o.status)) =
          some [.TBD, .InvalidValue]) ∧
      (sampleDb.updateCharacteristics sampleEnv writeThenInvalid
          [blankObj, blankObj]).toOption.map
          (fun r => (r.ret, r.calls, (r.span.getChar ⟨0, 2, 1⟩).map (fun c => c.value))) =
        some (1, [(⟨0, 2⟩, true)], some 43690) :=
  ⟨by decide, ⟨_, rfl, rfl, by decide, by decide⟩, by decide, ⟨_, rfl, rfl, by decide⟩,
    by decide⟩

/-! ## The flag `isUpdated` -/

/-- `loadUpdate` sets `isUpdated` only when it returns TBD. -/
theorem loadUpdate_isUpdated (c : SpanCharacteristic) (env : Env) (t : Nat)
    (val ev : Option String) (h : (c.loadUpdate env t val ev).1 ≠ .TBD) :
    (c.loadUpdate env t val ev).2.isUpdated = c.isUpdated := by
  rcases loadUpdate_error_frame c env t val ev h with e | ⟨b, e⟩ <;> rw [e]

theorem settle_isUpdated (c : SpanCharacteristic) (status : StatusCode) :
    (c.settle status).isUpdated = false := by
  unfold SpanCharacteristic.settle
  split <;> rfl

/-- When no characteristic has `isUpdated` set before PASS 1, a characteristic that has
it set after the pass is the one of an object that the pass left with status TBD. -/
theorem pass1_isUpdated (env : Env) (twFail : Bool) (n : Nat) (st0 st1 : UState)
    (h : pass1 env twFail n st0 = .ok st1)
    (hclean : ∀ r c, st0.span.getChar r = some c → c.isUpdated = false) :
    ∀ r c, st1.span.getChar r = some c → c.isUpdated = true →
      ∃ k, k < n ∧ ∃ o, st1.pObj[k]? = some o ∧ o.status = .TBD ∧
        o.characteristic = some r := by
  unfold pass1 at h
  apply forLoop_invariant_ok
    (fun i st => ∀ r c, st.span.getChar r = some c → c.isUpdated = true →
      ∃ k, k < i ∧ ∃ o, st.pObj[k]? = some o ∧ o.status = .TBD ∧ o.characteristic = some r)
    0 n _ st0 st1 (Nat.zero_le _) ?_ ?_ h
  · intro r c hc hu
    rw [hclean r c hc] at hu
    cases hu
  · intro i st st' _ _ hst hstep
    -- an object before `i` is not touched by the store to `pObj[i]`
    have keep : ∀ (x : SpanBuf) (r : CharRef),
        (∃ k, k < i ∧ ∃ o, st.pObj[k]? = some o ∧ o.status = .TBD ∧
          o.characteristic = some r) →
        ∃ k, k < i + 1 ∧ ∃ o, (st.pObj.set i x)[k]? = some o ∧ o.status = .TBD ∧
          o.characteristic = some r := by
      rintro x r ⟨k, hk, o, ho, h1, h2⟩
      refine ⟨k, by omega, o, ?_, h1, h2⟩
      rw [List.getElem?_set_ne (by omega)]
      exact ho
    unfold pass1Step at hstep
    cases ho : st.pObj[i]? with
    | none => simp [ho] at hstep
    | some o =>
      have hil : i < st.pObj.length := (List.getElem?_eq_some.1 ho).1
      simp only [ho] at hstep
      split at hstep
      · cases hstep
        intro r c hc hu
        exact keep _ r (hst r c hc hu)
      · split at hstep
        · cases hstep
          intro r c hc hu
          exact keep _ r (hst r c hc hu)
        · rename_i r0 hfind
          split at hstep
          · cases hstep
          · rename_i c0 hc0
            cases hstep
            intro r c hc hu
            simp only at hc ⊢
            rw [getChar_modifyChar] at hc
            by_cases hr : r = r0
            · subst hr
              rw [if_pos rfl, hc0] at hc
              simp only [Option.map_some', Option.some.injEq] at hc
              subst hc
              by_cases hs : (c0.loadUpdate env st.span.snapTime o.val o.ev).1 = .TBD
              · refine ⟨i, by omega,
                  { o with
                    characteristic := some r
                    status := (c0.loadUpdate env st.span.snapTime o.val o.ev).1 }, ?_, hs, rfl⟩
                rw [List.getElem?_set_self hil]
              · rw [loadUpdate_isUpdated c0 env _ _ _ hs] at hu
                exact keep _ r (hst r c0 hc0 hu)
            · rw [if_neg hr] at hc
              exact keep _ r (hst r c hc hu)

/-- C39: for a parsed PUT /characteristics request in which every object resolves to a
characteristic, on a database in which no characteristic has `isUpdated` set, the call
returns 1 and no characteristic has `isUpdated` set afterwards, whatever the `update()`
methods return: a characteristic that PASS 1 staged belongs to an object with status
TBD, and PASS 2 calls the service of that object and clears the flag in its inner
loop, on success and on failure alike. -/
theorem isUpdated_cleared (s : Span) (env : Env) (buf : List Char) (pObj : List SpanBuf)
    (ps : PState) (hp : parseRequest s.TimedWrites env.millis buf pObj = .ok (.good ps))
    (hres : ∀ k, k < ps.nObj → ∀ o, ps.pObj[k]? = some o →
      s.find (toU32 o.aid) o.iid ≠ none)
    (hclean : ∀ r c, s.getChar r = some c → c.isUpdated = false) :
    ∃ r, s.updateCharacteristics env buf pObj = .ok r ∧ r.ret = 1 ∧
      ∀ ref c, r.span.getChar ref = some c → c.isUpdated = false := by
  obtain ⟨hlen, hn⟩ := parseRequest_good _ _ _ _ _ hp
  obtain ⟨st1, h1, hinv⟩ := pass1_total env ps.twFail ps.pObj { s with snapTime := env.millis }
    ps.nObj hn
  have hn1 : ps.nObj ≤ st1.pObj.length := by rw [hinv.len]; exact hn
  have hret : ∀ st2, pass2 env ps.nObj st1 = .ok st2 →
      s.updateCharacteristics env buf pObj =
        .ok { ret := 1, nObj := ps.nObj, pObj := st2.pObj, span := st2.span,
              calls := st2.calls } := by
    intro st2 h2
    unfold Span.updateCharacteristics
    simp only [hp, h1, h2]
  by_cases htw : ps.twFail = true
  · have hnone : ∀ k, k < ps.nObj → ∀ o, st1.pObj[k]? = some o → o.status ≠ .TBD := by
      intro k hk o ho
      have hkl : k < ps.pObj.length := by omega
      obtain ⟨o', ho', -, -, -, -, hif⟩ := hinv.done k hk _ (List.getElem?_eq_getElem hkl)
      rw [if_pos htw] at hif
      rw [ho] at ho'
      cases ho'
      rw [hif.1]
      simp
    refine ⟨_, hret st1 (pass2_no_tbd env ps.nObj st1 hn1 hnone), rfl, ?_⟩
    intro ref c hc
    simp only at hc
    rw [hinv.frozen htw] at hc
    exact hclean ref c hc
  · have hchar : ∀ k, k < ps.nObj → ∀ o, st1.pObj[k]? = some o →
        o.characteristic ≠ none := by
      intro k hk o ho
      have hkl : k < ps.pObj.length := by omega
      obtain ⟨o', ho', -, -, -, -, hif⟩ := hinv.done k hk _ (List.getElem?_eq_getElem hkl)
      rw [if_neg htw] at hif
      rw [ho] at ho'
      cases ho'
      rw [hif.1, @find_congr s { s with snapTime := env.millis } rfl]
      exact hres k hk _ (List.getElem?_eq_getElem hkl)
    obtain ⟨st2, h2, hinv2, hspan⟩ := pass2_total_span env ps.nObj st1 hn1 hinv.calls hchar
    have hstaged := pass1_isUpdated env ps.twFail ps.nObj _ st1 h1
      (fun r c hc => hclean r c hc)
    refine ⟨_, hret st2 h2, rfl, ?_⟩
    intro ref c hc
    simp only at hc
    -- a characteristic that PASS 1 left with the flag set has been settled
    have hset : ∀ c1, st1.span.getChar ref = some c1 → c1.isUpdated = true →
        c.isUpdated = false := by
      intro c1 hc1 hu
      obtain ⟨k, hk, o1, ho1, ht, href⟩ := hstaged ref c1 hc1 hu
      have hcalled := hinv2.seen k hk o1 ho1 ht ref.service (by simp [SpanBuf.service, href])
      obtain ⟨⟨v, b⟩, hvb, hv⟩ := List.mem_map.1 hcalled
      simp only at hv
      subst hv
      obtain ⟨hfin, -⟩ := hspan.staged k o1 ref b hk ho1 ht href hvb
      rw [hc1, hc] at hfin
      simp only [Option.map_some', Option.some.injEq] at hfin
      rw [hfin]
      exact settle_isUpdated _ _
    have hsame : st2.span.getChar ref = st1.span.getChar ref → c.isUpdated = false := by
      intro e
      rw [hc] at e
      cases hu : c.isUpdated with
      | false => rfl
      | true => rw [← hu]; exact hset c e.symm hu
    by_cases hcall : ref.service ∈ st2.calls.map Prod.fst
    · obtain ⟨⟨v, b⟩, hvb, hv⟩ := List.mem_map.1 hcall
      simp only at hv
      subst hv
      rcases hspan.settled ref b hvb with e | e
      · exact hsame e
      · rw [hc] at e
        cases hg : st1.span.getChar ref with
        | none => rw [hg] at e; cases e
        | some c1 =>
          rw [hg] at e
          simp only [Option.map_some', Option.some.injEq] at e
          rw [e]
          exact settle_isUpdated _ _
    · exact hsame (hspan.untouched ref hcall)

/-! ## The same request twice -/

theorem parseProps_noPid (tw tw' : List (Nat × Nat)) (now now' nObj : Nat)
    (toks : List (List Char)) (okay : Nat) (twFail : Bool) (pObj : List SpanBuf)
    (hno : "pid".toList ∉ toks) :
    parseProps tw now nObj toks okay twFail pObj =
      parseProps tw' now' nObj toks okay twFail pObj := by
  induction toks, okay, twFail, pObj using parseProps.induct tw now nObj with
  | case1 okay twFail pObj => simp only [parseProps]
  | case2 => simp only [parseProps]
  | case3 t2 t3 rest okay twFail pObj h1 f hw =>
    rw [parseProps, parseProps]
    simp only [h1, if_true, if_false, Bool.false_eq_true, hw]
  | case4 t2 t3 rest okay twFail pObj h1 q hw ih =>
    rw [parseProps, parseProps]
    simp only [h1, if_true, if_false, Bool.false_eq_true, hw]
    exact ih (fun h => hno (List.mem_cons_of_mem _ (List.mem_cons_of_mem _ h)))
  | case5 t2 t3 rest okay twFail pObj h1 h2 f hw =>
    rw [parseProps, parseProps]
    simp only [h1, h2, if_true, if_false, Bool.false_eq_true, hw]
  | case6 t2 t3 rest okay twFail pObj h1 h2 q hw ih =>
    rw [parseProps, parseProps]
    simp only [h1, h2, if_true, if_false, Bool.false_eq_true, hw]
    exact ih (fun h => hno (List.mem_cons_of_mem _ (List.mem_cons_of_mem _ h)))
  | case7 t2 t3 rest okay twFail pObj h1 h2 h3 f hw =>
    rw [parseProps, parseProps]
    simp only [h1, h2, h3, if_true, if_false, Bool.false_eq_true, hw]
  | case8 t2 t3 rest okay twFail pObj h1 h2 h3 q hw ih =>
    rw [parseProps, parseProps]
    simp only [h1, h2, h3, if_true, if_false, Bool.false_eq_true, hw]
    exact ih (fun h => hno (List.mem_cons_of_mem _ (List.mem_cons_of_mem _ h)))
  | case9 t2 t3 rest okay twFail pObj h1 h2 h3 h4 f hw =>
    rw [parseProps, parseProps]
    simp only [h1, h2, h3, h4, if_true, if_false, Bool.false_eq_true, hw]
  | case10 t2 t3 rest okay twFail pObj h1 h2 h3 h4 q hw ih =>
    rw [parseProps, parseProps]
    simp only [h1, h2, h3, h4, if_true, if_false, Bool.false_eq_true, hw]
    exact ih (fun h => hno (List.mem_cons_of_mem _ (List.mem_cons_of_mem _ h)))
  | case11 t2 t3 rest okay twFail pObj h1 h2 h3 h4 h5 ih =>
    exfalso
    apply hno
    have e : t2 = "pid".toList := by simpa using h5
    rw [e]
    simp
  | case12 t2 t3 rest okay twFail pObj h1 h2 h3 h4 h5 =>
    rw [parseProps, parseProps]
    simp only [h1, h2, h3, h4, h5, if_false, Bool.false_eq_true]

theorem parseProps_noPid_twFail (tw : List (Nat × Nat)) (now nObj : Nat)
    (toks : List (List Char)) (okay : Nat) (twFail : Bool) (pObj : List SpanBuf) (okay' : Nat)
    (twFail' : Bool) (p : List SpanBuf) (hno : "pid".toList ∉ toks)
    (h : parseProps tw now nObj toks okay twFail pObj = .ok (.good (okay', twFail', p))) :
    twFail' = twFail := by
  induction toks, okay, twFail, pObj using parseProps.induct tw now nObj with
  | case1 okay twFail pObj =>
    simp only [parseProps, Except.ok.injEq, Parsed.good.injEq, Prod.mk.injEq] at h
    exact h.2.1.symm
  | case2 => simp [parseProps] at h
  | case3 t2 t3 rest okay twFail pObj h1 f hw =>
    unfold parseProps at h
    simp only [h1, if_true, hw] at h
    cases h
  | case4 t2 t3 rest okay twFail pObj h1 q hw ih =>
    unfold parseProps at h
    simp only [h1, if_true, hw] at h
    exact ih (fun h => hno (List.mem_cons_of_mem _ (List.mem_cons_of_mem _ h))) h
  | case5 t2 t3 rest okay twFail pObj h1 h2 f hw =>
    unfold parseProps at h
    simp only [h1, h2, if_true, hw] at h
    cases h
  | case6 t2 t3 rest okay twFail pObj h1 h2 q hw ih =>
    unfold parseProps at h
    simp only [h1, h2, if_true, hw] at h
    exact ih (fun h => hno (List.mem_cons_of_mem _ (List.mem_cons_of_mem _ h))) h
  | case7 t2 t3 rest okay twFail pObj h1 h2 h3 f hw =>
    unfold parseProps at h
    simp only [h1, h2, h3, if_true, hw] at h
    cases h
  | case8 t2 t3 rest okay twFail pObj h1 h2 h3 q hw ih =>
    unfold parseProps at h
    simp only [h1, h2, h3, if_true, hw] at h
    exact ih (fun h => hno (List.mem_cons_of_mem _ (List.mem_cons_of_mem _ h))) h
  | case9 t2 t3 rest okay twFail pObj h1 h2 h3 h4 f hw =>
    unfold parseProps at h
    simp only [h1, h2, h3, h4, if_true, hw] at h
    cases h
  | case10 t2 t3 rest okay twFail pObj h1 h2 h3 h4 q hw ih =>
    unfold parseProps at h
    simp only [h1, h2, h3, h4, if_true, hw] at h
    exact ih (fun h => hno (List.mem_cons_of_mem _ (List.mem_cons_of_mem _ h))) h
  | case11 t2 t3 rest okay twFail pObj h1 h2 h3 h4 h5 ih =>
    exfalso
    apply hno
    have e : t2 = "pid".toList := by simpa using h5
    rw [e]
    simp
  | case12 t2 t3 rest okay twFail pObj h1 h2 h3 h4 h5 =>
    unfold parseProps at h
    simp only [h1, h2, h3, h4, h5] at h
    cases h

theorem parseSegment_noPid (tw tw' : List (Nat × Nat)) (now now' : Nat) (st : PState)
    (seg : List Char) (hno : "pid".toList ∉ tokens propDelims seg) :
    parseSegment tw now st seg = parseSegment tw' now' st seg ∧
      ∀ st', parseSegment tw now st seg = .ok (.good st') → st'.twFail = st.twFail := by
  unfold parseSegment
  cases ht : tokens propDelims seg with
  | nil =>
    refine ⟨rfl, ?_⟩
    intro st' h
    cases h
    rfl
  | cons t2 rest =>
    rw [ht] at hno
    simp only
    by_cases hc : (!st.cFound) = true
    · rw [if_pos hc, if_pos hc]
      refine ⟨rfl, ?_⟩
      intro st' h
      split at h
      · cases h
        rfl
      · cases h
    · rw [if_neg hc, if_neg hc]
      rw [parseProps_noPid tw tw' now now' st.nObj (t2 :: rest) 0 st.twFail st.pObj hno]
      refine ⟨rfl, ?_⟩
      intro st' h
      cases hpp : parseProps tw' now' st.nObj (t2 :: rest) 0 st.twFail st.pObj with
      | error f => rw [hpp] at h; cases h
      | ok res =>
        cases res with
        | bad p => rw [hpp] at h; cases h
        | good v =>
          obtain ⟨okay, twFail, p⟩ := v
          rw [hpp] at h
          simp only at h
          split at h
          · cases h
            simp only
            exact parseProps_noPid_twFail tw' now' st.nObj (t2 :: rest) 0 st.twFail st.pObj
              okay twFail p hno hpp
          · cases h

theorem parseSegments_noPid (tw tw' : List (Nat × Nat)) (now now' : Nat)
    (segs : List (List Char)) (st : PState)
    (hno : ∀ seg ∈ segs, "pid".toList ∉ tokens propDelims seg) :
    parseSegments tw now segs st = parseSegments tw' now' segs st ∧
      ∀ st', parseSegments tw now segs st = .ok (.good st') → st'.twFail = st.twFail := by
  induction segs generalizing st with
  | nil =>
    refine ⟨rfl, ?_⟩
    intro st' h
    simp only [parseSegments, Except.ok.injEq, Parsed.good.injEq] at h
    rw [h]
  | cons seg rest ih =>
    obtain ⟨e1, e2⟩ := parseSegment_noPid tw tw' now now' st seg (hno seg (by simp))
    unfold parseSegments
    rw [← e1]
    cases hs : parseSegment tw now st seg with
    | error f => exact ⟨rfl, fun st' h => by cases h⟩
    | ok res =>
      cases res with
      | bad p => exact ⟨rfl, fun st' h => by cases h⟩
      | good st1 =>
        simp only
        obtain ⟨i1, i2⟩ := ih st1 (fun s hs => hno s (by simp [hs]))
        refine ⟨i1, ?_⟩
        intro st' h
        rw [i2 st' h, e2 st1 hs]

/-- A body without a `pid` token parses alike whatever the timed writes and the clock
are, and leaves `twFail` false. -/
theorem parseRequest_noPid (tw tw' : List (Nat × Nat)) (now now' : Nat) (buf : List Char)
    (pObj : List SpanBuf) (hpid : hasPid buf = false) :
    parseRequest tw now buf pObj = parseRequest tw' now' buf pObj ∧
      ∀ ps, parseRequest tw now buf pObj = .ok (.good ps) → ps.twFail = false := by
  have hno : ∀ seg ∈ tokens ['{'] buf, "pid".toList ∉ tokens propDelims seg := by
    intro seg hseg hmem
    have : hasPid buf = true := by
      unfold hasPid
      rw [List.any_eq_true]
      exact ⟨seg, hseg, by simpa using hmem⟩
    rw [hpid] at this
    cases this
  unfold parseRequest
  exact parseSegments_noPid tw tw' now now' _ _ hno

theorem UVal.store_again1 (v x : Nat) : UVal.store 1 (UVal.store 1 v x) x = UVal.store 1 v x := by
  simp only [UVal.store, Nat.reducePow]
  omega

theorem UVal.store_again4 (v x : Nat) : UVal.store 4 (UVal.store 4 v x) x = UVal.store 4 v x := by
  simp only [UVal.store, Nat.reducePow]
  omega

theorem UVal.store_again8 (v x : Nat) : UVal.store 8 (UVal.store 8 v x) x = UVal.store 8 v x := by
  simp only [UVal.store, Nat.reducePow]
  omega

/-- A value that `loadValue` has staged is staged again by a second call with the same
text, on a characteristic of the same format that holds the staged `newValue`: the
second store writes the bytes that are there. -/
theorem loadValue_again (c c1 : SpanCharacteristic) (env env2 : Env) (t t2 : Nat) (v : String)
    (hst : (c.loadValue env t v).1 = .TBD) (hf : c1.format = c.format)
    (hnv : c1.newValue = (c.loadValue env t v).2.newValue)
    (hlg : env2.scanLg = env.scanLg) :
    (c1.loadValue env2 t2 v).1 = .TBD ∧ (c1.loadValue env2 t2 v).2.newValue = c1.newValue := by
  unfold SpanCharacteristic.loadValue SpanCharacteristic.staged at hst hnv ⊢
  rw [hf, hlg]
  cases hfm : c.format <;> simp only [hfm] at hst hnv ⊢
  · -- BOOL
    by_cases h0 : (v == "0" || v == "false") = true
    · rw [if_pos h0] at hnv ⊢
      simp only at hnv ⊢
      refine ⟨by first | rfl | trivial, ?_⟩
      rw [hnv]
      exact UVal.store_again1 _ _
    · rw [if_neg h0] at hst hnv ⊢
      by_cases h1 : (v == "1" || v == "true") = true
      · rw [if_pos h1] at hnv ⊢
        simp only at hnv ⊢
        refine ⟨by first | rfl | trivial, ?_⟩
        rw [hnv]
        exact UVal.store_again1 _ _
      · rw [if_neg h1] at hst
        cases hst
  · cases hs : scanU v.toList
    · simp only [hs] at hnv ⊢
      exact ⟨by first | rfl | trivial, by first | rfl | trivial⟩
    · simp only [hs] at hst
      cases hst
    · rename_i x
      simp only [hs] at hnv ⊢
      refine ⟨by first | rfl | trivial, ?_⟩
      rw [hnv]
      exact UVal.store_again4 _ _
  · cases hs : scanU v.toList
    · simp only [hs] at hnv ⊢
      exact ⟨by first | rfl | trivial, by first | rfl | trivial⟩
    · simp only [hs] at hst
      cases hst
    · rename_i x
      simp only [hs] at hnv ⊢
      refine ⟨by first | rfl | trivial, ?_⟩
      rw [hnv]
      exact UVal.store_again4 _ _
  · cases hs : scanLLU v.toList
    · simp only [hs] at hnv ⊢
      exact ⟨by first | rfl | trivial, by first | rfl | trivial⟩
    · simp only [hs] at hst
      cases hst
    · rename_i x
      simp only [hs] at hnv ⊢
      refine ⟨by first | rfl | trivial, ?_⟩
      rw [hnv]
      exact UVal.store_again8 _ _
  · cases hs : scanLLU v.toList
    · simp only [hs] at hnv ⊢
      exact ⟨by first | rfl | trivial, by first | rfl | trivial⟩
    · simp only [hs] at hst
      cases hst
    · rename_i x
      simp only [hs] at hnv ⊢
      refine ⟨by first | rfl | trivial, ?_⟩
      rw [hnv]
      exact UVal.store_again8 _ _
  · cases hs : scanD v.toList
    · simp only [hs] at hnv ⊢
      exact ⟨by first | rfl | trivial, by first | rfl | trivial⟩
    · simp only [hs] at hst
      cases hst
    · rename_i x
      simp only [hs] at hnv ⊢
      refine ⟨by first | rfl | trivial, ?_⟩
      rw [hnv]
      exact UVal.store_again4 _ _
  · cases hs : env.scanLg v.toList
    · simp only [hs] at hnv ⊢
      exact ⟨by first | rfl | trivial, by first | rfl | trivial⟩
    · simp only [hs] at hst
      cases hst
    · rename_i x
      simp only [hs] at hnv ⊢
      refine ⟨by first | rfl | trivial, ?_⟩
      rw [hnv]
      exact UVal.store_again8 _ _
  · exact ⟨by first | rfl | trivial, by first | rfl | trivial⟩

/-- The part of `loadUpdate` after the `ev` request, a second time. -/
theorem valuePart_again (ca c1a : SpanCharacteristic) (env env2 : Env) (t t2 : Nat)
    (val : Option String)
    (hst : (match val with
      | none => (StatusCode.OK, ca)
      | some v => if !hasBit ca.perms PW then (StatusCode.ReadOnly, ca)
          else ca.loadValue env t v).1 = .TBD)
    (hp : c1a.perms = ca.perms) (hf : c1a.format = ca.format)
    (hnv : c1a.newValue = (match val with
      | none => (StatusCode.OK, ca)
      | some v => if !hasBit ca.perms PW then (StatusCode.ReadOnly, ca)
          else ca.loadValue env t v).2.newValue)
    (hlg : env2.scanLg = env.scanLg) :
    (match val with
      | none => (StatusCode.OK, c1a)
      | some v => if !hasBit c1a.perms PW then (StatusCode.ReadOnly, c1a)
          else c1a.loadValue env2 t2 v).1 = .TBD ∧
      (match val with
        | none => (StatusCode.OK, c1a)
        | some v => if !hasBit c1a.perms PW then (StatusCode.ReadOnly, c1a)
            else c1a.loadValue env2 t2 v).2.newValue = c1a.newValue := by
  cases val with
  | none => cases hst
  | some v =>
    simp only at hst hnv ⊢
    rw [hp]
    by_cases hpw : (!hasBit ca.perms PW) = true
    · rw [if_pos hpw] at hst
      cases hst
    · rw [if_neg hpw] at hst hnv ⊢
      exact loadValue_again ca c1a env env2 t t2 v hst hf hnv hlg

/-- A request that `loadUpdate` has staged is staged again by a second call with the
same texts, on a characteristic with the same permissions and format that holds the
staged `newValue`, and the second call leaves that `newValue` as it is. -/
theorem loadUpdate_again (c c1 : SpanCharacteristic) (env env2 : Env) (t t2 : Nat)
    (val ev : Option String) (hst : (c.loadUpdate env t val ev).1 = .TBD)
    (hp : c1.perms = c.perms) (hf : c1.format = c.format)
    (hnv : c1.newValue = (c.loadUpdate env t val ev).2.newValue)
    (hlg : env2.scanLg = env.scanLg) :
    (c1.loadUpdate env2 t2 val ev).1 = .TBD ∧
      (c1.loadUpdate env2 t2 val ev).2.newValue = c1.newValue := by
  unfold SpanCharacteristic.loadUpdate at hst hnv ⊢
  cases ev with
  | none =>
    simp only at hst hnv ⊢
    exact valuePart_again c c1 env env2 t t2 val hst hp hf hnv hlg
  | some e =>
    simp only at hst hnv ⊢
    by_cases h0 : (e == "0" || e == "false") = true
    · rw [if_pos h0] at hst hnv ⊢
      simp only at hst hnv ⊢
      exact valuePart_again { c with ev := c.ev.set env.conNum false }
        { c1 with ev := c1.ev.set env2.conNum false } env env2 t t2 val hst hp hf hnv hlg
    · rw [if_neg h0] at hst hnv ⊢
      by_cases h1 : (e == "1" || e == "true") = true
      · rw [if_pos h1] at hst hnv ⊢
        by_cases h2 : (!hasBit c.perms EV) = true
        · rw [if_pos h2] at hst
          cases hst
        · have h2' : ¬ (!hasBit c1.perms EV) = true := by rw [hp]; exact h2
          rw [if_neg h2] at hst hnv
          rw [if_neg h2']
          simp only at hst hnv ⊢
          exact valuePart_again { c with ev := c.ev.set env.conNum true }
            { c1 with ev := c1.ev.set env2.conNum true } env env2 t t2 val hst hp hf hnv hlg
      · rw [if_neg h1] at hst
        cases hst

/-- A loop of one round. -/
theorem forLoop_one {σ : Type} (body : Nat → σ → Except Fault σ) (init : σ) :
    forLoop 0 1 body init = body 0 init := by
  rw [forLoop_step 0 1 body init (by omega)]
  cases h : body 0 init with
  | error f => rfl
  | ok st =>
    simp only
    exact forLoop_done 1 1 body st (Nat.le_refl _)

/-- A request of one object that PASS 1 stages and whose service accepts the update: the
call returns 1 with the status OK, one call of `update()`, and the characteristic
committed. -/
theorem single_put (s : Span) (env : Env) (buf : List Char) (pObj : List SpanBuf)
    (ps : PState) (o : SpanBuf) (ref : CharRef) (c : SpanCharacteristic)
    (hp : parseRequest s.TimedWrites env.millis buf pObj = .ok (.good ps))
    (hn : ps.nObj = 1) (htw : ps.twFail = false) (ho : ps.pObj[0]? = some o)
    (hfind : s.find (toU32 o.aid) o.iid = some ref) (hc : s.getChar ref = some c)
    (hst : (c.loadUpdate env env.millis o.val o.ev).1 = .TBD)
    (hu : ∀ sp, env.update ref.service sp = true) :
    s.updateCharacteristics env buf pObj =
      .ok { ret := 1, nObj := 1,
            pObj := ps.pObj.set 0 { o with characteristic := some ref, status := .OK },
            span := (({ s with snapTime := env.millis } : Span).modifyChar ref
              (fun x => (x.loadUpdate env env.millis o.val o.ev).2)).modifyChar ref
                (fun x => x.settle .OK),
            calls := [(ref.service, true)] } := by
  have hlen : 0 < ps.pObj.length := (List.getElem?_eq_some.1 ho).1
  have hfind1 : ({ s with snapTime := env.millis } : Span).find (toU32 o.aid) o.iid =
      some ref := by
    rw [@find_congr s { s with snapTime := env.millis } rfl]
    exact hfind
  have hc1 : ({ s with snapTime := env.millis } : Span).getChar ref = some c := hc
  have h1 : pass1 env ps.twFail ps.nObj
      { pObj := ps.pObj, span := { s with snapTime := env.millis }, calls := [] } =
      .ok { pObj := ps.pObj.set 0 { o with characteristic := some ref, status := .TBD },
            span := ({ s with snapTime := env.millis } : Span).modifyChar ref
              (fun x => (x.loadUpdate env env.millis o.val o.ev).2),
            calls := [] } := by
    rw [hn, htw]
    unfold pass1
    rw [forLoop_one]
    unfold pass1Step
    simp only [ho, hfind1, hc1, hst, Bool.false_eq_true, if_false]
  have h2 : pass2 env ps.nObj
      { pObj := ps.pObj.set 0 { o with characteristic := some ref, status := .TBD },
        span := ({ s with snapTime := env.millis } : Span).modifyChar ref
          (fun x => (x.loadUpdate env env.millis o.val o.ev).2),
        calls := [] } =
      .ok { pObj := ps.pObj.set 0 { o with characteristic := some ref, status := .OK },
            span := (({ s with snapTime := env.millis } : Span).modifyChar ref
              (fun x => (x.loadUpdate env env.millis o.val o.ev).2)).modifyChar ref
                (fun x => x.settle .OK),
            calls := [(ref.service, true)] } := by
    rw [hn]
    unfold pass2
    rw [forLoop_one]
    unfold pass2Step
    simp only [List.getElem?_set_self hlen, if_true, hu, List.nil_append]
    rw [forLoop_one]
    unfold pass2Inner
    simp only [List.getElem?_set_self hlen, if_true, statusOf, List.set_set]
  unfold Span.updateCharacteristics
  simp only [hp, h1, h2]
  rw [hn]

theorem settle_keeps (c : SpanCharacteristic) (status : StatusCode) :
    (c.settle status).iid = c.iid ∧ (c.settle status).perms = c.perms ∧
      (c.settle status).format = c.format := by
  unfold SpanCharacteristic.settle
  split <;> exact ⟨rfl, rfl, rfl⟩

/-- C32: a PUT /characteristics request of one object, without a `pid`, whose (aid, iid)
resolves to a characteristic for which `loadUpdate` stages the object (status TBD), is
applied twice in succession, the second time to the database that the first call left,
with `update()` of the service returning true in both calls (the clock and the
connection may differ, the C library is the same). Both calls return 1 with the object
at status OK and one call of `update()`, and the value of the characteristic after the
second call equals its value after the first, which is the staged `newValue`. -/
theorem repeated_put_same_value (s : Span) (env1 env2 : Env) (buf : List Char)
    (pObj : List SpanBuf) (ps : PState) (o : SpanBuf) (ref : CharRef) (c : SpanCharacteristic)
    (hpid : hasPid buf = false)
    (hp : parseRequest s.TimedWrites env1.millis buf pObj = .ok (.good ps))
    (hn : ps.nObj = 1) (ho : ps.pObj[0]? = some o)
    (hfind : s.find (toU32 o.aid) o.iid = some ref) (hc : s.getChar ref = some c)
    (hst : (c.loadUpdate env1 env1.millis o.val o.ev).1 = .TBD)
    (hu1 : ∀ sp, env1.update ref.service sp = true)
    (hu2 : ∀ sp, env2.update ref.service sp = true)
    (hlg : env2.scanLg = env1.scanLg) :
    ∃ r1 r2 c1 c2,
      s.updateCharacteristics env1 buf pObj = .ok r1 ∧
      r1.span.updateCharacteristics env2 buf pObj = .ok r2 ∧
      r1.ret = 1 ∧ r2.ret = 1 ∧
      r1.pObj[0]? = some { o with characteristic := some ref, status := .OK } ∧
      r2.pObj[0]? = some { o with characteristic := some ref, status := .OK } ∧
      r1.calls = [(ref.service, true)] ∧ r2.calls = [(ref.service, true)] ∧
      r1.span.getChar ref = some c1 ∧ r2.span.getChar ref = some c2 ∧
      c1.value = (c.loadUpdate env1 env1.millis o.val o.ev).2.newValue ∧
      c2.value = c1.value := by
  obtain ⟨e1, e2⟩ := parseRequest_noPid s.TimedWrites s.TimedWrites env1.millis env2.millis buf
    pObj hpid
  have htw := e2 ps hp
  have hlen : 0 < ps.pObj.length := (List.getElem?_eq_some.1 ho).1
  have hr1 := single_put s env1 buf pObj ps o ref c hp hn htw ho hfind hc hst hu1
  -- the database `sA` and the characteristic `cA` after the first call
  obtain ⟨sA, hsA⟩ : ∃ x : Span, x =
      (({ s with snapTime := env1.millis } : Span).modifyChar ref
        (fun x => (x.loadUpdate env1 env1.millis o.val o.ev).2)).modifyChar ref
          (fun x => x.settle .OK) := ⟨_, rfl⟩
  obtain ⟨cA, hcA⟩ : ∃ x : SpanCharacteristic,
      x = (c.loadUpdate env1 env1.millis o.val o.ev).2.settle .OK := ⟨_, rfl⟩
  rw [← hsA] at hr1
  have hp2 : parseRequest sA.TimedWrites env2.millis buf pObj = .ok (.good ps) := by
    rw [hsA]
    show parseRequest s.TimedWrites env2.millis buf pObj = .ok (.good ps)
    rw [← e1]
    exact hp
  have hshape : sA.shape = s.shape := by
    rw [hsA, shape_modifyChar _ _ _ (fun x => (settle_keeps x .OK).1),
      shape_modifyChar _ _ _ (fun x => (loadUpdate_keeps x env1 env1.millis o.val o.ev).1)]
    rfl
  have hfind2 := (find_congr hshape (toU32 o.aid) o.iid).trans hfind
  have hc2 : sA.getChar ref = some cA := by
    rw [hsA, hcA, getChar_modifyChar, if_pos rfl, getChar_modifyChar, if_pos rfl]
    have hc1 : ({ s with snapTime := env1.millis } : Span).getChar ref = some c := hc
    rw [hc1]
    rfl
  obtain ⟨k1, -, -, k4, k5⟩ := loadUpdate_keeps c env1 env1.millis o.val o.ev
  obtain ⟨-, g2, g3⟩ := settle_keeps (c.loadUpdate env1 env1.millis o.val o.ev).2 .OK
  have hnv1 : cA.newValue = (c.loadUpdate env1 env1.millis o.val o.ev).2.newValue := by
    rw [hcA]
    simp [SpanCharacteristic.settle]
  have hval1 : cA.value = (c.loadUpdate env1 env1.millis o.val o.ev).2.newValue := by
    rw [hcA]
    simp [SpanCharacteristic.settle]
  obtain ⟨hst2, hnv2⟩ := loadUpdate_again c cA env1 env2 env1.millis env2.millis
    o.val o.ev hst (by rw [hcA]; exact g2.trans k4) (by rw [hcA]; exact g3.trans k5) hnv1 hlg
  have hr2 := single_put sA env2 buf pObj ps o ref cA hp2 hn htw ho hfind2 hc2 hst2 hu2
  have hc3 : ((({ sA with snapTime := env2.millis } : Span).modifyChar ref
        (fun x => (x.loadUpdate env2 env2.millis o.val o.ev).2)).modifyChar ref
          (fun x => x.settle .OK)).getChar ref =
      some ((cA.loadUpdate env2 env2.millis o.val o.ev).2.settle .OK) := by
    rw [getChar_modifyChar, if_pos rfl, getChar_modifyChar, if_pos rfl]
    have hc2' : ({ sA with snapTime := env2.millis } : Span).getChar ref = some cA := hc2
    rw [hc2']
    rfl
  have hval2 : ((cA.loadUpdate env2 env2.millis o.val o.ev).2.settle .OK).value = cA.value := by
    rw [hval1, ← hnv1, ← hnv2]
    simp [SpanCharacteristic.settle]
  exact ⟨{ ret := 1, nObj := 1,
            pObj := ps.pObj.set 0 { o with characteristic := some ref, status := .OK },
            span := sA, calls := [(ref.service, true)] },
    { ret := 1, nObj := 1,
      pObj := ps.pObj.set 0 { o with characteristic := some ref, status := .OK },
      span := (({ sA with snapTime := env2.millis } : Span).modifyChar ref
        (fun x => (x.loadUpdate env2 env2.millis o.val o.ev).2)).modifyChar ref
          (fun x => x.settle .OK),
      calls := [(ref.service, true)] },
    cA, (cA.loadUpdate env2 env2.millis o.val o.ev).2.settle .OK,
    hr1, hr2, rfl, rfl, List.getElem?_set_self hlen, List.getElem?_set_self hlen, rfl, rfl,
    hc2, hc3, hval1, hval2⟩

set_option maxRecDepth 1000000 in
theorem repeated_put_same_value_witness :
    (sampleDb.getChar ⟨0, 2, 1⟩).map (fun x => x.value) = some 50 ∧
      ((sampleDb.updateCharacteristics sampleEnv oneWrite [blankObj]).toOption.map
        (fun r => (r.span.getChar ⟨0, 2, 1⟩).map (fun x => x.value))) = some (some 75) ∧
      ∃ r1 r2 c1 c2,
        sampleDb.updateCharacteristics sampleEnv oneWrite [blankObj] = .ok r1 ∧
        r1.span.updateCharacteristics laterEnv oneWrite [blankObj] = .ok r2 ∧
        r1.ret = 1 ∧ r2.ret = 1 ∧
        r1.pObj[0]? = some
          { aid := 1, iid := 7, val := some "75", ev := none, status := .OK,
            characteristic := some ⟨0, 2, 1⟩ } ∧
        r2.pObj[0]? = some
          { aid := 1, iid := 7, val := some "75", ev := none, status := .OK,
            characteristic := some ⟨0, 2, 1⟩ } ∧
        r1.calls = [(⟨0, 2⟩, true)] ∧ r2.calls = [(⟨0, 2⟩, true)] ∧
        r1.span.getChar ⟨0, 2, 1⟩ = some c1 ∧ r2.span.getChar ⟨0, 2, 1⟩ = some c2 ∧
        c1.value = (sampleBrightness.loadUpdate sampleEnv sampleEnv.millis (some "75")
          none).2.newValue ∧
        c2.value = c1.value :=
  ⟨by decide, by decide,
    repeated_put_same_value sampleDb sampleEnv laterEnv oneWrite [blankObj] oneWriteParsed
      { aid := 1, iid := 7, val := some "75", ev := none, status := .OK,
        characteristic := none } ⟨0, 2, 1⟩ sampleBrightness (by decide) (by rfl) rfl rfl
      (by decide) (by decide) (by decide) (fun _ => rfl) (fun _ => rfl) rfl⟩

/-! ## `setVal` -/

theorem setVal_members (c : SpanCharacteristic) (v : Int) (t : Nat)
    (castT : Int → Int) (dblT : Nat → Int)
    (hf : c.format ≠ .FLOAT ∧ c.format ≠ .STRING)
    (hv : -2147483648 ≤ v ∧ v < 2147483648) :
    (c.setVal v t).getVal castT dblT = castT (c.format.convert v) ∧
      (c.setVal v t).getNewVal castT dblT = castT (c.format.convert v) := by
  unfold SpanCharacteristic.getVal SpanCharacteristic.getNewVal SpanCharacteristic.getValue
    SpanCharacteristic.setVal FORMAT.convert
  cases hfm : c.format
  · -- BOOL
    simp only [hfm, UVal.getBOOL_setBOOL]
    by_cases h0 : v = 0
    · simp [h0]
    · simp [h0]
  · -- UINT8
    simp only [hfm]
    have e1 : ((UVal.getUINT8 (UVal.setUINT8 c.value (v % 256).toNat) : Nat) : Int) = v % 256 := by
      simp only [UVal.getUINT8, UVal.setUINT8, UVal.store, Nat.reducePow]
      omega
    have e2 : ((UVal.getUINT8 (UVal.setINT c.newValue v) : Nat) : Int) = v % 256 := by
      simp only [UVal.getUINT8, UVal.setINT, UVal.store, Nat.reducePow, toU32]
      omega
    rw [e1, e2]
    exact ⟨rfl, rfl⟩
  · -- UINT16
    simp only [hfm]
    have e1 : ∀ nv, ((UVal.getUINT16 (UVal.setUINT16 nv (v % 65536).toNat) : Nat) : Int) =
        v % 65536 := by
      intro nv
      simp only [UVal.getUINT16, UVal.setUINT16, UVal.store, Nat.reducePow]
      omega
    rw [e1, e1]
    exact ⟨rfl, rfl⟩
  · -- UINT32
    simp only [hfm]
    have e1 : ∀ nv, ((UVal.getUINT32 (UVal.setUINT32 nv (toU32 v)) : Nat) : Int) =
        v % 4294967296 := by
      intro nv
      simp only [UVal.getUINT32, UVal.setUINT32, UVal.store, Nat.reducePow, toU32]
      omega
    rw [e1, e1]
    exact ⟨rfl, rfl⟩
  · -- UINT64
    simp only [hfm]
    have e1 : ∀ nv,
        ((UVal.getUINT64 (UVal.setUINT64 nv (v % 18446744073709551616).toNat) : Nat) : Int) =
          v % 18446744073709551616 := by
      intro nv
      simp only [UVal.getUINT64, UVal.setUINT64, UVal.store, Nat.reducePow]
      omega
    rw [e1, e1]
    exact ⟨rfl, rfl⟩
  · -- INT
    simp only [hfm, UVal.getINT_setINT _ _ hv]
    exact ⟨by first | rfl | trivial, by first | rfl | trivial⟩
  · exact absurd hfm hf.1
  · exact absurd hfm hf.2

/-- C33: for a characteristic of format BOOL, INT, UINT8, UINT16, UINT32 or UINT64 and
an `int` `v`, after `setVal(v)` both `getVal<T>()` and `getNewVal<T>()` return `v`
converted to the type of the format (and from there to `T`), `updateTime` is
`homeSpan.snapTime`, the other characteristics are what they were, and `Notifications`
is the queue of before with one entry appended at its end: this characteristic, status
OK, and the (non-null) dummy text. -/
theorem setVal_stores_and_queues (s : Span) (r : CharRef) (c : SpanCharacteristic) (v : Int)
    (castT : Int → Int) (dblT : Nat → Int) (hc : s.getChar r = some c)
    (hf : c.format ≠ .FLOAT ∧ c.format ≠ .STRING)
    (hv : -2147483648 ≤ v ∧ v < 2147483648) :
    ∃ c', (s.setVal r v).getChar r = some c' ∧
      c'.getVal castT dblT = castT (c.format.convert v) ∧
      c'.getNewVal castT dblT = castT (c.format.convert v) ∧
      c'.format = c.format ∧ c'.updateTime = s.snapTime ∧
      (s.setVal r v).Notifications =
        s.Notifications ++
          [{ aid := 0, iid := 0, val := some "", ev := none, status := .OK,
             characteristic := some r }] ∧
      (∀ r', r' ≠ r → (s.setVal r v).getChar r' = s.getChar r') := by
  have hget : ∀ r', (s.setVal r v).getChar r' =
      if r' = r then (s.getChar r').map (fun x => x.setVal v s.snapTime)
      else s.getChar r' := by
    intro r'
    rw [← getChar_modifyChar]
    rfl
  refine ⟨c.setVal v s.snapTime, ?_, (setVal_members c v s.snapTime castT dblT hf hv).1,
    (setVal_members c v s.snapTime castT dblT hf hv).2, ?_, rfl, rfl, ?_⟩
  · rw [hget, if_pos rfl, hc]
    rfl
  · unfold SpanCharacteristic.setVal
    cases hfm : c.format <;> simp only [hfm]
  · intro r' hr
    rw [hget, if_neg hr]

set_option maxRecDepth 1000000 in
theorem setVal_stores_and_queues_witness :
    (sampleLevel.setVal 300 5).value = 3735928364 ∧
      (sampleLevel.setVal 300 5).newValue = 300 ∧
      (sampleLevel.setVal 300 5).getVal castInt (fun _ => 0) = 44 ∧
      (sampleLevel.setVal 300 5).getNewVal castInt (fun _ => 0) = 44 ∧
      ∃ c', (sampleDb.setVal ⟨0, 2, 1⟩ (-3)).getChar ⟨0, 2, 1⟩ = some c' ∧
        c'.getVal castInt (fun _ => 0) = castInt (sampleBrightness.format.convert (-3)) ∧
        c'.getNewVal castInt (fun _ => 0) = castInt (sampleBrightness.format.convert (-3)) ∧
        c'.format = sampleBrightness.format ∧ c'.updateTime = sampleDb.snapTime ∧
        (sampleDb.setVal ⟨0, 2, 1⟩ (-3)).Notifications =
          sampleDb.Notifications ++
            [{ aid := 0, iid := 0, val := some "", ev := none, status := .OK,
               characteristic := some ⟨0, 2, 1⟩ }] ∧
        (∀ r', r' ≠ ⟨0, 2, 1⟩ → (sampleDb.setVal ⟨0, 2, 1⟩ (-3)).getChar r' =
          sampleDb.getChar r') :=
  ⟨by decide, by decide, by decide, by decide,
    setVal_stores_and_queues sampleDb ⟨0, 2, 1⟩ sampleBrightness (-3) castInt (fun _ => 0)
      (by decide) (by decide) (by decide)⟩

/-! ## A slot is reset when it is assigned -/

/-- The slots and the database of `Device.accept` are those of `Server.accept`. -/
theorem Device.accept_server (d : Device) (newClient rnd : Nat) :
    (d.accept newClient rnd).map (fun x => x.server) = d.server.accept newClient rnd := by
  unfold Device.accept Server.accept
  cases hfree : d.server.span.getFreeSlot d.server.hap with
  | error e => rfl
  | ok free =>
    simp only [bind, Except.bind]
    by_cases h1 : free = -1
    · simp only [h1, if_true]
      cases hs : d.server.stop rnd with
      | error e => rfl
      | ok sv1 =>
        simp only [pure, Except.pure]
        by_cases hl : rnd < sv1.hap.length
        · simp only [hl, if_true]
          rfl
        · simp only [hl, if_false]
          rfl
    · simp only [h1, if_false, pure, Except.pure]
      by_cases hl : free.toNat < d.server.hap.length
      · simp only [hl, if_true]
        rfl
      · simp only [hl, if_false]
        rfl

/-- C31: with an entry of `hap` and of `cPair` for each of the `maxConnections` slots and
a value below `maxConnections` from `randombytes_uniform`, the accept block of `poll`
returns and assigns a slot `f` to the new client: a slot that was free, or the slot
`rnd` when every slot was connected. Afterwards slot `f` holds the new client, its
`cPair` is `NULL`, no characteristic has the flag `ev[f]` set (it is false wherever the
array has an entry `f`), and `pairStatus` is M1. -/
theorem accept_resets_slot (d : Device) (newClient rnd : Nat)
    (hlen : d.server.hap.length = d.server.span.maxConnections)
    (hcp : d.cPair.length = d.server.hap.length)
    (hrnd : rnd < d.server.span.maxConnections) :
    ∃ d' f, d.accept newClient rnd = .ok d' ∧ f < d.server.span.maxConnections ∧
      d'.server.assigned = d.server.assigned ++ [f] ∧
      (d.server.hap[f]? = some none ∨
        (f = rnd ∧ ∀ j, j < d.server.span.maxConnections →
          ∃ k, d.server.hap[j]? = some (some k))) ∧
      d'.server.hap[f]? = some (some newClient) ∧
      d'.cPair[f]? = some none ∧
      d'.server.span.noFlag f ∧
      (∀ r c, d'.server.span.getChar r = some c → f < c.ev.length →
        c.ev[f]? = some false) ∧
      d'.pairStatus = .M1 := by
  have hev : ∀ (sp : Span) (f : Nat) (r : CharRef) (c : SpanCharacteristic),
      (sp.clearNotify f).getChar r = some c → f < c.ev.length → c.ev[f]? = some false := by
    intro sp f r c h hf
    rw [getChar_clearNotify] at h
    cases hc0 : sp.getChar r with
    | none => rw [hc0] at h; cases h
    | some c0 =>
      rw [hc0] at h
      simp only [Option.map_some', Option.some.injEq] at h
      subst h
      simp only [SpanCharacteristic.clearEv, List.length_set] at hf ⊢
      rw [List.getElem?_set_self hf]
  obtain ⟨free, hr, h⟩ := getFreeSlot_spec d.server.span d.server.hap (by omega)
  unfold Device.accept
  rcases h with ⟨h1, hall⟩ | ⟨m, h1, h2, h3, _⟩
  · obtain ⟨sv1, e, g1, g2, g3, g4⟩ := stop_spec d.server rnd (by omega)
    have hlt : rnd < sv1.hap.length := by omega
    simp only [hr, h1, e, bind, Except.bind, pure, Except.pure, if_true, hlt]
    refine ⟨_, rnd, rfl, hrnd, by rw [g2], Or.inr ⟨rfl, hall⟩, ?_, ?_, ?_, ?_, rfl⟩
    · simp only
      rw [List.getElem?_set_self hlt]
    · simp only
      rw [List.getElem?_set_self (by omega)]
    · exact noFlag_clearNotify_self _ rnd
    · intro r c hc hf
      exact hev _ rnd r c hc hf
  · have hne : ¬ ((m : Int) = -1) := by omega
    have hlt : m < d.server.hap.length := by omega
    simp only [hr, h1, hne, bind, Except.bind, pure, Except.pure, if_false, Int.toNat_ofNat,
      hlt, if_true]
    refine ⟨_, m, rfl, h2, rfl, Or.inl h3, ?_, ?_, ?_, ?_, rfl⟩
    · simp only
      rw [List.getElem?_set_self hlt]
    · simp only
      rw [List.getElem?_set_self (by omega)]
    · exact noFlag_clearNotify_self _ m
    · intro r c hc hf
      exact hev _ m r c hc hf

set_option maxRecDepth 1000000 in
theorem accept_resets_slot_witness :
    (busyDevice.server.span.getChar ⟨0, 2, 0⟩).map (fun c => c.ev[2]?) = some (some true) ∧
      busyDevice.cPair[2]? = some (some 7) ∧
      (busyDevice.accept 9 2).toOption.map
          (fun x => (x.server.hap[2]?, x.cPair[2]?, x.pairStatus,
            (x.server.span.getChar ⟨0, 2, 0⟩).map (fun c => c.ev[2]?))) =
        some (some (some 9), some none, .M1, some (some false)) ∧
      ∃ d' f, busyDevice.accept 9 2 = .ok d' ∧ f < busyDevice.server.span.maxConnections ∧
        d'.server.assigned = busyDevice.server.assigned ++ [f] ∧
        (busyDevice.server.hap[f]? = some none ∨
          (f = 2 ∧ ∀ j, j < busyDevice.server.span.maxConnections →
            ∃ k, busyDevice.server.hap[j]? = some (some k))) ∧
        d'.server.hap[f]? = some (some 9) ∧
        d'.cPair[f]? = some none ∧
        d'.server.span.noFlag f ∧
        (∀ r c, d'.server.span.getChar r = some c → f < c.ev.length →
          c.ev[f]? = some false) ∧
        d'.pairStatus = .M1 :=
  ⟨by decide, by decide, by decide,
    accept_resets_slot busyDevice 9 2 (by decide) (by decide) (by decide)⟩

/-! ## The flag `isUpdated` on the sample -/

theorem twoWrites_resolve (k : Nat) (hk : k < twoWritesParsed.nObj) (o : SpanBuf)
    (ho : twoWritesParsed.pObj[k]? = some o) : sampleDb.find (toU32 o.aid) o.iid ≠ none := by
  have hk2 : k < 2 := hk
  interval_cases k
  · simp only [twoWritesParsed, List.getElem?_cons_zero, Option.some.injEq] at ho
    subst ho
    decide
  · simp only [twoWritesParsed, List.getElem?_cons_succ, List.getElem?_cons_zero,
      Option.some.injEq] at ho
    subst ho
    decide

set_option maxRecDepth 1000000 in
theorem sampleDb_clean (r : CharRef) (c : SpanCharacteristic)
    (h : sampleDb.getChar r = some c) : c.isUpdated = false := by
  obtain ⟨acc, sv, ha, hs, hc⟩ := getChar_some _ r c h
  have hall : ∀ acc ∈ sampleDb.Accessories, ∀ sv ∈ acc.Services, ∀ c ∈ sv.Characteristics,
      c.isUpdated = false := by decide
  exact hall acc (List.getElem?_mem ha) sv (List.getElem?_mem hs) c (List.getElem?_mem hc)

set_option maxRecDepth 1000000 in
theorem isUpdated_cleared_witness :
    (pass1 refusingEnv twoWritesParsed.twFail twoWritesParsed.nObj
        { pObj := twoWritesParsed.pObj,
          span := { sampleDb with snapTime := refusingEnv.millis }, calls := [] }).toOption.map
        (fun st => ((st.span.getChar ⟨0, 2, 0⟩).map (fun c => c.isUpdated),
          (st.span.getChar ⟨0, 2, 1⟩).map (fun c => c.isUpdated))) =
        some (some true, some true) ∧
      (sampleDb.updateCharacteristics refusingEnv twoWrites [blankObj, blankObj]).toOption.map
        (fun r => r.pObj.map (fun o => o.status)) = some [.Unable, .Unable] ∧
      ∃ r, sampleDb.updateCharacteristics refusingEnv twoWrites [blankObj, blankObj] = .ok r ∧
        r.ret = 1 ∧ ∀ ref c, r.span.getChar ref = some c → c.isUpdated = false :=
  ⟨by decide, by decide,
    isUpdated_cleared sampleDb refusingEnv twoWrites [blankObj, blankObj] twoWritesParsed
      (by rfl) twoWrites_resolve sampleDb_clean⟩

/-! ## What the parser accepts -/

theorem okayBits_aid (a i v e : Bool) : okayBits a i v e ||| 1 = okayBits true i v e := by
  cases a <;> cases i <;> cases v <;> cases e <;> rfl

theorem okayBits_iid (a i v e : Bool) : okayBits a i v e ||| 2 = okayBits a true v e := by
  cases a <;> cases i <;> cases v <;> cases e <;> rfl

theorem okayBits_value (a i v e : Bool) : okayBits a i v e ||| 4 = okayBits a i true e := by
  cases a <;> cases i <;> cases v <;> cases e <;> rfl

theorem okayBits_ev (a i v e : Bool) : okayBits a i v e ||| 8 = okayBits a i v true := by
  cases a <;> cases i <;> cases v <;> cases e <;> rfl

theorem okayBits_accepted (a i v e : Bool) :
    (okayBits a i v e == 7 || okayBits a i v e == 11 || okayBits a i v e == 15) =
      (a && i && (v || e)) := by
  cases a <;> cases i <;> cases v <;> cases e <;> rfl

theorem writeObj_room (pObj : List SpanBuf) (i : Nat) (h : i < pObj.length)
    {f : SpanBuf → SpanBuf} : writeObj pObj i f = .ok (pObj.set i (f pObj[i])) := by
  unfold writeObj
  rw [List.getElem?_eq_getElem h]

theorem propsOk_cons (t2 t3 : List Char) (rest : List (List Char)) :
    propsOk (t2 :: t3 :: rest) = (allowedKey t2 && propsOk rest) := by
  unfold propsOk
  simp only [List.length_cons, keysOf, List.all_cons]
  have : (rest.length + 1 + 1) % 2 = rest.length % 2 := by omega
  rw [this]
  cases (rest.length % 2 == 0) <;> cases allowedKey t2 <;> simp

theorem hasKey_cons (k : String) (t2 t3 : List Char) (rest : List (List Char)) :
    hasKey k (t2 :: t3 :: rest) = (k.toList == t2 || hasKey k rest) := by
  unfold hasKey
  simp only [keysOf, List.contains_cons]

/-- What the inner loop makes of the tokens of an object, with room for the object in
`pObj`: when every property name has a value and is an allowed one, the loop ends with
`okay` holding the properties seen; otherwise it returns 0. -/
theorem parseProps_verdict (tw : List (Nat × Nat)) (now nObj : Nat) (toks : List (List Char)) :
    ∀ (a i v e twFail : Bool) (pObj : List SpanBuf), nObj < pObj.length →
      (propsOk toks = true →
        ∃ twFail' p, parseProps tw now nObj toks (okayBits a i v e) twFail pObj =
            .ok (.good (okayBits (a || hasKey "aid" toks) (i || hasKey "iid" toks)
              (v || hasKey "value" toks) (e || hasKey "ev" toks), twFail', p)) ∧
          p.length = pObj.length) ∧
      (propsOk toks = false →
        ∃ p, parseProps tw now nObj toks (okayBits a i v e) twFail pObj = .ok (.bad p)) := by
  induction toks using keysOf.induct with
  | case1 =>
    intro a i v e twFail pObj _
    refine ⟨fun _ => ⟨twFail, pObj, ?_, rfl⟩, fun h => ?_⟩
    · simp [parseProps, hasKey, keysOf]
    · simp [propsOk, keysOf] at h
  | case2 t =>
    intro a i v e twFail pObj _
    refine ⟨fun h => ?_, fun _ => ⟨pObj, ?_⟩⟩
    · simp [propsOk] at h
    · simp [parseProps]
  | case3 t2 t3 rest ih =>
    intro a i v e twFail pObj hroom
    rw [propsOk_cons]
    simp only [hasKey_cons]
    unfold parseProps
    have hroom' : ∀ x : SpanBuf, nObj < (pObj.set nObj x).length := by
      intro x
      rw [List.length_set]
      exact hroom
    by_cases h1 : (t2 == "aid".toList) = true
    · have e2 : t2 = "aid".toList := by simpa using h1
      rw [if_pos h1, writeObj_room pObj nObj hroom]
      simp only [okayBits_aid]
      obtain ⟨g1, g2⟩ := ih true i v e twFail _ (hroom' _)
      subst e2
      refine ⟨fun h => ?_, fun h => ?_⟩
      · obtain ⟨tf, q, hq, hql⟩ := g1 (by simpa [allowedKey] using h)
        refine ⟨tf, q, ?_, by rw [hql, List.length_set]⟩
        rw [hq]
        have k1 : ("iid".toList == "aid".toList) = false := by decide
        have k2 : ("value".toList == "aid".toList) = false := by decide
        have k3 : ("ev".toList == "aid".toList) = false := by decide
        simp only [k1, k2, k3, beq_self_eq_true, Bool.true_or, Bool.or_true, Bool.false_or]
      · exact g2 (by simpa [allowedKey] using h)
    · rw [if_neg h1]
      by_cases h2 : (t2 == "iid".toList) = true
      · have e2 : t2 = "iid".toList := by simpa using h2
        rw [if_pos h2, writeObj_room pObj nObj hroom]
        simp only [okayBits_iid]
        obtain ⟨g1, g2⟩ := ih a true v e twFail _ (hroom' _)
        subst e2
        refine ⟨fun h => ?_, fun h => ?_⟩
        · obtain ⟨tf, q, hq, hql⟩ := g1 (by simpa [allowedKey] using h)
          refine ⟨tf, q, ?_, by rw [hql, List.length_set]⟩
          rw [hq]
          have k1 : ("aid".toList == "iid".toList) = false := by decide
          have k2 : ("value".toList == "iid".toList) = false := by decide
          have k3 : ("ev".toList == "iid".toList) = false := by decide
          simp only [k1, k2, k3, beq_self_eq_true, Bool.true_or, Bool.or_true, Bool.false_or]
        · exact g2 (by simpa [allowedKey] using h)
      · rw [if_neg h2]
        by_cases h3 : (t2 == "value".toList) = true
        · have e2 : t2 = "value".toList := by simpa using h3
          rw [if_pos h3, writeObj_room pObj nObj hroom]
          simp only [okayBits_value]
          obtain ⟨g1, g2⟩ := ih a i true e twFail _ (hroom' _)
          subst e2
          refine ⟨fun h => ?_, fun h => ?_⟩
          · obtain ⟨tf, q, hq, hql⟩ := g1 (by simpa [allowedKey] using h)
            refine ⟨tf, q, ?_, by rw [hql, List.length_set]⟩
            rw [hq]
            have k1 : ("aid".toList == "value".toList) = false := by decide
            have k2 : ("iid".toList == "value".toList) = false := by decide
            have k3 : ("ev".toList == "value".toList) = false := by decide
            simp only [k1, k2, k3, beq_self_eq_true, Bool.true_or, Bool.or_true, Bool.false_or]
          · exact g2 (by simpa [allowedKey] using h)
        · rw [if_neg h3]
          by_cases h4 : (t2 == "ev".toList) = true
          · have e2 : t2 = "ev".toList := by simpa using h4
            rw [if_pos h4, writeObj_room pObj nObj hroom]
            simp only [okayBits_ev]
            obtain ⟨g1, g2⟩ := ih a i v true twFail _ (hroom' _)
            subst e2
            refine ⟨fun h => ?_, fun h => ?_⟩
            · obtain ⟨tf, q, hq, hql⟩ := g1 (by simpa [allowedKey] using h)
              refine ⟨tf, q, ?_, by rw [hql, List.length_set]⟩
              rw [hq]
              have k1 : ("aid".toList == "ev".toList) = false := by decide
              have k2 : ("iid".toList == "ev".toList) = false := by decide
              have k3 : ("value".toList == "ev".toList) = false := by decide
              simp only [k1, k2, k3, beq_self_eq_true, Bool.true_or, Bool.or_true,
                Bool.false_or]
            · exact g2 (by simpa [allowedKey] using h)
          · rw [if_neg h4]
            by_cases h5 : (t2 == "pid".toList) = true
            · have e2 : t2 = "pid".toList := by simpa using h5
              rw [if_pos h5]
              obtain ⟨g1, g2⟩ := ih a i v e (twFail || pidFails tw now (strtoull0 t3)) pObj hroom
              subst e2
              refine ⟨fun h => ?_, fun h => ?_⟩
              · obtain ⟨tf, q, hq, hql⟩ := g1 (by simpa [allowedKey] using h)
                refine ⟨tf, q, ?_, hql⟩
                rw [hq]
                have k0 : ("aid".toList == "pid".toList) = false := by decide
                have k1 : ("iid".toList == "pid".toList) = false := by decide
                have k2 : ("value".toList == "pid".toList) = false := by decide
                have k3 : ("ev".toList == "pid".toList) = false := by decide
                simp only [k0, k1, k2, k3, Bool.false_or]
              · exact g2 (by simpa [allowedKey] using h)
            · rw [if_neg h5]
              have hna : allowedKey t2 = false := by
                unfold allowedKey
                simp only [Bool.not_eq_true] at h1 h2 h3 h4 h5
                simp only [h1, h2, h3, h4, h5, Bool.or_self]
              refine ⟨fun h => ?_, fun _ => ⟨pObj, rfl⟩⟩
              rw [hna] at h
              simp at h

theorem objsOf_cons (seg : List Char) (rest : List (List Char)) :
    objsOf (seg :: rest) =
      if (tokens propDelims seg).isEmpty then objsOf rest
      else tokens propDelims seg :: objsOf rest := by
  unfold objsOf
  simp only [List.map_cons, List.filter_cons]
  cases (tokens propDelims seg).isEmpty <;> simp

/-- What the outer loop makes of a segment with a token after the tag has been found,
with room for the object in `pObj`: a complete object is counted, any other ends the
call with 0. -/
theorem parseSegment_object (tw : List (Nat × Nat)) (now : Nat) (st : PState)
    (seg : List Char) (hc : st.cFound = true) (hroom : st.nObj < st.pObj.length)
    (hne : (tokens propDelims seg).isEmpty = false) :
    (complete (tokens propDelims seg) = true →
        ∃ st', parseSegment tw now st seg = .ok (.good st') ∧ st'.nObj = st.nObj + 1 ∧
          st'.cFound = true ∧ st'.pObj.length = st.pObj.length) ∧
      (complete (tokens propDelims seg) = false →
        ∃ p, parseSegment tw now st seg = .ok (.bad p)) := by
  unfold parseSegment
  cases ht : tokens propDelims seg with
  | nil => rw [ht] at hne; simp at hne
  | cons t2 rest =>
    simp only [hc, Bool.not_true, Bool.false_eq_true, if_false]
    obtain ⟨g1, g2⟩ := parseProps_verdict tw now st.nObj (t2 :: rest) false false false false
      st.twFail st.pObj hroom
    have h0 : okayBits false false false false = 0 := rfl
    rw [h0] at g1 g2
    unfold complete
    cases hp : propsOk (t2 :: rest) with
    | false =>
      obtain ⟨p, hpp⟩ := g2 hp
      rw [hpp]
      exact ⟨fun h => (by simp at h), fun _ => ⟨p, rfl⟩⟩
    | true =>
      obtain ⟨tf, p, hpp, hl⟩ := g1 hp
      rw [hpp]
      simp only [okayBits_accepted, Bool.false_or, Bool.true_and]
      cases hacc : (hasKey "aid" (t2 :: rest) && hasKey "iid" (t2 :: rest) &&
          (hasKey "value" (t2 :: rest) || hasKey "ev" (t2 :: rest))) with
      | false =>
        simp only [Bool.false_eq_true, if_false]
        exact ⟨fun h => (by cases h), fun _ => ⟨p, rfl⟩⟩
      | true =>
        simp only [if_true]
        exact ⟨fun _ => ⟨_, rfl, rfl, rfl, hl⟩, fun h => (by cases h)⟩

/-- What the outer loop makes of the segments after the tag, with room in `pObj` for
every segment that has a token: the segments without a token are passed over; when the
others are complete objects they are all counted, and otherwise the call ends with 0. -/
theorem parseSegments_objects (tw : List (Nat × Nat)) (now : Nat) (segs : List (List Char)) :
    ∀ st : PState, st.cFound = true → st.nObj + (objsOf segs).length ≤ st.pObj.length →
      ((∀ o ∈ objsOf segs, complete o = true) →
        ∃ st', parseSegments tw now segs st = .ok (.good st') ∧
          st'.nObj = st.nObj + (objsOf segs).length ∧
          st'.pObj.length = st.pObj.length) ∧
      ((∃ o ∈ objsOf segs, complete o = false) →
        ∃ p, parseSegments tw now segs st = .ok (.bad p)) := by
  induction segs with
  | nil =>
    intro st _ _
    refine ⟨fun _ => ⟨st, rfl, rfl, rfl⟩, ?_⟩
    rintro ⟨o, ho, _⟩
    simp [objsOf] at ho
  | cons seg rest ih =>
    intro st hc hroom
    rw [objsOf_cons] at hroom ⊢
    unfold parseSegments
    cases he : (tokens propDelims seg).isEmpty with
    | true =>
      rw [he] at hroom
      simp only [if_true] at hroom ⊢
      have hseg : parseSegment tw now st seg = .ok (.good st) := by
        unfold parseSegment
        have : tokens propDelims seg = [] := by simpa using he
        rw [this]
      rw [hseg]
      exact ih st hc hroom
    | false =>
      rw [he] at hroom
      simp only [Bool.false_eq_true, if_false, List.length_cons] at hroom ⊢
      obtain ⟨g1, g2⟩ := parseSegment_object tw now st seg hc (by omega) he
      cases hcm : complete (tokens propDelims seg) with
      | false =>
        obtain ⟨p, hp⟩ := g2 hcm
        rw [hp]
        refine ⟨fun h => ?_, fun _ => ⟨p, rfl⟩⟩
        have := h _ (List.mem_cons_self _ _)
        rw [hcm] at this
        cases this
      | true =>
        obtain ⟨st1, hs, hn, hc1, hl⟩ := g1 hcm
        rw [hs]
        simp only
        obtain ⟨i1, i2⟩ := ih st1 hc1 (by omega)
        refine ⟨fun h => ?_, ?_⟩
        · obtain ⟨st', e1, e2, e3⟩ := i1 (fun o ho => h o (List.mem_cons_of_mem _ ho))
          exact ⟨st', e1, by omega, by omega⟩
        · rintro ⟨o, ho, hco⟩
          rcases List.mem_cons.1 ho with e | e
          · rw [e, hcm] at hco
            cases hco
          · exact i2 ⟨o, e, hco⟩

/-- What the outer loop makes of the segments before the tag has been found: segments
without a token are passed over; the first token of the first segment that has one must
be `characteristics`, and the rest of that segment is not read. -/
theorem parseSegments_tag (tw : List (Nat × Nat)) (now : Nat) (segs : List (List Char)) :
    ∀ st : PState, st.cFound = false →
      (objsOf segs = [] → parseSegments tw now segs st = .ok (.good st)) ∧
      (∀ first rest, objsOf segs = first :: rest →
        (first.head? ≠ some "characteristics".toList →
          parseSegments tw now segs st = .ok (.bad st.pObj)) ∧
        (first.head? = some "characteristics".toList →
          ∃ segs', parseSegments tw now segs st =
              parseSegments tw now segs' { st with cFound := true } ∧
            objsOf segs' = rest)) := by
  induction segs with
  | nil =>
    intro st _
    refine ⟨fun _ => rfl, ?_⟩
    intro first rest h
    simp [objsOf] at h
  | cons seg tail ih =>
    intro st hc
    rw [objsOf_cons]
    rw [parseSegments]
    cases ht : tokens propDelims seg with
    | nil =>
      have hseg : parseSegment tw now st seg = .ok (.good st) := by
        unfold parseSegment
        rw [ht]
      rw [hseg]
      simp only [List.isEmpty_nil, if_true]
      exact ih st hc
    | cons t2 r =>
      simp only [List.isEmpty_cons, Bool.false_eq_true, if_false]
      refine ⟨fun h => (by cases h), ?_⟩
      intro first rest h
      simp only [List.cons.injEq] at h
      obtain ⟨hf, hr⟩ := h
      subst hf
      simp only [List.head?_cons, ne_eq, Option.some.injEq]
      unfold parseSegment
      simp only [ht, hc, Bool.not_false, if_true]
      constructor
      · intro hne
        have : (t2 == "characteristics".toList) = false := by
          simpa using hne
        simp only [this, Bool.false_eq_true, if_false]
      · intro heq
        have : (t2 == "characteristics".toList) = true := by
          simpa using heq
        simp only [this, if_true]
        exact ⟨tail, rfl, hr⟩

theorem update_of_bad (s : Span) (env : Env) (buf : List Char) (pObj p : List SpanBuf)
    (h : parseRequest s.TimedWrites env.millis buf pObj = .ok (.bad p)) :
    ∃ r, s.updateCharacteristics env buf pObj = .ok r ∧ r.ret = 0 := by
  unfold Span.updateCharacteristics
  rw [h]
  exact ⟨_, rfl, rfl⟩

theorem update_of_good (s : Span) (env : Env) (buf : List Char) (pObj : List SpanBuf)
    (ps : PState) (r : UpdateResult)
    (h : parseRequest s.TimedWrites env.millis buf pObj = .ok (.good ps))
    (hr : s.updateCharacteristics env buf pObj = .ok r) : r.ret = 1 ∧ r.nObj = ps.nObj := by
  unfold Span.updateCharacteristics at hr
  rw [h] at hr
  simp only at hr
  split at hr
  · cases hr
  · split at hr
    · cases hr
    · cases hr
      exact ⟨rfl, rfl⟩

set_option maxRecDepth 100000 in
/-- C34 fails as stated: in the body `emptyThenWrite` the first object is `{}`, without
aid, iid, value or ev; its segment (the text `},` between two opening braces) has no
token, the parser passes it over, and the call returns 1 with one object parsed. A body
without any token does not start with the `characteristics` tag and gives 1 as well,
with no object parsed. -/
theorem empty_object_passed_over :
    tokens ['{'] emptyThenWrite =
        ["\"characteristics\":[".toList, "\x7d,".toList,
          "\"aid\":1,\"iid\":6,\"value\":1\x7d]\x7d".toList] ∧
      tokens propDelims "\x7d,".toList = [] ∧
      (sampleDb.updateCharacteristics sampleEnv emptyThenWrite
          [blankObj, blankObj]).toOption.map (fun r => (r.ret, r.nObj)) = some (1, 1) ∧
      (sampleDb.updateCharacteristics sampleEnv [] []).toOption.map
          (fun r => (r.ret, r.nObj)) = some (1, 0) :=
  ⟨by decide, by decide, by decide, by decide⟩

/-- C34 (amended): the verdict of `updateCharacteristics` on a body, read as the parser
reads it (`objTokens`: the token lists of the segments that have a token; segments
without one, like the object `{}`, are passed over). A body without any token gives 1
with no object parsed. Otherwise the call returns 0 when the first token is not
`characteristics`. When it is, and `pObj` has an entry for every object, the call
returns 0 if some object is not complete (it lacks aid, lacks iid, has neither value nor
ev, has a property other than aid, iid, value, ev, pid, or a property name without a
value token); and if every object is complete the body parses into that many objects,
and the call returns 1 when each of them resolves to a characteristic. -/
theorem update_return_value (s : Span) (env : Env) (buf : List Char) (pObj : List SpanBuf) :
    (objTokens buf = [] →
        ∃ r, s.updateCharacteristics env buf pObj = .ok r ∧ r.ret = 1 ∧ r.nObj = 0) ∧
      (∀ first objs, objTokens buf = first :: objs →
        (first.head? ≠ some "characteristics".toList →
          ∃ r, s.updateCharacteristics env buf pObj = .ok r ∧ r.ret = 0) ∧
        (first.head? = some "characteristics".toList → objs.length ≤ pObj.length →
          ((∃ o ∈ objs, complete o = false) →
            ∃ r, s.updateCharacteristics env buf pObj = .ok r ∧ r.ret = 0) ∧
          ((∀ o ∈ objs, complete o = true) →
            ∃ ps, parseRequest s.TimedWrites env.millis buf pObj = .ok (.good ps) ∧
              ps.nObj = objs.length ∧
              ((∀ k, k < ps.nObj → ∀ o, ps.pObj[k]? = some o →
                  s.find (toU32 o.aid) o.iid ≠ none) →
                ∃ r, s.updateCharacteristics env buf pObj = .ok r ∧ r.ret = 1 ∧
                  r.nObj = objs.length)))) := by
  obtain ⟨t1, t2⟩ := parseSegments_tag s.TimedWrites env.millis (tokens ['{'] buf)
    { nObj := 0, cFound := false, twFail := false, pObj := pObj } rfl
  refine ⟨?_, ?_⟩
  · intro h
    have hp : parseRequest s.TimedWrites env.millis buf pObj =
        .ok (.good { nObj := 0, cFound := false, twFail := false, pObj := pObj }) := t1 h
    refine ⟨{ ret := 1, nObj := 0, pObj := pObj, span := { s with snapTime := env.millis },
              calls := [] }, ?_, rfl, rfl⟩
    unfold Span.updateCharacteristics
    rw [hp]
    simp only
    unfold pass1 pass2
    rw [forLoop_done 0 0 _ _ (Nat.le_refl _)]
    simp only
    rw [forLoop_done 0 0 _ _ (Nat.le_refl _)]
  · intro first objs h
    obtain ⟨u1, u2⟩ := t2 first objs h
    refine ⟨fun hne => update_of_bad s env buf pObj _ (u1 hne), ?_⟩
    intro heq hroom
    obtain ⟨segs', hs, hobjs⟩ := u2 heq
    obtain ⟨v1, v2⟩ := parseSegments_objects s.TimedWrites env.millis segs'
      { nObj := 0, cFound := true, twFail := false, pObj := pObj } rfl
      (by rw [hobjs]; simpa using hroom)
    rw [hobjs] at v1 v2
    refine ⟨fun hinc => ?_, fun hall => ?_⟩
    · obtain ⟨p, hp⟩ := v2 hinc
      exact update_of_bad s env buf pObj p (hs.trans hp)
    · obtain ⟨ps, hp, hn, _⟩ := v1 hall
      have hpr : parseRequest s.TimedWrites env.millis buf pObj = .ok (.good ps) :=
        hs.trans hp
      refine ⟨ps, hpr, by simpa using hn, ?_⟩
      intro hres
      obtain ⟨_, r, _, hr, h1, _⟩ := staged_objects_settled s env buf pObj ps hpr hres
      exact ⟨r, hr, h1, by rw [(update_of_good s env buf pObj ps r hpr hr).2]; simpa using hn⟩

set_option maxRecDepth 1000000 in
theorem update_return_value_witness :
    objTokens twoWrites =
        [["characteristics".toList],
          ["aid".toList, "1".toList, "iid".toList, "6".toList, "value".toList, "1".toList],
          ["aid".toList, "1".toList, "iid".toList, "7".toList, "value".toList,
            "75".toList]] ∧
      (∃ r, sampleDb.updateCharacteristics sampleEnv twoWrites [blankObj, blankObj] = .ok r ∧
        r.ret = 1 ∧ r.nObj = 2) ∧
      objTokens writeThenIidOnly =
        [["characteristics".toList],
          ["aid".toList, "1".toList, "iid".toList, "6".toList, "value".toList, "1".toList],
          ["iid".toList, "5".toList]] ∧
      ∃ r, sampleDb.updateCharacteristics sampleEnv writeThenIidOnly [blankObj, blankObj] =
        .ok r ∧ r.ret = 0 := by
  refine ⟨by decide, ?_, by decide, ?_⟩
  · obtain ⟨ps, hp, hn, h⟩ :=
      ((update_return_value sampleDb sampleEnv twoWrites [blankObj, blankObj]).2
        ["characteristics".toList]
        [["aid".toList, "1".toList, "iid".toList, "6".toList, "value".toList, "1".toList],
          ["aid".toList, "1".toList, "iid".toList, "7".toList, "value".toList, "75".toList]]
        (by decide)).2 (by decide) (by decide) |>.2 (by decide)
    have e : ps = twoWritesParsed := by
      have hp' : parseRequest sampleDb.TimedWrites sampleEnv.millis twoWrites
          [blankObj, blankObj] = .ok (.good twoWritesParsed) := by rfl
      rw [hp'] at hp
      cases hp
      rfl
    subst e
    exact h twoWrites_resolve
  · exact ((update_return_value sampleDb sampleEnv writeThenIidOnly [blankObj, blankObj]).2
      ["characteristics".toList]
      [["aid".toList, "1".toList, "iid".toList, "6".toList, "value".toList, "1".toList],
        ["iid".toList, "5".toList]] (by decide)).2 (by decide) (by decide) |>.1
      ⟨["iid".toList, "5".toList], by decide, by decide⟩

end HomeSpan
